import Mathlib

/-! # SDL_ffmpeg: packet queues, audio reassembly, video timestamps, seek

A shallow embedding of `src/src/SDL_ffmpeg.c`.

Conventions of the embedding.

* C integers are mathematical `Int`/`Nat`.  Where the source fixes a width and
  wrap-around is observable (`uint64_t` results of `SDL_ffmpegDuration`, the
  `int64_t` and `int` arithmetic of the derived timestamps) the reduction
  modulo `2^64` or `2^32` is written out.  Signed overflow is undefined in C;
  in the derived timestamps it is modelled as two's complement wrap-around,
  and the theorems that state an exact value assume that the results fit.
* The container and the codecs live in libavformat/libavcodec.  They are
  oracles here: the container is the list of the results that the coming
  `av_read_frame` calls will give, the decoders are functions of a record
  `Lib` over an abstract codec state.  Every theorem holds for every oracle.
* A loop of the source is a structurally recursive function over a fuel
  argument that returns `none` when the fuel runs out; the callers pass a fuel
  computed from the state, and the development proves that it is enough.
* A null-pointer dereference makes a function return `none`.
* The field `trace` of a stream is ghost state: it records, oldest first,
  the packets that the decode step consumed.  No model function reads it.
-/

namespace SDLffmpeg

/-! ## Constants and the rescaling helper of libavutil -/

/-- The no-timestamp value of libavutil, `INT64_C(0x8000000000000000)`. -/
def AV_NOPTS_VALUE : Int := -9223372036854775808

/-- Internal time base of libavutil, in units per second. -/
def AV_TIME_BASE : Int := 1000000

/-- Maximum size in bytes of one decoded audio frame (libavcodec). -/
def AVCODEC_MAX_AUDIO_FRAME_SIZE : Int := 192000

/-- Smallest 64-bit signed integer. -/
def INT64_MIN : Int := -9223372036854775808

/-- Library function `av_rescale(a, b, c)` of libavutil, that is
`av_rescale_rnd(a, b, c, AV_ROUND_NEAR_INF)`: the product `a * b / c` in exact
integer arithmetic, rounded to the nearest integer with halves away from
zero.  A negative `a` other than `INT64_MIN` is rescaled as `-rescale(-a)`;
the remaining case divides as C does.  The library requires `0 < c` and
`0 <= b`. -/
def av_rescale (a b c : Int) : Int :=
  if a < 0 ∧ a ≠ INT64_MIN then
    -(((-a) * b + c / 2) / c)
  else
    Int.tdiv (a * b + c / 2) c

/-- The value of an `int64_t` expression whose exact result is `x`: `x` reduced
modulo 2^64 into the range of `int64_t` (two's complement).  Signed overflow is
undefined in C; the wrap-around of the usual targets stands for it. -/
def wrapInt64 (x : Int) : Int :=
  (x + 9223372036854775808) % 18446744073709551616 - 9223372036854775808

/-- The value of an `int` expression whose exact result is `x`: `x` reduced
modulo 2^32 into the range of a 32-bit `int`. -/
def wrapInt32 (x : Int) : Int := (x + 2147483648) % 4294967296 - 2147483648

/-- The exact value `x` is a value of `int64_t`. -/
@[reducible] def fitsInt64 (x : Int) : Prop :=
  -9223372036854775808 ≤ x ∧ x < 9223372036854775808

/-- The exact value `x` is a value of a 32-bit `int`. -/
@[reducible] def fitsInt32 (x : Int) : Prop := -2147483648 ≤ x ∧ x < 2147483648

/-! ## Error sink (lines 76-88, 1661-1687) -/

/-- The process-wide error list: `SDL_ffmpegErrorBegin` as the list of its
messages, `SDL_ffmpegErrorCount` and `SDL_ffmpegDeleteErrorString`. -/
structure ErrorSink where
  ErrorBegin : List String := []
  ErrorCount : Nat := 0
  DeleteErrorString : Nat := 0
  deriving DecidableEq, Repr

/-- Source lines 1661-1687: a null message is ignored; otherwise the message is
linked behind the last node and the 32-bit counter is incremented. -/
def SDL_ffmpegAddError (sink : ErrorSink) (error : Option String) : ErrorSink :=
  match error with
  | none => sink
  | some msg =>
    { sink with
      ErrorBegin := sink.ErrorBegin ++ [msg]
      ErrorCount := (sink.ErrorCount + 1) % 4294967296 }

/-! ## Data model -/

/-- The fields of `AVPacket` that the source reads; `data` stands for the
payload. -/
structure AVPacket where
  stream_index : Int := 0
  dts : Int := 0
  duration : Int := 0
  size : Int := 0
  data : List Nat := []
  deriving DecidableEq, Repr

/-- One successful `av_read_frame`: the packet read and the return value of
the `av_dup_packet` call that follows (non-zero when the copy fails). -/
structure ReadResult where
  pack : AVPacket
  dup : Int := 0
  deriving DecidableEq, Repr

/-- The decode target `AVFrame` of a video stream: three planes, their line
sizes and the interlace flag. -/
structure AVFrame where
  data0 : List Nat := []
  data1 : List Nat := []
  data2 : List Nat := []
  linesize0 : Int := 0
  linesize1 : Int := 0
  linesize2 : Int := 0
  interlaced_frame : Int := 0
  deriving DecidableEq, Repr

/-- The fields of `SDL_Surface` used by the source. -/
structure SDL_Surface where
  w : Int := 0
  h : Int := 0
  pitch : Int := 0
  pixels : List Nat := []
  deriving DecidableEq, Repr

/-- The fields of `SDL_Overlay` used by the source. -/
structure SDL_Overlay where
  format : Int := 0
  w : Int := 0
  h : Int := 0
  pitches0 : Int := 0
  pixels0 : List Nat := []
  deriving DecidableEq, Repr

/-- The overlay format constant `SDL_YUY2_OVERLAY` of SDL. -/
def SDL_YUY2_OVERLAY : Int := 0x32595559

/-- Ghost record of one packet consumed by a decode step: the packet, the
timestamp derived for it, the value of `hurry_up` during the decode; for audio
the value `size` of `audioSize` when the decode loop ended and the bytes
`sampleBuffer[0 .. audioSize)` at that moment; for video the `got_frame`
flag. -/
structure DecodeEvent where
  pack : AVPacket
  time : Int
  hurry : Int
  size : Int := 0
  chunk : List Nat := []
  got_frame : Int := 0
  deriving DecidableEq, Repr

/-- Stream type of a file.  The source names `SDL_ffmpegInputStream` and
`SDL_ffmpegOutputStream`; `other` is any other value of the field (a file
that was created but not yet opened). -/
inductive SDL_ffmpegStreamType where
  | SDL_ffmpegInputStream
  | SDL_ffmpegOutputStream
  | other
  deriving DecidableEq, Repr

open SDL_ffmpegStreamType

/-- A stream (`SDL_ffmpegStream`) together with the fields of its `AVStream`
(`_ffmpeg`) and codec context that the source reads.  `codec` is the
decoder's internal state, `buffer` the linked list of queued packets,
`pix_fmt` the pixel format of the codec context, `trace` is ghost. -/
structure SDL_ffmpegStream (σ : Type) where
  id : Int := 0
  buffer : List AVPacket := []
  codec : σ
  hurry_up : Int := 0
  start_time : Int := 0
  time_base_num : Int := 1
  time_base_den : Int := 1000
  duration : Int := 0
  codec_time_base_num : Int := 1
  codec_time_base_den : Int := 25
  sample_rate : Int := 48000
  sampleBuffer : List Nat := []
  sampleBufferSize : Int := 0
  sampleBufferOffset : Int := 0
  sampleBufferTime : Int := AV_NOPTS_VALUE
  decodeFrame : AVFrame := {}
  lastTimeStamp : Int := 0
  frameCount : Int := 0
  encodeAudioInputSize : Int := 0
  trace : List DecodeEvent := []
  pix_fmt : Int := 0

/-- A file (`SDL_ffmpegFile`).  `container` and `duration` stand for the
`AVFormatContext` in `_ffmpeg`: the results of the coming `av_read_frame`
calls (`none` is a negative return value, and so is a read from the empty
list) and the duration in `AV_TIME_BASE` units.  `audioStream`/`videoStream`
are the selected streams.  `sink` is the process-wide error list, carried
here because the model follows one file.  `vs` and `as` are the linked lists of
the video and audio streams of the file, `videoStreams` and `audioStreams`
their counters.  A selected stream is held by value: selecting copies the
entry of the list, and the fetches work on the copy. -/
structure SDL_ffmpegFile (σ : Type) where
  type : SDL_ffmpegStreamType := SDL_ffmpegInputStream
  container : List (Option ReadResult) := []
  duration : Int := 0
  audioStream : Option (SDL_ffmpegStream σ) := none
  videoStream : Option (SDL_ffmpegStream σ) := none
  minimalTimestamp : Int := 0
  sink : ErrorSink := {}
  vs : List (SDL_ffmpegStream σ) := []
  as : List (SDL_ffmpegStream σ) := []
  videoStreams : Nat := 0
  audioStreams : Nat := 0

/-- Frame handed in by the caller of `SDL_ffmpegGetAudioFrame`. -/
structure SDL_ffmpegAudioFrame where
  pts : Int := AV_NOPTS_VALUE
  buffer : List Nat := []
  size : Int := 0
  capacity : Int := 0
  last : Int := 0
  deriving DecidableEq, Repr

/-- Frame handed in by the caller of `SDL_ffmpegGetVideoFrame`. -/
structure SDL_ffmpegVideoFrame where
  pts : Int := 0
  surface : Option SDL_Surface := none
  overlay : Option SDL_Overlay := none
  ready : Int := 0
  last : Int := 0
  deriving DecidableEq, Repr

/-- Result of one `avcodec_decode_audio3` call: the new codec state, the
return value `len`, the value left in `audioSize` and the new contents of the
sample buffer. -/
structure AudioDecoded (σ : Type) where
  codec : σ
  len : Int
  audioSize : Int
  samples : List Nat

/-- Result of one `avcodec_decode_video2` call: the new codec state, the
decode target and `got_frame`. -/
structure VideoDecoded (σ : Type) where
  codec : σ
  picture : AVFrame
  got_frame : Int

/-- The external collaborators.  `av_seek_frame` repositions the container,
the two decoders see the codec state, `hurry_up`, their output buffer and the
packet (`none` for the empty packet of the end-of-stream flush),
`avcodec_flush_buffers` resets a codec.  The two colour kernels called by
`SDL_ffmpegDecodeVideoFrame` are pure functions of the picture, the target
and the interlace flag and enter as parameters as well. -/
structure Lib (σ : Type) where
  av_seek_frame : List (Option ReadResult) → Int → List (Option ReadResult)
  avcodec_decode_audio3 : σ → Int → List Nat → Int → AVPacket → AudioDecoded σ
  avcodec_decode_video2 : σ → Int → AVFrame → Option AVPacket → VideoDecoded σ
  avcodec_flush_buffers : σ → σ
  convertYUV420PtoYUY2 : AVFrame → SDL_Overlay → Int → SDL_Overlay
  convertYUV420PtoRGBA : AVFrame → SDL_Surface → Int → SDL_Surface

/-- C `memcpy(dst + dOff, src + sOff, n)` on byte lists. -/
def memcpy (dst : List Nat) (dOff : Int) (src : List Nat) (sOff n : Int) : List Nat :=
  dst.take dOff.toNat ++ (src.drop sOff.toNat).take n.toNat ++ dst.drop (dOff.toNat + n.toNat)

/-! ## Packet queue and demux dispatcher (lines 1689-1801) -/

/-- Test `file->audioStream && pack->stream_index == file->audioStream->id`. -/
def isAudioPacket {σ : Type} (file : SDL_ffmpegFile σ) (pack : AVPacket) : Bool :=
  match file.audioStream with
  | some s => pack.stream_index == s.id
  | none => false

/-- Test `file->videoStream && pack->stream_index == file->videoStream->id`. -/
def isVideoPacket {σ : Type} (file : SDL_ffmpegFile σ) (pack : AVPacket) : Bool :=
  match file.videoStream with
  | some s => pack.stream_index == s.id
  | none => false

/-- Append at the tail of the audio queue (lines 1723-1733). -/
def appendAudio {σ : Type} (file : SDL_ffmpegFile σ) (pack : AVPacket) : SDL_ffmpegFile σ :=
  match file.audioStream with
  | some s => { file with audioStream := some { s with buffer := s.buffer ++ [pack] } }
  | none => file

/-- Append at the tail of the video queue (lines 1738-1750). -/
def appendVideo {σ : Type} (file : SDL_ffmpegFile σ) (pack : AVPacket) : SDL_ffmpegFile σ :=
  match file.videoStream with
  | some s => { file with videoStream := some { s with buffer := s.buffer ++ [pack] } }
  | none => file

/-- Source lines 1689-1761.  Reads one unit from the container; returns 1 at
end of input, else 0 after routing the unit. -/
def SDL_ffmpegGetPacket {σ : Type} (file : SDL_ffmpegFile σ) : SDL_ffmpegFile σ × Int :=
  match file.container with
  | [] => (file, 1)
  | none :: rest => ({ file with container := rest }, 1)
  | some r :: rest =>
    let file1 := { file with container := rest }
    if r.dup ≠ 0 then (file1, 0)
    else if isAudioPacket file1 r.pack then (appendAudio file1 r.pack, 0)
    else if isVideoPacket file1 r.pack then (appendVideo file1 r.pack, 0)
    else (file1, 0)

/-- Source lines 1763-1781. -/
def SDL_ffmpegGetAudioPacket {σ : Type} (file : SDL_ffmpegFile σ) :
    SDL_ffmpegFile σ × Option AVPacket :=
  match file.audioStream with
  | none => (file, none)
  | some s =>
    match s.buffer with
    | [] => (file, none)
    | pack :: next => ({ file with audioStream := some { s with buffer := next } }, some pack)

/-- Source lines 1783-1801. -/
def SDL_ffmpegGetVideoPacket {σ : Type} (file : SDL_ffmpegFile σ) :
    SDL_ffmpegFile σ × Option AVPacket :=
  match file.videoStream with
  | none => (file, none)
  | some s =>
    match s.buffer with
    | [] => (file, none)
    | pack :: next => ({ file with videoStream := some { s with buffer := next } }, some pack)

/-- The loop `while( !pack && !frame->last )` of `SDL_ffmpegGetAudioFrame`
(lines 1042-1047 and 1064-1069): pop from the queue, then read one unit. -/
def audioPacketLoop {σ : Type} :
    Nat → SDL_ffmpegFile σ → Option AVPacket → SDL_ffmpegAudioFrame →
      Option (SDL_ffmpegFile σ × Option AVPacket × SDL_ffmpegAudioFrame)
  | 0, _, _, _ => none
  | n + 1, file, pack, frame =>
    if pack.isNone ∧ frame.last = 0 then
      let popped := SDL_ffmpegGetAudioPacket file
      let read := SDL_ffmpegGetPacket popped.1
      audioPacketLoop n read.1 popped.2 { frame with last := read.2 }
    else some (file, pack, frame)

/-- The loop `while( !pack && !frame->last )` of `SDL_ffmpegGetVideoFrame`
(lines 693-698 and 711-716). -/
def videoPacketLoop {σ : Type} :
    Nat → SDL_ffmpegFile σ → Option AVPacket → SDL_ffmpegVideoFrame →
      Option (SDL_ffmpegFile σ × Option AVPacket × SDL_ffmpegVideoFrame)
  | 0, _, _, _ => none
  | n + 1, file, pack, frame =>
    if pack.isNone ∧ frame.last = 0 then
      let popped := SDL_ffmpegGetVideoPacket file
      let read := SDL_ffmpegGetPacket popped.1
      videoPacketLoop n read.1 popped.2 { frame with last := read.2 }
    else some (file, pack, frame)

/-- Fuel for the two packet loops: every pass but the last reads one unit
from the container. -/
def readFuel {σ : Type} (file : SDL_ffmpegFile σ) : Nat :=
  file.container.length + 2

/-- Lines 1040-1047 and 1062-1069: `pack = SDL_ffmpegGetAudioPacket( file )`
followed by the loop `while( !pack && !frame->last )`. -/
def nextAudioPacket {σ : Type} (file : SDL_ffmpegFile σ) (frame : SDL_ffmpegAudioFrame) :
    Option (SDL_ffmpegFile σ × Option AVPacket × SDL_ffmpegAudioFrame) :=
  let popped := SDL_ffmpegGetAudioPacket file
  audioPacketLoop (readFuel popped.1) popped.1 popped.2 frame

/-- Lines 691-698 and 709-716: `pack = SDL_ffmpegGetVideoPacket( file )`
followed by the loop `while( !pack && !frame->last )`. -/
def nextVideoPacket {σ : Type} (file : SDL_ffmpegFile σ) (frame : SDL_ffmpegVideoFrame) :
    Option (SDL_ffmpegFile σ × Option AVPacket × SDL_ffmpegVideoFrame) :=
  let popped := SDL_ffmpegGetVideoPacket file
  videoPacketLoop (readFuel popped.1) popped.1 popped.2 frame

/-- Put a packet back at the head of the audio queue (lines 1074-1081). -/
def pushBackAudio {σ : Type} (file : SDL_ffmpegFile σ) (pack : AVPacket) : SDL_ffmpegFile σ :=
  match file.audioStream with
  | some s => { file with audioStream := some { s with buffer := pack :: s.buffer } }
  | none => file

/-- Put a packet back at the head of the video queue (lines 720-726). -/
def pushBackVideo {σ : Type} (file : SDL_ffmpegFile σ) (pack : AVPacket) : SDL_ffmpegFile σ :=
  match file.videoStream with
  | some s => { file with videoStream := some { s with buffer := pack :: s.buffer } }
  | none => file

/-! ## Audio reassembly (lines 1803-1932) -/

/-- Lines 1812-1846 of `SDL_ffmpegDecodeAudioFrame`: the branch taken when
`sampleBufferSize` is not zero.  Stamps the pts of an empty frame and copies
leftover bytes into the frame. -/
def copyLeftover {σ : Type} (s : SDL_ffmpegStream σ) (frame : SDL_ffmpegAudioFrame) :
    SDL_ffmpegStream σ × SDL_ffmpegAudioFrame :=
  let frame1 := if frame.size = 0 then { frame with pts := s.sampleBufferTime } else frame
  let fs := frame1.capacity - frame1.size
  if fs < s.sampleBufferSize then
    ({ s with
        sampleBufferSize := s.sampleBufferSize - fs
        sampleBufferOffset := s.sampleBufferOffset + fs },
     { frame1 with
        buffer := memcpy frame1.buffer frame1.size s.sampleBuffer s.sampleBufferOffset fs
        size := frame1.capacity })
  else
    ({ s with sampleBufferSize := 0, sampleBufferOffset := 0 },
     { frame1 with
        buffer := memcpy frame1.buffer frame1.size s.sampleBuffer s.sampleBufferOffset
          s.sampleBufferSize
        size := frame1.size + s.sampleBufferSize })

/-- Lines 1863-1877: the loop `while( size > 0 )` around
`avcodec_decode_audio3`.  The call receives the packet itself on every pass;
`audioSize` is passed in and out.  Returns the codec state, the sample
buffer, `audioSize` and the error sink. -/
def decodeAudioLoop {σ : Type} (lib : Lib σ) :
    Nat → σ → Int → List Nat → Int → Int → AVPacket → ErrorSink →
      Option (σ × List Nat × Int × ErrorSink)
  | 0, _, _, _, _, _, _, _ => none
  | n + 1, codec, hurry, samples, audioSize, size, pack, sink =>
    if size > 0 then
      let r := lib.avcodec_decode_audio3 codec hurry samples audioSize pack
      if r.len ≤ 0 ∨ r.audioSize = 0 then
        some (r.codec, r.samples, r.audioSize,
          SDL_ffmpegAddError sink (some "error decoding audio frame"))
      else decodeAudioLoop lib n r.codec hurry r.samples r.audioSize (size - r.len) pack sink
    else some (codec, samples, audioSize, sink)

/-- Lines 1881-1927: the body of `if( !hurry_up )`.  Stamps the pts of an
empty frame, copies what fits of the decoded bytes and keeps the rest. -/
def storeDecoded {σ : Type} (s : SDL_ffmpegStream σ) (frame : SDL_ffmpegAudioFrame)
    (audioSize : Int) : SDL_ffmpegStream σ × SDL_ffmpegAudioFrame :=
  let frame1 := if frame.size = 0 then { frame with pts := s.sampleBufferTime } else frame
  let fs := frame1.capacity - frame1.size
  if fs ≠ 0 then
    if fs < audioSize then
      ({ s with sampleBufferSize := audioSize - fs, sampleBufferOffset := fs },
       { frame1 with
          buffer := memcpy frame1.buffer frame1.size s.sampleBuffer 0 fs
          size := frame1.capacity })
    else
      ({ s with sampleBufferSize := 0, sampleBufferOffset := 0 },
       { frame1 with
          buffer := memcpy frame1.buffer frame1.size s.sampleBuffer 0 audioSize
          size := frame1.size + audioSize })
  else
    ({ s with sampleBufferSize := audioSize, sampleBufferOffset := 0 }, frame1)


/-- Timestamp derived from the decode timestamp of a packet (lines 1855 and
1947): `av_rescale( (pack->dts - start_time) * 1000, time_base.num,
time_base.den )`.  The difference and its product with 1000 are computed in
`int64_t`, and `av_rescale` returns an `int64_t`. -/
def dtsTime {σ : Type} (s : SDL_ffmpegStream σ) (pack : AVPacket) : Int :=
  wrapInt64
    (av_rescale (wrapInt64 (wrapInt64 (pack.dts - s.start_time) * 1000))
      s.time_base_num s.time_base_den)

/-- The hurry test of lines 1858 and 1951: 1 when the timestamp is a valid
value below the gate, else 0. -/
def hurryFor (time minimalTimestamp : Int) : Int :=
  if time ≠ AV_NOPTS_VALUE ∧ time < minimalTimestamp then 1 else 0

/-- Lines 1810-1850: the leftover step.  With bytes left in the sample buffer
they are copied first; otherwise nothing changes. -/
def afterLeftover {σ : Type} (s : SDL_ffmpegStream σ) (frame : SDL_ffmpegAudioFrame) :
    SDL_ffmpegStream σ × SDL_ffmpegAudioFrame :=
  if s.sampleBufferSize ≠ 0 then copyLeftover s frame else (s, frame)

/-- Lines 1852-1928 after the decode loop: the stream takes the codec state,
the hurry flag, the derived timestamp and the decoded samples (and the ghost
trace its entry); unless hurried, the decoded bytes are stored. -/
def finishDecode {σ : Type} (s : SDL_ffmpegStream σ) (frame : SDL_ffmpegAudioFrame)
    (pack : AVPacket) (time hurry : Int) (codec : σ) (samples : List Nat) (audioSize : Int) :
    SDL_ffmpegStream σ × SDL_ffmpegAudioFrame :=
  let s2 : SDL_ffmpegStream σ :=
    { s with
      codec := codec
      hurry_up := hurry
      sampleBufferTime := time
      sampleBuffer := samples
      trace := s.trace ++
        [{ pack := pack, time := time, hurry := hurry, size := audioSize,
           chunk := samples.take audioSize.toNat }] }
  if hurry = 0 then storeDecoded s2 frame audioSize else (s2, frame)

/-- Source lines 1803-1932.  Returns 0 when the leftover bytes filled the frame
(the packet was not used), else decodes the packet and returns 1. -/
def SDL_ffmpegDecodeAudioFrame {σ : Type} (lib : Lib σ) (file : SDL_ffmpegFile σ)
    (pack : AVPacket) (frame : SDL_ffmpegAudioFrame) :
    Option (SDL_ffmpegFile σ × SDL_ffmpegAudioFrame × Int) :=
  match file.audioStream with
  | none => none
  | some s =>
    let left := afterLeftover s frame
    if s.sampleBufferSize ≠ 0 ∧ left.2.size = left.2.capacity then
      some ({ file with audioStream := some left.1 }, left.2, 0)
    else
      let time := dtsTime left.1 pack
      let hurry := hurryFor time file.minimalTimestamp
      match decodeAudioLoop lib (pack.size.toNat + 1) left.1.codec hurry left.1.sampleBuffer
          (AVCODEC_MAX_AUDIO_FRAME_SIZE * 2) pack.size pack file.sink with
      | none => none
      | some (codec, samples, audioSize, sink) =>
        let fin := finishDecode left.1 left.2 pack time hurry codec samples audioSize
        some ({ file with audioStream := some fin.1, sink := sink }, fin.2, 1)

/-- Number of packets that the audio fetch can still obtain: queued ones plus
units left in the container. -/
def audioFuel {σ : Type} (file : SDL_ffmpegFile σ) : Nat :=
  (match file.audioStream with
    | some s => s.buffer.length
    | none => 0) + file.container.length + 2

/-- The loop `while( pack && SDL_ffmpegDecodeAudioFrame( ... ) )` of lines
1051-1071.  Returns the file, the packet held on exit (null, or the packet
that was not used) and the frame. -/
def audioDecodeLoop {σ : Type} (lib : Lib σ) :
    Nat → SDL_ffmpegFile σ → Option AVPacket → SDL_ffmpegAudioFrame →
      Option (SDL_ffmpegFile σ × Option AVPacket × SDL_ffmpegAudioFrame)
  | 0, _, _, _ => none
  | n + 1, file, pack, frame =>
    match pack with
    | none => some (file, none, frame)
    | some p =>
      match SDL_ffmpegDecodeAudioFrame lib file p frame with
      | none => none
      | some (file1, frame1, ret) =>
        if ret = 0 then some (file1, some p, frame1)
        else if frame1.size < frame1.capacity then
          match nextAudioPacket file1 frame1 with
          | none => none
          | some (file2, pack2, frame2) => audioDecodeLoop lib n file2 pack2 frame2
        else audioDecodeLoop lib n file1 none frame1

/-- Source lines 1018-1089, for non-null `file` and `frame`. -/
def SDL_ffmpegGetAudioFrame {σ : Type} (lib : Lib σ) (file : SDL_ffmpegFile σ)
    (frame : SDL_ffmpegAudioFrame) :
    Option (SDL_ffmpegFile σ × SDL_ffmpegAudioFrame × Int) :=
  match file.audioStream with
  | none =>
    some ({ file with
              sink := SDL_ffmpegAddError file.sink (some "no valid audio stream selected") },
          frame, 0)
  | some _ =>
    let frame0 := { frame with last := 0, size := 0 }
    match nextAudioPacket file frame0 with
    | none => none
    | some (file1, pack1, frame1) =>
      match audioDecodeLoop lib (audioFuel file1) file1 pack1 frame1 with
      | none => none
      | some (file2, pack2, frame2) =>
        let file3 := match pack2 with
          | some p => pushBackAudio file2 p
          | none => file2
        some (file3, frame2, if frame2.size = frame2.capacity then 1 else 0)

/-! ## Video decode and timestamps (lines 674-739, 1934-2003) -/

/-- Timestamp derived for a video packet (lines 1941-1948).  In the branch of
line 1944 the product `1000 * pack->duration` is computed in `int`, `av_rescale`
returns an `int64_t`, and the sum with `lastTimeStamp` is computed in
`int64_t`. -/
def videoPts {σ : Type} (s : SDL_ffmpegStream σ) (pack : AVPacket) : Int :=
  if pack.dts = AV_NOPTS_VALUE then
    wrapInt64
      (s.lastTimeStamp +
        wrapInt64
          (av_rescale (wrapInt32 (1000 * pack.duration)) s.time_base_num s.time_base_den))
  else
    dtsTime s pack

/-- Lines 1984-1993: conversion of the decoded picture into the overlay
and the surface of the frame, when present. -/
def convertPicture {σ : Type} (lib : Lib σ) (picture : AVFrame)
    (frame : SDL_ffmpegVideoFrame) : SDL_ffmpegVideoFrame :=
  let frame1 :=
    match frame.overlay with
    | some o =>
      if o.format = SDL_YUY2_OVERLAY then
        { frame with
          overlay := some (lib.convertYUV420PtoYUY2 picture o picture.interlaced_frame) }
      else frame
    | none => frame
  match frame1.surface with
  | some sf =>
    { frame1 with
      surface := some (lib.convertYUV420PtoRGBA picture sf picture.interlaced_frame) }
  | none => frame1

/-- Lines 1938-1971 of `SDL_ffmpegDecodeVideoFrame`: derive the pts and the
hurry flag of a packet and decode it, or decode the empty packet when `pack`
is null.  Returns the stream, the frame and `got_frame`. -/
def decodeVideoPacket {σ : Type} (lib : Lib σ) (minimalTimestamp : Int)
    (s : SDL_ffmpegStream σ) (pack : Option AVPacket) (frame : SDL_ffmpegVideoFrame) :
    SDL_ffmpegStream σ × SDL_ffmpegVideoFrame × Int :=
  match pack with
  | some p =>
    let pts := videoPts s p
    let hurry := hurryFor pts minimalTimestamp
    let r := lib.avcodec_decode_video2 s.codec hurry s.decodeFrame (some p)
    ({ s with
        codec := r.codec
        hurry_up := hurry
        decodeFrame := r.picture
        trace := s.trace ++
          [{ pack := p, time := pts, hurry := hurry, got_frame := r.got_frame }] },
     { frame with pts := pts }, r.got_frame)
  | none =>
    let r := lib.avcodec_decode_video2 s.codec s.hurry_up s.decodeFrame none
    ({ s with codec := r.codec, decodeFrame := r.picture }, frame, r.got_frame)

/-- Source lines 1934-2003. -/
def SDL_ffmpegDecodeVideoFrame {σ : Type} (lib : Lib σ) (file : SDL_ffmpegFile σ)
    (pack : Option AVPacket) (frame : SDL_ffmpegVideoFrame) :
    Option (SDL_ffmpegFile σ × SDL_ffmpegVideoFrame × Int) :=
  match file.videoStream with
  | none => none
  | some s =>
    let d := decodeVideoPacket lib file.minimalTimestamp s pack frame
    if d.2.2 ≠ 0 ∧ d.1.hurry_up = 0 then
      let frame1 := convertPicture lib d.1.decodeFrame d.2.1
      let s1 := { d.1 with lastTimeStamp := frame1.pts }
      let frame2 := { frame1 with ready := 1 }
      some ({ file with videoStream := some s1 }, frame2, frame2.ready)
    else
      some ({ file with videoStream := some d.1 }, d.2.1, d.2.1.ready)

/-- Number of packets that the video fetch can still obtain. -/
def videoFuel {σ : Type} (file : SDL_ffmpegFile σ) : Nat :=
  (match file.videoStream with
    | some s => s.buffer.length
    | none => 0) + file.container.length + 2

/-- The loop `while( pack && !frame->ready )` of lines 700-717. -/
def videoDecodeLoop {σ : Type} (lib : Lib σ) :
    Nat → SDL_ffmpegFile σ → Option AVPacket → SDL_ffmpegVideoFrame →
      Option (SDL_ffmpegFile σ × Option AVPacket × SDL_ffmpegVideoFrame)
  | 0, _, _, _ => none
  | n + 1, file, pack, frame =>
    match pack with
    | none => some (file, none, frame)
    | some p =>
      if frame.ready ≠ 0 then some (file, some p, frame)
      else
        match SDL_ffmpegDecodeVideoFrame lib file (some p) frame with
        | none => none
        | some (file1, frame1, _) =>
          match nextVideoPacket file1 frame1 with
          | none => none
          | some (file2, pack2, frame2) => videoDecodeLoop lib n file2 pack2 frame2

/-- Source lines 674-739, for non-null `file` and `frame`. -/
def SDL_ffmpegGetVideoFrame {σ : Type} (lib : Lib σ) (file : SDL_ffmpegFile σ)
    (frame : SDL_ffmpegVideoFrame) :
    Option (SDL_ffmpegFile σ × SDL_ffmpegVideoFrame × Int) :=
  match file.videoStream with
  | none => some (file, frame, 0)
  | some _ =>
    let frame0 := { frame with ready := 0, last := 0 }
    match nextVideoPacket file frame0 with
    | none => none
    | some (file1, pack1, frame1) =>
      match videoDecodeLoop lib (videoFuel file1) file1 pack1 frame1 with
      | none => none
      | some (file2, pack2, frame2) =>
        match pack2 with
        | some p => some (pushBackVideo file2 p, frame2, frame2.ready)
        | none =>
          if frame2.ready = 0 ∧ frame2.last ≠ 0 then
            match SDL_ffmpegDecodeVideoFrame lib file2 none frame2 with
            | none => none
            | some (file3, frame3, _) => some (file3, frame3, frame3.ready)
          else some (file2, frame2, frame2.ready)

/-! ## Position, duration, seek and flush (lines 896-1002, 1097-1120, 1175-1269) -/

/-- Conversion of a 64-bit signed value to `uint64_t`. -/
def toUInt64 (x : Int) : Nat := (x % 18446744073709551616).toNat

/-- Source lines 1097-1120, for a non-null file. -/
def SDL_ffmpegGetPosition {σ : Type} (file : SDL_ffmpegFile σ) : Int :=
  let pos : Int :=
    match file.audioStream with
    | some s => s.lastTimeStamp
    | none => 0
  match file.videoStream with
  | some s => if s.lastTimeStamp > pos then s.lastTimeStamp else pos
  | none => pos

/-- Source lines 1204-1232, for a non-null file.  With no audio stream
selected the guarded branch dereferences the null `audioStream` for an input
or an output file; with one selected the function reports an error and
returns 0. -/
def SDL_ffmpegAudioDuration {σ : Type} (file : SDL_ffmpegFile σ) :
    Option (SDL_ffmpegFile σ × Nat) :=
  match file.audioStream with
  | none =>
    match file.type with
    | SDL_ffmpegInputStream => none
    | SDL_ffmpegOutputStream => none
    | other => some (file, 0)
  | some _ =>
    some ({ file with
              sink := SDL_ffmpegAddError file.sink (some "no valid audio stream selected") },
          0)

/-- Source lines 1241-1269, for a non-null file. -/
def SDL_ffmpegVideoDuration {σ : Type} (file : SDL_ffmpegFile σ) : SDL_ffmpegFile σ × Nat :=
  match file.videoStream with
  | some s =>
    match file.type with
    | SDL_ffmpegInputStream =>
      (file, toUInt64 (av_rescale (1000 * s.duration) s.time_base_num s.time_base_den))
    | SDL_ffmpegOutputStream =>
      (file, toUInt64 (av_rescale (1000 * s.frameCount) s.codec_time_base_num
        s.codec_time_base_den))
    | other => (file, 0)
  | none =>
    ({ file with
        sink := SDL_ffmpegAddError file.sink (some "no valid video stream selected") },
     0)

/-- Source lines 1175-1195, for a non-null file. -/
def SDL_ffmpegDuration {σ : Type} (file : SDL_ffmpegFile σ) :
    Option (SDL_ffmpegFile σ × Nat) :=
  match file.type with
  | SDL_ffmpegInputStream =>
    some (file, toUInt64 (Int.tdiv file.duration (AV_TIME_BASE / 1000)))
  | SDL_ffmpegOutputStream =>
    let v := SDL_ffmpegVideoDuration file
    match SDL_ffmpegAudioDuration v.1 with
    | none => none
    | some (file2, a) => some (file2, if v.2 > a then v.2 else a)
  | other => some (file, 0)

/-- Source lines 938-1002, for a non-null file: drop the queued packets of the
selected streams and flush their codecs. -/
def SDL_ffmpegFlush {σ : Type} (lib : Lib σ) (file : SDL_ffmpegFile σ) :
    SDL_ffmpegFile σ × Int :=
  let file1 :=
    match file.audioStream with
    | some s =>
      { file with
        audioStream := some { s with buffer := [], codec := lib.avcodec_flush_buffers s.codec } }
    | none => file
  let file2 :=
    match file1.videoStream with
    | some s =>
      { file1 with
        videoStream := some { s with buffer := [], codec := lib.avcodec_flush_buffers s.codec } }
    | none => file1
  (file2, 0)

/-- Source lines 896-920, for a non-null file; `timestamp` is the `uint64_t`
argument.  The field `minimalTimestamp` is declared in a header that is not
part of the source file; the model stores the argument as it is, which agrees
with a 64-bit field of either signedness for `timestamp < 2^63`. -/
def SDL_ffmpegSeek {σ : Type} (lib : Lib σ) (file : SDL_ffmpegFile σ) (timestamp : Nat) :
    Option (SDL_ffmpegFile σ × Int) :=
  match SDL_ffmpegDuration file with
  | none => none
  | some (file1, duration) =>
    if duration < timestamp then
      some ({ file1 with
                sink := SDL_ffmpegAddError file1.sink (some "can not seek past end of file") },
            -1)
    else
      let seekPos : Int := toUInt64 (timestamp * (AV_TIME_BASE / 1000))
      let file2 := { file1 with container := lib.av_seek_frame file1.container seekPos }
      let file3 := { file2 with minimalTimestamp := timestamp }
      some ((SDL_ffmpegFlush lib file3).1, 0)

/-! ## Sequences of fetch calls -/

/-- One call of the pull interface with the frame that the caller passes. -/
inductive FetchCall where
  | audio (frame : SDL_ffmpegAudioFrame)
  | video (frame : SDL_ffmpegVideoFrame)

/-- What one call of the pull interface gave back: the frame and the
return value. -/
inductive Fetched where
  | audio (frame : SDL_ffmpegAudioFrame) (ret : Int)
  | video (frame : SDL_ffmpegVideoFrame) (ret : Int)

/-- Run a sequence of `SDL_ffmpegGetAudioFrame`/`SDL_ffmpegGetVideoFrame`
calls, with no seek in between, and collect what each call gave back. -/
def runFetches {σ : Type} (lib : Lib σ) :
    SDL_ffmpegFile σ → List FetchCall → Option (SDL_ffmpegFile σ × List Fetched)
  | file, [] => some (file, [])
  | file, FetchCall.audio frame :: calls =>
    match SDL_ffmpegGetAudioFrame lib file frame with
    | none => none
    | some (file1, frame1, ret) =>
      match runFetches lib file1 calls with
      | none => none
      | some (file2, results) => some (file2, Fetched.audio frame1 ret :: results)
  | file, FetchCall.video frame :: calls =>
    match SDL_ffmpegGetVideoFrame lib file frame with
    | none => none
    | some (file1, frame1, ret) =>
      match runFetches lib file1 calls with
      | none => none
      | some (file2, results) => some (file2, Fetched.video frame1 ret :: results)

/-! ## Vocabulary of the statements -/

/-- Packets queued for the selected audio stream, head first. -/
def audioQueue {σ : Type} (file : SDL_ffmpegFile σ) : List AVPacket :=
  match file.audioStream with
  | some s => s.buffer
  | none => []

/-- Packets queued for the selected video stream, head first. -/
def videoQueue {σ : Type} (file : SDL_ffmpegFile σ) : List AVPacket :=
  match file.videoStream with
  | some s => s.buffer
  | none => []

/-- Id of the selected audio stream, if any. -/
def audioId {σ : Type} (file : SDL_ffmpegFile σ) : Option Int :=
  file.audioStream.map (fun s => s.id)

/-- Id of the selected video stream, if any. -/
def videoId {σ : Type} (file : SDL_ffmpegFile σ) : Option Int :=
  file.videoStream.map (fun s => s.id)

/-- The packet of a container unit when the unit belongs to the selected audio
stream: the read succeeded, the copy succeeded and the stream index is the
id of the audio stream. -/
def routeAudio (aid : Option Int) (unit : Option ReadResult) : Option AVPacket :=
  match unit with
  | some r => if r.dup = 0 ∧ aid = some r.pack.stream_index then some r.pack else none
  | none => none

/-- The packet of a container unit when the unit belongs to the selected video
stream (and not to the audio stream, which is tested first). -/
def routeVideo (aid vid : Option Int) (unit : Option ReadResult) : Option AVPacket :=
  match unit with
  | some r =>
    if r.dup = 0 ∧ aid ≠ some r.pack.stream_index ∧ vid = some r.pack.stream_index then
      some r.pack
    else none
  | none => none

/-- Packets of the selected audio stream among container units, in
container order. -/
def audioArrivals {σ : Type} (file : SDL_ffmpegFile σ) (units : List (Option ReadResult)) :
    List AVPacket :=
  units.filterMap (routeAudio (audioId file))

/-- Packets of the selected video stream among container units, in
container order. -/
def videoArrivals {σ : Type} (file : SDL_ffmpegFile σ) (units : List (Option ReadResult)) :
    List AVPacket :=
  units.filterMap (routeVideo (audioId file) (videoId file))

/-- The file after `k` successive calls of `SDL_ffmpegGetPacket`. -/
def getPackets {σ : Type} : Nat → SDL_ffmpegFile σ → SDL_ffmpegFile σ
  | 0, file => file
  | k + 1, file => getPackets k (SDL_ffmpegGetPacket file).1

/-- The results of `n` successive calls of `SDL_ffmpegGetAudioPacket`. -/
def popAudio {σ : Type} : Nat → SDL_ffmpegFile σ → List (Option AVPacket)
  | 0, _ => []
  | n + 1, file =>
    (SDL_ffmpegGetAudioPacket file).2 :: popAudio n (SDL_ffmpegGetAudioPacket file).1

/-- The results of `n` successive calls of `SDL_ffmpegGetVideoPacket`. -/
def popVideo {σ : Type} : Nat → SDL_ffmpegFile σ → List (Option AVPacket)
  | 0, _ => []
  | n + 1, file =>
    (SDL_ffmpegGetVideoPacket file).2 :: popVideo n (SDL_ffmpegGetVideoPacket file).1

/-! ## Concrete objects for the examples -/

/-- A decoder for the examples.  Its state counts the calls.  Audio: the whole
packet is consumed and its payload is the decoded chunk.  Video: each packet
gives a picture; the end-of-stream flush gives one as well. -/
def demoLib : Lib Nat where
  av_seek_frame := fun units _ => units
  avcodec_decode_audio3 := fun codec _ _ _ pack =>
    { codec := codec + 1, len := pack.size, audioSize := pack.data.length,
      samples := pack.data }
  avcodec_decode_video2 := fun codec _ picture _ =>
    { codec := codec + 1, picture := picture, got_frame := 1 }
  avcodec_flush_buffers := fun _ => 0
  convertYUV420PtoYUY2 := fun _ o _ => o
  convertYUV420PtoRGBA := fun _ sf _ => sf

/-- An audio stream with id 0 and time base 1/1000. -/
def demoAudio : SDL_ffmpegStream Nat := { id := 0, codec := 0 }

/-- A video stream with id 1 and time base 1/1000. -/
def demoVideo : SDL_ffmpegStream Nat := { id := 1, codec := 0 }

/-- An audio packet with decode timestamp `dts` and payload `data`. -/
def audioPack (dts : Int) (data : List Nat) : AVPacket :=
  { stream_index := 0, dts := dts, size := data.length, data := data }

/-- A video packet with decode timestamp `dts`. -/
def videoPack (dts : Int) : AVPacket :=
  { stream_index := 1, dts := dts, size := 1, data := [0] }

/-- A container unit read and copied without error. -/
def unitOf (pack : AVPacket) : Option ReadResult := some { pack := pack }

/-- An input file with both demo streams selected and the given container. -/
def demoFile (units : List (Option ReadResult)) : SDL_ffmpegFile Nat :=
  { container := units, duration := 10000000,
    audioStream := some demoAudio, videoStream := some demoVideo }

/-- The unit that the next `av_read_frame` gives, if it succeeds. -/
def nextUnit {σ : Type} (file : SDL_ffmpegFile σ) : Option ReadResult :=
  file.container.head?.join

/-- The file `file` with its container and its two queues replaced. -/
def requeue {σ : Type} (file : SDL_ffmpegFile σ) (units : List (Option ReadResult))
    (qa qv : List AVPacket) : SDL_ffmpegFile σ :=
  { file with
    container := units
    audioStream := file.audioStream.map (fun s => { s with buffer := qa })
    videoStream := file.videoStream.map (fun s => { s with buffer := qv }) }

/-- The file `file1` differs from `file` at most in the container and in the
contents of the two queues. -/
def QueueOnly {σ : Type} (file file1 : SDL_ffmpegFile σ) : Prop :=
  file1 = requeue file file1.container (audioQueue file1) (videoQueue file1)

/-- 1 for a held packet, 0 for null. -/
def heldCount (pack : Option AVPacket) : Nat :=
  match pack with
  | some _ => 1
  | none => 0

/-- Ghost trace of the selected audio stream. -/
def audioTrace {σ : Type} (file : SDL_ffmpegFile σ) : List DecodeEvent :=
  match file.audioStream with
  | some s => s.trace
  | none => []

/-- Ghost trace of the selected video stream. -/
def videoTrace {σ : Type} (file : SDL_ffmpegFile σ) : List DecodeEvent :=
  match file.videoStream with
  | some s => s.trace
  | none => []

/-- Audio packets consumed by the decode step so far, oldest first. -/
def usedAudio {σ : Type} (file : SDL_ffmpegFile σ) : List AVPacket :=
  (audioTrace file).map (fun e => e.pack)

/-- Video packets handed to the decoder so far, oldest first. -/
def usedVideo {σ : Type} (file : SDL_ffmpegFile σ) : List AVPacket :=
  (videoTrace file).map (fun e => e.pack)

/-- Audio packets not yet consumed, in the order of their delivery: the queue,
then the packets of the audio stream that the container still holds. -/
def pendingAudio {σ : Type} (file : SDL_ffmpegFile σ) : List AVPacket :=
  audioQueue file ++ audioArrivals file file.container

/-- Video packets not yet consumed, in the order of their delivery. -/
def pendingVideo {σ : Type} (file : SDL_ffmpegFile σ) : List AVPacket :=
  videoQueue file ++ videoArrivals file file.container

/-- The selected audio stream with its queue left out. -/
def audioRest {σ : Type} (file : SDL_ffmpegFile σ) : Option (SDL_ffmpegStream σ) :=
  file.audioStream.map (fun s => { s with buffer := [] })

/-- The selected video stream with its queue left out. -/
def videoRest {σ : Type} (file : SDL_ffmpegFile σ) : Option (SDL_ffmpegStream σ) :=
  file.videoStream.map (fun s => { s with buffer := [] })

/-- What a fetch never changes in a stream: id, start time, time base. -/
def streamFixed {σ : Type} (s : SDL_ffmpegStream σ) : Int × Int × Int × Int :=
  (s.id, s.start_time, s.time_base_num, s.time_base_den)

/-- What an audio fetch leaves alone outside the audio stream's queue,
codec, sample buffer and trace, and how it moves packets: the sequence
"consumed, held, pending" of the audio stream and the pending sequence of the
video stream stay what they were for `file0`. -/
structure AudioFetchInv {σ : Type} (file0 file : SDL_ffmpegFile σ) (pack : Option AVPacket) :
    Prop where
  fixed : file.audioStream.map streamFixed = file0.audioStream.map streamFixed
  stamp : file.audioStream.map (fun s => s.lastTimeStamp) =
    file0.audioStream.map (fun s => s.lastTimeStamp)
  video : videoRest file = videoRest file0
  gate : file.minimalTimestamp = file0.minimalTimestamp
  type : file.type = file0.type
  duration : file.duration = file0.duration
  grow : ∃ new, audioTrace file = audioTrace file0 ++ new
  audioSeq : usedAudio file ++ pack.toList ++ audioQueue file ++
      audioArrivals file0 file.container = usedAudio file0 ++ pendingAudio file0
  videoSeq : videoQueue file ++ videoArrivals file0 file.container = pendingVideo file0

/-- What a video fetch leaves alone, and how it moves packets. -/
structure VideoFetchInv {σ : Type} (file0 file : SDL_ffmpegFile σ) (pack : Option AVPacket) :
    Prop where
  fixed : file.videoStream.map streamFixed = file0.videoStream.map streamFixed
  audio : audioRest file = audioRest file0
  gate : file.minimalTimestamp = file0.minimalTimestamp
  type : file.type = file0.type
  duration : file.duration = file0.duration
  sink : file.sink = file0.sink
  grow : ∃ new, videoTrace file = videoTrace file0 ++ new
  videoSeq : usedVideo file ++ pack.toList ++ videoQueue file ++
      videoArrivals file0 file.container = usedVideo file0 ++ pendingVideo file0
  audioSeq : audioQueue file ++ audioArrivals file0 file.container = pendingAudio file0

/-- An audio packet of the demo stream that carries no data (`size == 0`). -/
def emptyAudioPack (dts : Int) : AVPacket := { stream_index := 0, dts := dts, size := 0 }

/-- An output file with the demo audio stream selected and no video stream. -/
def demoOutputFile : SDL_ffmpegFile Nat :=
  { type := SDL_ffmpegOutputStream, audioStream := some demoAudio }

/-- Invariant of one video fetch for the pts of the frame and the watermark.
`gate` is `minimalTimestamp`, `s0` the video stream when the fetch began, `new`
the trace entries of the fetch so far. -/
structure VideoStampInv {σ : Type} (gate : Int) (s0 s : SDL_ffmpegStream σ)
    (new : List DecodeEvent) (frame : SDL_ffmpegVideoFrame) : Prop where
  ready01 : frame.ready = 0 ∨ frame.ready = 1
  keep : frame.ready = 0 → s.lastTimeStamp = s0.lastTimeStamp
  done : frame.ready ≠ 0 → s.lastTimeStamp = frame.pts ∧ s.hurry_up = 0
  last : new ≠ [] →
    ∃ e, new.getLast? = some e ∧ frame.pts = e.time ∧ s.hurry_up = hurryFor e.time gate
  times : ∀ e ∈ new, e.pack.dts ≠ AV_NOPTS_VALUE → e.time = dtsTime s0 e.pack

/-- State of a video fetch that began with the video stream `s0` and the gate
`gate`. -/
def VideoPtsState {σ : Type} (gate : Int) (s0 : SDL_ffmpegStream σ) (file : SDL_ffmpegFile σ)
    (frame : SDL_ffmpegVideoFrame) : Prop :=
  ∃ s new, file.videoStream = some s ∧ file.minimalTimestamp = gate ∧
    s.trace = s0.trace ++ new ∧ streamFixed s = streamFixed s0 ∧
    VideoStampInv gate s0 s new frame

/-- The watermark `lastTimeStamp` of the selected video stream, if one is
selected. -/
def videoLastTimeStamp {σ : Type} (file : SDL_ffmpegFile σ) : Option Int :=
  file.videoStream.map (fun s => s.lastTimeStamp)

/-- A decoder with one picture of delay for the examples.  Its state counts
the pictures it holds back: the first packet after a reset gives no picture,
each later packet gives one, and the end-of-stream flush gives out a picture
that is held back.  Audio as in `demoLib`. -/
def delayLib : Lib Nat where
  av_seek_frame := fun units _ => units
  avcodec_decode_audio3 := fun codec _ _ _ pack =>
    { codec := codec + 1, len := pack.size, audioSize := pack.data.length,
      samples := pack.data }
  avcodec_decode_video2 := fun codec _ picture pack =>
    match pack with
    | some _ =>
      if codec = 0 then { codec := 1, picture := picture, got_frame := 0 }
      else { codec := codec, picture := picture, got_frame := 1 }
    | none =>
      if codec = 0 then { codec := 0, picture := picture, got_frame := 0 }
      else { codec := codec - 1, picture := picture, got_frame := 1 }
  avcodec_flush_buffers := fun _ => 0
  convertYUV420PtoYUY2 := fun _ o _ => o
  convertYUV420PtoRGBA := fun _ sf _ => sf

/-- An input file whose video stream has the time base 128/125 and whose
container holds one video packet with decode timestamp `-2^53`; the derived
timestamp of that packet is `-2^63`, the value of `AV_NOPTS_VALUE`. -/
def sentinelFile : SDL_ffmpegFile Nat :=
  { container := [unitOf (videoPack (-9007199254740992))], duration := 10000000,
    videoStream := some { demoVideo with time_base_num := 128, time_base_den := 125 } }

/-- The demo file with the video packets of dts 100 and 200 and an audio packet
between them. -/
def sortedDemo : SDL_ffmpegFile Nat :=
  demoFile [unitOf (videoPack 100), unitOf (audioPack 0 [1, 2]), unitOf (videoPack 200)]

/-- The file `sortedDemo` after a video fetch. -/
def sortedDemo1 : SDL_ffmpegFile Nat :=
  ((SDL_ffmpegGetVideoFrame demoLib sortedDemo {}).map (fun r => r.1)).getD sortedDemo

/-- The file `sortedDemo1` after an audio fetch with a frame of two bytes. -/
def sortedDemo2 : SDL_ffmpegFile Nat :=
  ((runFetches demoLib sortedDemo1 [FetchCall.audio { capacity := 2, buffer := [0, 0] }]).map
    (fun r => r.1)).getD sortedDemo1

/-- The file `sortedDemo2` after a second video fetch. -/
def sortedDemo3 : SDL_ffmpegFile Nat :=
  ((SDL_ffmpegGetVideoFrame demoLib sortedDemo2 {}).map (fun r => r.1)).getD sortedDemo2

/-- Source lines 929-933, for a non-null file: the sum of the position and the
signed delta is computed in `int64_t` and converted to the `uint64_t`
parameter of `SDL_ffmpegSeek`. -/
def SDL_ffmpegSeekRelative {σ : Type} (lib : Lib σ) (file : SDL_ffmpegFile σ) (timestamp : Int) :
    Option (SDL_ffmpegFile σ × Int) :=
  SDL_ffmpegSeek lib file (toUInt64 (SDL_ffmpegGetPosition file + timestamp))

/-- The watermark `lastTimeStamp` of the selected audio stream, if one is
selected. -/
def audioLastTimeStamp {σ : Type} (file : SDL_ffmpegFile σ) : Option Int :=
  file.audioStream.map (fun s => s.lastTimeStamp)

/-- The demo file with one packet queued for each stream and the watermarks 7
(audio) and 9 (video). -/
def seekDemo : SDL_ffmpegFile Nat :=
  { demoFile [] with
    audioStream := some { demoAudio with buffer := [audioPack 0 [1]], lastTimeStamp := 7 }
    videoStream := some { demoVideo with buffer := [videoPack 0], lastTimeStamp := 9 } }

/-- The reassembly state of an audio stream: the sample buffer, the number of
bytes left over in it, their offset and their timestamp. -/
def leftoverState {σ : Type} (s : SDL_ffmpegStream σ) : List Nat × Int × Int × Int :=
  (s.sampleBuffer, s.sampleBufferSize, s.sampleBufferOffset, s.sampleBufferTime)

/-- The timestamp `t` is not a valid value below the gate `T`: the hurry test
of line 1858 lets it pass. -/
def aboveGate (T t : Int) : Prop := t = AV_NOPTS_VALUE ∨ T ≤ t

/-- Invariant of an audio fetch under the gate `T`: bytes left over carry a
timestamp that passes the gate, and so does the pts of a frame that holds
bytes. -/
structure GateInv {σ : Type} (T : Int) (s : SDL_ffmpegStream σ) (frame : SDL_ffmpegAudioFrame) :
    Prop where
  left : s.sampleBufferSize ≠ 0 → aboveGate T s.sampleBufferTime
  pts : frame.size ≠ 0 → aboveGate T frame.pts

/-- State of an audio fetch that began with the audio stream `s0`, under the
gate `T`. -/
def AudioGateState {σ : Type} (T : Int) (s0 : SDL_ffmpegStream σ) (file : SDL_ffmpegFile σ)
    (frame : SDL_ffmpegAudioFrame) : Prop :=
  ∃ s new, file.audioStream = some s ∧ file.minimalTimestamp = T ∧
    s.trace = s0.trace ++ new ∧ (∀ e ∈ new, e.hurry = hurryFor e.time T) ∧ GateInv T s frame

/-- The gate of the file is `T` and bytes left over in the selected audio
stream, if any, carry a timestamp that passes it. -/
def AudioGated {σ : Type} (T : Int) (file : SDL_ffmpegFile σ) : Prop :=
  file.minimalTimestamp = T ∧
    ∀ s, file.audioStream = some s → s.sampleBufferSize ≠ 0 → aboveGate T s.sampleBufferTime

/-- Three units for the demo file: audio packets with dts 5 (three bytes), 6
(one byte) and 6000 (one byte). -/
def staleDemo : SDL_ffmpegFile Nat :=
  demoFile [unitOf (audioPack 5 [1, 2, 3]), unitOf (audioPack 6 [4]),
    unitOf (audioPack 6000 [9])]

/-- Conversion of a `uint32_t` value to `int`; a value from `2^31` on wraps to
a negative number (two's complement). -/
def toInt32 (n : Nat) : Int :=
  if n % 4294967296 < 2147483648 then (n % 4294967296 : Nat) else (n % 4294967296 : Nat) - 4294967296

/-- Source lines 1573-1576: the 32-bit counter, returned as `int`. -/
def SDL_ffmpegError (sink : ErrorSink) : Int := toInt32 sink.ErrorCount

/-- Source lines 1583-1610.  Returns the new sink and the message handed out
(`none` is the null pointer); the result is `none` when the function
dereferences a null `SDL_ffmpegErrorBegin` (line 1590). -/
def SDL_ffmpegGetLastError (sink : ErrorSink) : Option (ErrorSink × Option String) :=
  if sink.ErrorCount = 0 then some (sink, none)
  else
    match sink.ErrorBegin with
    | [] => none
    | message :: next =>
      if sink.DeleteErrorString ≠ 0 then
        some ({ sink with ErrorCount := sink.ErrorCount - 1, ErrorBegin := next }, next.head?)
      else
        some ({ sink with ErrorCount := sink.ErrorCount - 1, DeleteErrorString := 1 },
          some message)

/-- Source lines 1636-1655: with a counter other than 0 every node of the list
is freed; the counter and `SDL_ffmpegDeleteErrorString` are not assigned. -/
def SDL_ffmpegFlushErrors (sink : ErrorSink) : ErrorSink :=
  if sink.ErrorCount = 0 then sink else { sink with ErrorBegin := [] }

/-- One call on the error sink: `SDL_ffmpegAddError` with a non-null message
or `SDL_ffmpegGetLastError`. -/
inductive SinkOp where
  | add (msg : String)
  | get
  deriving DecidableEq, Repr

/-- Run a sequence of calls on the sink and collect what the
`SDL_ffmpegGetLastError` calls returned. -/
def runSink : ErrorSink → List SinkOp → Option (ErrorSink × List (Option String))
  | sink, [] => some (sink, [])
  | sink, SinkOp.add msg :: ops => runSink (SDL_ffmpegAddError sink (some msg)) ops
  | sink, SinkOp.get :: ops =>
    match SDL_ffmpegGetLastError sink with
    | none => none
    | some (sink1, r) =>
      match runSink sink1 ops with
      | none => none
      | some (sink2, results) => some (sink2, r :: results)

/-- The messages that a sequence of calls adds, in order. -/
def addedBy : List SinkOp → List String
  | [] => []
  | SinkOp.add msg :: ops => msg :: addedBy ops
  | SinkOp.get :: ops => addedBy ops

/-- Starting with `n` messages pending, fewer than `2^32` messages are pending
after every call of the sequence (a message is pending from its
`SDL_ffmpegAddError` until an `SDL_ffmpegGetLastError` call takes it). -/
def fitsCounter : Nat → List SinkOp → Bool
  | _, [] => true
  | n, SinkOp.add _ :: ops => decide (n + 1 < 4294967296) && fitsCounter (n + 1) ops
  | n, SinkOp.get :: ops => fitsCounter (n - 1) ops

/-- The sink `sink` holds the pending messages `q`: the counter is their
number, and the list is `q`, preceded by the node of the message handed out
last once `SDL_ffmpegDeleteErrorString` is set. -/
def SinkHolds (sink : ErrorSink) (q : List String) : Prop :=
  sink.ErrorCount = q.length ∧ q.length < 4294967296 ∧
    ((sink.DeleteErrorString = 0 ∧ sink.ErrorBegin = q) ∨
     (sink.DeleteErrorString ≠ 0 ∧ ∃ m, sink.ErrorBegin = m :: q))

/-! ## Colour kernels (lines 47-72, 2005-2231) -/

/-- The five global lookup tables `__Y`, `__CrtoR`, `__CrtoG`, `__CbtoG` and
`__CbtoB` (lines 47-51), each a map from the index to the `int` entry. -/
structure LookupTables where
  Y : Nat → Int
  CrtoR : Nat → Int
  CrtoG : Nat → Int
  CbtoG : Nat → Int
  CbtoB : Nat → Int

/-- The 32-bit two's complement pattern of an `int`. -/
def toU32 (x : Int) : Nat := (x % 4294967296).toNat

/-- Bitwise `a & b` on `int`. -/
def and32 (a b : Int) : Int := toInt32 (toU32 a &&& toU32 b)

/-- Bitwise `~a` on `int`. -/
def not32 (a : Int) : Int := -a - 1

/-- The shift `a >> 31` on `int` (arithmetic shift): -1 for a negative `a`,
else 0. -/
def sar31 (a : Int) : Int := a / 2147483648

/-- Source lines 2005-2010. -/
def clamp0_255 (x : Int) : Int :=
  let x1 := and32 x (sar31 (not32 x))
  let x2 := x1 - 255
  let x3 := and32 x2 (sar31 x2)
  x3 + 255

/-- The byte `*p` for a pointer `p` at offset `i` from the start of a plane;
0 stands for a read outside the plane. -/
def peek (plane : List Nat) (i : Int) : Nat :=
  if i < 0 then 0 else plane.getD i.toNat 0

/-- The pixel value of lines 2040-2043 for the luma byte `y` and the chroma
bytes `u`, `v`. -/
def rgbaPixel (T : LookupTables) (y u v : Nat) : Nat :=
  (clamp0_255 (T.Y y + T.CrtoR v)).toNat |||
    ((clamp0_255 (T.Y y - T.CrtoG v - T.CbtoG u)).toNat <<< 8) |||
    ((clamp0_255 (T.Y y + T.CbtoB u)).toNat <<< 16) |||
    0xFF000000

/-- The loop over `x` of lines 2037-2055 with `n` pixels to go: `Y`, `U`, `V`
are the offsets of the three read pointers in their planes, `RGBA` is the
index of the write pointer in the array of 32-bit pixels.  `x % 2` is `x & 1`
for the counter `x`, which is not negative. -/
def rgbaScanline (T : LookupTables) (YUV420P : AVFrame) :
    Nat → Int → Int → Int → Int → Nat → List Nat → List Nat × Nat
  | 0, _, _, _, _, RGBA, pixels => (pixels, RGBA)
  | n + 1, x, Y, U, V, RGBA, pixels =>
    rgbaScanline T YUV420P n (x + 1) (Y + 1) (U + x % 2) (V + x % 2) (RGBA + 1)
      (pixels.set RGBA
        (rgbaPixel T (peek YUV420P.data0 Y) (peek YUV420P.data1 U) (peek YUV420P.data2 V)))

/-- Lines 2020-2035: the offsets of `Y`, `U`, `V` at the start of row `y`.
`y / 2` is the C division and `y % 4` is `y & 3` for the counter `y`, which is
not negative. -/
def rgbaRowStart (YUV420P : AVFrame) (interlaced : Int) (y : Int) : Int × Int × Int :=
  let Y := YUV420P.linesize0 * y
  let U := YUV420P.linesize1 * (y / 2)
  let V := YUV420P.linesize2 * (y / 2)
  if interlaced ≠ 0 then
    if y % 4 = 1 then (Y, U + YUV420P.linesize1, V + YUV420P.linesize2)
    else if y % 4 = 2 then (Y, U - YUV420P.linesize1, V - YUV420P.linesize2)
    else (Y, U, V)
  else (Y, U, V)

/-- The loop over `y` of lines 2018-2056 with `n` rows to go. -/
def rgbaRows (T : LookupTables) (YUV420P : AVFrame) (w : Int) (interlaced : Int) :
    Nat → Int → Nat → List Nat → List Nat
  | 0, _, _, pixels => pixels
  | n + 1, y, RGBA, pixels =>
    let start := rgbaRowStart YUV420P interlaced y
    let row := rgbaScanline T YUV420P w.toNat 0 start.1 start.2.1 start.2.2 RGBA pixels
    rgbaRows T YUV420P w interlaced n (y + 1) row.2 row.1

/-- Source lines 2012-2056.  `OUTPUT.pixels` is the pixel memory as an array
of 32-bit values (`uint32_t *RGBA = OUTPUT->pixels`). -/
def SDL_ffmpegConvertYUV420PtoRGBA (T : LookupTables) (YUV420P : AVFrame)
    (OUTPUT : SDL_Surface) (interlaced : Int) : SDL_Surface :=
  { OUTPUT with
    pixels := rgbaRows T YUV420P OUTPUT.w interlaced OUTPUT.h.toNat 0 0 OUTPUT.pixels }

/-! ## Double-precision arithmetic

The source computes the lookup tables and the RGBA to YUV conversion in
`double`.  A finite `double` is modelled as a pair `(m, e)` of integers that
stands for `m * 2^e`, and every operation rounds its exact result to 53
significant bits, ties to even (IEEE 754 binary64, the default rounding
mode).  The exponent range is not modelled: the values that occur are far
from overflow and underflow. -/

/-- The number of binary digits of `n`, for `n < 2^fuel`. -/
def bitLength : Nat → Nat → Nat
  | 0, _ => 0
  | fuel + 1, n => if n = 0 then 0 else bitLength fuel (n / 2) + 1

/-- Round `m * 2^e` to 53 significant bits, ties to even (for `|m| < 2^256`). -/
def roundTo53 (m e : Int) : Int × Int :=
  let n := m.natAbs
  if n < 9007199254740992 then (m, e)
  else
    let sh := bitLength 256 n - 53
    let q := n >>> sh
    let r := n % 2 ^ sh
    let half := 2 ^ (sh - 1)
    let q1 := if half < r ∨ (r = half ∧ q % 2 = 1) then q + 1 else q
    (if m < 0 then -(q1 : Int) else (q1 : Int), e + sh)

/-- The `double` nearest to the decimal constant `p / q`, for `0 < p` and
`0 < q < 2^64`: the quotient is computed to more than 64 bits, a last bit
records whether digits were cut off, and the result is rounded. -/
def dblOfDecimal (p q : Nat) : Int × Int :=
  let k : Nat := 128
  let m0 := p * 2 ^ k / q
  let sticky := if p * 2 ^ k % q = 0 then 0 else 1
  roundTo53 ((2 * m0 + sticky : Nat) : Int) (-((k : Int) + 1))

/-- Conversion of an integer to `double`. -/
def dblOfInt (n : Int) : Int × Int := roundTo53 n 0

/-- The product `a * b` in `double`. -/
def dblMul (a b : Int × Int) : Int × Int := roundTo53 (a.1 * b.1) (a.2 + b.2)

/-- The sum `a + b` in `double`. -/
def dblAdd (a b : Int × Int) : Int × Int :=
  let e := min a.2 b.2
  roundTo53
    (a.1 * ((2 ^ (a.2 - e).toNat : Nat) : Int) + b.1 * ((2 ^ (b.2 - e).toNat : Nat) : Int)) e

/-- The value `-a` in `double`. -/
def dblNeg (a : Int × Int) : Int × Int := (-a.1, a.2)

/-- The difference `a - b` in `double`. -/
def dblSub (a b : Int × Int) : Int × Int := dblAdd a (dblNeg b)

/-- Conversion of a `double` to an integer type: the fraction is discarded. -/
def dblTrunc (a : Int × Int) : Int :=
  if 0 ≤ a.2 then a.1 * ((2 ^ a.2.toNat : Nat) : Int)
  else Int.tdiv a.1 ((2 ^ (-a.2).toNat : Nat) : Int)

/-- Source lines 54-72: entry `i` of each table is `(int)( c * ( f - o ) )`
with `f = (float)i`, computed in `double`. -/
def initializeLookupTables : LookupTables where
  Y := fun i => dblTrunc (dblMul (dblOfDecimal 1164 1000) (dblSub (dblOfInt i) (dblOfInt 16)))
  CrtoR := fun i =>
    dblTrunc (dblMul (dblOfDecimal 1596 1000) (dblSub (dblOfInt i) (dblOfInt 128)))
  CrtoG := fun i =>
    dblTrunc (dblMul (dblOfDecimal 813 1000) (dblSub (dblOfInt i) (dblOfInt 128)))
  CbtoG := fun i =>
    dblTrunc (dblMul (dblOfDecimal 392 1000) (dblSub (dblOfInt i) (dblOfInt 128)))
  CbtoB := fun i =>
    dblTrunc (dblMul (dblOfDecimal 2017 1000) (dblSub (dblOfInt i) (dblOfInt 128)))

/-- The assignment `*p = v` for a byte pointer `p` at offset `i` from the
start of a plane; a write outside the plane is not represented. -/
def poke (plane : List Nat) (i : Int) (v : Nat) : List Nat :=
  if i < 0 then plane else plane.set i.toNat v

/-- The pixel `*p` for a `uint32_t` pointer `p` at index `i` of the pixel
array; 0 stands for a read outside the array. -/
def peekPixel (pixels : List Nat) (i : Int) : Nat :=
  if i < 0 then 0 else pixels.getD i.toNat 0

/-- A 32-bit store at byte offset `off` of a byte array, least significant
byte first (the byte order Y0 U0 Y1 V0 of line 2066 presupposes it). -/
def store32 (mem : List Nat) (off : Int) (v : Nat) : List Nat :=
  poke (poke (poke (poke mem off (v % 256)) (off + 1) (v / 256 % 256))
    (off + 2) (v / 65536 % 256)) (off + 3) (v / 16777216 % 256)

/-- The arguments of one scanline call: the offsets of `Y`, `U`, `V` in their
planes, the offset of the packed row in the pixel memory, and the width. -/
structure ScanlineCall where
  Y : Int
  U : Int
  V : Int
  packed : Int
  w : Int
  deriving DecidableEq, Repr

/-- Source lines 2058-2073, with `n = w >> 1` macropixels to go.  The operand
`*(++Y)` is the luma byte that follows `*Y`. -/
def SDL_ffmpegConvertYUV420PtoYUY2scanline (YUV420P : AVFrame) :
    Nat → Int → Int → Int → Int → List Nat → List Nat
  | 0, _, _, _, _, mem => mem
  | n + 1, Y, U, V, YUVpacked, mem =>
    SDL_ffmpegConvertYUV420PtoYUY2scanline YUV420P n (Y + 2) (U + 1) (V + 1) (YUVpacked + 4)
      (store32 mem YUVpacked
        (peek YUV420P.data0 Y ||| (peek YUV420P.data1 U <<< 8) |||
          (peek YUV420P.data0 (Y + 1) <<< 16) ||| (peek YUV420P.data2 V <<< 24)))

/-- The scanline calls of the interlaced branch (lines 2084-2116) with `n`
groups of four lines to go. -/
def yuy2Interlaced (YUV420P : AVFrame) (YUY2 : SDL_Overlay) :
    Nat → Int → Int → Int → Int → List ScanlineCall
  | 0, _, _, _, _ => []
  | n + 1, Y, U, V, YUVpacked =>
    -- line 0
    let c0 : ScanlineCall := ⟨Y, U, V, YUVpacked, YUY2.w⟩
    let P1 := YUVpacked + YUY2.pitches0
    let Y1 := Y + YUV420P.linesize0
    let U1 := U + YUV420P.linesize1
    let V1 := V + YUV420P.linesize2
    -- line 1
    let c1 : ScanlineCall := ⟨Y1, U1, V1, P1, YUY2.w⟩
    let P2 := P1 + YUY2.pitches0
    let Y2 := Y1 + YUV420P.linesize0
    let U2 := U1 - YUV420P.linesize1
    let V2 := V1 - YUV420P.linesize2
    -- line 2
    let c2 : ScanlineCall := ⟨Y2, U2, V2, P2, YUY2.w⟩
    let P3 := P2 + YUY2.pitches0
    let Y3 := Y2 + YUV420P.linesize0
    let U3 := U2 + YUV420P.linesize1
    let V3 := V2 + YUV420P.linesize2
    -- line 3
    let c3 : ScanlineCall := ⟨Y3, U3, V3, P3, YUY2.w⟩
    let P4 := P3 + YUY2.pitches0
    let Y4 := Y3 + YUV420P.linesize0
    let U4 := U3 + YUV420P.linesize1
    let V4 := V3 + YUV420P.linesize2
    c0 :: c1 :: c2 :: c3 :: yuy2Interlaced YUV420P YUY2 n Y4 U4 V4 P4

/-- The scanline calls of the progressive branch (lines 2118-2136) with `n`
groups of two lines to go. -/
def yuy2Progressive (YUV420P : AVFrame) (YUY2 : SDL_Overlay) :
    Nat → Int → Int → Int → Int → List ScanlineCall
  | 0, _, _, _, _ => []
  | n + 1, Y, U, V, YUVpacked =>
    -- line 0
    let c0 : ScanlineCall := ⟨Y, U, V, YUVpacked, YUY2.w⟩
    let P1 := YUVpacked + YUY2.pitches0
    let Y1 := Y + YUV420P.linesize0
    let U1 := U + YUV420P.linesize1
    let V1 := V + YUV420P.linesize2
    -- line 1
    let c1 : ScanlineCall := ⟨Y1, U1, V1, P1, YUY2.w⟩
    let P2 := P1 + YUY2.pitches0
    let Y2 := Y1 + YUV420P.linesize0
    c0 :: c1 :: yuy2Progressive YUV420P YUY2 n Y2 U1 V1 P2

/-- The scanline calls that `SDL_ffmpegConvertYUV420PtoYUY2` makes, in
order.  `h >> 2` and `h >> 1` are `h / 4` and `h / 2`. -/
def yuy2Calls (YUV420P : AVFrame) (YUY2 : SDL_Overlay) (interlaced : Int) :
    List ScanlineCall :=
  if interlaced ≠ 0 then yuy2Interlaced YUV420P YUY2 (YUY2.h / 4).toNat 0 0 0 0
  else yuy2Progressive YUV420P YUY2 (YUY2.h / 2).toNat 0 0 0 0

/-- Source lines 2075-2139.  `YUY2.pixels0` is the pixel memory as an array of
bytes; the calls of `yuy2Calls` are run in order. -/
def SDL_ffmpegConvertYUV420PtoYUY2 (YUV420P : AVFrame) (YUY2 : SDL_Overlay)
    (interlaced : Int) : SDL_Overlay :=
  { YUY2 with
    pixels0 := (yuy2Calls YUV420P YUY2 interlaced).foldl
      (fun mem c =>
        SDL_ffmpegConvertYUV420PtoYUY2scanline YUV420P (c.w / 2).toNat c.Y c.U c.V c.packed mem)
      YUY2.pixels0 }

/-- The chroma row that the claim names for luma row `y` of an interlaced
frame. -/
def interlacedChromaRow (y : Int) : Int :=
  if y % 4 = 1 then y / 2 + 1 else if y % 4 = 2 then y / 2 - 1 else y / 2

/-- Every table entry with an index below 256 is far from the limits of
`int`, so the sums of lines 2040-2042 do not overflow. -/
def LookupTables.Small (T : LookupTables) : Prop :=
  ∀ i < 256,
    (-536870912 ≤ T.Y i ∧ T.Y i < 536870912) ∧
    (-536870912 ≤ T.CrtoR i ∧ T.CrtoR i < 536870912) ∧
    (-536870912 ≤ T.CrtoG i ∧ T.CrtoG i < 536870912) ∧
    (-536870912 ≤ T.CbtoG i ∧ T.CbtoG i < 536870912) ∧
    (-536870912 ≤ T.CbtoB i ∧ T.CbtoB i < 536870912)

/-- The mathematical clamp to the range 0..255. -/
def clampByte (x : Int) : Int := if x < 0 then 0 else if 255 < x then 255 else x

/-- A 2 x 2 picture: luma 16, 235, 81, 41 and one chroma pair (90, 240). -/
def demoPicture : AVFrame :=
  { data0 := [16, 235, 81, 41], data1 := [90], data2 := [240],
    linesize0 := 2, linesize1 := 1, linesize2 := 1 }

/-- A 2 x 2 surface of 32-bit pixels with `pitch == 4 * w`. -/
def demoSurface : SDL_Surface := { w := 2, h := 2, pitch := 8, pixels := [0, 0, 0, 0] }

/-- A surface of 2 x 8 pixels. -/
def tallSurface : SDL_Surface := { w := 2, h := 8, pitch := 8, pixels := List.replicate 16 0 }

/-- A YUY2 overlay of 2 x 8 pixels. -/
def tallOverlay : SDL_Overlay :=
  { format := SDL_YUY2_OVERLAY, w := 2, h := 8, pitches0 := 4, pixels0 := List.replicate 32 0 }

/-- A picture of 2 x 8 luma samples with four chroma rows that carry the
markers 10, 20, 30, 40 (U) and 50, 60, 70, 80 (V). -/
def tallPicture : AVFrame :=
  { data0 := List.replicate 16 100, data1 := [10, 20, 30, 40], data2 := [50, 60, 70, 80],
    linesize0 := 2, linesize1 := 1, linesize2 := 1 }

/-- The luma expression of lines 2151 and 2160 for the pixel `p`, computed in
`double` and converted to `uint8_t`:
`(0.257 * ((p>>16)&0xFF)) + (0.504 * ((p>>8)&0xFF)) + (0.098 * (p&0xFF)) + 16`. -/
def lumaOf (p : Nat) : Nat :=
  (dblTrunc
    (dblAdd
      (dblAdd
        (dblAdd (dblMul (dblOfDecimal 257 1000) (dblOfInt ((p >>> 16 &&& 0xFF : Nat) : Int)))
          (dblMul (dblOfDecimal 504 1000) (dblOfInt ((p >>> 8 &&& 0xFF : Nat) : Int))))
        (dblMul (dblOfDecimal 98 1000) (dblOfInt ((p &&& 0xFF : Nat) : Int))))
      (dblOfInt 16))).toNat

/-- The expression of line 2155 for the pixel `p`:
`-(0.148 * ((p>>16)&0xFF)) - (0.291 * ((p>>8)&0xFF)) + (0.439 * (p&0xFF)) + 128`. -/
def cbOf (p : Nat) : Nat :=
  (dblTrunc
    (dblAdd
      (dblAdd
        (dblSub
          (dblNeg (dblMul (dblOfDecimal 148 1000) (dblOfInt ((p >>> 16 &&& 0xFF : Nat) : Int))))
          (dblMul (dblOfDecimal 291 1000) (dblOfInt ((p >>> 8 &&& 0xFF : Nat) : Int))))
        (dblMul (dblOfDecimal 439 1000) (dblOfInt ((p &&& 0xFF : Nat) : Int))))
      (dblOfInt 128))).toNat

/-- The expression of line 2158 for the pixel `p`:
`(0.439 * ((p>>16)&0xFF)) - (0.368 * ((p>>8)&0xFF)) - (0.071 * (0.439 * (p&0xFF))) + 128`. -/
def crOf (p : Nat) : Nat :=
  (dblTrunc
    (dblAdd
      (dblSub
        (dblSub (dblMul (dblOfDecimal 439 1000) (dblOfInt ((p >>> 16 &&& 0xFF : Nat) : Int)))
          (dblMul (dblOfDecimal 368 1000) (dblOfInt ((p >>> 8 &&& 0xFF : Nat) : Int))))
        (dblMul (dblOfDecimal 71 1000)
          (dblMul (dblOfDecimal 439 1000) (dblOfInt ((p &&& 0xFF : Nat) : Int)))))
      (dblOfInt 128))).toNat

/-- Source lines 2141-2165, with `n = w >> 1` pixel pairs to go.  `Y`, `U`,
`V` are the offsets of the write pointers in the three planes of the frame,
`RGBApacked` is the index of the read pointer in the array of 32-bit pixels. -/
def SDL_ffmpegConvertRGBAtoYUV420Pscanline (pixels : List Nat) :
    Nat → Int → Int → Int → Int → AVFrame → AVFrame
  | 0, _, _, _, _, frame => frame
  | n + 1, Y, U, V, RGBApacked, frame =>
    let f1 := { frame with data0 := poke frame.data0 Y (lumaOf (peekPixel pixels RGBApacked)) }
    let f2 := { f1 with data1 := poke f1.data1 U (cbOf (peekPixel pixels (RGBApacked + 1))) }
    let f3 := { f2 with data2 := poke f2.data2 V (crOf (peekPixel pixels (RGBApacked + 1))) }
    let f4 :=
      { f3 with data0 := poke f3.data0 (Y + 1) (lumaOf (peekPixel pixels (RGBApacked + 1))) }
    SDL_ffmpegConvertRGBAtoYUV420Pscanline pixels n (Y + 2) (U + 1) (V + 1) (RGBApacked + 2) f4

/-- The scanline calls of the interlaced branch (lines 2180-2210) with `n`
groups of four lines to go. -/
def yuvInterlaced (RGBA : SDL_Surface) (YUV420P : AVFrame) :
    Nat → Int → Int → Int → Int → List ScanlineCall
  | 0, _, _, _, _ => []
  | n + 1, Y, U, V, RGBApacked =>
    -- line 0
    let c0 : ScanlineCall := ⟨Y, U, V, RGBApacked, RGBA.w⟩
    let P1 := RGBApacked + RGBA.w
    let Y1 := Y + YUV420P.linesize0
    let U1 := U + YUV420P.linesize1
    let V1 := V + YUV420P.linesize2
    -- line 1
    let c1 : ScanlineCall := ⟨Y1, U1, V1, P1, RGBA.w⟩
    let P2 := P1 + RGBA.w
    let Y2 := Y1 + YUV420P.linesize0
    let U2 := U1 - YUV420P.linesize1
    let V2 := V1 - YUV420P.linesize2
    -- line 2
    let c2 : ScanlineCall := ⟨Y2, U2, V2, P2, RGBA.w⟩
    let P3 := P2 + RGBA.w
    let Y3 := Y2 + YUV420P.linesize0
    let U3 := U2 + YUV420P.linesize1
    let V3 := V2 + YUV420P.linesize2
    -- line 3
    let c3 : ScanlineCall := ⟨Y3, U3, V3, P3, RGBA.w⟩
    let P4 := P3 + RGBA.w
    let Y4 := Y3 + YUV420P.linesize0
    let U4 := U3 + YUV420P.linesize1
    let V4 := V3 + YUV420P.linesize2
    c0 :: c1 :: c2 :: c3 :: yuvInterlaced RGBA YUV420P n Y4 U4 V4 P4

/-- The scanline calls of the progressive branch (lines 2212-2229) with `n`
groups of two lines to go. -/
def yuvProgressive (RGBA : SDL_Surface) (YUV420P : AVFrame) :
    Nat → Int → Int → Int → Int → List ScanlineCall
  | 0, _, _, _, _ => []
  | n + 1, Y, U, V, RGBApacked =>
    -- line 0
    let c0 : ScanlineCall := ⟨Y, U, V, RGBApacked, RGBA.w⟩
    let P1 := RGBApacked + RGBA.w
    let Y1 := Y + YUV420P.linesize0
    let U1 := U + YUV420P.linesize1
    let V1 := V + YUV420P.linesize2
    -- line 1
    let c1 : ScanlineCall := ⟨Y1, U1, V1, P1, RGBA.w⟩
    let P2 := P1 + RGBA.w
    let Y2 := Y1 + YUV420P.linesize0
    c0 :: c1 :: yuvProgressive RGBA YUV420P n Y2 U1 V1 P2

/-- The scanline calls that `SDL_ffmpegConvertRGBAtoYUV420P` makes, in
order. -/
def yuvCalls (RGBA : SDL_Surface) (YUV420P : AVFrame) (interlaced : Int) : List ScanlineCall :=
  if interlaced ≠ 0 then yuvInterlaced RGBA YUV420P (RGBA.h / 4).toNat 0 0 0 0
  else yuvProgressive RGBA YUV420P (RGBA.h / 2).toNat 0 0 0 0

/-- Source lines 2167-2231.  `RGBA.pixels` is the pixel memory as an array of
32-bit values (`const uint32_t *RGBApacked = RGBA->pixels`); the three planes
of `YUV420P` are written. -/
def SDL_ffmpegConvertRGBAtoYUV420P (RGBA : SDL_Surface) (YUV420P : AVFrame)
    (interlaced : Int) : AVFrame :=
  (yuvCalls RGBA YUV420P interlaced).foldl
    (fun frame c =>
      SDL_ffmpegConvertRGBAtoYUV420Pscanline RGBA.pixels (c.w / 2).toNat c.Y c.U c.V c.packed
        frame)
    YUV420P

/-- A 2 x 2 surface whose rows are 12 bytes apart: each row of two pixels is
followed by one 32-bit word of padding (words 2 and 5). -/
def paddedSurface : SDL_Surface := { w := 2, h := 2, pitch := 12, pixels := [0, 0, 0, 0, 0, 0] }

/-- A 2 x 2 surface whose rows are 12 bytes apart: row 0 is black, row 1 is
white, the padding words 2 and 5 are black. -/
def paddedInput : SDL_Surface :=
  { w := 2, h := 2, pitch := 12,
    pixels := [0xFF000000, 0xFF000000, 0xFF000000, 0xFFFFFFFF, 0xFFFFFFFF, 0xFF000000] }

/-- A 2 x 2 frame with all samples 0. -/
def blankFrame : AVFrame :=
  { data0 := [0, 0, 0, 0], data1 := [0], data2 := [0],
    linesize0 := 2, linesize1 := 1, linesize2 := 1 }

/-- An input file with the demo audio stream selected, whose `AVStream`
has a duration of 5000 units of the time base 1/1000. -/
def durationDemo : SDL_ffmpegFile Nat :=
  { audioStream := some { demoAudio with duration := 5000 } }

/-- A decoder for the examples that fails on a damaged packet: for a packet
with a size but without payload the call returns -1 and touches neither
`audioSize` nor the sample buffer; every other packet is decoded as by
`demoLib`. -/
def faultyLib : Lib Nat where
  av_seek_frame := fun units _ => units
  avcodec_decode_audio3 := fun codec _ samples audioSize pack =>
    if pack.data = [] then
      { codec := codec + 1, len := -1, audioSize := audioSize, samples := samples }
    else
      { codec := codec + 1, len := pack.size, audioSize := pack.data.length,
        samples := pack.data }
  avcodec_decode_video2 := fun codec _ picture _ =>
    { codec := codec + 1, picture := picture, got_frame := 1 }
  avcodec_flush_buffers := fun _ => 0
  convertYUV420PtoYUY2 := fun _ o _ => o
  convertYUV420PtoRGBA := fun _ sf _ => sf

/-- A damaged audio packet of the demo stream: four bytes long, no payload
that the decoder of `faultyLib` accepts. -/
def damagedAudioPack (dts : Int) : AVPacket := { stream_index := 0, dts := dts, size := 4 }

/-- The frame holds the bytes `X` at its start, its size is between their
number and the capacity, and the leftover size of the stream is not
negative. -/
structure FirstBytes {σ : Type} (X : List Nat) (frame : SDL_ffmpegAudioFrame)
    (s : SDL_ffmpegStream σ) : Prop where
  size : (X.length : Int) ≤ frame.size
  sizeCap : frame.size ≤ frame.capacity
  bytes : frame.buffer.take X.length = X
  left : 0 ≤ s.sampleBufferSize

/-- The bytes that the leftover stage copies first: `min(L, capacity)` bytes of
the sample buffer from the read offset on. -/
def leftoverBytes {σ : Type} (s : SDL_ffmpegStream σ) (capacity : Int) : List Nat :=
  (s.sampleBuffer.drop s.sampleBufferOffset.toNat).take (min s.sampleBufferSize capacity).toNat

/-- State of an audio fetch that began with the stream `s0`, which held
leftover bytes, and a frame of capacity `cap`: either no decode step has run
yet (a packet is held, the frame is empty and the reassembly buffer is as at
the start), or the leftover was smaller than the frame and the frame holds
the leftover bytes at its start. -/
def LeftoverFirst {σ : Type} (s0 : SDL_ffmpegStream σ) (cap : Int) (file : SDL_ffmpegFile σ)
    (pack : Option AVPacket) (frame : SDL_ffmpegAudioFrame) : Prop :=
  ∃ s, file.audioStream = some s ∧ frame.capacity = cap ∧
    ((pack.isSome ∧ frame.size = 0 ∧ leftoverState s = leftoverState s0) ∨
     (s0.sampleBufferSize < cap ∧ FirstBytes (leftoverBytes s0 cap) frame s))

/-- State of an audio fetch when its decode loop has ended: the frame holds
the leftover bytes at its start; if they filled the frame, the reassembly
buffer holds what is left of them behind the advanced offset. -/
def LeftoverDone {σ : Type} (s0 : SDL_ffmpegStream σ) (cap : Int) (file : SDL_ffmpegFile σ)
    (frame : SDL_ffmpegAudioFrame) : Prop :=
  ∃ s, file.audioStream = some s ∧ frame.capacity = cap ∧
    FirstBytes (leftoverBytes s0 cap) frame s ∧
    (cap ≤ s0.sampleBufferSize →
      frame.size = cap ∧ s.sampleBufferSize = s0.sampleBufferSize - cap ∧
      s.sampleBufferOffset =
        (if cap < s0.sampleBufferSize then s0.sampleBufferOffset + cap else 0))

/-- The demo file `staleDemo` as its first fetch leaves it when the frame has
room for 2 bytes: byte 3 of the first chunk is left over at offset 2 with the
timestamp 5; the container still holds the packet with dts 6. -/
def leftoverDemo : SDL_ffmpegFile Nat :=
  { container := [unitOf (audioPack 6 [4])], duration := 10000000,
    audioStream := some
      { demoAudio with
        sampleBuffer := [1, 2, 3], sampleBufferSize := 1, sampleBufferOffset := 2,
        sampleBufferTime := 5 },
    videoStream := some demoVideo }

/-! ## Stream lists and stream selection (lines 307-424, 742-887) -/

/-- The value `CODEC_TYPE_VIDEO` of `enum CodecType` (libavcodec). -/
def CODEC_TYPE_VIDEO : Int := 0

/-- The value `CODEC_TYPE_AUDIO` of `enum CodecType` (libavcodec). -/
def CODEC_TYPE_AUDIO : Int := 1

/-- The value `PIX_FMT_YUV420P` of `enum PixelFormat` (libavutil). -/
def PIX_FMT_YUV420P : Int := 0

/-- One entry of `file->_ffmpeg->streams`, as `SDL_ffmpegOpen` sees it: the
codec type, whether `avcodec_find_decoder` finds a decoder, whether
`avcodec_open` succeeds, and the fields of the `AVStream` and of its codec
context in the form in which a stream of the model keeps them. -/
structure AVStream (σ : Type) where
  codec_type : Int
  decoder : Bool := true
  opens : Bool := true
  fields : SDL_ffmpegStream σ

/-- The loop `while( *s ) { *s = (*s)->next; }` of lines 369-372 and 412-415,
entered with `s = &file->vs` (or `&file->as`).  `s` keeps pointing at the head
pointer of the list; each pass overwrites the head pointer with the `next`
pointer of the first node.  The result is the list that the head pointer
denotes when the loop ends. -/
def unlinkAll {α : Type} : List α → List α
  | [] => []
  | _ :: next => unlinkAll next

/-- Lines 368-374 and 411-417: the loop over the list and the assignment
`*s = stream` to the head pointer, at which `s` still points.  The new node was
cleared by `memset`, so it has no successor. -/
def storeStream {α : Type} (list : List α) (stream : α) : List α :=
  unlinkAll list ++ [stream]

/-- The loop over the streams of `SDL_ffmpegOpen` (lines 334-421), with `i`
the index of the head of `streams`.  `malloc` is taken to succeed. -/
def openStreams {σ : Type} :
    List (AVStream σ) → Int → SDL_ffmpegFile σ → SDL_ffmpegFile σ
  | [], _, file => file
  | st :: rest, i, file =>
    let file1 :=
      if st.codec_type = CODEC_TYPE_VIDEO then
        let stream := { st.fields with id := i }
        if st.decoder = false then
          { file with sink := SDL_ffmpegAddError file.sink (some "could not find video codec") }
        else if st.opens = false then
          { file with sink := SDL_ffmpegAddError file.sink (some "could not open video codec") }
        else
          { file with vs := storeStream file.vs stream, videoStreams := file.videoStreams + 1 }
      else if st.codec_type = CODEC_TYPE_AUDIO then
        let stream := { st.fields with id := i }
        if st.decoder = false then
          { file with sink := SDL_ffmpegAddError file.sink (some "could not find audio codec") }
        else if st.opens = false then
          { file with sink := SDL_ffmpegAddError file.sink (some "could not open audio codec") }
        else
          let stream1 :=
            { stream with
              sampleBufferSize := 0, sampleBufferOffset := 0, sampleBufferTime := AV_NOPTS_VALUE }
          { file with as := storeStream file.as stream1, audioStreams := file.audioStreams + 1 }
      else file
    openStreams rest (i + 1) file1

/-- Source lines 307-424, for a file that `av_open_input_file` and
`av_find_stream_info` accept: `streams` are the streams of the container,
`container` and `duration` stand for the opened `AVFormatContext`, `sink` is
the error list at the time of the call. -/
def SDL_ffmpegOpen {σ : Type} (streams : List (AVStream σ))
    (container : List (Option ReadResult)) (duration : Int) (sink : ErrorSink) :
    SDL_ffmpegFile σ :=
  openStreams streams 0
    { type := SDL_ffmpegInputStream, container := container, duration := duration, sink := sink }

/-- The loop `for( i = 0; i < ID && s; i++ ) s = s->next;` of lines 759, 797,
828 and 869, entered with `s` at the head of the list: the value of `s` when
it ends, `none` for null. -/
def streamAt {α : Type} : List α → Nat → Option α
  | [], _ => none
  | s :: _, 0 => some s
  | _ :: next, n + 1 => streamAt next n

/-- Source lines 751-762, for a non-null file; `audioID` is the `uint32_t`
argument. -/
def SDL_ffmpegGetAudioStream {σ : Type} (file : SDL_ffmpegFile σ) (audioID : Nat) :
    Option (SDL_ffmpegStream σ) :=
  if file.audioStreams = 0 then none else streamAt file.as audioID

/-- Source lines 817-831, for a non-null file; `videoID` is the `uint32_t`
argument. -/
def SDL_ffmpegGetVideoStream {σ : Type} (file : SDL_ffmpegFile σ) (videoID : Nat) :
    Option (SDL_ffmpegStream σ) :=
  if file.videoStreams = 0 then none
  else if file.videoStreams ≤ videoID then none
  else streamAt file.vs videoID

/-- The comparison `ID >= count` of lines 782 and 851 between the `int`
argument and a stream counter of the file.  The counters are declared in
`SDL_ffmpeg.h`, which is not part of the source file, so their type is a
parameter: for an unsigned counter (`unsignedCount`, a `uint32_t`) C converts
the argument to that type before it compares, for an `int` counter the
comparison is the one of the integers. -/
def idNotBelow (unsignedCount : Bool) (ID : Int) (count : Nat) : Bool :=
  if unsignedCount then decide (count ≤ toU32 ID) else decide ((count : Int) ≤ ID)

/-- Source lines 774-805, for a non-null file. -/
def SDL_ffmpegSelectAudioStream {σ : Type} (unsignedCount : Bool) (file : SDL_ffmpegFile σ)
    (audioID : Int) : SDL_ffmpegFile σ × Int :=
  if file.audioStreams = 0 ∨ idNotBelow unsignedCount audioID file.audioStreams = true then
    ({ file with
        sink := SDL_ffmpegAddError file.sink
          (some "requested audio stream ID is not available in file") },
     -1)
  else if audioID < 0 then ({ file with audioStream := none }, 0)
  else ({ file with audioStream := streamAt file.as audioID.toNat }, 0)

/-- Source lines 843-887, for a non-null file.  With the list ending before
`videoID` the loop of line 869 leaves `file->videoStream` null and line 874
dereferences it. -/
def SDL_ffmpegSelectVideoStream {σ : Type} (unsignedCount : Bool) (file : SDL_ffmpegFile σ)
    (videoID : Int) : Option (SDL_ffmpegFile σ × Int) :=
  if idNotBelow unsignedCount videoID file.videoStreams = true then
    some ({ file with
              sink := SDL_ffmpegAddError file.sink
                (some "requested video stream ID is not available in file") },
          -1)
  else if videoID < 0 then some ({ file with videoStream := none }, 0)
  else
    match streamAt file.vs videoID.toNat with
    | none => none
    | some s =>
      if s.pix_fmt ≠ PIX_FMT_YUV420P then
        some ({ file with
                  videoStream := none
                  sink := SDL_ffmpegAddError file.sink
                    (some ("unsupported pixel format [" ++ toString s.pix_fmt ++ "]")) },
              0)
      else some ({ file with videoStream := some s }, 0)

/-- A container with two video streams (pixel format `PIX_FMT_YUV420P`) and
two audio streams, all with decoders that open. -/
def fourStreams : List (AVStream Nat) :=
  [{ codec_type := CODEC_TYPE_VIDEO, fields := { codec := 0 } },
   { codec_type := CODEC_TYPE_AUDIO, fields := { codec := 0 } },
   { codec_type := CODEC_TYPE_VIDEO, fields := { codec := 0 } },
   { codec_type := CODEC_TYPE_AUDIO, fields := { codec := 0 } }]

/-- A container with one video stream whose pixel format is 2
(`PIX_FMT_RGB24`) and one audio stream. -/
def rgbStreams : List (AVStream Nat) :=
  [{ codec_type := CODEC_TYPE_VIDEO, fields := { codec := 0, pix_fmt := 2 } },
   { codec_type := CODEC_TYPE_AUDIO, fields := { codec := 0 } }]

/-! ## Mutexes (lines 674-739, 938-1002, 1018-1089, 1689-1801)

The functions below give, in program order, the `SDL_LockMutex` and
`SDL_UnlockMutex` calls and the writes to a packet queue that a call of the
source makes.  They follow the control flow of the state functions above and
take the states from them. -/

/-- The mutexes that the fetches and the flush use: `file->streamMutex` and
the `mutex` of the selected audio and of the selected video stream. -/
inductive Mutex where
  | streamMutex
  | audioMutex
  | videoMutex
  deriving DecidableEq, Repr

/-- The kinds of writes to a packet queue: the append of
`SDL_ffmpegGetPacket`, the removal of the head by `SDL_ffmpegGetAudioPacket` /
`SDL_ffmpegGetVideoPacket`, the push-back of an unused packet by a fetch and
the clearing by `SDL_ffmpegFlush`. -/
inductive QueueOp where
  | append
  | pop
  | pushBack
  | clear
  deriving DecidableEq, Repr

/-- One step of a call that matters for the locking discipline: a mutex is
locked, a mutex is unlocked, or the queue of the stream with the mutex `owner`
is written. -/
inductive LockEvent where
  | lock (m : Mutex)
  | unlock (m : Mutex)
  | queue (owner : Mutex) (op : QueueOp)
  deriving DecidableEq, Repr

open Mutex QueueOp

/-- Queue writes of `SDL_ffmpegGetPacket` (lines 1719-1757): one append when
the unit is routed to a queue.  The function locks nothing; the two calls for
the video mutex in lines 1742 and 1752 are commented out. -/
def getPacketEvents {σ : Type} (file : SDL_ffmpegFile σ) : List LockEvent :=
  match file.container with
  | some r :: rest =>
    let file1 := { file with container := rest }
    if r.dup ≠ 0 then []
    else if isAudioPacket file1 r.pack then [LockEvent.queue audioMutex append]
    else if isVideoPacket file1 r.pack then [LockEvent.queue videoMutex append]
    else []
  | _ => []

/-- Queue writes of `SDL_ffmpegGetAudioPacket` (lines 1763-1781). -/
def getAudioPacketEvents {σ : Type} (file : SDL_ffmpegFile σ) : List LockEvent :=
  match file.audioStream with
  | none => []
  | some s =>
    match s.buffer with
    | [] => []
    | _ :: _ => [LockEvent.queue audioMutex pop]

/-- Queue writes of `SDL_ffmpegGetVideoPacket` (lines 1783-1801). -/
def getVideoPacketEvents {σ : Type} (file : SDL_ffmpegFile σ) : List LockEvent :=
  match file.videoStream with
  | none => []
  | some s =>
    match s.buffer with
    | [] => []
    | _ :: _ => [LockEvent.queue videoMutex pop]

/-- Events of the loop `audioPacketLoop`. -/
def audioPacketLoopEvents {σ : Type} :
    Nat → SDL_ffmpegFile σ → Option AVPacket → SDL_ffmpegAudioFrame → List LockEvent
  | 0, _, _, _ => []
  | n + 1, file, pack, frame =>
    if pack.isNone ∧ frame.last = 0 then
      let popped := SDL_ffmpegGetAudioPacket file
      let read := SDL_ffmpegGetPacket popped.1
      getAudioPacketEvents file ++ getPacketEvents popped.1 ++
        audioPacketLoopEvents n read.1 popped.2 { frame with last := read.2 }
    else []

/-- Events of the loop `videoPacketLoop`. -/
def videoPacketLoopEvents {σ : Type} :
    Nat → SDL_ffmpegFile σ → Option AVPacket → SDL_ffmpegVideoFrame → List LockEvent
  | 0, _, _, _ => []
  | n + 1, file, pack, frame =>
    if pack.isNone ∧ frame.last = 0 then
      let popped := SDL_ffmpegGetVideoPacket file
      let read := SDL_ffmpegGetPacket popped.1
      getVideoPacketEvents file ++ getPacketEvents popped.1 ++
        videoPacketLoopEvents n read.1 popped.2 { frame with last := read.2 }
    else []

/-- Events of `nextAudioPacket`. -/
def nextAudioPacketEvents {σ : Type} (file : SDL_ffmpegFile σ) (frame : SDL_ffmpegAudioFrame) :
    List LockEvent :=
  let popped := SDL_ffmpegGetAudioPacket file
  getAudioPacketEvents file ++ audioPacketLoopEvents (readFuel popped.1) popped.1 popped.2 frame

/-- Events of `nextVideoPacket`. -/
def nextVideoPacketEvents {σ : Type} (file : SDL_ffmpegFile σ) (frame : SDL_ffmpegVideoFrame) :
    List LockEvent :=
  let popped := SDL_ffmpegGetVideoPacket file
  getVideoPacketEvents file ++ videoPacketLoopEvents (readFuel popped.1) popped.1 popped.2 frame

/-- Events of the loop `audioDecodeLoop`; `SDL_ffmpegDecodeAudioFrame` neither
locks nor writes a queue. -/
def audioDecodeLoopEvents {σ : Type} (lib : Lib σ) :
    Nat → SDL_ffmpegFile σ → Option AVPacket → SDL_ffmpegAudioFrame → List LockEvent
  | 0, _, _, _ => []
  | n + 1, file, pack, frame =>
    match pack with
    | none => []
    | some p =>
      match SDL_ffmpegDecodeAudioFrame lib file p frame with
      | none => []
      | some (file1, frame1, ret) =>
        if ret = 0 then []
        else if frame1.size < frame1.capacity then
          match nextAudioPacket file1 frame1 with
          | none => []
          | some (file2, pack2, frame2) =>
            nextAudioPacketEvents file1 frame1 ++ audioDecodeLoopEvents lib n file2 pack2 frame2
        else audioDecodeLoopEvents lib n file1 none frame1

/-- Events of the loop `videoDecodeLoop`; `SDL_ffmpegDecodeVideoFrame` neither
locks nor writes a queue. -/
def videoDecodeLoopEvents {σ : Type} (lib : Lib σ) :
    Nat → SDL_ffmpegFile σ → Option AVPacket → SDL_ffmpegVideoFrame → List LockEvent
  | 0, _, _, _ => []
  | n + 1, file, pack, frame =>
    match pack with
    | none => []
    | some p =>
      if frame.ready ≠ 0 then []
      else
        match SDL_ffmpegDecodeVideoFrame lib file (some p) frame with
        | none => []
        | some (file1, frame1, _) =>
          match nextVideoPacket file1 frame1 with
          | none => []
          | some (file2, pack2, frame2) =>
            nextVideoPacketEvents file1 frame1 ++ videoDecodeLoopEvents lib n file2 pack2 frame2

/-- Events of `SDL_ffmpegGetAudioFrame` (lines 1022-1086). -/
def getAudioFrameEvents {σ : Type} (lib : Lib σ) (file : SDL_ffmpegFile σ)
    (frame : SDL_ffmpegAudioFrame) : List LockEvent :=
  match file.audioStream with
  | none => [LockEvent.lock streamMutex, LockEvent.unlock streamMutex]
  | some _ =>
    let frame0 := { frame with last := 0, size := 0 }
    [LockEvent.lock streamMutex, LockEvent.lock audioMutex] ++
      nextAudioPacketEvents file frame0 ++
      (match nextAudioPacket file frame0 with
        | none => []
        | some (file1, pack1, frame1) =>
          audioDecodeLoopEvents lib (audioFuel file1) file1 pack1 frame1 ++
            (match audioDecodeLoop lib (audioFuel file1) file1 pack1 frame1 with
              | some (_, some _, _) => [LockEvent.queue audioMutex pushBack]
              | _ => [])) ++
      [LockEvent.unlock audioMutex, LockEvent.unlock streamMutex]

/-- Events of `SDL_ffmpegGetVideoFrame` (lines 676-736). -/
def getVideoFrameEvents {σ : Type} (lib : Lib σ) (file : SDL_ffmpegFile σ)
    (frame : SDL_ffmpegVideoFrame) : List LockEvent :=
  match file.videoStream with
  | none => [LockEvent.lock streamMutex, LockEvent.unlock streamMutex]
  | some _ =>
    let frame0 := { frame with ready := 0, last := 0 }
    [LockEvent.lock streamMutex, LockEvent.lock videoMutex] ++
      nextVideoPacketEvents file frame0 ++
      (match nextVideoPacket file frame0 with
        | none => []
        | some (file1, pack1, frame1) =>
          videoDecodeLoopEvents lib (videoFuel file1) file1 pack1 frame1 ++
            (match videoDecodeLoop lib (videoFuel file1) file1 pack1 frame1 with
              | some (_, some _, _) => [LockEvent.queue videoMutex pushBack]
              | _ => [])) ++
      [LockEvent.unlock videoMutex, LockEvent.unlock streamMutex]

/-- Events of `SDL_ffmpegFlush` (lines 944-999). -/
def flushEvents {σ : Type} (file : SDL_ffmpegFile σ) : List LockEvent :=
  [LockEvent.lock streamMutex] ++
    (match file.audioStream with
      | some _ =>
        [LockEvent.lock audioMutex, LockEvent.queue audioMutex clear,
          LockEvent.unlock audioMutex]
      | none => []) ++
    (match file.videoStream with
      | some _ =>
        [LockEvent.lock videoMutex, LockEvent.queue videoMutex clear,
          LockEvent.unlock videoMutex]
      | none => []) ++
    [LockEvent.unlock streamMutex]

/-- Run a sequence of events from the list `held` of the mutexes held, oldest
first, and test every queue write with `ok`, which sees the mutexes held at
that moment, the owner of the queue and the kind of write. -/
def checkEvents (ok : List Mutex → Mutex → QueueOp → Bool) :
    List Mutex → List LockEvent → Bool
  | _, [] => true
  | held, LockEvent.lock m :: events => checkEvents ok (held ++ [m]) events
  | held, LockEvent.unlock m :: events => checkEvents ok (held.erase m) events
  | held, LockEvent.queue owner op :: events => ok held owner op && checkEvents ok held events

/-- The mutexes held when a sequence of events has run. -/
def heldAfter : List Mutex → List LockEvent → List Mutex
  | held, [] => held
  | held, LockEvent.lock m :: events => heldAfter (held ++ [m]) events
  | held, LockEvent.unlock m :: events => heldAfter (held.erase m) events
  | held, LockEvent.queue _ _ :: events => heldAfter held events

/-- The mutex of the owner of the queue is held and the file-level mutex was
acquired before it. -/
def ownerHeld (held : List Mutex) (owner : Mutex) (_ : QueueOp) : Bool :=
  decide (owner ∈ held) && decide (streamMutex ∈ held.takeWhile (fun m => m ≠ owner))

/-- What the code ensures for a fetch of the stream with the mutex `own` and
for the flush: the file-level mutex and then the mutex of the stream at work
are held, and nothing else; a write other than the append of
`SDL_ffmpegGetPacket` is a write to the queue of that stream. -/
def fileHeld (held : List Mutex) (owner : Mutex) (op : QueueOp) : Bool :=
  decide (held = [streamMutex, audioMutex] ∨ held = [streamMutex, videoMutex]) &&
    (decide (op = append) || ownerHeld held owner op)

/-- The events that a fetch of the stream with the mutex `own` makes between
taking and releasing its two mutexes: writes to its own queue and appends. -/
def FetchEvent (own : Mutex) (e : LockEvent) : Prop :=
  ∃ owner op, e = LockEvent.queue owner op ∧ (op = append ∨ owner = own)

/-- The demo file behind a seek to 5000 ms: the gate is 5000, the container
holds an audio packet with dts 5 and a video packet with dts 7. -/
def gatedDemo : SDL_ffmpegFile Nat :=
  { demoFile [unitOf (audioPack 5 [1, 2, 3]), unitOf (videoPack 7)] with
    minimalTimestamp := 5000 }

/-- The rounding of the claim about the lookup tables: the integer nearest
to the rational `p / q` (`0 < q`), a half rounded up. -/
def roundNearest (p q : Int) : Int := (2 * p + q) / (2 * q)

/-- The word of line 2066 for macropixel `i` of a scanline that starts at the
offsets `Y`, `U`, `V`: `Y[2i] | U[i] << 8 | Y[2i+1] << 16 | V[i] << 24`. -/
def yuy2Word (YUV420P : AVFrame) (Y U V : Int) (i : Nat) : Nat :=
  peek YUV420P.data0 (Y + 2 * i) ||| (peek YUV420P.data1 (U + i) <<< 8) |||
    (peek YUV420P.data0 (Y + 2 * i + 1) <<< 16) ||| (peek YUV420P.data2 (V + i) <<< 24)

/-- A picture of 4 x 1 luma samples 1, 2, 3, 4 with the chroma samples 5, 6
(U) and 7, 8 (V). -/
def rowPicture : AVFrame :=
  { data0 := [1, 2, 3, 4], data1 := [5, 6], data2 := [7, 8],
    linesize0 := 4, linesize1 := 2, linesize2 := 2 }

/-- The luma of the comment above line 2147 for the pixel `p` read as
0xAABBGGRR, as the claim states it: `(0.257 * R) + (0.504 * G) + (0.098 * B) + 16`
with `R = p & 0xFF`, `G = (p >> 8) & 0xFF`, `B = (p >> 16) & 0xFF`, computed in
`double` and truncated. -/
def standardY (p : Nat) : Int :=
  dblTrunc
    (dblAdd
      (dblAdd
        (dblAdd (dblMul (dblOfDecimal 257 1000) (dblOfInt ((p &&& 0xFF : Nat) : Int)))
          (dblMul (dblOfDecimal 504 1000) (dblOfInt ((p >>> 8 &&& 0xFF : Nat) : Int))))
        (dblMul (dblOfDecimal 98 1000) (dblOfInt ((p >>> 16 &&& 0xFF : Nat) : Int))))
      (dblOfInt 16))

/-- The `Cb = U` of the comment for the pixel `p` read as 0xAABBGGRR, as the
claim states it: `-(0.148 * R) - (0.291 * G) + (0.439 * B) + 128`. -/
def standardU (p : Nat) : Int :=
  dblTrunc
    (dblAdd
      (dblAdd
        (dblSub
          (dblNeg (dblMul (dblOfDecimal 148 1000) (dblOfInt ((p &&& 0xFF : Nat) : Int))))
          (dblMul (dblOfDecimal 291 1000) (dblOfInt ((p >>> 8 &&& 0xFF : Nat) : Int))))
        (dblMul (dblOfDecimal 439 1000) (dblOfInt ((p >>> 16 &&& 0xFF : Nat) : Int))))
      (dblOfInt 128))

/-- The `Cr = V` of the comment for the pixel `p` read as 0xAABBGGRR, as the
claim states it: `(0.439 * R) - (0.368 * G) - (0.071 * B) + 128`. -/
def standardV (p : Nat) : Int :=
  dblTrunc
    (dblAdd
      (dblSub
        (dblSub (dblMul (dblOfDecimal 439 1000) (dblOfInt ((p &&& 0xFF : Nat) : Int)))
          (dblMul (dblOfDecimal 368 1000) (dblOfInt ((p >>> 8 &&& 0xFF : Nat) : Int))))
        (dblMul (dblOfDecimal 71 1000) (dblOfInt ((p >>> 16 &&& 0xFF : Nat) : Int))))
      (dblOfInt 128))

/-- One row of two pixels of one colour `p`, as an array of 32-bit pixels. -/
def pairRow (p : Nat) : List Nat := [p, p]

/-- A frame of 2 x 1 samples, all 0. -/
def blankRow : AVFrame :=
  { data0 := [0, 0], data1 := [0], data2 := [0], linesize0 := 2, linesize1 := 1, linesize2 := 1 }

/-- A 2 x 2 surface of white pixels with `pitch == 4 * w`. -/
def whiteSurface : SDL_Surface :=
  { w := 2, h := 2, pitch := 8, pixels := [0xFFFFFFFF, 0xFFFFFFFF, 0xFFFFFFFF, 0xFFFFFFFF] }

/-- A 2 x 2 frame with all samples 0, each chroma plane of one sample followed
by the byte 99 that lies behind the plane in memory. -/
def guardedFrame : AVFrame :=
  { data0 := [0, 0, 0, 0], data1 := [0, 99], data2 := [0, 99],
    linesize0 := 2, linesize1 := 1, linesize2 := 1 }

/-! # Properties -/

/-! ## Routing and the queues -/

theorem isAudioPacket_iff {σ : Type} (file : SDL_ffmpegFile σ) (pack : AVPacket) :
    isAudioPacket file pack = true ↔ audioId file = some pack.stream_index := by
  unfold isAudioPacket audioId
  cases file.audioStream with
  | none => simp
  | some s => simp only [beq_iff_eq, Option.map_some', Option.some.injEq]; exact eq_comm

theorem isVideoPacket_iff {σ : Type} (file : SDL_ffmpegFile σ) (pack : AVPacket) :
    isVideoPacket file pack = true ↔ videoId file = some pack.stream_index := by
  unfold isVideoPacket videoId
  cases file.videoStream with
  | none => simp
  | some s => simp only [beq_iff_eq, Option.map_some', Option.some.injEq]; exact eq_comm

theorem getPacket_fst {σ : Type} (file : SDL_ffmpegFile σ) :
    (SDL_ffmpegGetPacket file).1 =
      { file with
        container := file.container.tail
        audioStream := file.audioStream.map (fun s =>
          { s with buffer := s.buffer ++ (routeAudio (some s.id) (nextUnit file)).toList })
        videoStream := file.videoStream.map (fun s =>
          { s with buffer := s.buffer ++
              (routeVideo (audioId file) (some s.id) (nextUnit file)).toList }) } := by
  obtain ⟨ty, c, d, a, v, m, sk, lv, la, nv, na⟩ := file
  cases c with
  | nil => cases a <;> cases v <;> simp [SDL_ffmpegGetPacket, nextUnit, routeAudio, routeVideo]
  | cons u rest =>
    cases u with
    | none => cases a <;> cases v <;> simp [SDL_ffmpegGetPacket, nextUnit, routeAudio, routeVideo]
    | some r =>
      cases a <;> cases v <;>
        simp [SDL_ffmpegGetPacket, nextUnit, routeAudio, routeVideo, isAudioPacket,
          isVideoPacket, appendAudio, appendVideo, audioId] <;>
        split_ifs <;> first | (exfalso; omega) | simp

theorem getPacket_snd {σ : Type} (file : SDL_ffmpegFile σ) :
    (SDL_ffmpegGetPacket file).2 = if (nextUnit file).isSome then 0 else 1 := by
  obtain ⟨ty, c, d, a, v, m, sk, lv, la, nv, na⟩ := file
  cases c with
  | nil => simp [SDL_ffmpegGetPacket, nextUnit]
  | cons u rest =>
    cases u with
    | none => simp [SDL_ffmpegGetPacket, nextUnit]
    | some r => simp [SDL_ffmpegGetPacket, nextUnit]; split_ifs <;> simp

theorem getAudioPacket_fst {σ : Type} (file : SDL_ffmpegFile σ) :
    (SDL_ffmpegGetAudioPacket file).1 =
      { file with audioStream := file.audioStream.map (fun s => { s with buffer := s.buffer.tail }) } := by
  obtain ⟨ty, c, d, a, v, m, sk, lv, la, nv, na⟩ := file
  cases a with
  | none => simp [SDL_ffmpegGetAudioPacket]
  | some s =>
    cases s with
    | mk id buffer =>
      cases buffer <;> simp [SDL_ffmpegGetAudioPacket]

theorem getAudioPacket_snd {σ : Type} (file : SDL_ffmpegFile σ) :
    (SDL_ffmpegGetAudioPacket file).2 = (audioQueue file).head? := by
  unfold SDL_ffmpegGetAudioPacket audioQueue
  cases file.audioStream with
  | none => simp
  | some s => simp only []; split <;> simp_all

theorem getVideoPacket_fst {σ : Type} (file : SDL_ffmpegFile σ) :
    (SDL_ffmpegGetVideoPacket file).1 =
      { file with videoStream := file.videoStream.map (fun s => { s with buffer := s.buffer.tail }) } := by
  obtain ⟨ty, c, d, a, v, m, sk, lv, la, nv, na⟩ := file
  cases v with
  | none => simp [SDL_ffmpegGetVideoPacket]
  | some s =>
    cases s with
    | mk id buffer =>
      cases buffer <;> simp [SDL_ffmpegGetVideoPacket]

theorem getVideoPacket_snd {σ : Type} (file : SDL_ffmpegFile σ) :
    (SDL_ffmpegGetVideoPacket file).2 = (videoQueue file).head? := by
  unfold SDL_ffmpegGetVideoPacket videoQueue
  cases file.videoStream with
  | none => simp
  | some s => simp only []; split <;> simp_all

theorem getPacket_container {σ : Type} (file : SDL_ffmpegFile σ) :
    (SDL_ffmpegGetPacket file).1.container = file.container.tail := by
  rw [getPacket_fst]

theorem getPacket_audioId {σ : Type} (file : SDL_ffmpegFile σ) :
    audioId (SDL_ffmpegGetPacket file).1 = audioId file := by
  rw [getPacket_fst]; unfold audioId; cases file.audioStream <;> simp

theorem getPacket_videoId {σ : Type} (file : SDL_ffmpegFile σ) :
    videoId (SDL_ffmpegGetPacket file).1 = videoId file := by
  rw [getPacket_fst]; unfold videoId; cases file.videoStream <;> simp

theorem getPacket_audioQueue {σ : Type} (file : SDL_ffmpegFile σ) :
    audioQueue (SDL_ffmpegGetPacket file).1 =
      audioQueue file ++ (routeAudio (audioId file) (nextUnit file)).toList := by
  rw [getPacket_fst]; unfold audioQueue audioId
  cases file.audioStream with
  | none => cases h : nextUnit file <;> simp [routeAudio]
  | some s => simp

theorem getPacket_videoQueue {σ : Type} (file : SDL_ffmpegFile σ) :
    videoQueue (SDL_ffmpegGetPacket file).1 =
      videoQueue file ++ (routeVideo (audioId file) (videoId file) (nextUnit file)).toList := by
  rw [getPacket_fst]; unfold videoQueue videoId
  cases file.videoStream with
  | none => cases h : nextUnit file <;> simp [routeVideo]
  | some s => simp

theorem getAudioPacket_audioQueue {σ : Type} (file : SDL_ffmpegFile σ) :
    audioQueue (SDL_ffmpegGetAudioPacket file).1 = (audioQueue file).tail := by
  rw [getAudioPacket_fst]; unfold audioQueue
  cases file.audioStream <;> simp

theorem getVideoPacket_videoQueue {σ : Type} (file : SDL_ffmpegFile σ) :
    videoQueue (SDL_ffmpegGetVideoPacket file).1 = (videoQueue file).tail := by
  rw [getVideoPacket_fst]; unfold videoQueue
  cases file.videoStream <;> simp

theorem arrivals_take_succ {α β : Type} (f : Option α → Option β) (hf : f none = none)
    (units : List (Option α)) (k : Nat) :
    (units.take (k + 1)).filterMap f =
      (f units.head?.join).toList ++ (units.tail.take k).filterMap f := by
  cases units with
  | nil => simp [hf]
  | cons u rest =>
    simp only [List.take_succ_cons, List.head?_cons, Option.join, List.tail_cons]
    cases h : f u <;> simp [List.filterMap_cons, h]

theorem getPackets_queues {σ : Type} (k : Nat) (file : SDL_ffmpegFile σ) :
    audioQueue (getPackets k file) = audioQueue file ++ audioArrivals file (file.container.take k) ∧
    videoQueue (getPackets k file) = videoQueue file ++ videoArrivals file (file.container.take k) ∧
    (getPackets k file).container = file.container.drop k := by
  induction k generalizing file with
  | zero => simp [getPackets, audioArrivals, videoArrivals]
  | succ k ih =>
    obtain ⟨ha, hv, hc⟩ := ih (SDL_ffmpegGetPacket file).1
    simp only [getPackets]
    refine ⟨?_, ?_, ?_⟩
    · rw [ha, getPacket_audioQueue, getPacket_container]
      simp only [audioArrivals, getPacket_audioId, List.append_assoc]
      rw [arrivals_take_succ _ rfl]; rfl
    · rw [hv, getPacket_videoQueue, getPacket_container]
      simp only [videoArrivals, getPacket_audioId, getPacket_videoId, List.append_assoc]
      rw [arrivals_take_succ _ rfl]; rfl
    · rw [hc, getPacket_container]; simp

theorem popAudio_all {σ : Type} (n : Nat) (file : SDL_ffmpegFile σ)
    (h : (audioQueue file).length = n) :
    popAudio (n + 1) file = (audioQueue file).map some ++ [none] := by
  induction n generalizing file with
  | zero =>
    have : audioQueue file = [] := List.length_eq_zero.mp h
    simp [popAudio, getAudioPacket_snd, this]
  | succ n ih =>
    cases hq : audioQueue file with
    | nil => simp [hq] at h
    | cons p q =>
      have h1 : (audioQueue (SDL_ffmpegGetAudioPacket file).1).length = n := by
        rw [getAudioPacket_audioQueue, hq]; simp [hq] at h; simpa using h
      rw [popAudio, ih _ h1, getAudioPacket_snd, getAudioPacket_audioQueue, hq]
      simp

theorem popVideo_all {σ : Type} (n : Nat) (file : SDL_ffmpegFile σ)
    (h : (videoQueue file).length = n) :
    popVideo (n + 1) file = (videoQueue file).map some ++ [none] := by
  induction n generalizing file with
  | zero =>
    have : videoQueue file = [] := List.length_eq_zero.mp h
    simp [popVideo, getVideoPacket_snd, this]
  | succ n ih =>
    cases hq : videoQueue file with
    | nil => simp [hq] at h
    | cons p q =>
      have h1 : (videoQueue (SDL_ffmpegGetVideoPacket file).1).length = n := by
        rw [getVideoPacket_videoQueue, hq]; simp [hq] at h; simpa using h
      rw [popVideo, ih _ h1, getVideoPacket_snd, getVideoPacket_videoQueue, hq]
      simp

/-- C1 (FIFO).  Let `SDL_ffmpegGetPacket` run `k` times on a file whose audio
(resp. video) queue is empty.  The queue then holds exactly the packets of the
selected stream among the first `k` container units, in container order;
with `N` the number of these packets, `N` successive calls of
`SDL_ffmpegGetAudioPacket` (resp. `SDL_ffmpegGetVideoPacket`) return them in
that order and call `N + 1` returns null. -/
theorem C1_packet_queue_fifo {σ : Type} (file : SDL_ffmpegFile σ) (k : Nat) :
    (audioQueue file = [] →
      audioQueue (getPackets k file) = audioArrivals file (file.container.take k) ∧
      popAudio ((audioArrivals file (file.container.take k)).length + 1) (getPackets k file) =
        (audioArrivals file (file.container.take k)).map some ++ [none]) ∧
    (videoQueue file = [] →
      videoQueue (getPackets k file) = videoArrivals file (file.container.take k) ∧
      popVideo ((videoArrivals file (file.container.take k)).length + 1) (getPackets k file) =
        (videoArrivals file (file.container.take k)).map some ++ [none]) := by
  obtain ⟨ha, hv, _⟩ := getPackets_queues k file
  constructor
  · intro h0
    rw [h0, List.nil_append] at ha
    refine ⟨ha, ?_⟩
    rw [popAudio_all _ _ (by rw [ha]), ha]
  · intro h0
    rw [h0, List.nil_append] at hv
    refine ⟨hv, ?_⟩
    rw [popVideo_all _ _ (by rw [hv]), hv]

/-- Witness of C1: three units read into empty queues; the two audio packets
come back in arrival order and the third pop gives null, likewise the one
video packet. -/
theorem C1_packet_queue_fifo_witness :
    popAudio 3 (getPackets 3 (demoFile
        [unitOf (audioPack 0 [1]), unitOf (videoPack 5), unitOf (audioPack 10 [2])])) =
      [some (audioPack 0 [1]), some (audioPack 10 [2]), none] ∧
    popVideo 2 (getPackets 3 (demoFile
        [unitOf (audioPack 0 [1]), unitOf (videoPack 5), unitOf (audioPack 10 [2])])) =
      [some (videoPack 5), none] := by
  have h := C1_packet_queue_fifo (demoFile
    [unitOf (audioPack 0 [1]), unitOf (videoPack 5), unitOf (audioPack 10 [2])]) 3
  exact ⟨(h.1 rfl).2, (h.2 rfl).2⟩

/-! ## The packet loops -/

theorem requeue_requeue {σ : Type} (file : SDL_ffmpegFile σ) (c c1 : List (Option ReadResult))
    (qa qv qa1 qv1 : List AVPacket) :
    requeue (requeue file c qa qv) c1 qa1 qv1 = requeue file c1 qa1 qv1 := by
  unfold requeue
  cases file.audioStream <;> cases file.videoStream <;> simp

theorem requeue_self {σ : Type} (file : SDL_ffmpegFile σ) :
    requeue file file.container (audioQueue file) (videoQueue file) = file := by
  obtain ⟨ty, c, d, a, v, m, sk, lv, la, nv, na⟩ := file
  cases a <;> cases v <;> simp [requeue, audioQueue, videoQueue]

theorem queueOnly_refl {σ : Type} (file : SDL_ffmpegFile σ) : QueueOnly file file :=
  (requeue_self file).symm

theorem queueOnly_trans {σ : Type} {f g h : SDL_ffmpegFile σ} (h1 : QueueOnly f g)
    (h2 : QueueOnly g h) : QueueOnly f h := by
  unfold QueueOnly at *
  rw [h1, requeue_requeue] at h2
  exact h2

theorem audioQueue_requeue {σ : Type} (file : SDL_ffmpegFile σ) (c : List (Option ReadResult))
    (qa qv : List AVPacket) (h : file.audioStream ≠ none) :
    audioQueue (requeue file c qa qv) = qa := by
  unfold requeue audioQueue
  cases hs : file.audioStream with
  | none => exact absurd hs h
  | some s => simp

theorem videoQueue_requeue {σ : Type} (file : SDL_ffmpegFile σ) (c : List (Option ReadResult))
    (qa qv : List AVPacket) (h : file.videoStream ≠ none) :
    videoQueue (requeue file c qa qv) = qv := by
  unfold requeue videoQueue
  cases hs : file.videoStream with
  | none => exact absurd hs h
  | some s => simp

theorem audioId_requeue {σ : Type} (file : SDL_ffmpegFile σ) (c : List (Option ReadResult))
    (qa qv : List AVPacket) : audioId (requeue file c qa qv) = audioId file := by
  unfold requeue audioId
  cases file.audioStream <;> simp

theorem videoId_requeue {σ : Type} (file : SDL_ffmpegFile σ) (c : List (Option ReadResult))
    (qa qv : List AVPacket) : videoId (requeue file c qa qv) = videoId file := by
  unfold requeue videoId
  cases file.videoStream <;> simp

theorem getPacket_queueOnly {σ : Type} (file : SDL_ffmpegFile σ) :
    QueueOnly file (SDL_ffmpegGetPacket file).1 := by
  unfold QueueOnly
  rw [getPacket_audioQueue, getPacket_videoQueue, getPacket_container, getPacket_fst]
  obtain ⟨ty, c, d, a, v, m, sk, lv, la, nv, na⟩ := file
  cases a <;> cases v <;> simp [requeue, audioQueue, videoQueue, audioId, videoId]

theorem getAudioPacket_queueOnly {σ : Type} (file : SDL_ffmpegFile σ) :
    QueueOnly file (SDL_ffmpegGetAudioPacket file).1 := by
  unfold QueueOnly
  rw [getAudioPacket_audioQueue, getAudioPacket_fst]
  obtain ⟨ty, c, d, a, v, m, sk, lv, la, nv, na⟩ := file
  cases a <;> cases v <;> simp [requeue, audioQueue, videoQueue]

theorem getVideoPacket_queueOnly {σ : Type} (file : SDL_ffmpegFile σ) :
    QueueOnly file (SDL_ffmpegGetVideoPacket file).1 := by
  unfold QueueOnly
  rw [getVideoPacket_videoQueue, getVideoPacket_fst]
  obtain ⟨ty, c, d, a, v, m, sk, lv, la, nv, na⟩ := file
  cases a <;> cases v <;> simp [requeue, audioQueue, videoQueue]

theorem head_toList_append_tail {α : Type} (q : List α) : q.head?.toList ++ q.tail = q := by
  cases q <;> simp

theorem heldCount_head_add_tail (q : List AVPacket) :
    heldCount q.head? + q.tail.length = q.length := by
  cases q <;> simp [heldCount]; omega

theorem getAudioPacket_container {σ : Type} (file : SDL_ffmpegFile σ) :
    (SDL_ffmpegGetAudioPacket file).1.container = file.container := by
  rw [getAudioPacket_fst]

theorem getAudioPacket_videoQueue {σ : Type} (file : SDL_ffmpegFile σ) :
    videoQueue (SDL_ffmpegGetAudioPacket file).1 = videoQueue file := by
  rw [getAudioPacket_fst]; rfl

theorem getAudioPacket_audioId {σ : Type} (file : SDL_ffmpegFile σ) :
    audioId (SDL_ffmpegGetAudioPacket file).1 = audioId file := by
  rw [getAudioPacket_fst]; unfold audioId; cases file.audioStream <;> simp

theorem getAudioPacket_videoId {σ : Type} (file : SDL_ffmpegFile σ) :
    videoId (SDL_ffmpegGetAudioPacket file).1 = videoId file := by
  rw [getAudioPacket_fst]; rfl

theorem arrivals_cons_split {α β : Type} (f : Option α → Option β) (hf : f none = none)
    (units : List (Option α)) :
    (f units.head?.join).toList ++ units.tail.filterMap f = units.filterMap f := by
  cases units with
  | nil => simp [hf]
  | cons u rest =>
    simp only [List.head?_cons, Option.join, List.tail_cons]
    cases h : f u <;> simp [List.filterMap_cons, h]

theorem route_length_le {σ : Type} (file : SDL_ffmpegFile σ) (r : Option AVPacket)
    (hr : nextUnit file = none → r = none) :
    r.toList.length + file.container.tail.length ≤ file.container.length := by
  unfold nextUnit at hr
  cases hc : file.container with
  | nil => simp [hc] at hr; simp [hr]
  | cons u rest =>
    cases r with
    | none => simp
    | some p => simp; omega

theorem routeAudio_none (aid : Option Int) : routeAudio aid none = none := rfl

theorem routeVideo_none (aid vid : Option Int) : routeVideo aid vid none = none := rfl

theorem audioPacketLoop_spec {σ : Type} (n : Nat) :
    ∀ (file : SDL_ffmpegFile σ) (pack : Option AVPacket) (frame : SDL_ffmpegAudioFrame)
      (file1 : SDL_ffmpegFile σ) (pack1 : Option AVPacket) (frame1 : SDL_ffmpegAudioFrame),
      audioPacketLoop n file pack frame = some (file1, pack1, frame1) →
      QueueOnly file file1 ∧
      pack1.toList ++ audioQueue file1 ++ audioArrivals file file1.container =
        pack.toList ++ audioQueue file ++ audioArrivals file file.container ∧
      videoQueue file1 ++ videoArrivals file file1.container =
        videoQueue file ++ videoArrivals file file.container ∧
      frame1 = { frame with last := frame1.last } ∧
      heldCount pack1 + (audioQueue file1).length + file1.container.length ≤
        heldCount pack + (audioQueue file).length + file.container.length ∧
      (pack1.isSome ∨ frame1.last ≠ 0) := by
  induction n with
  | zero => intro file pack frame file1 pack1 frame1 h; simp [audioPacketLoop] at h
  | succ n ih =>
    intro file pack frame file1 pack1 frame1 h
    rw [audioPacketLoop] at h
    split_ifs at h with hc
    · obtain ⟨hq, ha, hv, hf, hm, hx⟩ := ih _ _ _ _ _ _ h
      have hpack : pack = none := by
        cases pack with
        | none => rfl
        | some p => simp at hc
      subst hpack
      have hnu : nextUnit (SDL_ffmpegGetAudioPacket file).1 = nextUnit file := by
        unfold nextUnit; rw [getAudioPacket_container]
      simp only [audioArrivals, videoArrivals, getPacket_audioId, getPacket_videoId,
        getAudioPacket_audioId, getAudioPacket_videoId, getPacket_audioQueue,
        getPacket_videoQueue, getPacket_container, getAudioPacket_container,
        getAudioPacket_audioQueue, getAudioPacket_videoQueue, getAudioPacket_snd, hnu] at ha hv hm
      refine ⟨queueOnly_trans (queueOnly_trans (getAudioPacket_queueOnly file)
        (getPacket_queueOnly _)) hq, ?_, ?_, ?_, ?_, hx⟩
      · simp only [audioArrivals]
        rw [ha]
        have h1 := head_toList_append_tail (audioQueue file)
        have h2 := arrivals_cons_split (routeAudio (audioId file)) rfl file.container
        simp only [nextUnit, List.append_assoc, Option.toList, List.nil_append] at *
        rw [h2, ← List.append_assoc, h1]
      · simp only [videoArrivals]
        rw [hv]
        have h2 := arrivals_cons_split (routeVideo (audioId file) (videoId file)) rfl
          file.container
        simp only [nextUnit, List.append_assoc] at *
        rw [h2]
      · rw [hf]
      · have h1 := heldCount_head_add_tail (audioQueue file)
        have h2 := route_length_le file (routeAudio (audioId file) (nextUnit file))
          (fun h0 => by rw [h0]; rfl)
        simp only [List.length_append, heldCount] at *
        omega
    · simp only [Option.some.injEq, Prod.mk.injEq] at h
      obtain ⟨rfl, rfl, rfl⟩ := h
      refine ⟨queueOnly_refl _, rfl, rfl, rfl, le_refl _, ?_⟩
      by_contra hcon
      apply hc
      push_neg at hcon
      cases pack with
      | none => exact ⟨rfl, hcon.2⟩
      | some p => simp at hcon

theorem audioPacketLoop_total {σ : Type} (n : Nat) :
    ∀ (file : SDL_ffmpegFile σ) (pack : Option AVPacket) (frame : SDL_ffmpegAudioFrame),
      (file.container.length + 2 ≤ n ∨ ((pack.isSome ∨ frame.last ≠ 0) ∧ 1 ≤ n)) →
      ∃ r, audioPacketLoop n file pack frame = some r := by
  induction n with
  | zero => intro file pack frame h; omega
  | succ n ih =>
    intro file pack frame h
    rw [audioPacketLoop]
    split_ifs with hc
    · apply ih
      have hlen : file.container.length + 2 ≤ n + 1 := by
        rcases h with h | ⟨h, _⟩
        · exact h
        · exfalso
          rcases h with h | h
          · cases pack <;> simp_all
          · exact h hc.2
      simp only [getPacket_container, getAudioPacket_container, getPacket_snd]
      have hnu : nextUnit (SDL_ffmpegGetAudioPacket file).1 = nextUnit file := by
        unfold nextUnit; rw [getAudioPacket_container]
      rw [hnu]
      cases hc2 : file.container with
      | nil =>
        right
        simp only [nextUnit, hc2, List.head?_nil, Option.join]
        simp only [hc2, List.length_nil] at hlen
        refine ⟨Or.inr (by simp), by omega⟩
      | cons u rest =>
        left
        simp only [hc2, List.length_cons, List.tail_cons] at hlen ⊢
        omega
    · exact ⟨_, rfl⟩

theorem getVideoPacket_container {σ : Type} (file : SDL_ffmpegFile σ) :
    (SDL_ffmpegGetVideoPacket file).1.container = file.container := by
  rw [getVideoPacket_fst]

theorem getVideoPacket_audioQueue {σ : Type} (file : SDL_ffmpegFile σ) :
    audioQueue (SDL_ffmpegGetVideoPacket file).1 = audioQueue file := by
  rw [getVideoPacket_fst]; rfl

theorem getVideoPacket_audioId {σ : Type} (file : SDL_ffmpegFile σ) :
    audioId (SDL_ffmpegGetVideoPacket file).1 = audioId file := by
  rw [getVideoPacket_fst]; rfl

theorem getVideoPacket_videoId {σ : Type} (file : SDL_ffmpegFile σ) :
    videoId (SDL_ffmpegGetVideoPacket file).1 = videoId file := by
  rw [getVideoPacket_fst]; unfold videoId; cases file.videoStream <;> simp

theorem videoPacketLoop_spec {σ : Type} (n : Nat) :
    ∀ (file : SDL_ffmpegFile σ) (pack : Option AVPacket) (frame : SDL_ffmpegVideoFrame)
      (file1 : SDL_ffmpegFile σ) (pack1 : Option AVPacket) (frame1 : SDL_ffmpegVideoFrame),
      videoPacketLoop n file pack frame = some (file1, pack1, frame1) →
      QueueOnly file file1 ∧
      pack1.toList ++ videoQueue file1 ++ videoArrivals file file1.container =
        pack.toList ++ videoQueue file ++ videoArrivals file file.container ∧
      audioQueue file1 ++ audioArrivals file file1.container =
        audioQueue file ++ audioArrivals file file.container ∧
      frame1 = { frame with last := frame1.last } ∧
      heldCount pack1 + (videoQueue file1).length + file1.container.length ≤
        heldCount pack + (videoQueue file).length + file.container.length ∧
      (pack1.isSome ∨ frame1.last ≠ 0) := by
  induction n with
  | zero => intro file pack frame file1 pack1 frame1 h; simp [videoPacketLoop] at h
  | succ n ih =>
    intro file pack frame file1 pack1 frame1 h
    rw [videoPacketLoop] at h
    split_ifs at h with hc
    · obtain ⟨hq, hv, ha, hf, hm, hx⟩ := ih _ _ _ _ _ _ h
      have hpack : pack = none := by
        cases pack with
        | none => rfl
        | some p => simp at hc
      subst hpack
      have hnu : nextUnit (SDL_ffmpegGetVideoPacket file).1 = nextUnit file := by
        unfold nextUnit; rw [getVideoPacket_container]
      simp only [audioArrivals, videoArrivals, getPacket_audioId, getPacket_videoId,
        getVideoPacket_audioId, getVideoPacket_videoId, getPacket_audioQueue,
        getPacket_videoQueue, getPacket_container, getVideoPacket_container,
        getVideoPacket_audioQueue, getVideoPacket_videoQueue, getVideoPacket_snd, hnu]
        at ha hv hm
      refine ⟨queueOnly_trans (queueOnly_trans (getVideoPacket_queueOnly file)
        (getPacket_queueOnly _)) hq, ?_, ?_, ?_, ?_, hx⟩
      · simp only [videoArrivals]
        rw [hv]
        have h1 := head_toList_append_tail (videoQueue file)
        have h2 := arrivals_cons_split (routeVideo (audioId file) (videoId file)) rfl
          file.container
        simp only [nextUnit, List.append_assoc, Option.toList, List.nil_append] at *
        rw [h2, ← List.append_assoc, h1]
      · simp only [audioArrivals]
        rw [ha]
        have h2 := arrivals_cons_split (routeAudio (audioId file)) rfl file.container
        simp only [nextUnit, List.append_assoc] at *
        rw [h2]
      · rw [hf]
      · have h1 := heldCount_head_add_tail (videoQueue file)
        have h2 := route_length_le file (routeVideo (audioId file) (videoId file)
          (nextUnit file)) (fun h0 => by rw [h0]; rfl)
        simp only [List.length_append, heldCount] at *
        omega
    · simp only [Option.some.injEq, Prod.mk.injEq] at h
      obtain ⟨rfl, rfl, rfl⟩ := h
      refine ⟨queueOnly_refl _, rfl, rfl, rfl, le_refl _, ?_⟩
      by_contra hcon
      apply hc
      push_neg at hcon
      cases pack with
      | none => exact ⟨rfl, hcon.2⟩
      | some p => simp at hcon

theorem videoPacketLoop_total {σ : Type} (n : Nat) :
    ∀ (file : SDL_ffmpegFile σ) (pack : Option AVPacket) (frame : SDL_ffmpegVideoFrame),
      (file.container.length + 2 ≤ n ∨ ((pack.isSome ∨ frame.last ≠ 0) ∧ 1 ≤ n)) →
      ∃ r, videoPacketLoop n file pack frame = some r := by
  induction n with
  | zero => intro file pack frame h; omega
  | succ n ih =>
    intro file pack frame h
    rw [videoPacketLoop]
    split_ifs with hc
    · apply ih
      have hlen : file.container.length + 2 ≤ n + 1 := by
        rcases h with h | ⟨h, _⟩
        · exact h
        · exfalso
          rcases h with h | h
          · cases pack <;> simp_all
          · exact h hc.2
      simp only [getPacket_container, getVideoPacket_container, getPacket_snd]
      have hnu : nextUnit (SDL_ffmpegGetVideoPacket file).1 = nextUnit file := by
        unfold nextUnit; rw [getVideoPacket_container]
      rw [hnu]
      cases hc2 : file.container with
      | nil =>
        right
        simp only [nextUnit, hc2, List.head?_nil, Option.join]
        simp only [hc2, List.length_nil] at hlen
        refine ⟨Or.inr (by simp), by omega⟩
      | cons u rest =>
        left
        simp only [hc2, List.length_cons, List.tail_cons] at hlen ⊢
        omega
    · exact ⟨_, rfl⟩

/-! ## The audio decode step -/

theorem decodeAudioLoop_total {σ : Type} (lib : Lib σ) (n : Nat) :
    ∀ (codec : σ) (hurry : Int) (samples : List Nat) (audioSize size : Int) (pack : AVPacket)
      (sink : ErrorSink), size.toNat + 1 ≤ n →
      ∃ r, decodeAudioLoop lib n codec hurry samples audioSize size pack sink = some r := by
  induction n with
  | zero => intro codec hurry samples audioSize size pack sink h; omega
  | succ n ih =>
    intro codec hurry samples audioSize size pack sink h
    simp only [decodeAudioLoop]
    split_ifs with h1 h2
    · exact ⟨_, rfl⟩
    · apply ih
      push_neg at h2
      omega
    · exact ⟨_, rfl⟩

theorem decodeAudioLoop_audioSize {σ : Type} (lib : Lib σ)
    (hdec : ∀ codec hurry samples audioSize pack,
      0 ≤ (lib.avcodec_decode_audio3 codec hurry samples audioSize pack).audioSize) (n : Nat) :
    ∀ (codec : σ) (hurry : Int) (samples : List Nat) (audioSize size : Int) (pack : AVPacket)
      (sink : ErrorSink) (r : σ × List Nat × Int × ErrorSink), 0 ≤ audioSize →
      decodeAudioLoop lib n codec hurry samples audioSize size pack sink = some r →
      0 ≤ r.2.2.1 := by
  induction n with
  | zero => intro codec hurry samples audioSize size pack sink r _ h; simp [decodeAudioLoop] at h
  | succ n ih =>
    intro codec hurry samples audioSize size pack sink r h0 h
    simp only [decodeAudioLoop] at h
    split_ifs at h with h1 h2
    · simp only [Option.some.injEq] at h
      subst h
      exact hdec _ _ _ _ _
    · exact ih _ _ _ _ _ _ _ _ (hdec _ _ _ _ _) h
    · simp only [Option.some.injEq] at h
      subst h
      exact h0

/-! ## What the queue operations leave alone -/

theorem queueOnly_obs {σ : Type} {file file1 : SDL_ffmpegFile σ} (h : QueueOnly file file1) :
    audioRest file1 = audioRest file ∧ videoRest file1 = videoRest file ∧
    file1.minimalTimestamp = file.minimalTimestamp ∧ file1.type = file.type ∧
    file1.duration = file.duration ∧ file1.sink = file.sink := by
  unfold QueueOnly at h
  rw [h]
  unfold requeue audioRest videoRest
  cases file.audioStream <;> cases file.videoStream <;> simp

theorem audioRest_obs {σ : Type} {file file1 : SDL_ffmpegFile σ}
    (h : audioRest file1 = audioRest file) :
    audioId file1 = audioId file ∧ audioTrace file1 = audioTrace file ∧
    file1.audioStream.map streamFixed = file.audioStream.map streamFixed ∧
    file1.audioStream.map (fun s => s.lastTimeStamp) =
      file.audioStream.map (fun s => s.lastTimeStamp) := by
  unfold audioRest at h
  unfold audioId audioTrace streamFixed
  cases h1 : file1.audioStream with
  | none =>
    cases h0 : file.audioStream with
    | none => simp
    | some s => simp [h1, h0] at h
  | some s1 =>
    cases h0 : file.audioStream with
    | none => simp [h1, h0] at h
    | some s =>
      simp only [h1, h0, Option.map_some', Option.some.injEq] at h
      have e1 := congrArg (fun s : SDL_ffmpegStream σ => s.id) h
      have e2 := congrArg (fun s : SDL_ffmpegStream σ => s.trace) h
      have e3 := congrArg (fun s : SDL_ffmpegStream σ => s.start_time) h
      have e4 := congrArg (fun s : SDL_ffmpegStream σ => s.time_base_num) h
      have e5 := congrArg (fun s : SDL_ffmpegStream σ => s.time_base_den) h
      have e6 := congrArg (fun s : SDL_ffmpegStream σ => s.lastTimeStamp) h
      simp only at e1 e2 e3 e4 e5 e6
      simp [e1, e2, e3, e4, e5, e6]

theorem videoRest_obs {σ : Type} {file file1 : SDL_ffmpegFile σ}
    (h : videoRest file1 = videoRest file) :
    videoId file1 = videoId file ∧ videoTrace file1 = videoTrace file ∧
    file1.videoStream.map streamFixed = file.videoStream.map streamFixed ∧
    file1.videoStream.map (fun s => s.lastTimeStamp) =
      file.videoStream.map (fun s => s.lastTimeStamp) := by
  unfold videoRest at h
  unfold videoId videoTrace streamFixed
  cases h1 : file1.videoStream with
  | none =>
    cases h0 : file.videoStream with
    | none => simp
    | some s => simp [h1, h0] at h
  | some s1 =>
    cases h0 : file.videoStream with
    | none => simp [h1, h0] at h
    | some s =>
      simp only [h1, h0, Option.map_some', Option.some.injEq] at h
      have e1 := congrArg (fun s : SDL_ffmpegStream σ => s.id) h
      have e2 := congrArg (fun s : SDL_ffmpegStream σ => s.trace) h
      have e3 := congrArg (fun s : SDL_ffmpegStream σ => s.start_time) h
      have e4 := congrArg (fun s : SDL_ffmpegStream σ => s.time_base_num) h
      have e5 := congrArg (fun s : SDL_ffmpegStream σ => s.time_base_den) h
      have e6 := congrArg (fun s : SDL_ffmpegStream σ => s.lastTimeStamp) h
      simp only at e1 e2 e3 e4 e5 e6
      simp [e1, e2, e3, e4, e5, e6]

theorem fixed_id {σ : Type} {file file1 : SDL_ffmpegFile σ}
    (h : file1.audioStream.map streamFixed = file.audioStream.map streamFixed) :
    audioId file1 = audioId file := by
  have := congrArg (Option.map (fun t : Int × Int × Int × Int => t.1)) h
  simpa [audioId, streamFixed, Option.map_map, Function.comp] using this

theorem fixed_id_video {σ : Type} {file file1 : SDL_ffmpegFile σ}
    (h : file1.videoStream.map streamFixed = file.videoStream.map streamFixed) :
    videoId file1 = videoId file := by
  have := congrArg (Option.map (fun t : Int × Int × Int × Int => t.1)) h
  simpa [videoId, streamFixed, Option.map_map, Function.comp] using this

theorem nextAudioPacket_spec {σ : Type} (file file1 : SDL_ffmpegFile σ)
    (frame frame1 : SDL_ffmpegAudioFrame) (pack1 : Option AVPacket)
    (h : nextAudioPacket file frame = some (file1, pack1, frame1)) :
    QueueOnly file file1 ∧
    pack1.toList ++ audioQueue file1 ++ audioArrivals file file1.container =
      audioQueue file ++ audioArrivals file file.container ∧
    videoQueue file1 ++ videoArrivals file file1.container =
      videoQueue file ++ videoArrivals file file.container ∧
    frame1 = { frame with last := frame1.last } ∧
    heldCount pack1 + (audioQueue file1).length + file1.container.length ≤
      (audioQueue file).length + file.container.length ∧
    (pack1.isSome ∨ frame1.last ≠ 0) := by
  unfold nextAudioPacket at h
  obtain ⟨hq, ha, hv, hf, hm, hx⟩ := audioPacketLoop_spec _ _ _ _ _ _ _ h
  simp only [audioArrivals, videoArrivals, getAudioPacket_audioId, getAudioPacket_videoId,
    getAudioPacket_container, getAudioPacket_audioQueue, getAudioPacket_videoQueue,
    getAudioPacket_snd] at ha hv hm
  refine ⟨queueOnly_trans (getAudioPacket_queueOnly file) hq, ?_, hv, hf, ?_, hx⟩
  · simp only [audioArrivals]
    rw [ha, head_toList_append_tail]
  · have := heldCount_head_add_tail (audioQueue file)
    omega

theorem nextAudioPacket_total {σ : Type} (file : SDL_ffmpegFile σ)
    (frame : SDL_ffmpegAudioFrame) : ∃ r, nextAudioPacket file frame = some r := by
  unfold nextAudioPacket
  apply audioPacketLoop_total
  left
  simp [readFuel]

theorem nextVideoPacket_spec {σ : Type} (file file1 : SDL_ffmpegFile σ)
    (frame frame1 : SDL_ffmpegVideoFrame) (pack1 : Option AVPacket)
    (h : nextVideoPacket file frame = some (file1, pack1, frame1)) :
    QueueOnly file file1 ∧
    pack1.toList ++ videoQueue file1 ++ videoArrivals file file1.container =
      videoQueue file ++ videoArrivals file file.container ∧
    audioQueue file1 ++ audioArrivals file file1.container =
      audioQueue file ++ audioArrivals file file.container ∧
    frame1 = { frame with last := frame1.last } ∧
    heldCount pack1 + (videoQueue file1).length + file1.container.length ≤
      (videoQueue file).length + file.container.length ∧
    (pack1.isSome ∨ frame1.last ≠ 0) := by
  unfold nextVideoPacket at h
  obtain ⟨hq, hv, ha, hf, hm, hx⟩ := videoPacketLoop_spec _ _ _ _ _ _ _ h
  simp only [audioArrivals, videoArrivals, getVideoPacket_audioId, getVideoPacket_videoId,
    getVideoPacket_container, getVideoPacket_audioQueue, getVideoPacket_videoQueue,
    getVideoPacket_snd] at ha hv hm
  refine ⟨queueOnly_trans (getVideoPacket_queueOnly file) hq, ?_, ha, hf, ?_, hx⟩
  · simp only [videoArrivals]
    rw [hv, head_toList_append_tail]
  · have := heldCount_head_add_tail (videoQueue file)
    omega

theorem nextVideoPacket_total {σ : Type} (file : SDL_ffmpegFile σ)
    (frame : SDL_ffmpegVideoFrame) : ∃ r, nextVideoPacket file frame = some r := by
  unfold nextVideoPacket
  apply videoPacketLoop_total
  left
  simp [readFuel]

theorem afterLeftover_fields {σ : Type} (s : SDL_ffmpegStream σ) (frame : SDL_ffmpegAudioFrame) :
    (afterLeftover s frame).1.id = s.id ∧ (afterLeftover s frame).1.buffer = s.buffer ∧
    (afterLeftover s frame).1.start_time = s.start_time ∧
    (afterLeftover s frame).1.time_base_num = s.time_base_num ∧
    (afterLeftover s frame).1.time_base_den = s.time_base_den ∧
    (afterLeftover s frame).1.lastTimeStamp = s.lastTimeStamp ∧
    (afterLeftover s frame).1.trace = s.trace ∧
    (afterLeftover s frame).1.sampleBufferTime = s.sampleBufferTime ∧
    (afterLeftover s frame).1.sampleBuffer = s.sampleBuffer ∧
    (afterLeftover s frame).1.codec = s.codec ∧
    (afterLeftover s frame).2.capacity = frame.capacity ∧
    (afterLeftover s frame).2.last = frame.last := by
  unfold afterLeftover copyLeftover
  dsimp only
  split_ifs <;> simp

theorem finishDecode_fields {σ : Type} (s : SDL_ffmpegStream σ) (frame : SDL_ffmpegAudioFrame)
    (pack : AVPacket) (time hurry : Int) (codec : σ) (samples : List Nat) (audioSize : Int) :
    (finishDecode s frame pack time hurry codec samples audioSize).1.id = s.id ∧
    (finishDecode s frame pack time hurry codec samples audioSize).1.buffer = s.buffer ∧
    (finishDecode s frame pack time hurry codec samples audioSize).1.start_time = s.start_time ∧
    (finishDecode s frame pack time hurry codec samples audioSize).1.time_base_num =
      s.time_base_num ∧
    (finishDecode s frame pack time hurry codec samples audioSize).1.time_base_den =
      s.time_base_den ∧
    (finishDecode s frame pack time hurry codec samples audioSize).1.lastTimeStamp =
      s.lastTimeStamp ∧
    (finishDecode s frame pack time hurry codec samples audioSize).1.trace =
      s.trace ++ [{ pack := pack, time := time, hurry := hurry, size := audioSize,
                    chunk := samples.take audioSize.toNat }] ∧
    (finishDecode s frame pack time hurry codec samples audioSize).1.sampleBufferTime = time ∧
    (finishDecode s frame pack time hurry codec samples audioSize).1.sampleBuffer = samples ∧
    (finishDecode s frame pack time hurry codec samples audioSize).2.capacity = frame.capacity ∧
    (finishDecode s frame pack time hurry codec samples audioSize).2.last = frame.last := by
  unfold finishDecode storeDecoded
  dsimp only
  split_ifs <;> simp

/-- The two ways out of `SDL_ffmpegDecodeAudioFrame`, as a case
distinction on the model. -/
theorem decodeAudio_cases {σ : Type} (lib : Lib σ) (file file1 : SDL_ffmpegFile σ)
    (pack : AVPacket) (frame frame1 : SDL_ffmpegAudioFrame) (ret : Int)
    (h : SDL_ffmpegDecodeAudioFrame lib file pack frame = some (file1, frame1, ret)) :
    ∃ s, file.audioStream = some s ∧
      ((ret = 0 ∧ s.sampleBufferSize ≠ 0 ∧
          (afterLeftover s frame).2.size = (afterLeftover s frame).2.capacity ∧
          file1 = { file with audioStream := some (afterLeftover s frame).1 } ∧
          frame1 = (afterLeftover s frame).2) ∨
       (ret = 1 ∧
          ¬(s.sampleBufferSize ≠ 0 ∧
            (afterLeftover s frame).2.size = (afterLeftover s frame).2.capacity) ∧
          ∃ codec samples audioSize sink,
            decodeAudioLoop lib (pack.size.toNat + 1) (afterLeftover s frame).1.codec
              (hurryFor (dtsTime (afterLeftover s frame).1 pack) file.minimalTimestamp)
              (afterLeftover s frame).1.sampleBuffer (AVCODEC_MAX_AUDIO_FRAME_SIZE * 2)
              pack.size pack file.sink = some (codec, samples, audioSize, sink) ∧
            file1 = { file with
              audioStream := some (finishDecode (afterLeftover s frame).1
                (afterLeftover s frame).2 pack (dtsTime (afterLeftover s frame).1 pack)
                (hurryFor (dtsTime (afterLeftover s frame).1 pack) file.minimalTimestamp)
                codec samples audioSize).1
              sink := sink } ∧
            frame1 = (finishDecode (afterLeftover s frame).1
                (afterLeftover s frame).2 pack (dtsTime (afterLeftover s frame).1 pack)
                (hurryFor (dtsTime (afterLeftover s frame).1 pack) file.minimalTimestamp)
                codec samples audioSize).2)) := by
  unfold SDL_ffmpegDecodeAudioFrame at h
  cases hs : file.audioStream with
  | none => simp [hs] at h
  | some s =>
    refine ⟨s, rfl, ?_⟩
    simp only [hs] at h
    split_ifs at h with hc
    · left
      simp only [Option.some.injEq, Prod.mk.injEq] at h
      obtain ⟨h1, h2, h3⟩ := h
      exact ⟨h3.symm, hc.1, hc.2, by rw [← h1], h2.symm⟩
    · right
      split at h
      · simp at h
      · rename_i codec samples audioSize sink hloop
        simp only [Option.some.injEq, Prod.mk.injEq] at h
        obtain ⟨h1, h2, h3⟩ := h
        exact ⟨h3.symm, hc, codec, samples, audioSize, sink, hloop, by rw [← h1], h2.symm⟩

theorem decodeAudio_total {σ : Type} (lib : Lib σ) (file : SDL_ffmpegFile σ)
    (pack : AVPacket) (frame : SDL_ffmpegAudioFrame) (h : file.audioStream ≠ none) :
    ∃ r, SDL_ffmpegDecodeAudioFrame lib file pack frame = some r := by
  unfold SDL_ffmpegDecodeAudioFrame
  cases hs : file.audioStream with
  | none => exact absurd hs h
  | some s =>
    simp only
    split_ifs with hc
    · exact ⟨_, rfl⟩
    · obtain ⟨r, hr⟩ := decodeAudioLoop_total lib (pack.size.toNat + 1)
        (afterLeftover s frame).1.codec
        (hurryFor (dtsTime (afterLeftover s frame).1 pack) file.minimalTimestamp)
        (afterLeftover s frame).1.sampleBuffer (AVCODEC_MAX_AUDIO_FRAME_SIZE * 2)
        pack.size pack file.sink (le_refl _)
      rw [hr]
      exact ⟨_, rfl⟩

/-! ## The audio fetch: order of the packets and what stays unchanged -/

theorem audioDecodeLoop_induct {σ : Type} (lib : Lib σ)
    (P Q : SDL_ffmpegFile σ → Option AVPacket → SDL_ffmpegAudioFrame → Prop)
    (R : SDL_ffmpegFile σ → SDL_ffmpegAudioFrame → Prop)
    (hnone : ∀ file frame, P file none frame → Q file none frame)
    (hdec : ∀ file p frame file1 frame1 ret, P file (some p) frame →
      SDL_ffmpegDecodeAudioFrame lib file p frame = some (file1, frame1, ret) →
      (ret = 0 → Q file1 (some p) frame1) ∧ (ret ≠ 0 → R file1 frame1))
    (hfull : ∀ file frame, R file frame → ¬frame.size < frame.capacity → Q file none frame)
    (hnext : ∀ file frame file1 pack1 frame1, R file frame →
      frame.size < frame.capacity →
      nextAudioPacket file frame = some (file1, pack1, frame1) → P file1 pack1 frame1)
    (n : Nat) :
    ∀ file pack frame file2 pack2 frame2, P file pack frame →
      audioDecodeLoop lib n file pack frame = some (file2, pack2, frame2) →
      Q file2 pack2 frame2 := by
  induction n with
  | zero => intro file pack frame file2 pack2 frame2 _ h; simp [audioDecodeLoop] at h
  | succ n ih =>
    intro file pack frame file2 pack2 frame2 hP h
    cases pack with
    | none =>
      simp only [audioDecodeLoop, Option.some.injEq, Prod.mk.injEq] at h
      obtain ⟨rfl, rfl, rfl⟩ := h
      exact hnone _ _ hP
    | some p =>
      simp only [audioDecodeLoop] at h
      split at h
      · simp at h
      · rename_i file1 frame1 ret hd
        obtain ⟨h0, h1⟩ := hdec _ _ _ _ _ _ hP hd
        split_ifs at h with hr hs
        · simp only [Option.some.injEq, Prod.mk.injEq] at h
          obtain ⟨rfl, rfl, rfl⟩ := h
          exact h0 hr
        · split at h
          · simp at h
          · rename_i file3 pack3 frame3 hn
            exact ih _ _ _ _ _ _ (hnext _ _ _ _ _ (h1 hr) hs hn) h
        · cases n with
          | zero => simp [audioDecodeLoop] at h
          | succ m =>
            simp only [audioDecodeLoop, Option.some.injEq, Prod.mk.injEq] at h
            obtain ⟨rfl, rfl, rfl⟩ := h
            exact hfull _ _ (h1 hr) hs

theorem audioInv_refl {σ : Type} (file0 : SDL_ffmpegFile σ) : AudioFetchInv file0 file0 none where
  fixed := rfl
  stamp := rfl
  video := rfl
  gate := rfl
  type := rfl
  duration := rfl
  grow := ⟨[], by simp⟩
  audioSeq := by simp [pendingAudio]
  videoSeq := rfl

theorem audioInv_next {σ : Type} {file0 file file1 : SDL_ffmpegFile σ}
    {frame frame1 : SDL_ffmpegAudioFrame} {pack1 : Option AVPacket}
    (hI : AudioFetchInv file0 file none)
    (h : nextAudioPacket file frame = some (file1, pack1, frame1)) :
    AudioFetchInv file0 file1 pack1 := by
  obtain ⟨hq, ha, hv, -, -, -⟩ := nextAudioPacket_spec _ _ _ _ _ h
  obtain ⟨hra, hrv, hg, ht, hd, -⟩ := queueOnly_obs hq
  obtain ⟨hid, htr, hfx, hst⟩ := audioRest_obs hra
  have hida : audioId file = audioId file0 := fixed_id hI.fixed
  have hidv : videoId file = videoId file0 := (videoRest_obs hI.video).1
  have hA : audioArrivals file = audioArrivals file0 := by
    funext u; simp only [audioArrivals, hida]
  have hV : videoArrivals file = videoArrivals file0 := by
    funext u; simp only [videoArrivals, hida, hidv]
  rw [hA] at ha
  rw [hV] at hv
  exact {
    fixed := hfx.trans hI.fixed
    stamp := hst.trans hI.stamp
    video := hrv.trans hI.video
    gate := hg.trans hI.gate
    type := ht.trans hI.type
    duration := hd.trans hI.duration
    grow := by rw [htr]; exact hI.grow
    audioSeq := by
      have h0 := hI.audioSeq
      have e : (none : Option AVPacket).toList = [] := rfl
      rw [e, List.append_nil] at h0
      rw [← h0]
      simp only [usedAudio, htr, List.append_assoc] at ha ⊢
      rw [ha]
    videoSeq := by rw [hv]; exact hI.videoSeq }

theorem audioInv_decode {σ : Type} {lib : Lib σ} {file0 file file1 : SDL_ffmpegFile σ}
    {frame frame1 : SDL_ffmpegAudioFrame} {p : AVPacket} {ret : Int}
    (hI : AudioFetchInv file0 file (some p))
    (h : SDL_ffmpegDecodeAudioFrame lib file p frame = some (file1, frame1, ret)) :
    (ret = 0 → AudioFetchInv file0 file1 (some p)) ∧
    (ret ≠ 0 → AudioFetchInv file0 file1 none) := by
  obtain ⟨s, hs, hcase⟩ := decodeAudio_cases lib _ _ _ _ _ _ h
  have hl := afterLeftover_fields s frame
  rcases hcase with ⟨hr, -, -, hf, -⟩ | ⟨hr, -, codec, samples, audioSize, sink, -, hf, -⟩
  · have hI1 : AudioFetchInv file0 file1 (some p) := by
      have hseq := hI.audioSeq
      have hfx := hI.fixed
      have hst := hI.stamp
      rw [hf]
      exact {
        fixed := by simpa [hs, streamFixed, hl] using hfx
        stamp := by simpa [hs, hl] using hst
        video := hI.video
        gate := hI.gate
        type := hI.type
        duration := hI.duration
        grow := by
          obtain ⟨new, hnew⟩ := hI.grow
          exact ⟨new, by simpa [audioTrace, hs, hl] using hnew⟩
        audioSeq := by
          simpa [usedAudio, audioTrace, audioQueue, hs, hl] using hseq
        videoSeq := hI.videoSeq }
    exact ⟨fun _ => hI1, fun hne => absurd hr hne⟩
  · have hfd := finishDecode_fields (afterLeftover s frame).1 (afterLeftover s frame).2 p
      (dtsTime (afterLeftover s frame).1 p)
      (hurryFor (dtsTime (afterLeftover s frame).1 p) file.minimalTimestamp)
      codec samples audioSize
    have hI1 : AudioFetchInv file0 file1 none := by
      have hseq := hI.audioSeq
      have hfx := hI.fixed
      have hst := hI.stamp
      rw [hf]
      exact {
        fixed := by simpa [hs, streamFixed, hl, hfd] using hfx
        stamp := by simpa [hs, hl, hfd] using hst
        video := hI.video
        gate := hI.gate
        type := hI.type
        duration := hI.duration
        grow := by
          obtain ⟨new, hnew⟩ := hI.grow
          simp only [audioTrace, hs] at hnew
          have ht := hfd.2.2.2.2.2.2.1
          rw [hl.2.2.2.2.2.2.1, hnew, List.append_assoc] at ht
          exact ⟨_, ht⟩
        audioSeq := by
          simpa [usedAudio, audioTrace, audioQueue, hs, hl, hfd] using hseq
        videoSeq := hI.videoSeq }
    exact ⟨fun h0 => by omega, fun _ => hI1⟩

theorem audioInv_pushBack {σ : Type} {file0 file : SDL_ffmpegFile σ} {p : AVPacket}
    (hI : AudioFetchInv file0 file (some p)) (hs : file.audioStream ≠ none) :
    AudioFetchInv file0 (pushBackAudio file p) none := by
  cases h : file.audioStream with
  | none => exact absurd h hs
  | some s =>
    have hseq := hI.audioSeq
    have hfx := hI.fixed
    have hst := hI.stamp
    unfold pushBackAudio
    simp only [h]
    exact {
      fixed := by simpa [h, streamFixed] using hfx
      stamp := by simpa [h] using hst
      video := hI.video
      gate := hI.gate
      type := hI.type
      duration := hI.duration
      grow := by
        obtain ⟨new, hnew⟩ := hI.grow
        exact ⟨new, by simpa [audioTrace, h] using hnew⟩
      audioSeq := by simpa [usedAudio, audioTrace, audioQueue, h] using hseq
      videoSeq := hI.videoSeq }

theorem decodeAudio_queues {σ : Type} {lib : Lib σ} {file file1 : SDL_ffmpegFile σ}
    {frame frame1 : SDL_ffmpegAudioFrame} {p : AVPacket} {ret : Int}
    (h : SDL_ffmpegDecodeAudioFrame lib file p frame = some (file1, frame1, ret)) :
    audioQueue file1 = audioQueue file ∧ file1.container = file.container ∧
    file1.audioStream ≠ none ∧ frame1.capacity = frame.capacity ∧ frame1.last = frame.last ∧
    (ret = 0 ∨ ret = 1) ∧ (ret = 0 → frame1.size = frame1.capacity) := by
  obtain ⟨s, hs, hcase⟩ := decodeAudio_cases lib _ _ _ _ _ _ h
  have hl := afterLeftover_fields s frame
  rcases hcase with ⟨hr, -, hsz, hf, hfr⟩ | ⟨hr, -, codec, samples, audioSize, sink, -, hf, hfr⟩
  · rw [hf, hfr]
    refine ⟨by simp [audioQueue, hs, hl], rfl, by simp, hl.2.2.2.2.2.2.2.2.2.2.1,
      hl.2.2.2.2.2.2.2.2.2.2.2, Or.inl hr, fun _ => hsz⟩
  · have hfd := finishDecode_fields (afterLeftover s frame).1 (afterLeftover s frame).2 p
      (dtsTime (afterLeftover s frame).1 p)
      (hurryFor (dtsTime (afterLeftover s frame).1 p) file.minimalTimestamp)
      codec samples audioSize
    rw [hf, hfr]
    refine ⟨by simp [audioQueue, hs, hl, hfd], rfl, by simp, ?_, ?_, Or.inr hr,
      fun h0 => by omega⟩
    · rw [hfd.2.2.2.2.2.2.2.2.2.1, hl.2.2.2.2.2.2.2.2.2.2.1]
    · rw [hfd.2.2.2.2.2.2.2.2.2.2, hl.2.2.2.2.2.2.2.2.2.2.2]

theorem queueOnly_audioSome {σ : Type} {file file1 : SDL_ffmpegFile σ} (h : QueueOnly file file1)
    (hs : file.audioStream ≠ none) : file1.audioStream ≠ none := by
  have := (queueOnly_obs h).1
  unfold audioRest at this
  intro h1
  rw [h1] at this
  cases h0 : file.audioStream with
  | none => exact hs h0
  | some s => simp [h0] at this

theorem queueOnly_videoSome {σ : Type} {file file1 : SDL_ffmpegFile σ} (h : QueueOnly file file1)
    (hs : file.videoStream ≠ none) : file1.videoStream ≠ none := by
  have := (queueOnly_obs h).2.1
  unfold videoRest at this
  intro h1
  rw [h1] at this
  cases h0 : file.videoStream with
  | none => exact hs h0
  | some s => simp [h0] at this

theorem audioDecodeLoop_total {σ : Type} (lib : Lib σ) (n : Nat) :
    ∀ (file : SDL_ffmpegFile σ) (pack : Option AVPacket) (frame : SDL_ffmpegAudioFrame),
      file.audioStream ≠ none →
      heldCount pack + (audioQueue file).length + file.container.length + 1 ≤ n →
      ∃ r, audioDecodeLoop lib n file pack frame = some r := by
  induction n with
  | zero => intro file pack frame _ h; omega
  | succ n ih =>
    intro file pack frame hs hn
    cases pack with
    | none => exact ⟨(file, none, frame), by simp [audioDecodeLoop]⟩
    | some p =>
      obtain ⟨⟨file1, frame1, ret⟩, hd⟩ := decodeAudio_total lib file p frame hs
      obtain ⟨hq, hc, hs1, -, -, -, -⟩ := decodeAudio_queues hd
      simp only [audioDecodeLoop, hd]
      split_ifs with hr hsz
      · exact ⟨_, rfl⟩
      · obtain ⟨⟨file2, pack2, frame2⟩, hnx⟩ := nextAudioPacket_total file1 frame1
        obtain ⟨hqo, -, -, -, hm, -⟩ := nextAudioPacket_spec _ _ _ _ _ hnx
        simp only [hnx]
        apply ih _ _ _ (queueOnly_audioSome hqo hs1)
        simp only [heldCount] at hn
        rw [hq, hc] at hm
        omega
      · apply ih _ _ _ hs1
        simp only [heldCount] at hn ⊢
        rw [hq, hc]
        omega

theorem getAudioFrame_total {σ : Type} (lib : Lib σ) (file : SDL_ffmpegFile σ)
    (frame : SDL_ffmpegAudioFrame) : ∃ r, SDL_ffmpegGetAudioFrame lib file frame = some r := by
  unfold SDL_ffmpegGetAudioFrame
  cases hs : file.audioStream with
  | none => exact ⟨_, rfl⟩
  | some s =>
    simp only
    obtain ⟨⟨file1, pack1, frame1⟩, hnx⟩ :=
      nextAudioPacket_total file { frame with last := 0, size := 0 }
    obtain ⟨hqo, -, -, -, hm, -⟩ := nextAudioPacket_spec _ _ _ _ _ hnx
    have hs1 : file1.audioStream ≠ none := queueOnly_audioSome hqo (by simp [hs])
    obtain ⟨⟨file2, pack2, frame2⟩, hlp⟩ := audioDecodeLoop_total lib (audioFuel file1) file1
      pack1 frame1 hs1 (by
        have : audioFuel file1 = (audioQueue file1).length + file1.container.length + 2 := by
          unfold audioFuel audioQueue
          cases file1.audioStream <;> rfl
        have : heldCount pack1 ≤ 1 := by cases pack1 <;> simp [heldCount]
        omega)
    simp only [hnx, hlp]
    exact ⟨_, rfl⟩

theorem getAudioFrame_inv {σ : Type} {lib : Lib σ} {file file1 : SDL_ffmpegFile σ}
    {frame frame1 : SDL_ffmpegAudioFrame} {ret : Int}
    (h : SDL_ffmpegGetAudioFrame lib file frame = some (file1, frame1, ret)) :
    AudioFetchInv file file1 none := by
  unfold SDL_ffmpegGetAudioFrame at h
  cases hs : file.audioStream with
  | none =>
    simp only [hs, Option.some.injEq, Prod.mk.injEq] at h
    obtain ⟨rfl, -, -⟩ := h
    exact {
      fixed := by simp [hs]
      stamp := by simp [hs]
      video := rfl
      gate := rfl
      type := rfl
      duration := rfl
      grow := ⟨[], by simp [audioTrace, hs]⟩
      audioSeq := by
        simp [pendingAudio, usedAudio, audioTrace, audioQueue, audioArrivals, audioId, hs]
      videoSeq := by simp [pendingVideo, videoQueue] }
  | some s =>
    simp only [hs] at h
    split at h
    · simp at h
    · rename_i file2 pack2 frame2 hnx
      split at h
      · simp at h
      · rename_i file3 pack3 frame3 hlp
        have hI2 : AudioFetchInv file file2 pack2 := audioInv_next (audioInv_refl file) hnx
        have hs2 : file2.audioStream ≠ none :=
          queueOnly_audioSome (nextAudioPacket_spec _ _ _ _ _ hnx).1 (by simp [hs])
        have hI3 : AudioFetchInv file file3 pack3 ∧ file3.audioStream ≠ none := by
          refine audioDecodeLoop_induct lib
            (fun f p _ => AudioFetchInv file f p ∧ f.audioStream ≠ none)
            (fun f p _ => AudioFetchInv file f p ∧ f.audioStream ≠ none)
            (fun f _ => AudioFetchInv file f none ∧ f.audioStream ≠ none)
            (fun _ _ hP => hP) ?_ (fun _ _ hR _ => hR) ?_ _ _ _ _ _ _ _ ⟨hI2, hs2⟩ hlp
          · intro f p fr f1 fr1 r hP hd
            obtain ⟨h0, h1⟩ := audioInv_decode hP.1 hd
            have hs1 := (decodeAudio_queues hd).2.2.1
            exact ⟨fun hr => ⟨h0 hr, hs1⟩, fun hr => ⟨h1 hr, hs1⟩⟩
          · intro f fr f1 p1 fr1 hP _ hn
            exact ⟨audioInv_next hP.1 hn,
              queueOnly_audioSome (nextAudioPacket_spec _ _ _ _ _ hn).1 hP.2⟩
        simp only [Option.some.injEq, Prod.mk.injEq] at h
        obtain ⟨rfl, -, -⟩ := h
        cases pack3 with
        | none => exact hI3.1
        | some p => exact audioInv_pushBack hI3.1 hI3.2

/-! ## The video fetch: order of the packets and what stays unchanged -/

theorem convertPicture_fields {σ : Type} (lib : Lib σ) (picture : AVFrame)
    (frame : SDL_ffmpegVideoFrame) :
    (convertPicture lib picture frame).pts = frame.pts ∧
    (convertPicture lib picture frame).ready = frame.ready ∧
    (convertPicture lib picture frame).last = frame.last := by
  obtain ⟨pts, sf, ov, rd, la⟩ := frame
  cases ov with
  | none => cases sf <;> simp [convertPicture]
  | some o =>
    by_cases ho : o.format = SDL_YUY2_OVERLAY <;> cases sf <;> simp [convertPicture, ho]

theorem decodeVideoPacket_fields {σ : Type} (lib : Lib σ) (gate : Int)
    (s : SDL_ffmpegStream σ) (pack : Option AVPacket) (frame : SDL_ffmpegVideoFrame) :
    (decodeVideoPacket lib gate s pack frame).1.id = s.id ∧
    (decodeVideoPacket lib gate s pack frame).1.buffer = s.buffer ∧
    (decodeVideoPacket lib gate s pack frame).1.start_time = s.start_time ∧
    (decodeVideoPacket lib gate s pack frame).1.time_base_num = s.time_base_num ∧
    (decodeVideoPacket lib gate s pack frame).1.time_base_den = s.time_base_den ∧
    (decodeVideoPacket lib gate s pack frame).1.lastTimeStamp = s.lastTimeStamp ∧
    (decodeVideoPacket lib gate s pack frame).2.1.ready = frame.ready ∧
    (decodeVideoPacket lib gate s pack frame).2.1.last = frame.last ∧
    (decodeVideoPacket lib gate s pack frame).1.trace = s.trace ++
      (match pack with
        | some p =>
          [{ pack := p, time := videoPts s p, hurry := hurryFor (videoPts s p) gate,
             got_frame := (lib.avcodec_decode_video2 s.codec (hurryFor (videoPts s p) gate)
               s.decodeFrame (some p)).got_frame }]
        | none => []) ∧
    (decodeVideoPacket lib gate s pack frame).2.1.pts =
      (match pack with
        | some p => videoPts s p
        | none => frame.pts) ∧
    (decodeVideoPacket lib gate s pack frame).1.hurry_up =
      (match pack with
        | some p => hurryFor (videoPts s p) gate
        | none => s.hurry_up) := by
  unfold decodeVideoPacket
  cases pack <;> simp

/-- The two ways out of `SDL_ffmpegDecodeVideoFrame`. -/
theorem decodeVideo_cases {σ : Type} (lib : Lib σ) (file file1 : SDL_ffmpegFile σ)
    (pack : Option AVPacket) (frame frame1 : SDL_ffmpegVideoFrame) (ret : Int)
    (h : SDL_ffmpegDecodeVideoFrame lib file pack frame = some (file1, frame1, ret)) :
    ∃ s, file.videoStream = some s ∧
      (((decodeVideoPacket lib file.minimalTimestamp s pack frame).2.2 ≠ 0 ∧
          (decodeVideoPacket lib file.minimalTimestamp s pack frame).1.hurry_up = 0 ∧
          file1 = { file with
            videoStream := some
              { (decodeVideoPacket lib file.minimalTimestamp s pack frame).1 with
                lastTimeStamp := (decodeVideoPacket lib file.minimalTimestamp s pack frame).2.1.pts } } ∧
          frame1 = { convertPicture lib
              (decodeVideoPacket lib file.minimalTimestamp s pack frame).1.decodeFrame
              (decodeVideoPacket lib file.minimalTimestamp s pack frame).2.1 with ready := 1 } ∧
          ret = 1) ∨
       (¬((decodeVideoPacket lib file.minimalTimestamp s pack frame).2.2 ≠ 0 ∧
            (decodeVideoPacket lib file.minimalTimestamp s pack frame).1.hurry_up = 0) ∧
          file1 = { file with
            videoStream := some (decodeVideoPacket lib file.minimalTimestamp s pack frame).1 } ∧
          frame1 = (decodeVideoPacket lib file.minimalTimestamp s pack frame).2.1 ∧
          ret = frame.ready)) := by
  unfold SDL_ffmpegDecodeVideoFrame at h
  cases hs : file.videoStream with
  | none => simp [hs] at h
  | some s =>
    refine ⟨s, rfl, ?_⟩
    simp only [hs] at h
    have hcp := convertPicture_fields lib
      (decodeVideoPacket lib file.minimalTimestamp s pack frame).1.decodeFrame
      (decodeVideoPacket lib file.minimalTimestamp s pack frame).2.1
    have hdf := decodeVideoPacket_fields lib file.minimalTimestamp s pack frame
    split_ifs at h with hc
    · left
      simp only [Option.some.injEq, Prod.mk.injEq] at h
      obtain ⟨h1, h2, h3⟩ := h
      refine ⟨hc.1, hc.2, ?_, h2.symm, h3.symm⟩
      rw [← h1, hcp.1]
    · right
      simp only [Option.some.injEq, Prod.mk.injEq] at h
      obtain ⟨h1, h2, h3⟩ := h
      refine ⟨hc, by rw [← h1], h2.symm, ?_⟩
      rw [← h3, hdf.2.2.2.2.2.2.1]

theorem decodeVideo_total {σ : Type} (lib : Lib σ) (file : SDL_ffmpegFile σ)
    (pack : Option AVPacket) (frame : SDL_ffmpegVideoFrame) (h : file.videoStream ≠ none) :
    ∃ r, SDL_ffmpegDecodeVideoFrame lib file pack frame = some r := by
  unfold SDL_ffmpegDecodeVideoFrame
  cases hs : file.videoStream with
  | none => exact absurd hs h
  | some s =>
    simp only
    split_ifs <;> exact ⟨_, rfl⟩

theorem videoDecodeLoop_induct {σ : Type} (lib : Lib σ)
    (P Q : SDL_ffmpegFile σ → Option AVPacket → SDL_ffmpegVideoFrame → Prop)
    (hnone : ∀ file frame, P file none frame → Q file none frame)
    (hready : ∀ file p frame, P file (some p) frame → frame.ready ≠ 0 → Q file (some p) frame)
    (hstep : ∀ file p frame file1 frame1 ret file2 pack2 frame2, P file (some p) frame →
      frame.ready = 0 →
      SDL_ffmpegDecodeVideoFrame lib file (some p) frame = some (file1, frame1, ret) →
      nextVideoPacket file1 frame1 = some (file2, pack2, frame2) → P file2 pack2 frame2)
    (n : Nat) :
    ∀ file pack frame file2 pack2 frame2, P file pack frame →
      videoDecodeLoop lib n file pack frame = some (file2, pack2, frame2) →
      Q file2 pack2 frame2 := by
  induction n with
  | zero => intro file pack frame file2 pack2 frame2 _ h; simp [videoDecodeLoop] at h
  | succ n ih =>
    intro file pack frame file2 pack2 frame2 hP h
    cases pack with
    | none =>
      simp only [videoDecodeLoop, Option.some.injEq, Prod.mk.injEq] at h
      obtain ⟨rfl, rfl, rfl⟩ := h
      exact hnone _ _ hP
    | some p =>
      simp only [videoDecodeLoop] at h
      split_ifs at h with hr
      · simp only [Option.some.injEq, Prod.mk.injEq] at h
        obtain ⟨rfl, rfl, rfl⟩ := h
        exact hready _ _ _ hP hr
      · split at h
        · simp at h
        · rename_i file1 frame1 ret hd
          split at h
          · simp at h
          · rename_i file3 pack3 frame3 hn
            exact ih _ _ _ _ _ _ (hstep _ _ _ _ _ _ _ _ _ hP (by simpa using hr) hd hn) h

theorem videoInv_refl {σ : Type} (file0 : SDL_ffmpegFile σ) : VideoFetchInv file0 file0 none where
  fixed := rfl
  audio := rfl
  gate := rfl
  type := rfl
  duration := rfl
  sink := rfl
  grow := ⟨[], by simp⟩
  videoSeq := by simp [pendingVideo]
  audioSeq := rfl

theorem videoInv_next {σ : Type} {file0 file file1 : SDL_ffmpegFile σ}
    {frame frame1 : SDL_ffmpegVideoFrame} {pack1 : Option AVPacket}
    (hI : VideoFetchInv file0 file none)
    (h : nextVideoPacket file frame = some (file1, pack1, frame1)) :
    VideoFetchInv file0 file1 pack1 := by
  obtain ⟨hq, hv, ha, -, -, -⟩ := nextVideoPacket_spec _ _ _ _ _ h
  obtain ⟨hra, hrv, hg, ht, hd, hsk⟩ := queueOnly_obs hq
  obtain ⟨hid, htr, hfx, hst⟩ := videoRest_obs hrv
  have hidv : videoId file = videoId file0 := fixed_id_video hI.fixed
  have hida : audioId file = audioId file0 := (audioRest_obs hI.audio).1
  have hA : audioArrivals file = audioArrivals file0 := by
    funext u; simp only [audioArrivals, hida]
  have hV : videoArrivals file = videoArrivals file0 := by
    funext u; simp only [videoArrivals, hida, hidv]
  rw [hA] at ha
  rw [hV] at hv
  exact {
    fixed := hfx.trans hI.fixed
    audio := hra.trans hI.audio
    gate := hg.trans hI.gate
    type := ht.trans hI.type
    duration := hd.trans hI.duration
    sink := hsk.trans hI.sink
    grow := by rw [htr]; exact hI.grow
    videoSeq := by
      have h0 := hI.videoSeq
      have e : (none : Option AVPacket).toList = [] := rfl
      rw [e, List.append_nil] at h0
      rw [← h0]
      simp only [usedVideo, htr, List.append_assoc] at hv ⊢
      rw [hv]
    audioSeq := by rw [ha]; exact hI.audioSeq }

theorem videoInv_decode {σ : Type} {lib : Lib σ} {file0 file file1 : SDL_ffmpegFile σ}
    {frame frame1 : SDL_ffmpegVideoFrame} {pack : Option AVPacket} {ret : Int}
    (hI : VideoFetchInv file0 file pack)
    (h : SDL_ffmpegDecodeVideoFrame lib file pack frame = some (file1, frame1, ret)) :
    VideoFetchInv file0 file1 none := by
  obtain ⟨s, hs, hcase⟩ := decodeVideo_cases lib _ _ _ _ _ _ h
  have hdf := decodeVideoPacket_fields lib file.minimalTimestamp s pack frame
  have hseq := hI.videoSeq
  have hfx := hI.fixed
  rcases hcase with ⟨-, -, hf, -, -⟩ | ⟨-, hf, -, -⟩
  · rw [hf]
    exact {
      fixed := by simpa [hs, streamFixed, hdf] using hfx
      audio := hI.audio
      gate := hI.gate
      type := hI.type
      duration := hI.duration
      sink := hI.sink
      grow := by
        obtain ⟨new, hnew⟩ := hI.grow
        simp only [videoTrace, hs] at hnew
        have ht := hdf.2.2.2.2.2.2.2.2.1
        rw [hnew, List.append_assoc] at ht
        exact ⟨_, ht⟩
      videoSeq := by
        cases pack <;> simpa [usedVideo, videoTrace, videoQueue, hs, hdf] using hseq
      audioSeq := hI.audioSeq }
  · rw [hf]
    exact {
      fixed := by simpa [hs, streamFixed, hdf] using hfx
      audio := hI.audio
      gate := hI.gate
      type := hI.type
      duration := hI.duration
      sink := hI.sink
      grow := by
        obtain ⟨new, hnew⟩ := hI.grow
        simp only [videoTrace, hs] at hnew
        have ht := hdf.2.2.2.2.2.2.2.2.1
        rw [hnew, List.append_assoc] at ht
        exact ⟨_, ht⟩
      videoSeq := by
        cases pack <;> simpa [usedVideo, videoTrace, videoQueue, hs, hdf] using hseq
      audioSeq := hI.audioSeq }

theorem videoInv_pushBack {σ : Type} {file0 file : SDL_ffmpegFile σ} {p : AVPacket}
    (hI : VideoFetchInv file0 file (some p)) (hs : file.videoStream ≠ none) :
    VideoFetchInv file0 (pushBackVideo file p) none := by
  cases h : file.videoStream with
  | none => exact absurd h hs
  | some s =>
    have hseq := hI.videoSeq
    have hfx := hI.fixed
    unfold pushBackVideo
    simp only [h]
    exact {
      fixed := by simpa [h, streamFixed] using hfx
      audio := hI.audio
      gate := hI.gate
      type := hI.type
      duration := hI.duration
      sink := hI.sink
      grow := by
        obtain ⟨new, hnew⟩ := hI.grow
        exact ⟨new, by simpa [videoTrace, h] using hnew⟩
      videoSeq := by simpa [usedVideo, videoTrace, videoQueue, h] using hseq
      audioSeq := hI.audioSeq }

theorem decodeVideo_queues {σ : Type} {lib : Lib σ} {file file1 : SDL_ffmpegFile σ}
    {frame frame1 : SDL_ffmpegVideoFrame} {pack : Option AVPacket} {ret : Int}
    (h : SDL_ffmpegDecodeVideoFrame lib file pack frame = some (file1, frame1, ret)) :
    videoQueue file1 = videoQueue file ∧ file1.container = file.container ∧
    file1.videoStream ≠ none ∧ frame1.last = frame.last := by
  obtain ⟨s, hs, hcase⟩ := decodeVideo_cases lib _ _ _ _ _ _ h
  have hdf := decodeVideoPacket_fields lib file.minimalTimestamp s pack frame
  have hcp := convertPicture_fields lib
    (decodeVideoPacket lib file.minimalTimestamp s pack frame).1.decodeFrame
    (decodeVideoPacket lib file.minimalTimestamp s pack frame).2.1
  rcases hcase with ⟨-, -, hf, hfr, -⟩ | ⟨-, hf, hfr, -⟩
  · rw [hf, hfr]
    exact ⟨by simp [videoQueue, hs, hdf], rfl, by simp, by simp [hcp, hdf]⟩
  · rw [hf, hfr]
    exact ⟨by simp [videoQueue, hs, hdf], rfl, by simp, by simp [hdf]⟩

theorem videoDecodeLoop_total {σ : Type} (lib : Lib σ) (n : Nat) :
    ∀ (file : SDL_ffmpegFile σ) (pack : Option AVPacket) (frame : SDL_ffmpegVideoFrame),
      file.videoStream ≠ none →
      heldCount pack + (videoQueue file).length + file.container.length + 1 ≤ n →
      ∃ r, videoDecodeLoop lib n file pack frame = some r := by
  induction n with
  | zero => intro file pack frame _ h; omega
  | succ n ih =>
    intro file pack frame hs hn
    cases pack with
    | none => exact ⟨(file, none, frame), by simp [videoDecodeLoop]⟩
    | some p =>
      simp only [videoDecodeLoop]
      split_ifs with hr
      · exact ⟨_, rfl⟩
      · obtain ⟨⟨file1, frame1, ret⟩, hd⟩ := decodeVideo_total lib file (some p) frame hs
        obtain ⟨hq, hc, hs1, -⟩ := decodeVideo_queues hd
        obtain ⟨⟨file2, pack2, frame2⟩, hnx⟩ := nextVideoPacket_total file1 frame1
        obtain ⟨hqo, -, -, -, hm, -⟩ := nextVideoPacket_spec _ _ _ _ _ hnx
        simp only [hd, hnx]
        apply ih _ _ _ (queueOnly_videoSome hqo hs1)
        simp only [heldCount] at hn
        rw [hq, hc] at hm
        omega

theorem getVideoFrame_total {σ : Type} (lib : Lib σ) (file : SDL_ffmpegFile σ)
    (frame : SDL_ffmpegVideoFrame) : ∃ r, SDL_ffmpegGetVideoFrame lib file frame = some r := by
  unfold SDL_ffmpegGetVideoFrame
  cases hs : file.videoStream with
  | none => exact ⟨_, rfl⟩
  | some s =>
    simp only
    obtain ⟨⟨file1, pack1, frame1⟩, hnx⟩ :=
      nextVideoPacket_total file { frame with ready := 0, last := 0 }
    obtain ⟨hqo, -, -, -, hm, -⟩ := nextVideoPacket_spec _ _ _ _ _ hnx
    have hs1 : file1.videoStream ≠ none := queueOnly_videoSome hqo (by simp [hs])
    obtain ⟨⟨file2, pack2, frame2⟩, hlp⟩ := videoDecodeLoop_total lib (videoFuel file1) file1
      pack1 frame1 hs1 (by
        have : videoFuel file1 = (videoQueue file1).length + file1.container.length + 2 := by
          unfold videoFuel videoQueue
          cases file1.videoStream <;> rfl
        have : heldCount pack1 ≤ 1 := by cases pack1 <;> simp [heldCount]
        omega)
    have hs2 : file2.videoStream ≠ none := by
      refine videoDecodeLoop_induct lib (fun f _ _ => f.videoStream ≠ none)
        (fun f _ _ => f.videoStream ≠ none) (fun _ _ h => h) (fun _ _ _ h _ => h) ?_
        _ _ _ _ _ _ _ hs1 hlp
      intro f p fr f1 fr1 r f2 p2 fr2 _ _ hd hn
      exact queueOnly_videoSome (nextVideoPacket_spec _ _ _ _ _ hn).1 (decodeVideo_queues hd).2.2.1
    simp only [hnx, hlp]
    cases pack2 with
    | some p => exact ⟨_, rfl⟩
    | none =>
      simp only
      split_ifs
      · obtain ⟨⟨file3, frame3, ret⟩, hd⟩ := decodeVideo_total lib file2 none frame2 hs2
        simp only [hd]
        exact ⟨_, rfl⟩
      · exact ⟨_, rfl⟩

theorem getVideoFrame_inv {σ : Type} {lib : Lib σ} {file file1 : SDL_ffmpegFile σ}
    {frame frame1 : SDL_ffmpegVideoFrame} {ret : Int}
    (h : SDL_ffmpegGetVideoFrame lib file frame = some (file1, frame1, ret)) :
    VideoFetchInv file file1 none := by
  unfold SDL_ffmpegGetVideoFrame at h
  cases hs : file.videoStream with
  | none =>
    simp only [hs, Option.some.injEq, Prod.mk.injEq] at h
    obtain ⟨rfl, -, -⟩ := h
    exact videoInv_refl _
  | some s =>
    simp only [hs] at h
    split at h
    · simp at h
    · rename_i file2 pack2 frame2 hnx
      split at h
      · simp at h
      · rename_i file3 pack3 frame3 hlp
        have hI2 : VideoFetchInv file file2 pack2 := videoInv_next (videoInv_refl file) hnx
        have hs2 : file2.videoStream ≠ none :=
          queueOnly_videoSome (nextVideoPacket_spec _ _ _ _ _ hnx).1 (by simp [hs])
        have hI3 : VideoFetchInv file file3 pack3 ∧ file3.videoStream ≠ none := by
          refine videoDecodeLoop_induct lib
            (fun f p _ => VideoFetchInv file f p ∧ f.videoStream ≠ none)
            (fun f p _ => VideoFetchInv file f p ∧ f.videoStream ≠ none)
            (fun _ _ hP => hP) (fun _ _ _ hP _ => hP) ?_ _ _ _ _ _ _ _ ⟨hI2, hs2⟩ hlp
          intro f p fr f1 fr1 r f2 p2 fr2 hP _ hd hn
          exact ⟨videoInv_next (videoInv_decode hP.1 hd) hn,
            queueOnly_videoSome (nextVideoPacket_spec _ _ _ _ _ hn).1
              (decodeVideo_queues hd).2.2.1⟩
        cases pack3 with
        | some p =>
          simp only [Option.some.injEq, Prod.mk.injEq] at h
          obtain ⟨rfl, -, -⟩ := h
          exact videoInv_pushBack hI3.1 hI3.2
        | none =>
          simp only at h
          split_ifs at h
          · split at h
            · simp at h
            · rename_i file4 frame4 r4 hd
              simp only [Option.some.injEq, Prod.mk.injEq] at h
              obtain ⟨rfl, -, -⟩ := h
              exact videoInv_decode hI3.1 hd
          · simp only [Option.some.injEq, Prod.mk.injEq] at h
            obtain ⟨rfl, -, -⟩ := h
            exact hI3.1

/-! ## C2: packets reach the decoder in delivery order -/

theorem audioInv_consumed {σ : Type} {file file1 : SDL_ffmpegFile σ}
    (hI : AudioFetchInv file file1 none) :
    (∃ new, usedAudio file1 = usedAudio file ++ new ∧
      pendingAudio file = new ++ pendingAudio file1) ∧
    usedVideo file1 = usedVideo file ∧ pendingVideo file1 = pendingVideo file := by
  have hida : audioId file1 = audioId file := fixed_id hI.fixed
  obtain ⟨hidv, htrv, -, -⟩ := videoRest_obs hI.video
  have hA : audioArrivals file1 = audioArrivals file := by
    funext u; simp only [audioArrivals, hida]
  have hV : videoArrivals file1 = videoArrivals file := by
    funext u; simp only [videoArrivals, hida, hidv]
  refine ⟨?_, by simp only [usedVideo, htrv], by
    simp only [pendingVideo]; rw [hV]; exact hI.videoSeq⟩
  obtain ⟨new, hnew⟩ := hI.grow
  refine ⟨new.map (fun e => e.pack), by simp [usedAudio, hnew], ?_⟩
  have h := hI.audioSeq
  have e : (none : Option AVPacket).toList = [] := rfl
  rw [e, List.append_nil] at h
  simp only [usedAudio, hnew, List.map_append, List.append_assoc] at h
  have h2 := List.append_cancel_left h
  simp only [pendingAudio, hA]
  exact h2.symm

theorem videoInv_consumed {σ : Type} {file file1 : SDL_ffmpegFile σ}
    (hI : VideoFetchInv file file1 none) :
    (∃ new, usedVideo file1 = usedVideo file ++ new ∧
      pendingVideo file = new ++ pendingVideo file1) ∧
    usedAudio file1 = usedAudio file ∧ pendingAudio file1 = pendingAudio file := by
  have hidv : videoId file1 = videoId file := fixed_id_video hI.fixed
  obtain ⟨hida, htra, -, -⟩ := audioRest_obs hI.audio
  have hA : audioArrivals file1 = audioArrivals file := by
    funext u; simp only [audioArrivals, hida]
  have hV : videoArrivals file1 = videoArrivals file := by
    funext u; simp only [videoArrivals, hida, hidv]
  refine ⟨?_, by simp only [usedAudio, htra], by
    simp only [pendingAudio]; rw [hA]; exact hI.audioSeq⟩
  obtain ⟨new, hnew⟩ := hI.grow
  refine ⟨new.map (fun e => e.pack), by simp [usedVideo, hnew], ?_⟩
  have h := hI.videoSeq
  have e : (none : Option AVPacket).toList = [] := rfl
  rw [e, List.append_nil] at h
  simp only [usedVideo, hnew, List.map_append, List.append_assoc] at h
  have h2 := List.append_cancel_left h
  simp only [pendingVideo, hV]
  exact h2.symm

/-- C2.  Every sequence of `SDL_ffmpegGetAudioFrame` and
`SDL_ffmpegGetVideoFrame` calls (no seek) returns, and for each of the two
selected streams the packets that the calls handed to the decode step, in the
order of the hand-over, are an initial segment `new` of the packets that were
pending before the calls (queue first, then the container in delivery order);
the pending packets after the calls are the rest, in the same order.  So the
packets are decoded in delivery order, none twice and none skipped, and a
packet put back by one fetch is the first one decoded by the next. -/
theorem C2_packets_decoded_in_arrival_order {σ : Type} (lib : Lib σ)
    (calls : List FetchCall) (file : SDL_ffmpegFile σ) :
    ∃ file1 results, runFetches lib file calls = some (file1, results) ∧
      results.length = calls.length ∧
      (∃ new, usedAudio file1 = usedAudio file ++ new ∧
        pendingAudio file = new ++ pendingAudio file1) ∧
      (∃ new, usedVideo file1 = usedVideo file ++ new ∧
        pendingVideo file = new ++ pendingVideo file1) := by
  induction calls generalizing file with
  | nil => exact ⟨file, [], rfl, rfl, ⟨[], by simp⟩, ⟨[], by simp⟩⟩
  | cons c calls ih =>
    cases c with
    | audio frame =>
      obtain ⟨⟨file1, frame1, ret⟩, h1⟩ := getAudioFrame_total lib file frame
      obtain ⟨⟨na, hua, hpa⟩, huv, hpv⟩ := audioInv_consumed (getAudioFrame_inv h1)
      obtain ⟨file2, results, h2, hlen, ⟨na2, hua2, hpa2⟩, ⟨nv2, huv2, hpv2⟩⟩ := ih file1
      refine ⟨file2, Fetched.audio frame1 ret :: results, by simp [runFetches, h1, h2],
        by simp [hlen], ⟨na ++ na2, ?_, ?_⟩, ⟨nv2, ?_, ?_⟩⟩
      · rw [hua2, hua, List.append_assoc]
      · rw [hpa, hpa2, List.append_assoc]
      · rw [huv2, huv]
      · rw [← hpv, hpv2]
    | video frame =>
      obtain ⟨⟨file1, frame1, ret⟩, h1⟩ := getVideoFrame_total lib file frame
      obtain ⟨⟨nv, huv, hpv⟩, hua, hpa⟩ := videoInv_consumed (getVideoFrame_inv h1)
      obtain ⟨file2, results, h2, hlen, ⟨na2, hua2, hpa2⟩, ⟨nv2, huv2, hpv2⟩⟩ := ih file1
      refine ⟨file2, Fetched.video frame1 ret :: results, by simp [runFetches, h1, h2],
        by simp [hlen], ⟨na2, ?_, ?_⟩, ⟨nv ++ nv2, ?_, ?_⟩⟩
      · rw [hua2, hua]
      · rw [← hpa, hpa2]
      · rw [huv2, huv, List.append_assoc]
      · rw [hpv, hpv2, List.append_assoc]

/-! ## C4 and C6: the size and the end-of-stream flag of an audio frame -/

theorem afterLeftover_size {σ : Type} (s : SDL_ffmpegStream σ) (frame : SDL_ffmpegAudioFrame)
    (h : frame.size ≤ frame.capacity) :
    (afterLeftover s frame).2.size ≤ (afterLeftover s frame).2.capacity := by
  unfold afterLeftover copyLeftover
  dsimp only
  split_ifs <;> simp at * <;> omega

theorem storeDecoded_size {σ : Type} (s : SDL_ffmpegStream σ) (frame : SDL_ffmpegAudioFrame)
    (audioSize : Int) :
    (storeDecoded s frame audioSize).2.size ≤ (storeDecoded s frame audioSize).2.capacity := by
  unfold storeDecoded
  dsimp only
  split_ifs <;> simp at * <;> omega

theorem finishDecode_size {σ : Type} (s : SDL_ffmpegStream σ) (frame : SDL_ffmpegAudioFrame)
    (pack : AVPacket) (time hurry : Int) (codec : σ) (samples : List Nat) (audioSize : Int)
    (h : frame.size ≤ frame.capacity) :
    (finishDecode s frame pack time hurry codec samples audioSize).2.size ≤
      (finishDecode s frame pack time hurry codec samples audioSize).2.capacity := by
  unfold finishDecode
  dsimp only
  split_ifs
  · exact storeDecoded_size _ _ _
  · exact h

theorem decodeAudio_size {σ : Type} {lib : Lib σ} {file file1 : SDL_ffmpegFile σ}
    {frame frame1 : SDL_ffmpegAudioFrame} {p : AVPacket} {ret : Int}
    (h : SDL_ffmpegDecodeAudioFrame lib file p frame = some (file1, frame1, ret))
    (hsz : frame.size ≤ frame.capacity) : frame1.size ≤ frame1.capacity := by
  obtain ⟨s, hs, hcase⟩ := decodeAudio_cases lib _ _ _ _ _ _ h
  rcases hcase with ⟨-, -, -, -, hfr⟩ | ⟨-, -, codec, samples, audioSize, sink, -, -, hfr⟩
  · rw [hfr]; exact afterLeftover_size s frame hsz
  · rw [hfr]; exact finishDecode_size _ _ _ _ _ _ _ _ (afterLeftover_size s frame hsz)

theorem audioPacketLoop_last {σ : Type} (n : Nat) :
    ∀ (file : SDL_ffmpegFile σ) (pack : Option AVPacket) (frame : SDL_ffmpegAudioFrame)
      (file1 : SDL_ffmpegFile σ) (pack1 : Option AVPacket) (frame1 : SDL_ffmpegAudioFrame),
      audioPacketLoop n file pack frame = some (file1, pack1, frame1) →
      (frame.last = 0 ∨ frame.last = 1) → (frame1.last = 0 ∨ frame1.last = 1) := by
  induction n with
  | zero => intro file pack frame file1 pack1 frame1 h; simp [audioPacketLoop] at h
  | succ n ih =>
    intro file pack frame file1 pack1 frame1 h h01
    rw [audioPacketLoop] at h
    split_ifs at h with hc
    · refine ih _ _ _ _ _ _ h ?_
      simp only [getPacket_snd]
      split_ifs <;> simp
    · simp only [Option.some.injEq, Prod.mk.injEq] at h
      obtain ⟨-, -, rfl⟩ := h
      exact h01

/-- The frame that `SDL_ffmpegGetAudioFrame` returns comes out of the loop of
lines 1051-1071, entered after the first `nextAudioPacket`; a postcondition
`Q` of that loop holds for it. -/
theorem getAudioFrame_induct {σ : Type} (lib : Lib σ)
    (P Q : SDL_ffmpegFile σ → Option AVPacket → SDL_ffmpegAudioFrame → Prop)
    (R : SDL_ffmpegFile σ → SDL_ffmpegAudioFrame → Prop)
    (hnone : ∀ file frame, P file none frame → Q file none frame)
    (hdec : ∀ file p frame file1 frame1 ret, P file (some p) frame →
      SDL_ffmpegDecodeAudioFrame lib file p frame = some (file1, frame1, ret) →
      (ret = 0 → Q file1 (some p) frame1) ∧ (ret ≠ 0 → R file1 frame1))
    (hfull : ∀ file frame, R file frame → ¬frame.size < frame.capacity → Q file none frame)
    (hnext : ∀ file frame file1 pack1 frame1, R file frame →
      frame.size < frame.capacity →
      nextAudioPacket file frame = some (file1, pack1, frame1) → P file1 pack1 frame1)
    (file file1 : SDL_ffmpegFile σ) (frame frame1 : SDL_ffmpegAudioFrame) (ret : Int)
    (hs : file.audioStream ≠ none)
    (hinit : ∀ file2 pack2 frame2,
      nextAudioPacket file { frame with last := 0, size := 0 } = some (file2, pack2, frame2) →
      P file2 pack2 frame2)
    (h : SDL_ffmpegGetAudioFrame lib file frame = some (file1, frame1, ret)) :
    ∃ file2 pack2, Q file2 pack2 frame1 ∧
      file1 = (match pack2 with
        | some p => pushBackAudio file2 p
        | none => file2) ∧
      ret = if frame1.size = frame1.capacity then 1 else 0 := by
  unfold SDL_ffmpegGetAudioFrame at h
  cases hsm : file.audioStream with
  | none => exact absurd hsm hs
  | some s =>
    simp only [hsm] at h
    split at h
    · simp at h
    · rename_i file2 pack2 frame2 hnx
      split at h
      · simp at h
      · rename_i file3 pack3 frame3 hlp
        simp only [Option.some.injEq, Prod.mk.injEq] at h
        obtain ⟨h1, h2, h3⟩ := h
        subst h2
        exact ⟨file3, pack3, audioDecodeLoop_induct lib P Q R hnone hdec hfull hnext _ _ _ _ _ _ _
          (hinit _ _ _ hnx) hlp, h1.symm, h3.symm⟩

/-- C4.  With an audio stream selected: `SDL_ffmpegDecodeAudioFrame` called
with a frame whose size is at most its capacity returns, and the size of the
frame on return is at most its capacity (which is unchanged); consequently
`SDL_ffmpegGetAudioFrame`, called with a frame of capacity at least 0,
returns a frame whose size is at most its capacity.  The bounds on the
leftover size and on the decoded size named in the claim are not needed. -/
theorem C4_audio_frame_size_within_capacity {σ : Type} (lib : Lib σ)
    (file : SDL_ffmpegFile σ) (hs : file.audioStream ≠ none) (frame : SDL_ffmpegAudioFrame) :
    (∀ pack, frame.size ≤ frame.capacity →
      ∃ file1 frame1 ret, SDL_ffmpegDecodeAudioFrame lib file pack frame =
          some (file1, frame1, ret) ∧
        frame1.size ≤ frame1.capacity ∧ frame1.capacity = frame.capacity) ∧
    (0 ≤ frame.capacity →
      ∃ file1 frame1 ret, SDL_ffmpegGetAudioFrame lib file frame = some (file1, frame1, ret) ∧
        frame1.size ≤ frame1.capacity ∧ frame1.capacity = frame.capacity) := by
  constructor
  · intro pack hsz
    obtain ⟨⟨file1, frame1, ret⟩, hd⟩ := decodeAudio_total lib file pack frame hs
    exact ⟨file1, frame1, ret, hd, decodeAudio_size hd hsz, (decodeAudio_queues hd).2.2.2.1⟩
  · intro hcap
    obtain ⟨⟨file1, frame1, ret⟩, hg⟩ := getAudioFrame_total lib file frame
    refine ⟨file1, frame1, ret, hg, ?_⟩
    obtain ⟨file2, pack2, hQ, -, -⟩ := getAudioFrame_induct lib
      (fun _ _ fr => fr.size ≤ fr.capacity ∧ fr.capacity = frame.capacity)
      (fun _ _ fr => fr.size ≤ fr.capacity ∧ fr.capacity = frame.capacity)
      (fun _ fr => fr.size ≤ fr.capacity ∧ fr.capacity = frame.capacity)
      (fun _ _ hP => hP)
      (fun f p fr f1 fr1 r hP hd =>
        ⟨fun _ => ⟨decodeAudio_size hd hP.1, (decodeAudio_queues hd).2.2.2.1.trans hP.2⟩,
         fun _ => ⟨decodeAudio_size hd hP.1, (decodeAudio_queues hd).2.2.2.1.trans hP.2⟩⟩)
      (fun _ _ hR _ => hR)
      (fun f fr f1 p1 fr1 hR _ hn => by
        have hf := (nextAudioPacket_spec _ _ _ _ _ hn).2.2.2.1
        rw [hf]; exact hR)
      file file1 frame frame1 ret hs
      (fun f2 p2 fr2 hn => by
        have hf := (nextAudioPacket_spec _ _ _ _ _ hn).2.2.2.1
        rw [hf]; exact ⟨hcap, rfl⟩) hg
    exact hQ

/-- Witness of C4 on the demo file: a frame of capacity 4 that holds 1 byte. -/
theorem C4_audio_frame_size_within_capacity_witness :
    (∃ file1 frame1 ret, SDL_ffmpegDecodeAudioFrame demoLib
        (demoFile [unitOf (audioPack 0 [1, 2, 3])]) (audioPack 0 [1, 2, 3])
        { size := 1, capacity := 4, buffer := [9, 0, 0, 0] } = some (file1, frame1, ret) ∧
      frame1.size ≤ frame1.capacity ∧ frame1.capacity = 4) ∧
    (∃ file1 frame1 ret, SDL_ffmpegGetAudioFrame demoLib
        (demoFile [unitOf (audioPack 0 [1, 2, 3])])
        { size := 1, capacity := 4, buffer := [9, 0, 0, 0] } = some (file1, frame1, ret) ∧
      frame1.size ≤ frame1.capacity ∧ frame1.capacity = 4) :=
  ⟨(C4_audio_frame_size_within_capacity demoLib (demoFile [unitOf (audioPack 0 [1, 2, 3])])
      (by simp [demoFile]) { size := 1, capacity := 4, buffer := [9, 0, 0, 0] }).1
      (audioPack 0 [1, 2, 3]) (by decide),
   (C4_audio_frame_size_within_capacity demoLib (demoFile [unitOf (audioPack 0 [1, 2, 3])])
      (by simp [demoFile]) { size := 1, capacity := 4, buffer := [9, 0, 0, 0] }).2 (by decide)⟩

/-- C6.  With an audio stream selected and a frame of capacity at least 0,
`SDL_ffmpegGetAudioFrame` returns; the return value is 1 exactly when the
frame is full on return (`size == capacity`) and is 0 otherwise, and whenever
it is 0 the end-of-stream flag `last` of the frame is 1. -/
theorem C6_audio_fetch_full_or_last {σ : Type} (lib : Lib σ) (file : SDL_ffmpegFile σ)
    (hs : file.audioStream ≠ none) (frame : SDL_ffmpegAudioFrame) (hcap : 0 ≤ frame.capacity) :
    ∃ file1 frame1 ret, SDL_ffmpegGetAudioFrame lib file frame = some (file1, frame1, ret) ∧
      (ret = 1 ↔ frame1.size = frame1.capacity) ∧ (ret = 0 ∨ ret = 1) ∧
      (ret = 0 → frame1.last = 1) := by
  obtain ⟨⟨file1, frame1, ret⟩, hg⟩ := getAudioFrame_total lib file frame
  refine ⟨file1, frame1, ret, hg, ?_⟩
  obtain ⟨file2, pack2, hQ, -, hret⟩ := getAudioFrame_induct lib
    (fun _ p fr => fr.size ≤ fr.capacity ∧ (fr.last = 0 ∨ fr.last = 1) ∧
      (p = none → fr.last = 1))
    (fun _ _ fr => fr.size = fr.capacity ∨ fr.last = 1)
    (fun _ fr => fr.size ≤ fr.capacity ∧ (fr.last = 0 ∨ fr.last = 1))
    (fun _ _ hP => Or.inr (hP.2.2 rfl))
    (fun f p fr f1 fr1 r hP hd => by
      obtain ⟨-, -, -, -, hl, -, h0⟩ := decodeAudio_queues hd
      exact ⟨fun hr => Or.inl (h0 hr), fun _ => ⟨decodeAudio_size hd hP.1, by rw [hl]; exact hP.2.1⟩⟩)
    (fun _ fr hR hn => Or.inl (by omega))
    (fun f fr f1 p1 fr1 hR _ hn => by
      obtain ⟨-, -, -, hf, -, hx⟩ := nextAudioPacket_spec _ _ _ _ _ hn
      have h01 := audioPacketLoop_last _ _ _ _ _ _ _ hn hR.2
      refine ⟨by rw [hf]; exact hR.1, h01, fun hp => ?_⟩
      subst hp
      rcases hx with hx | hx
      · simp at hx
      · omega)
    file file1 frame frame1 ret hs
    (fun f2 p2 fr2 hn => by
      obtain ⟨-, -, -, hf, -, hx⟩ := nextAudioPacket_spec _ _ _ _ _ hn
      have h01 := audioPacketLoop_last _ _ _ _ _ _ _ hn (Or.inl rfl)
      refine ⟨by rw [hf]; exact hcap, h01, fun hp => ?_⟩
      subst hp
      rcases hx with hx | hx
      · simp at hx
      · omega) hg
  rw [hret]
  split_ifs with hfull
  · exact ⟨by simp [hfull], Or.inr rfl, fun h => by omega⟩
  · refine ⟨by simp [hfull], Or.inl rfl, fun _ => ?_⟩
    rcases hQ with hQ | hQ
    · exact absurd hQ hfull
    · exact hQ

/-- Witness of C6: the container ends before the frame of capacity 4 is full;
the call returns 0 with `last` set. -/
theorem C6_audio_fetch_full_or_last_witness :
    ∃ file1 frame1 ret, SDL_ffmpegGetAudioFrame demoLib
        (demoFile [unitOf (audioPack 0 [1, 2, 3])]) { capacity := 4, buffer := [0, 0, 0, 0] } =
        some (file1, frame1, ret) ∧
      (ret = 1 ↔ frame1.size = frame1.capacity) ∧ (ret = 0 ∨ ret = 1) ∧
      (ret = 0 → frame1.last = 1) :=
  C6_audio_fetch_full_or_last demoLib (demoFile [unitOf (audioPack 0 [1, 2, 3])])
    (by simp [demoFile]) { capacity := 4, buffer := [0, 0, 0, 0] } (by decide)

/-! ## C3: an audio packet without data -/

/-- C3, the code at a failing input.  The container delivers an audio packet
with the one byte 7 and then an audio packet of size 0; the frame has room for
2 bytes.  The decoder is called once (its call counter ends at 1) and produces
the single byte 7.  For the empty packet the loop of lines 1863-1877 does not
run, `audioSize` keeps its initial value 384000, and lines 1891-1903 copy from
the sample buffer again: the frame comes back full with the bytes 7, 7, and
383999 bytes count as left over. -/
theorem C3_empty_packet_delivers_stale_bytes :
    (SDL_ffmpegGetAudioFrame demoLib
        (demoFile [unitOf (audioPack 0 [7]), unitOf (emptyAudioPack 10)])
        { capacity := 2, buffer := [0, 0] }).map
      (fun r => (r.2.1.buffer, r.2.1.size, r.2.2,
        r.1.audioStream.map (fun s => (s.codec, s.sampleBufferSize, s.sampleBufferOffset)))) =
    some ([7, 7], 2, 1, some (1, 383999, 1)) := by
  rfl

/-! ## Arithmetic of the derived timestamps -/

theorem wrapInt64_of_fits {x : Int} (h : fitsInt64 x) : wrapInt64 x = x := by
  unfold wrapInt64
  unfold fitsInt64 at h
  omega

theorem wrapInt32_of_fits {x : Int} (h : fitsInt32 x) : wrapInt32 x = x := by
  unfold wrapInt32
  unfold fitsInt32 at h
  omega

/-- Without overflow the derived timestamp is the exact value. -/
theorem dtsTime_exact {σ : Type} (s : SDL_ffmpegStream σ) (p : AVPacket)
    (h1 : fitsInt64 ((p.dts - s.start_time) * 1000))
    (h2 : fitsInt64
      (av_rescale ((p.dts - s.start_time) * 1000) s.time_base_num s.time_base_den)) :
    dtsTime s p =
      av_rescale ((p.dts - s.start_time) * 1000) s.time_base_num s.time_base_den := by
  have h0 : fitsInt64 (p.dts - s.start_time) := by
    unfold fitsInt64 at h1 ⊢
    omega
  unfold dtsTime
  rw [wrapInt64_of_fits h0, wrapInt64_of_fits h1, wrapInt64_of_fits h2]

/-- The model wraps: with `start_time == AV_NOPTS_VALUE` and a dts of 0 the
difference leaves `int64_t`, and the derived timestamp is 0. -/
theorem dtsTime_wraps :
    dtsTime { demoVideo with start_time := AV_NOPTS_VALUE } (videoPack 0) = 0 := by
  decide

/-! ## C9: the derived video timestamp -/

/-- C9.  For a non-null packet whose timestamp arithmetic does not overflow
(`1000 * duration` is an `int`, `(dts - start_time) * 1000` is an `int64_t`,
the rescaled value and the sum with `lastTimeStamp` are `int64_t` values)
`SDL_ffmpegDecodeVideoFrame` returns, and the pts of the frame on return is
`lastTimeStamp + av_rescale(1000 * duration, num, den)` when the dts of the
packet is `AV_NOPTS_VALUE`, and `av_rescale((dts - start_time) * 1000, num,
den)` otherwise.  `av_rescale` is `a * b / c` in exact integers rounded to
nearest: for `0 < c`, `0 <= b` and `a` other than `INT64_MIN` the result
times `c` is within `c / 2` of `a * b`. -/
theorem C9_video_pts_derivation {σ : Type} (lib : Lib σ) (file : SDL_ffmpegFile σ)
    (s : SDL_ffmpegStream σ) (hs : file.videoStream = some s) (pack : AVPacket)
    (frame : SDL_ffmpegVideoFrame)
    (hdur : pack.dts = AV_NOPTS_VALUE →
      fitsInt32 (1000 * pack.duration) ∧
      fitsInt64 (av_rescale (1000 * pack.duration) s.time_base_num s.time_base_den) ∧
      fitsInt64
        (s.lastTimeStamp +
          av_rescale (1000 * pack.duration) s.time_base_num s.time_base_den))
    (hdts : pack.dts ≠ AV_NOPTS_VALUE →
      fitsInt64 ((pack.dts - s.start_time) * 1000) ∧
      fitsInt64
        (av_rescale ((pack.dts - s.start_time) * 1000) s.time_base_num s.time_base_den)) :
    (∃ file1 frame1 ret,
      SDL_ffmpegDecodeVideoFrame lib file (some pack) frame = some (file1, frame1, ret) ∧
      frame1.pts =
        if pack.dts = AV_NOPTS_VALUE then
          s.lastTimeStamp + av_rescale (1000 * pack.duration) s.time_base_num s.time_base_den
        else
          av_rescale ((pack.dts - s.start_time) * 1000) s.time_base_num s.time_base_den) ∧
    (∀ a b c : Int, 0 < c → 0 ≤ b → a ≠ INT64_MIN →
      2 * |av_rescale a b c * c - a * b| ≤ c) := by
  constructor
  · obtain ⟨⟨file1, frame1, ret⟩, hd⟩ := decodeVideo_total lib file (some pack) frame
      (by simp [hs])
    refine ⟨file1, frame1, ret, hd, ?_⟩
    obtain ⟨s1, hs1, hcase⟩ := decodeVideo_cases lib _ _ _ _ _ _ hd
    rw [hs] at hs1
    cases hs1
    have hdf := decodeVideoPacket_fields lib file.minimalTimestamp s (some pack) frame
    have hcp := convertPicture_fields lib
      (decodeVideoPacket lib file.minimalTimestamp s (some pack) frame).1.decodeFrame
      (decodeVideoPacket lib file.minimalTimestamp s (some pack) frame).2.1
    have hpts : frame1.pts = videoPts s pack := by
      rcases hcase with ⟨-, -, -, hfr, -⟩ | ⟨-, -, hfr, -⟩
      · rw [hfr]
        simp only [hcp.1, hdf.2.2.2.2.2.2.2.2.2.1]
      · rw [hfr, hdf.2.2.2.2.2.2.2.2.2.1]
    rw [hpts]
    unfold videoPts
    by_cases hd0 : pack.dts = AV_NOPTS_VALUE
    · obtain ⟨f1, f2, f3⟩ := hdur hd0
      rw [if_pos hd0, if_pos hd0, wrapInt32_of_fits f1, wrapInt64_of_fits f2,
        wrapInt64_of_fits f3]
    · obtain ⟨f1, f2⟩ := hdts hd0
      rw [if_neg hd0, if_neg hd0, dtsTime_exact s pack f1 f2]
  · intro a b c hc hb ha
    have key : ∀ x : Int, 2 * |(x + c / 2) / c * c - x| ≤ c := by
      intro x
      have h1 := Int.ediv_add_emod (x + c / 2) c
      have h2 := Int.emod_nonneg (x + c / 2) (ne_of_gt hc)
      have h3 := Int.emod_lt_of_pos (x + c / 2) hc
      have h5 := Int.ediv_add_emod c 2
      have h6 := Int.emod_nonneg c (by decide : (2 : Int) ≠ 0)
      have h7 := Int.emod_lt_of_pos c (by decide : (0 : Int) < 2)
      have h8 : |(x + c / 2) / c * c - x| ≤ c / 2 := by
        rw [abs_le]
        constructor <;> nlinarith
      linarith
    unfold av_rescale
    split_ifs with hneg
    · have := key ((-a) * b)
      have e : -((-a * b + c / 2) / c) * c - a * b = -((-a * b + c / 2) / c * c - -a * b) := by
        ring
      rw [e, abs_neg]
      exact this
    · have ha0 : 0 ≤ a := by
        by_contra hlt
        exact hneg ⟨by omega, ha⟩
      have hnum : 0 ≤ a * b + c / 2 := by
        have := mul_nonneg ha0 hb
        have := Int.ediv_nonneg (le_of_lt hc) (by decide : (0 : Int) ≤ 2)
        omega
      rw [Int.tdiv_eq_ediv hnum (le_of_lt hc)]
      exact key (a * b)

/-- Witness of C9: a video packet with dts 7 on the demo stream (time base
1/1000, start time 0) gets the pts 7. -/
theorem C9_video_pts_derivation_witness :
    ∃ file1 frame1 ret,
      SDL_ffmpegDecodeVideoFrame demoLib (demoFile []) (some (videoPack 7)) {} =
        some (file1, frame1, ret) ∧
      frame1.pts = 7 :=
  (C9_video_pts_derivation demoLib (demoFile []) demoVideo rfl (videoPack 7) {}
    (by decide) (by decide)).1

/-! ## C10: seeking past the end -/

/-- C10 as stated fails on an output file.  With an audio stream and no video
stream selected, `SDL_ffmpegDuration` runs `SDL_ffmpegVideoDuration` and
`SDL_ffmpegAudioDuration`, each of which reports an error of its own, before
`SDL_ffmpegSeek` reports that the target is past the end: the failing seek
appends three messages, not one. -/
theorem C10_counterexample_output_file :
    (SDL_ffmpegSeek demoLib demoOutputFile 5).map (fun r => (r.1.sink.ErrorBegin, r.2)) =
      some (["no valid video stream selected", "no valid audio stream selected",
             "can not seek past end of file"], -1) := by
  decide

/-- C10, amended.  On a file that is not an output file `SDL_ffmpegDuration`
returns a value `d` without touching the file, and for every target `T`:
`SDL_ffmpegSeek` returns, with -1 exactly when `d < T` and with 0 otherwise;
when it returns -1 the file is unchanged except that exactly one message is
appended to the error list, so the gate `minimalTimestamp`, both queues, the
`lastTimeStamp` of both selected streams and `SDL_ffmpegGetPosition` are
unchanged.  Seeking to 0 returns 0. -/
theorem C10_seek_past_end_rejected {σ : Type} (lib : Lib σ) (file : SDL_ffmpegFile σ)
    (htype : file.type ≠ SDL_ffmpegOutputStream) :
    ∃ d, SDL_ffmpegDuration file = some (file, d) ∧
      (∀ T : Nat, ∃ file1 ret, SDL_ffmpegSeek lib file T = some (file1, ret) ∧
        (ret = -1 ↔ d < T) ∧ (ret = -1 ∨ ret = 0) ∧
        (ret = -1 →
          file1 = { file with
            sink := SDL_ffmpegAddError file.sink (some "can not seek past end of file") } ∧
          file1.sink.ErrorBegin = file.sink.ErrorBegin ++ ["can not seek past end of file"] ∧
          file1.minimalTimestamp = file.minimalTimestamp ∧
          audioQueue file1 = audioQueue file ∧ videoQueue file1 = videoQueue file ∧
          file1.audioStream.map (fun s => s.lastTimeStamp) =
            file.audioStream.map (fun s => s.lastTimeStamp) ∧
          file1.videoStream.map (fun s => s.lastTimeStamp) =
            file.videoStream.map (fun s => s.lastTimeStamp) ∧
          SDL_ffmpegGetPosition file1 = SDL_ffmpegGetPosition file)) ∧
      (∃ file1, SDL_ffmpegSeek lib file 0 = some (file1, 0)) := by
  have hd : ∃ d, SDL_ffmpegDuration file = some (file, d) := by
    unfold SDL_ffmpegDuration
    cases ht : file.type with
    | SDL_ffmpegInputStream => exact ⟨_, rfl⟩
    | SDL_ffmpegOutputStream => exact absurd ht htype
    | other => exact ⟨_, rfl⟩
  obtain ⟨d, hd⟩ := hd
  refine ⟨d, hd, ?_, ?_⟩
  · intro T
    unfold SDL_ffmpegSeek
    simp only [hd]
    split_ifs with hlt
    · refine ⟨_, _, rfl, by simp [hlt], Or.inl rfl, fun _ => ?_⟩
      exact ⟨rfl, rfl, rfl, rfl, rfl, rfl, rfl, rfl⟩
    · refine ⟨_, _, rfl, by simp [hlt], Or.inr rfl, fun h => ?_⟩
      omega
  · unfold SDL_ffmpegSeek
    simp only [hd]
    rw [if_neg (by omega)]
    exact ⟨_, rfl⟩

/-- Witness of C10 on the demo input file, whose duration is 10000 ms. -/
theorem C10_seek_past_end_rejected_witness :
    ∃ d, SDL_ffmpegDuration (demoFile []) = some (demoFile [], d) ∧
      (∀ T : Nat, ∃ file1 ret, SDL_ffmpegSeek demoLib (demoFile []) T = some (file1, ret) ∧
        (ret = -1 ↔ d < T) ∧ (ret = -1 ∨ ret = 0) ∧
        (ret = -1 →
          file1 = { demoFile [] with
            sink := SDL_ffmpegAddError (demoFile []).sink
              (some "can not seek past end of file") } ∧
          file1.sink.ErrorBegin =
            (demoFile []).sink.ErrorBegin ++ ["can not seek past end of file"] ∧
          file1.minimalTimestamp = (demoFile []).minimalTimestamp ∧
          audioQueue file1 = audioQueue (demoFile []) ∧
          videoQueue file1 = videoQueue (demoFile []) ∧
          file1.audioStream.map (fun s => s.lastTimeStamp) =
            (demoFile []).audioStream.map (fun s => s.lastTimeStamp) ∧
          file1.videoStream.map (fun s => s.lastTimeStamp) =
            (demoFile []).videoStream.map (fun s => s.lastTimeStamp) ∧
          SDL_ffmpegGetPosition file1 = SDL_ffmpegGetPosition (demoFile []))) ∧
      (∃ file1, SDL_ffmpegSeek demoLib (demoFile []) 0 = some (file1, 0)) :=
  C10_seek_past_end_rejected demoLib (demoFile []) (by decide)

/-! ## C5: the pts of an audio frame -/

theorem dtsTime_congr {σ : Type} {s s1 : SDL_ffmpegStream σ}
    (h : streamFixed s = streamFixed s1) (p : AVPacket) : dtsTime s p = dtsTime s1 p := by
  unfold streamFixed at h
  simp only [Prod.mk.injEq] at h
  unfold dtsTime
  rw [h.2.1, h.2.2.1, h.2.2.2]

theorem queueOnly_audioStream {σ : Type} {file file1 : SDL_ffmpegFile σ}
    (h : QueueOnly file file1) {s : SDL_ffmpegStream σ} (hs : file.audioStream = some s) :
    ∃ q, file1.audioStream = some { s with buffer := q } := by
  unfold QueueOnly at h
  refine ⟨audioQueue file1, ?_⟩
  have h2 := congrArg (fun f : SDL_ffmpegFile σ => f.audioStream) h
  simp only [requeue, hs, Option.map_some'] at h2
  exact h2

theorem queueOnly_videoStream {σ : Type} {file file1 : SDL_ffmpegFile σ}
    (h : QueueOnly file file1) {s : SDL_ffmpegStream σ} (hs : file.videoStream = some s) :
    ∃ q, file1.videoStream = some { s with buffer := q } := by
  unfold QueueOnly at h
  refine ⟨videoQueue file1, ?_⟩
  have h2 := congrArg (fun f : SDL_ffmpegFile σ => f.videoStream) h
  simp only [requeue, hs, Option.map_some'] at h2
  exact h2

theorem videoPts_valid {σ : Type} (s : SDL_ffmpegStream σ) (p : AVPacket)
    (h : p.dts ≠ AV_NOPTS_VALUE) : videoPts s p = dtsTime s p := by
  unfold videoPts
  rw [if_neg h]

theorem videoPtsState_decode {σ : Type} {lib : Lib σ} {gate : Int}
    {s0 : SDL_ffmpegStream σ} {file file1 : SDL_ffmpegFile σ}
    {frame frame1 : SDL_ffmpegVideoFrame} {pack : Option AVPacket} {ret : Int}
    (hP : VideoPtsState gate s0 file frame) (hr0 : frame.ready = 0)
    (h : SDL_ffmpegDecodeVideoFrame lib file pack frame = some (file1, frame1, ret)) :
    VideoPtsState gate s0 file1 frame1 ∧ ret = frame1.ready := by
  obtain ⟨s, new, hs, hg, htr, hfx, hI⟩ := hP
  obtain ⟨s', hs', hcase⟩ := decodeVideo_cases lib _ _ _ _ _ _ h
  rw [hs] at hs'
  cases hs'
  have hdf := decodeVideoPacket_fields lib file.minimalTimestamp s pack frame
  have hcp := convertPicture_fields lib
    (decodeVideoPacket lib file.minimalTimestamp s pack frame).1.decodeFrame
    (decodeVideoPacket lib file.minimalTimestamp s pack frame).2.1
  obtain ⟨d1, d2, d3, d4, d5, d6, d7, d8, d9, d10, d11⟩ := hdf
  have hfx1 : streamFixed (decodeVideoPacket lib file.minimalTimestamp s pack frame).1 =
      streamFixed s0 := by
    rw [← hfx]
    simp only [streamFixed, d1, d3, d4, d5]
  -- the trace entries after this decode, and the facts about the last one
  have hnew : ∃ new1, (decodeVideoPacket lib file.minimalTimestamp s pack frame).1.trace =
      s0.trace ++ new1 ∧
      (∀ e ∈ new1, e.pack.dts ≠ AV_NOPTS_VALUE → e.time = dtsTime s0 e.pack) ∧
      (new1 ≠ [] → ∃ e, new1.getLast? = some e ∧
        (decodeVideoPacket lib file.minimalTimestamp s pack frame).2.1.pts = e.time ∧
        (decodeVideoPacket lib file.minimalTimestamp s pack frame).1.hurry_up =
          hurryFor e.time gate) := by
    cases pack with
    | none =>
      refine ⟨new, by rw [d9, htr]; simp, hI.times, fun hne => ?_⟩
      obtain ⟨e, he1, he2, he3⟩ := hI.last hne
      exact ⟨e, he1, by rw [d10]; exact he2, by rw [d11]; exact he3⟩
    | some p =>
      refine ⟨new ++ [⟨p, videoPts s p, hurryFor (videoPts s p) file.minimalTimestamp, 0, [],
        (lib.avcodec_decode_video2 s.codec (hurryFor (videoPts s p) file.minimalTimestamp)
          s.decodeFrame (some p)).got_frame⟩], ?_, ?_, fun _ => ?_⟩
      · rw [d9, htr, List.append_assoc]
      · intro e he hv
        rw [List.mem_append] at he
        rcases he with he | he
        · exact hI.times e he hv
        · simp only [List.mem_singleton] at he
          subst he
          simp only at hv ⊢
          rw [videoPts_valid s p hv]
          exact dtsTime_congr hfx p
      · refine ⟨_, List.getLast?_concat _, ?_, ?_⟩
        · rw [d10]
        · rw [d11, hg]
  obtain ⟨new1, hn1, hn2, hn3⟩ := hnew
  rcases hcase with ⟨-, hhu, hf, hfr, hret⟩ | ⟨hno, hf, hfr, hret⟩
  · subst hf hfr hret
    refine ⟨⟨_, new1, rfl, hg, hn1, hfx1, ?_⟩, rfl⟩
    refine ⟨Or.inr rfl, fun h0 => by simp at h0, fun _ => ⟨by simp [hcp.1], hhu⟩, ?_, hn2⟩
    intro hne
    obtain ⟨e, he1, he2, he3⟩ := hn3 hne
    exact ⟨e, he1, by simp only [hcp.1]; exact he2, he3⟩
  · subst hf hfr hret
    refine ⟨⟨_, new1, rfl, hg, hn1, hfx1, ?_⟩, d7.symm⟩
    refine ⟨by rw [d7]; exact Or.inl hr0, fun _ => by rw [d6]; exact hI.keep hr0,
      fun hne => absurd (d7.trans hr0) hne, hn3, hn2⟩

theorem videoPtsState_next {σ : Type} {gate : Int} {s0 : SDL_ffmpegStream σ}
    {file file1 : SDL_ffmpegFile σ} {frame frame1 : SDL_ffmpegVideoFrame}
    {pack1 : Option AVPacket} (hP : VideoPtsState gate s0 file frame)
    (h : nextVideoPacket file frame = some (file1, pack1, frame1)) :
    VideoPtsState gate s0 file1 frame1 := by
  obtain ⟨s, new, hs, hg, htr, hfx, hI⟩ := hP
  obtain ⟨hq, -, -, hf, -, -⟩ := nextVideoPacket_spec _ _ _ _ _ h
  obtain ⟨q, hs1⟩ := queueOnly_videoStream hq hs
  refine ⟨_, new, hs1, (queueOnly_obs hq).2.2.1.trans hg, htr, hfx, ?_⟩
  rw [hf]
  exact ⟨hI.ready01, hI.keep, hI.done, hI.last, hI.times⟩

theorem videoPtsState_pushBack {σ : Type} {gate : Int} {s0 : SDL_ffmpegStream σ}
    {file : SDL_ffmpegFile σ} {frame : SDL_ffmpegVideoFrame} (p : AVPacket)
    (hP : VideoPtsState gate s0 file frame) :
    VideoPtsState gate s0 (pushBackVideo file p) frame := by
  obtain ⟨s, new, hs, hg, htr, hfx, hI⟩ := hP
  refine ⟨{ s with buffer := p :: s.buffer }, new, by simp [pushBackVideo, hs],
    by simp [pushBackVideo, hs, hg], htr, hfx, ?_⟩
  exact ⟨hI.ready01, hI.keep, hI.done, hI.last, hI.times⟩

/-- What `SDL_ffmpegGetVideoFrame` does to the pts of the frame and to
the watermark of the selected video stream `s0`. -/
theorem getVideoFrame_stamp {σ : Type} {lib : Lib σ} {file file1 : SDL_ffmpegFile σ}
    {s0 : SDL_ffmpegStream σ} {frame frame1 : SDL_ffmpegVideoFrame} {ret : Int}
    (hs : file.videoStream = some s0)
    (h : SDL_ffmpegGetVideoFrame lib file frame = some (file1, frame1, ret)) :
    VideoPtsState file.minimalTimestamp s0 file1 frame1 ∧ ret = frame1.ready := by
  have hinit : VideoPtsState file.minimalTimestamp s0 file { frame with ready := 0, last := 0 } :=
    ⟨s0, [], hs, rfl, by simp, rfl,
      ⟨Or.inl rfl, fun _ => rfl, fun hne => absurd rfl hne, fun hne => absurd rfl hne,
        by simp⟩⟩
  unfold SDL_ffmpegGetVideoFrame at h
  simp only [hs] at h
  split at h
  · simp at h
  · rename_i file2 pack2 frame2 hnx
    split at h
    · simp at h
    · rename_i file3 pack3 frame3 hlp
      have hP3 : VideoPtsState file.minimalTimestamp s0 file3 frame3 ∧
          (pack3 = none ∨ frame3.ready ≠ 0) := by
        refine videoDecodeLoop_induct lib
          (fun f _ fr => VideoPtsState file.minimalTimestamp s0 f fr)
          (fun f p fr => VideoPtsState file.minimalTimestamp s0 f fr ∧
            (p = none ∨ fr.ready ≠ 0))
          (fun _ _ hP => ⟨hP, Or.inl rfl⟩) (fun _ _ _ hP hr => ⟨hP, Or.inr hr⟩) ?_
          _ _ _ _ _ _ _ (videoPtsState_next hinit hnx) hlp
        intro f p fr f1 fr1 r f2 p2 fr2 hP hr0 hd hn
        exact videoPtsState_next (videoPtsState_decode hP hr0 hd).1 hn
      cases pack3 with
      | some p =>
        simp only [Option.some.injEq, Prod.mk.injEq] at h
        obtain ⟨rfl, rfl, rfl⟩ := h
        exact ⟨videoPtsState_pushBack p hP3.1, rfl⟩
      | none =>
        simp only at h
        split_ifs at h with hc
        · split at h
          · simp at h
          · rename_i file4 frame4 r4 hd
            simp only [Option.some.injEq, Prod.mk.injEq] at h
            obtain ⟨rfl, rfl, rfl⟩ := h
            exact ⟨(videoPtsState_decode hP3.1 hc.1 hd).1, rfl⟩
        · simp only [Option.some.injEq, Prod.mk.injEq] at h
          obtain ⟨rfl, rfl, rfl⟩ := h
          exact ⟨hP3.1, rfl⟩

/-! ## C7: the gate set by a seek -/

theorem flush_gate {σ : Type} (lib : Lib σ) (file : SDL_ffmpegFile σ) :
    (SDL_ffmpegFlush lib file).1.minimalTimestamp = file.minimalTimestamp := by
  unfold SDL_ffmpegFlush
  cases ha : file.audioStream <;> cases hv : file.videoStream <;> simp [ha, hv]

theorem seek_gate {σ : Type} {lib : Lib σ} {file file1 : SDL_ffmpegFile σ} {T : Nat}
    (h : SDL_ffmpegSeek lib file T = some (file1, 0)) : file1.minimalTimestamp = T := by
  unfold SDL_ffmpegSeek at h
  split at h
  · simp at h
  · dsimp only at h
    split_ifs at h
    · simp at h
    · simp only [Option.some.injEq, Prod.mk.injEq, and_true] at h
      rw [← h, flush_gate]

theorem runFetches_gate {σ : Type} (lib : Lib σ) (calls : List FetchCall)
    (file file1 : SDL_ffmpegFile σ) (results : List Fetched)
    (h : runFetches lib file calls = some (file1, results)) :
    file1.minimalTimestamp = file.minimalTimestamp := by
  induction calls generalizing file results with
  | nil =>
    simp only [runFetches, Option.some.injEq, Prod.mk.injEq] at h
    rw [h.1]
  | cons c calls ih =>
    cases c with
    | audio frame =>
      simp only [runFetches] at h
      split at h
      · simp at h
      · rename_i fa fra ra ha
        split at h
        · simp at h
        · rename_i f2 res hr
          simp only [Option.some.injEq, Prod.mk.injEq] at h
          obtain ⟨rfl, -⟩ := h
          rw [ih fa res hr]
          exact (getAudioFrame_inv ha).gate
    | video frame =>
      simp only [runFetches] at h
      split at h
      · simp at h
      · rename_i fa fra ra ha
        split at h
        · simp at h
        · rename_i f2 res hr
          simp only [Option.some.injEq, Prod.mk.injEq] at h
          obtain ⟨rfl, -⟩ := h
          rw [ih fa res hr]
          exact (getVideoFrame_inv ha).gate

/-- C7 (counterexample).  Two runs that refute the claim as stated.
First run, decoder with one picture of delay: after a successful seek to 5000
the container delivers the video packets with dts 5000 and 5040; the first
fetch returns ready with pts 5040; the second fetch, with a frame whose `pts`
field still holds 40, finds the input at its end, runs the null-packet flush,
gets the held-back picture and returns ready with `frame.pts = 40 < 5000`, and
`lastTimeStamp` is set to 40.  Second run: the derived timestamp of the only
packet is the value of `AV_NOPTS_VALUE`, which the test of line 1951 lets
pass, so the fetch after the seek to 5000 returns ready with
`frame.pts = -2^63 < 5000`. -/
theorem C7_counterexample_flush_and_sentinel :
    (∃ file1 file2 frameA file3 frameB,
      SDL_ffmpegSeek delayLib
        (demoFile [unitOf (videoPack 5000), unitOf (videoPack 5040)]) 5000 = some (file1, 0) ∧
      SDL_ffmpegGetVideoFrame delayLib file1 {} = some (file2, frameA, 1) ∧
      frameA.pts = 5040 ∧
      SDL_ffmpegGetVideoFrame delayLib file2 { pts := 40 } = some (file3, frameB, 1) ∧
      frameB.ready = 1 ∧ frameB.pts = 40 ∧ frameB.pts < 5000 ∧
      videoLastTimeStamp file3 = some 40) ∧
    (∃ file1 file2 frameA,
      SDL_ffmpegSeek demoLib sentinelFile 5000 = some (file1, 0) ∧
      SDL_ffmpegGetVideoFrame demoLib file1 {} = some (file2, frameA, 1) ∧
      frameA.ready = 1 ∧ frameA.pts = -9223372036854775808 ∧ frameA.pts < 5000 ∧
      videoLastTimeStamp file2 = some (-9223372036854775808)) :=
  ⟨⟨_, _, _, _, _, rfl, rfl, rfl, rfl, rfl, rfl, by decide, rfl⟩,
   ⟨_, _, _, rfl, rfl, rfl, rfl, by decide, rfl⟩⟩

/-- C7 (amended).  After a successful `SDL_ffmpegSeek` to `T < 2^63` and any
sequence of fetches, the next `SDL_ffmpegGetVideoFrame` returns 0 or 1, the
value it leaves in `frame.ready` when a video stream is selected.  With return
value 0 the watermark `lastTimeStamp` is unchanged; with return value 1 it is
the pts of the frame; and if the call returned 1 and handed at least one
packet to the decoder, then `frame.pts` is `AV_NOPTS_VALUE` or at least `T`.
The bound on `T` is the range in which the stored gate is the argument of the
seek whatever the signedness of the 64-bit field. -/
theorem C7_seek_gate_on_decoded_frames {σ : Type} (lib : Lib σ)
    (file file1 file2 : SDL_ffmpegFile σ) (T : Nat) (calls : List FetchCall)
    (results : List Fetched) (frame : SDL_ffmpegVideoFrame)
    (hT : T < 9223372036854775808)
    (hseek : SDL_ffmpegSeek lib file T = some (file1, 0))
    (hrun : runFetches lib file1 calls = some (file2, results)) :
    ∃ file3 frame3 ret, SDL_ffmpegGetVideoFrame lib file2 frame = some (file3, frame3, ret) ∧
      (ret = 0 ∨ ret = 1) ∧
      (file2.videoStream ≠ none → frame3.ready = ret) ∧
      (ret = 0 → videoLastTimeStamp file3 = videoLastTimeStamp file2) ∧
      (ret = 1 → videoLastTimeStamp file3 = some frame3.pts) ∧
      (ret = 1 → videoTrace file3 ≠ videoTrace file2 →
        frame3.pts = AV_NOPTS_VALUE ∨ (T : Int) ≤ frame3.pts) := by
  have hgate : file2.minimalTimestamp = T := by
    rw [runFetches_gate lib calls file1 file2 results hrun, seek_gate hseek]
  have _ := hT
  obtain ⟨⟨file3, frame3, ret⟩, h3⟩ := getVideoFrame_total lib file2 frame
  refine ⟨file3, frame3, ret, h3, ?_⟩
  cases hs : file2.videoStream with
  | none =>
    unfold SDL_ffmpegGetVideoFrame at h3
    simp only [hs, Option.some.injEq, Prod.mk.injEq] at h3
    obtain ⟨rfl, rfl, rfl⟩ := h3
    exact ⟨Or.inl rfl, fun h => absurd rfl h, fun _ => rfl, fun h => by simp at h,
      fun h => by simp at h⟩
  | some s0 =>
    obtain ⟨⟨s, new, hs3, -, htr, -, hI⟩, hret⟩ := getVideoFrame_stamp hs h3
    rw [hgate] at hI
    have hl3 : videoLastTimeStamp file3 = some s.lastTimeStamp := by
      simp [videoLastTimeStamp, hs3]
    have hl2 : videoLastTimeStamp file2 = some s0.lastTimeStamp := by
      simp [videoLastTimeStamp, hs]
    refine ⟨by rw [hret]; exact hI.ready01, fun _ => hret.symm, fun h0 => ?_, fun h1 => ?_,
      fun h1 hne => ?_⟩
    · rw [hl3, hl2, hI.keep (by rw [← hret]; exact h0)]
    · rw [hl3, (hI.done (by rw [← hret, h1]; decide)).1]
    · have hnew : new ≠ [] := by
        intro hn
        apply hne
        simp [videoTrace, hs3, hs, htr, hn]
      obtain ⟨e, -, hpts, hhu⟩ := hI.last hnew
      have h0 := (hI.done (by rw [← hret, h1]; decide)).2
      rw [h0] at hhu
      rw [hpts]
      unfold hurryFor at hhu
      split_ifs at hhu with hc
      · simp at hhu
      · by_cases hv : e.time = AV_NOPTS_VALUE
        · exact Or.inl hv
        · right
          by_contra hlt
          exact hc ⟨hv, by omega⟩

/-- Witness of C7: seek to 5000 on the demo file whose container holds the
video packets with dts 4000 and 6000. -/
theorem C7_seek_gate_on_decoded_frames_witness :
    ∃ file3 frame3 ret,
      SDL_ffmpegGetVideoFrame demoLib
        (SDL_ffmpegFlush demoLib
          { demoFile [unitOf (videoPack 4000), unitOf (videoPack 6000)] with
            minimalTimestamp := 5000 }).1 {} = some (file3, frame3, ret) ∧
      (ret = 0 ∨ ret = 1) ∧
      ((SDL_ffmpegFlush demoLib
          { demoFile [unitOf (videoPack 4000), unitOf (videoPack 6000)] with
            minimalTimestamp := 5000 }).1.videoStream ≠ none → frame3.ready = ret) ∧
      (ret = 0 → videoLastTimeStamp file3 =
        videoLastTimeStamp (SDL_ffmpegFlush demoLib
          { demoFile [unitOf (videoPack 4000), unitOf (videoPack 6000)] with
            minimalTimestamp := 5000 }).1) ∧
      (ret = 1 → videoLastTimeStamp file3 = some frame3.pts) ∧
      (ret = 1 → videoTrace file3 ≠
          videoTrace (SDL_ffmpegFlush demoLib
            { demoFile [unitOf (videoPack 4000), unitOf (videoPack 6000)] with
              minimalTimestamp := 5000 }).1 →
        frame3.pts = AV_NOPTS_VALUE ∨ ((5000 : Nat) : Int) ≤ frame3.pts) :=
  C7_seek_gate_on_decoded_frames demoLib
    (demoFile [unitOf (videoPack 4000), unitOf (videoPack 6000)]) _ _ 5000 [] [] {}
    (by decide) rfl rfl

/-! ## C8: the watermark across successive ready frames -/

theorem av_rescale_mono {a a1 b c : Int} (h : a ≤ a1) (ha : a ≠ INT64_MIN)
    (ha1 : a1 ≠ INT64_MIN) (hb : 0 ≤ b) (hc : 0 < c) :
    av_rescale a b c ≤ av_rescale a1 b c := by
  have hc2 : 0 ≤ c / 2 := Int.ediv_nonneg (le_of_lt hc) (by decide)
  unfold av_rescale
  by_cases hneg : a < 0
  · rw [if_pos ⟨hneg, ha⟩]
    have hnum : 0 ≤ -a * b + c / 2 := by
      have : 0 ≤ -a * b := mul_nonneg (by omega) hb
      omega
    by_cases hneg1 : a1 < 0
    · rw [if_pos ⟨hneg1, ha1⟩]
      have hm : -a1 * b ≤ -a * b := mul_le_mul_of_nonneg_right (by omega) hb
      have := Int.ediv_le_ediv hc (show -a1 * b + c / 2 ≤ -a * b + c / 2 by omega)
      omega
    · rw [if_neg (fun hh => hneg1 hh.1)]
      have h1 : 0 ≤ a1 * b + c / 2 := by
        have : 0 ≤ a1 * b := mul_nonneg (by omega) hb
        omega
      have h2 := Int.tdiv_nonneg h1 (le_of_lt hc)
      have h3 := Int.ediv_nonneg hnum (le_of_lt hc)
      omega
  · rw [if_neg (fun hh => hneg hh.1), if_neg (fun hh => hneg (by omega))]
    have h0 : 0 ≤ a * b + c / 2 := by
      have : 0 ≤ a * b := mul_nonneg (by omega) hb
      omega
    have hm : a * b ≤ a1 * b := mul_le_mul_of_nonneg_right h hb
    rw [Int.tdiv_eq_ediv h0 (le_of_lt hc), Int.tdiv_eq_ediv (by omega) (le_of_lt hc)]
    exact Int.ediv_le_ediv hc (by omega)

theorem dtsTime_mono {σ : Type} (s : SDL_ffmpegStream σ) (p q : AVPacket)
    (hnum : 0 ≤ s.time_base_num) (hden : 0 < s.time_base_den) (h : p.dts ≤ q.dts)
    (hp1 : fitsInt64 ((p.dts - s.start_time) * 1000))
    (hp2 : fitsInt64
      (av_rescale ((p.dts - s.start_time) * 1000) s.time_base_num s.time_base_den))
    (hq1 : fitsInt64 ((q.dts - s.start_time) * 1000))
    (hq2 : fitsInt64
      (av_rescale ((q.dts - s.start_time) * 1000) s.time_base_num s.time_base_den)) :
    dtsTime s p ≤ dtsTime s q := by
  rw [dtsTime_exact s p hp1 hp2, dtsTime_exact s q hq1 hq2]
  apply av_rescale_mono _ _ _ hnum hden
  · omega
  · unfold INT64_MIN
    omega
  · unfold INT64_MIN
    omega

/-- The hypotheses on the range are needed: with the time base 1/1 the packet
with dts `9 * 10^15` gets the timestamp `9 * 10^18`, and for the later packet
with dts `185 * 10^14` the product with 1000 leaves `int64_t` and the derived
timestamp is negative. -/
theorem dtsTime_drops_on_overflow :
    dtsTime { demoVideo with time_base_num := 1, time_base_den := 1 }
      (videoPack 9000000000000000) = 9000000000000000000 ∧
    dtsTime { demoVideo with time_base_num := 1, time_base_den := 1 }
      (videoPack 18500000000000000) = 18500000000000000000 - 18446744073709551616 := by
  decide

theorem runAudio_video {σ : Type} (lib : Lib σ) (frames : List SDL_ffmpegAudioFrame)
    (file file1 : SDL_ffmpegFile σ) (results : List Fetched)
    (h : runFetches lib file (frames.map FetchCall.audio) = some (file1, results)) :
    videoRest file1 = videoRest file ∧ pendingVideo file1 = pendingVideo file := by
  induction frames generalizing file results with
  | nil =>
    simp only [List.map_nil, runFetches, Option.some.injEq, Prod.mk.injEq] at h
    rw [h.1]
    exact ⟨rfl, rfl⟩
  | cons fr frames ih =>
    simp only [List.map_cons, runFetches] at h
    split at h
    · simp at h
    · rename_i fa fra ra ha
      split at h
      · simp at h
      · rename_i f2 res hr
        simp only [Option.some.injEq, Prod.mk.injEq] at h
        obtain ⟨rfl, -⟩ := h
        obtain ⟨e1, e2⟩ := ih fa res hr
        have hI := getAudioFrame_inv ha
        exact ⟨e1.trans hI.video, e2.trans (audioInv_consumed hI).2.2⟩

/-- The last packet that a ready video fetch handed to the decoder, when it
handed over one: it lies in the consumed segment of the pending packets, and
with a valid dts its derived timestamp is the watermark after the fetch. -/
theorem getVideoFrame_last {σ : Type} {lib : Lib σ} {file file1 : SDL_ffmpegFile σ}
    {s0 : SDL_ffmpegStream σ} {frame frame1 : SDL_ffmpegVideoFrame}
    (hs : file.videoStream = some s0)
    (h : SDL_ffmpegGetVideoFrame lib file frame = some (file1, frame1, 1))
    (hd : videoTrace file1 ≠ videoTrace file) :
    ∃ s1 p used, file1.videoStream = some s1 ∧ streamFixed s1 = streamFixed s0 ∧
      pendingVideo file = used ++ pendingVideo file1 ∧ p ∈ used ∧
      (p.dts ≠ AV_NOPTS_VALUE → s1.lastTimeStamp = dtsTime s0 p) := by
  obtain ⟨⟨s1, new, hs1, -, htr, hfx, hI⟩, hret⟩ := getVideoFrame_stamp hs h
  obtain ⟨⟨used, hu, hp⟩, -, -⟩ := videoInv_consumed (getVideoFrame_inv h)
  have hused : used = new.map (fun e => e.pack) := by
    simp only [usedVideo, videoTrace, hs1, hs, htr, List.map_append] at hu
    exact (List.append_cancel_left hu).symm
  have hnew : new ≠ [] := by
    intro hn
    apply hd
    simp [videoTrace, hs1, hs, htr, hn]
  obtain ⟨e, he, hpts, -⟩ := hI.last hnew
  have hmem : e ∈ new := List.mem_of_getLast?_eq_some he
  refine ⟨s1, e.pack, used, hs1, hfx, hp, ?_, fun hv => ?_⟩
  · rw [hused]
    exact List.mem_map_of_mem _ hmem
  · rw [(hI.done (by rw [← hret]; decide)).1, hpts]
    exact hI.times e hmem hv

/-- C8 (counterexample).  Three runs without a seek in which two consecutive
fetches return ready and the watermark drops.  (1) The container delivers the
video packets with dts 100 and then 50: the watermark is 100 and then 50.
(2) Decoder with one picture of delay, packets with dts 100 and 140: the first
fetch leaves the watermark 140; the second, with a frame whose `pts` field
holds 40, reaches the end of input, gets the held-back picture from the
null-packet flush and sets the watermark to 40.  (3) A packet without dts and
with duration 40 and then a packet with dts 20: the watermark is 0 + 40 and
then 20. -/
theorem C8_counterexample_watermark_drops :
    (∃ file1 frameA file2 frameB,
      SDL_ffmpegGetVideoFrame demoLib
        (demoFile [unitOf (videoPack 100), unitOf (videoPack 50)]) {} = some (file1, frameA, 1) ∧
      SDL_ffmpegGetVideoFrame demoLib file1 {} = some (file2, frameB, 1) ∧
      videoLastTimeStamp file1 = some 100 ∧ videoLastTimeStamp file2 = some 50) ∧
    (∃ file1 frameA file2 frameB,
      SDL_ffmpegGetVideoFrame delayLib
        (demoFile [unitOf (videoPack 100), unitOf (videoPack 140)]) {} = some (file1, frameA, 1) ∧
      SDL_ffmpegGetVideoFrame delayLib file1 { pts := 40 } = some (file2, frameB, 1) ∧
      videoLastTimeStamp file1 = some 140 ∧ videoLastTimeStamp file2 = some 40) ∧
    (∃ file1 frameA file2 frameB,
      SDL_ffmpegGetVideoFrame demoLib
        (demoFile [unitOf { videoPack AV_NOPTS_VALUE with duration := 40 },
          unitOf (videoPack 20)]) {} = some (file1, frameA, 1) ∧
      SDL_ffmpegGetVideoFrame demoLib file1 {} = some (file2, frameB, 1) ∧
      videoLastTimeStamp file1 = some 40 ∧ videoLastTimeStamp file2 = some 20) :=
  ⟨⟨_, _, _, _, rfl, rfl, rfl, rfl⟩, ⟨_, _, _, _, rfl, rfl, rfl, rfl⟩,
   ⟨_, _, _, _, rfl, rfl, rfl, rfl⟩⟩

/-- C8 (amended).  No seek; a video stream with time base `num/den`,
`0 <= num`, `0 < den`, is selected; every pending video packet carries a dts,
the dts are non-decreasing in delivery order, and for every pending video
packet the product `(dts - start_time) * 1000` and its rescaled value are
`int64_t` values (no overflow in the derivation).  For two consecutive
`SDL_ffmpegGetVideoFrame` calls (audio fetches may lie between them) that both
return ready and each hand at least one packet to the decoder, the watermark
`lastTimeStamp` after the second call is at least the one after the first. -/
theorem C8_watermark_monotone_on_sorted_input {σ : Type} (lib : Lib σ)
    (file file1 file2 file3 : SDL_ffmpegFile σ) (s0 : SDL_ffmpegStream σ)
    (frameA frameA1 frameB frameB1 : SDL_ffmpegVideoFrame)
    (between : List SDL_ffmpegAudioFrame) (results : List Fetched)
    (hs : file.videoStream = some s0)
    (hnum : 0 ≤ s0.time_base_num) (hden : 0 < s0.time_base_den)
    (hvalid : ∀ p ∈ pendingVideo file, p.dts ≠ AV_NOPTS_VALUE)
    (hsorted : (pendingVideo file).Pairwise (fun p q => p.dts ≤ q.dts))
    (hfit : ∀ p ∈ pendingVideo file,
      fitsInt64 ((p.dts - s0.start_time) * 1000) ∧
      fitsInt64
        (av_rescale ((p.dts - s0.start_time) * 1000) s0.time_base_num s0.time_base_den))
    (h1 : SDL_ffmpegGetVideoFrame lib file frameA = some (file1, frameA1, 1))
    (hmid : runFetches lib file1 (between.map FetchCall.audio) = some (file2, results))
    (h2 : SDL_ffmpegGetVideoFrame lib file2 frameB = some (file3, frameB1, 1))
    (hd1 : videoTrace file1 ≠ videoTrace file)
    (hd2 : videoTrace file3 ≠ videoTrace file2) :
    ∃ t1 t3, videoLastTimeStamp file1 = some t1 ∧ videoLastTimeStamp file3 = some t3 ∧
      t1 ≤ t3 := by
  obtain ⟨s1, p, used1, hs1, hfx1, hp1, hmem1, hl1⟩ := getVideoFrame_last hs h1 hd1
  obtain ⟨hrest, hpend⟩ := runAudio_video lib between file1 file2 results hmid
  obtain ⟨-, -, hfxm, -⟩ := videoRest_obs hrest
  cases hs2 : file2.videoStream with
  | none => simp [hs2, hs1] at hfxm
  | some s2 =>
    simp only [hs2, hs1, Option.map_some', Option.some.injEq] at hfxm
    obtain ⟨s3, q, used2, hs3, -, hp2, hmem2, hl2⟩ := getVideoFrame_last hs2 h2 hd2
    have hall : pendingVideo file = used1 ++ (used2 ++ pendingVideo file3) := by
      rw [hp1, ← hpend, hp2]
    have hq : q ∈ used2 ++ pendingVideo file3 := List.mem_append_left _ hmem2
    have hpv : p.dts ≠ AV_NOPTS_VALUE :=
      hvalid p (by rw [hall]; exact List.mem_append_left _ hmem1)
    have hqv : q.dts ≠ AV_NOPTS_VALUE :=
      hvalid q (by rw [hall]; exact List.mem_append_right _ hq)
    rw [hall, List.pairwise_append] at hsorted
    have hle : p.dts ≤ q.dts := hsorted.2.2 p hmem1 q hq
    refine ⟨s1.lastTimeStamp, s3.lastTimeStamp, by simp [videoLastTimeStamp, hs1],
      by simp [videoLastTimeStamp, hs3], ?_⟩
    have hpf := hfit p (by rw [hall]; exact List.mem_append_left _ hmem1)
    have hqf := hfit q (by rw [hall]; exact List.mem_append_right _ hq)
    rw [hl1 hpv, hl2 hqv, dtsTime_congr (hfxm.trans hfx1) q]
    exact dtsTime_mono s0 p q hnum hden hle hpf.1 hpf.2 hqf.1 hqf.2

/-- Witness of C8 on `sortedDemo`: a video fetch, an audio fetch, a video
fetch; the watermark is 100 and then 200. -/
theorem C8_watermark_monotone_on_sorted_input_witness :
    ∃ t1 t3, videoLastTimeStamp sortedDemo1 = some t1 ∧
      videoLastTimeStamp sortedDemo3 = some t3 ∧ t1 ≤ t3 :=
  C8_watermark_monotone_on_sorted_input demoLib sortedDemo sortedDemo1 sortedDemo2 sortedDemo3
    demoVideo {} _ {} _ [{ capacity := 2, buffer := [0, 0] }] _
    rfl (by decide) (by decide) (by decide) (by decide) (by decide) rfl rfl rfl (by decide)
    (by decide)

/-! ## C11, C13: what seek and flush change -/

/-- `SDL_ffmpegDuration` changes at most the error sink. -/
theorem duration_sinkOnly {σ : Type} {file file1 : SDL_ffmpegFile σ} {d : Nat}
    (h : SDL_ffmpegDuration file = some (file1, d)) :
    file1 = { file with sink := file1.sink } := by
  obtain ⟨ty, c, du, a, v, m, sk, lv, la, nv, na⟩ := file
  unfold SDL_ffmpegDuration at h
  cases ty with
  | SDL_ffmpegInputStream =>
    simp only [Option.some.injEq, Prod.mk.injEq] at h
    rw [← h.1]
  | other =>
    simp only [Option.some.injEq, Prod.mk.injEq] at h
    rw [← h.1]
  | SDL_ffmpegOutputStream =>
    unfold SDL_ffmpegVideoDuration SDL_ffmpegAudioDuration at h
    cases v <;> cases a <;> simp at h <;> rw [← h.1]

theorem flush_fields {σ : Type} (lib : Lib σ) (file : SDL_ffmpegFile σ) :
    (SDL_ffmpegFlush lib file).2 = 0 ∧
    audioQueue (SDL_ffmpegFlush lib file).1 = [] ∧
    videoQueue (SDL_ffmpegFlush lib file).1 = [] ∧
    (SDL_ffmpegFlush lib file).1.minimalTimestamp = file.minimalTimestamp ∧
    audioLastTimeStamp (SDL_ffmpegFlush lib file).1 = audioLastTimeStamp file ∧
    videoLastTimeStamp (SDL_ffmpegFlush lib file).1 = videoLastTimeStamp file ∧
    (SDL_ffmpegFlush lib file).1.container = file.container ∧
    (SDL_ffmpegFlush lib file).1.sink = file.sink := by
  unfold SDL_ffmpegFlush audioQueue videoQueue audioLastTimeStamp videoLastTimeStamp
  cases ha : file.audioStream <;> cases hv : file.videoStream <;> simp [ha, hv]

/-- What a successful seek does, in terms of the file that
`SDL_ffmpegDuration` hands back. -/
theorem seek_success {σ : Type} {lib : Lib σ} {file file1 : SDL_ffmpegFile σ} {T : Nat}
    (h : SDL_ffmpegSeek lib file T = some (file1, 0)) :
    ∃ file0 d, SDL_ffmpegDuration file = some (file0, d) ∧ ¬ d < T ∧
      file1 = (SDL_ffmpegFlush lib
        { file0 with
          container := lib.av_seek_frame file0.container
            (toUInt64 ((T : Int) * (AV_TIME_BASE / 1000)))
          minimalTimestamp := T }).1 := by
  unfold SDL_ffmpegSeek at h
  split at h
  · simp at h
  · rename_i file0 d hd
    dsimp only at h
    split_ifs at h with hlt
    · simp at h
    · simp only [Option.some.injEq, Prod.mk.injEq, and_true] at h
      exact ⟨file0, d, hd, hlt, h.symm⟩

/-- C11.  When `SDL_ffmpegSeek` to `T` succeeds (returns 0), the file has
`minimalTimestamp == T`, the queues of the selected audio and video streams
are empty and the `lastTimeStamp` of each selected stream is what it was.
`SDL_ffmpegFlush` on its own returns 0, empties both queues and changes
neither `minimalTimestamp` nor a `lastTimeStamp`. -/
theorem C11_seek_and_flush_effects {σ : Type} (lib : Lib σ) (file file1 : SDL_ffmpegFile σ)
    (T : Nat) (hseek : SDL_ffmpegSeek lib file T = some (file1, 0)) :
    (file1.minimalTimestamp = T ∧ audioQueue file1 = [] ∧ videoQueue file1 = [] ∧
      audioLastTimeStamp file1 = audioLastTimeStamp file ∧
      videoLastTimeStamp file1 = videoLastTimeStamp file) ∧
    ((SDL_ffmpegFlush lib file).2 = 0 ∧
      audioQueue (SDL_ffmpegFlush lib file).1 = [] ∧
      videoQueue (SDL_ffmpegFlush lib file).1 = [] ∧
      (SDL_ffmpegFlush lib file).1.minimalTimestamp = file.minimalTimestamp ∧
      audioLastTimeStamp (SDL_ffmpegFlush lib file).1 = audioLastTimeStamp file ∧
      videoLastTimeStamp (SDL_ffmpegFlush lib file).1 = videoLastTimeStamp file) := by
  obtain ⟨file0, d, hd, -, rfl⟩ := seek_success hseek
  have hs := duration_sinkOnly hd
  obtain ⟨-, f2, f3, f4, f5, f6, -, -⟩ := flush_fields lib
    { file0 with
      container := lib.av_seek_frame file0.container
        (toUInt64 ((T : Int) * (AV_TIME_BASE / 1000)))
      minimalTimestamp := T }
  obtain ⟨g1, g2, g3, g4, g5, g6, -, -⟩ := flush_fields lib file
  refine ⟨⟨f4, f2, f3, ?_, ?_⟩, g1, g2, g3, g4, g5, g6⟩
  · rw [f5, hs]
    rfl
  · rw [f6, hs]
    rfl

/-- Witness of C11 on `seekDemo`: queued packets, watermarks 7 and 9, seek to
5000. -/
theorem C11_seek_and_flush_effects_witness :
    ∃ file1, SDL_ffmpegSeek demoLib seekDemo 5000 = some (file1, 0) ∧
      (file1.minimalTimestamp = (5000 : Nat) ∧ audioQueue file1 = [] ∧ videoQueue file1 = [] ∧
        audioLastTimeStamp file1 = audioLastTimeStamp seekDemo ∧
        videoLastTimeStamp file1 = videoLastTimeStamp seekDemo) ∧
      ((SDL_ffmpegFlush demoLib seekDemo).2 = 0 ∧
        audioQueue (SDL_ffmpegFlush demoLib seekDemo).1 = [] ∧
        videoQueue (SDL_ffmpegFlush demoLib seekDemo).1 = [] ∧
        (SDL_ffmpegFlush demoLib seekDemo).1.minimalTimestamp = seekDemo.minimalTimestamp ∧
        audioLastTimeStamp (SDL_ffmpegFlush demoLib seekDemo).1 = audioLastTimeStamp seekDemo ∧
        videoLastTimeStamp (SDL_ffmpegFlush demoLib seekDemo).1 =
          videoLastTimeStamp seekDemo) :=
  ⟨_, rfl, C11_seek_and_flush_effects demoLib seekDemo _ 5000 rfl⟩

/-- What a rejected seek does, in terms of the file that
`SDL_ffmpegDuration` hands back. -/
theorem seek_rejected {σ : Type} (lib : Lib σ) {file file0 : SDL_ffmpegFile σ} {d T : Nat}
    (hd : SDL_ffmpegDuration file = some (file0, d)) (h : d < T) :
    SDL_ffmpegSeek lib file T =
      some ({ file0 with
        sink := SDL_ffmpegAddError file0.sink (some "can not seek past end of file") }, -1) := by
  unfold SDL_ffmpegSeek
  simp only [hd]
  rw [if_pos h]

theorem seek_accepted {σ : Type} (lib : Lib σ) {file file0 : SDL_ffmpegFile σ} {d T : Nat}
    (hd : SDL_ffmpegDuration file = some (file0, d)) (h : ¬ d < T) :
    ∃ file1, SDL_ffmpegSeek lib file T = some (file1, 0) := by
  unfold SDL_ffmpegSeek
  simp only [hd]
  rw [if_neg h]
  exact ⟨_, rfl⟩

/-- C13.  `SDL_ffmpegSeekRelative(file, d)` is `SDL_ffmpegSeek` at the sum of
the position `p = SDL_ffmpegGetPosition(file)` and `d`, converted to
`uint64_t`.  Let `SDL_ffmpegDuration` give `dur` and let `p + d` be an
`int64_t` value.  If `0 <= p + d <= dur` the call returns 0 and sets
`minimalTimestamp` to `p + d`.  If `p + d > dur`, or if `p + d < 0` and
`dur < 2^63`, the call returns -1 and leaves `minimalTimestamp` and both queues
unchanged; a negative sum has become `p + d + 2^64`, which is above `dur`. -/
theorem C13_seek_relative {σ : Type} (lib : Lib σ) (file file0 : SDL_ffmpegFile σ)
    (dur : Nat) (d : Int)
    (hdur : SDL_ffmpegDuration file = some (file0, dur))
    (hlo : -9223372036854775808 ≤ SDL_ffmpegGetPosition file + d)
    (hhi : SDL_ffmpegGetPosition file + d < 9223372036854775808) :
    SDL_ffmpegSeekRelative lib file d =
      SDL_ffmpegSeek lib file (toUInt64 (SDL_ffmpegGetPosition file + d)) ∧
    (0 ≤ SDL_ffmpegGetPosition file + d → SDL_ffmpegGetPosition file + d ≤ dur →
      ∃ file1, SDL_ffmpegSeekRelative lib file d = some (file1, 0) ∧
        file1.minimalTimestamp = SDL_ffmpegGetPosition file + d) ∧
    ((dur : Int) < SDL_ffmpegGetPosition file + d ∨
        (SDL_ffmpegGetPosition file + d < 0 ∧ dur < 9223372036854775808) →
      ∃ file1, SDL_ffmpegSeekRelative lib file d = some (file1, -1) ∧
        file1.minimalTimestamp = file.minimalTimestamp ∧
        audioQueue file1 = audioQueue file ∧ videoQueue file1 = videoQueue file ∧
        dur < toUInt64 (SDL_ffmpegGetPosition file + d) ∧
        (SDL_ffmpegGetPosition file + d < 0 →
          (toUInt64 (SDL_ffmpegGetPosition file + d) : Int) =
            SDL_ffmpegGetPosition file + d + 18446744073709551616)) := by
  have hs := duration_sinkOnly hdur
  have hrel : SDL_ffmpegSeekRelative lib file d =
      SDL_ffmpegSeek lib file (toUInt64 (SDL_ffmpegGetPosition file + d)) := rfl
  rw [hrel]
  generalize SDL_ffmpegGetPosition file + d = t at hlo hhi ⊢
  refine ⟨rfl, fun h0 hle => ?_, fun hout => ?_⟩
  · have ht : (toUInt64 t : Int) = t := by
      unfold toUInt64
      rw [Int.toNat_of_nonneg (Int.emod_nonneg _ (by decide))]
      exact Int.emod_eq_of_lt h0 (by omega)
    obtain ⟨file1, h1⟩ := seek_accepted lib hdur (T := toUInt64 t) (by omega)
    exact ⟨file1, h1, by rw [seek_gate h1, ht]⟩
  · have hgt : dur < toUInt64 t ∧
        (t < 0 → (toUInt64 t : Int) = t + 18446744073709551616) := by
      unfold toUInt64
      rw [Int.toNat_of_nonneg (Int.emod_nonneg _ (by decide))]
      by_cases hneg : t < 0
      · have e : t % 18446744073709551616 = t + 18446744073709551616 := by
          rw [← Int.add_emod_self]
          exact Int.emod_eq_of_lt (by omega) (by omega)
        refine ⟨?_, fun _ => e⟩
        have : (dur : Int) < t % 18446744073709551616 := by
          rcases hout with h | h
          · omega
          · omega
        have h2 := Int.toNat_of_nonneg (Int.emod_nonneg t (by decide : (18446744073709551616 : Int) ≠ 0))
        omega
      · have e : t % 18446744073709551616 = t := Int.emod_eq_of_lt (by omega) (by omega)
        refine ⟨?_, fun h => absurd h hneg⟩
        have h2 := Int.toNat_of_nonneg (Int.emod_nonneg t (by decide : (18446744073709551616 : Int) ≠ 0))
        omega
    refine ⟨_, seek_rejected lib hdur hgt.1, ?_, ?_, ?_, hgt.1, hgt.2⟩
    · show file0.minimalTimestamp = file.minimalTimestamp
      rw [hs]
    · show audioQueue { file0 with sink := _ } = audioQueue file
      rw [hs]
      rfl
    · show videoQueue { file0 with sink := _ } = videoQueue file
      rw [hs]
      rfl

/-- Witness of C13 on `seekDemo` (position 9, duration 10000 ms): the delta
-10 gives the sum -1, which is rejected. -/
theorem C13_seek_relative_witness :
    SDL_ffmpegSeekRelative demoLib seekDemo (-10) =
      SDL_ffmpegSeek demoLib seekDemo (toUInt64 (SDL_ffmpegGetPosition seekDemo + -10)) ∧
    (0 ≤ SDL_ffmpegGetPosition seekDemo + -10 →
      SDL_ffmpegGetPosition seekDemo + -10 ≤ (10000 : Nat) →
      ∃ file1, SDL_ffmpegSeekRelative demoLib seekDemo (-10) = some (file1, 0) ∧
        file1.minimalTimestamp = SDL_ffmpegGetPosition seekDemo + -10) ∧
    (((10000 : Nat) : Int) < SDL_ffmpegGetPosition seekDemo + -10 ∨
        (SDL_ffmpegGetPosition seekDemo + -10 < 0 ∧ 10000 < 9223372036854775808) →
      ∃ file1, SDL_ffmpegSeekRelative demoLib seekDemo (-10) = some (file1, -1) ∧
        file1.minimalTimestamp = seekDemo.minimalTimestamp ∧
        audioQueue file1 = audioQueue seekDemo ∧ videoQueue file1 = videoQueue seekDemo ∧
        10000 < toUInt64 (SDL_ffmpegGetPosition seekDemo + -10) ∧
        (SDL_ffmpegGetPosition seekDemo + -10 < 0 →
          (toUInt64 (SDL_ffmpegGetPosition seekDemo + -10) : Int) =
            SDL_ffmpegGetPosition seekDemo + -10 + 18446744073709551616)) :=
  C13_seek_relative demoLib seekDemo seekDemo 10000 (-10) rfl (by decide) (by decide)

/-! ## C14: one call of the demux dispatcher -/

/-- C14 (counterexample).  The container delivers a packet of the selected
audio stream, but `av_dup_packet` fails (non-zero return value): the call
returns 0 and the packet is not appended to the audio queue. -/
theorem C14_counterexample_dup_failure :
    (SDL_ffmpegGetPacket (demoFile [some { pack := audioPack 0 [1], dup := 1 }])).2 = 0 ∧
    isAudioPacket (demoFile [some { pack := audioPack 0 [1], dup := 1 }]) (audioPack 0 [1])
      = true ∧
    audioQueue (SDL_ffmpegGetPacket (demoFile [some { pack := audioPack 0 [1], dup := 1 }])).1 =
      [] ∧
    audioQueue (demoFile [some { pack := audioPack 0 [1], dup := 1 }]) ++ [audioPack 0 [1]] ≠
      audioQueue (SDL_ffmpegGetPacket (demoFile [some { pack := audioPack 0 [1], dup := 1 }])).1 :=
  by decide

/-- C14 (amended).  `SDL_ffmpegGetPacket` takes one unit from the container.
At end of input it returns 1 and leaves both queues unchanged.  Otherwise it
returns 0; if `av_dup_packet` fails both queues are unchanged; if it succeeds,
a packet with the id of the selected audio stream goes to the tail of the
audio queue (video queue unchanged), else a packet with the id of the selected
video stream goes to the tail of the video queue (audio queue unchanged), else
both queues are unchanged. -/
theorem C14_get_packet_routing {σ : Type} (file : SDL_ffmpegFile σ) :
    (SDL_ffmpegGetPacket file).1.container = file.container.tail ∧
    (nextUnit file = none →
      (SDL_ffmpegGetPacket file).2 = 1 ∧
      audioQueue (SDL_ffmpegGetPacket file).1 = audioQueue file ∧
      videoQueue (SDL_ffmpegGetPacket file).1 = videoQueue file) ∧
    (∀ r, nextUnit file = some r →
      (SDL_ffmpegGetPacket file).2 = 0 ∧
      (r.dup ≠ 0 →
        audioQueue (SDL_ffmpegGetPacket file).1 = audioQueue file ∧
        videoQueue (SDL_ffmpegGetPacket file).1 = videoQueue file) ∧
      (r.dup = 0 → isAudioPacket file r.pack = true →
        audioQueue (SDL_ffmpegGetPacket file).1 = audioQueue file ++ [r.pack] ∧
        videoQueue (SDL_ffmpegGetPacket file).1 = videoQueue file) ∧
      (r.dup = 0 → isAudioPacket file r.pack = false → isVideoPacket file r.pack = true →
        audioQueue (SDL_ffmpegGetPacket file).1 = audioQueue file ∧
        videoQueue (SDL_ffmpegGetPacket file).1 = videoQueue file ++ [r.pack]) ∧
      (r.dup = 0 → isAudioPacket file r.pack = false → isVideoPacket file r.pack = false →
        audioQueue (SDL_ffmpegGetPacket file).1 = audioQueue file ∧
        videoQueue (SDL_ffmpegGetPacket file).1 = videoQueue file)) := by
  obtain ⟨ty, c, d, a, v, m, sk, lv, la, nv, na⟩ := file
  cases c with
  | nil => simp [SDL_ffmpegGetPacket, nextUnit]
  | cons u rest =>
    cases u with
    | none => simp [SDL_ffmpegGetPacket, nextUnit, audioQueue, videoQueue]
    | some r =>
      simp only [SDL_ffmpegGetPacket, nextUnit, List.head?_cons, Option.join, List.tail_cons,
        Option.some.injEq, forall_eq', reduceCtorEq, false_implies, true_and]
      by_cases hd : r.dup = 0
      · simp only [hd, ne_eq, not_true_eq_false, if_false, false_implies, true_implies,
          true_and]
        cases a <;> cases v <;>
          simp [isAudioPacket, isVideoPacket, appendAudio, appendVideo, audioQueue, videoQueue] <;>
          (split_ifs <;> simp_all)
      · simp [hd, audioQueue, videoQueue]

/-! ## C12: the reassembly buffer across a seek -/

theorem hurryFor_zero {T t : Int} (h : hurryFor t T = 0) : aboveGate T t := by
  unfold hurryFor at h
  unfold aboveGate
  split_ifs at h with hc
  · simp at h
  · by_cases hv : t = AV_NOPTS_VALUE
    · exact Or.inl hv
    · right
      by_contra hlt
      exact hc ⟨hv, by omega⟩

theorem gateInv_afterLeftover {σ : Type} {T : Int} {s : SDL_ffmpegStream σ}
    {frame : SDL_ffmpegAudioFrame} (h : GateInv T s frame) :
    GateInv T (afterLeftover s frame).1 (afterLeftover s frame).2 ∧
    (¬(s.sampleBufferSize ≠ 0 ∧
        (afterLeftover s frame).2.size = (afterLeftover s frame).2.capacity) →
      (afterLeftover s frame).1.sampleBufferSize = 0) := by
  obtain ⟨hl, hp⟩ := h
  unfold afterLeftover
  by_cases hL : s.sampleBufferSize = 0
  · simp only [hL, ne_eq, not_true_eq_false, if_false, false_and, not_false_eq_true,
      forall_const]
    exact ⟨⟨fun h => absurd hL h, hp⟩, trivial⟩
  · simp only [hL, ne_eq, not_false_eq_true, if_true, true_and]
    have hok := hl hL
    unfold copyLeftover
    dsimp only
    by_cases hz : frame.size = 0
    · simp only [hz, if_true]
      split_ifs with hc
      · exact ⟨⟨fun _ => hok, fun _ => hok⟩, fun hne => absurd rfl hne⟩
      · exact ⟨⟨fun hne => absurd rfl hne, fun _ => hok⟩, fun _ => rfl⟩
    · simp only [hz, if_false]
      split_ifs with hc
      · exact ⟨⟨fun _ => hok, fun _ => hp hz⟩, fun hne => absurd rfl hne⟩
      · exact ⟨⟨fun hne => absurd rfl hne, fun _ => hp hz⟩, fun _ => rfl⟩

theorem gateInv_finishDecode {σ : Type} {T : Int} {s : SDL_ffmpegStream σ}
    {frame : SDL_ffmpegAudioFrame} (h : GateInv T s frame) (h0 : s.sampleBufferSize = 0)
    (pack : AVPacket) (time : Int) (codec : σ) (samples : List Nat) (audioSize : Int) :
    GateInv T (finishDecode s frame pack time (hurryFor time T) codec samples audioSize).1
      (finishDecode s frame pack time (hurryFor time T) codec samples audioSize).2 := by
  obtain ⟨hl, hp⟩ := h
  unfold finishDecode
  dsimp only
  by_cases hh : hurryFor time T = 0
  · have hok := hurryFor_zero hh
    simp only [hh, if_true]
    unfold storeDecoded
    dsimp only
    by_cases hz : frame.size = 0
    · simp only [hz, if_true]
      split_ifs <;> exact ⟨fun _ => hok, fun _ => hok⟩
    · simp only [hz, if_false]
      split_ifs <;> exact ⟨fun _ => hok, fun _ => hp hz⟩
  · simp only [hh, if_false]
    exact ⟨fun hne => absurd h0 hne, hp⟩

theorem audioGateState_decode {σ : Type} {lib : Lib σ} {T : Int}
    {s0 : SDL_ffmpegStream σ} {file file1 : SDL_ffmpegFile σ}
    {frame frame1 : SDL_ffmpegAudioFrame} {p : AVPacket} {ret : Int}
    (hP : AudioGateState T s0 file frame)
    (h : SDL_ffmpegDecodeAudioFrame lib file p frame = some (file1, frame1, ret)) :
    AudioGateState T s0 file1 frame1 := by
  obtain ⟨s, new, hs, hg, htr, hhu, hI⟩ := hP
  obtain ⟨s', hs', hcase⟩ := decodeAudio_cases lib _ _ _ _ _ _ h
  rw [hs] at hs'
  cases hs'
  have hl := afterLeftover_fields s frame
  obtain ⟨hI1, hzero⟩ := gateInv_afterLeftover hI
  rcases hcase with ⟨-, -, -, hf, hfr⟩ | ⟨-, hnf, codec, samples, audioSize, sink, hloop, hf, hfr⟩
  · subst hf hfr
    exact ⟨(afterLeftover s frame).1, new, rfl, hg, by rw [hl.2.2.2.2.2.2.1, htr], hhu, hI1⟩
  · have hfd := finishDecode_fields (afterLeftover s frame).1 (afterLeftover s frame).2 p
      (dtsTime (afterLeftover s frame).1 p)
      (hurryFor (dtsTime (afterLeftover s frame).1 p) file.minimalTimestamp)
      codec samples audioSize
    have hI2 := gateInv_finishDecode hI1 (hzero hnf) p (dtsTime (afterLeftover s frame).1 p)
      codec samples audioSize
    subst hf hfr
    rw [hg] at hfd ⊢
    refine ⟨_, new ++ [⟨p, dtsTime (afterLeftover s frame).1 p,
      hurryFor (dtsTime (afterLeftover s frame).1 p) T, audioSize,
      samples.take audioSize.toNat, 0⟩], rfl, rfl, ?_, ?_, hI2⟩
    · rw [hfd.2.2.2.2.2.2.1, hl.2.2.2.2.2.2.1, htr, List.append_assoc]
    · intro e he
      rw [List.mem_append] at he
      rcases he with he | he
      · exact hhu e he
      · simp only [List.mem_singleton] at he
        rw [he]

theorem audioGateState_next {σ : Type} {T : Int} {s0 : SDL_ffmpegStream σ}
    {file file1 : SDL_ffmpegFile σ} {frame frame1 : SDL_ffmpegAudioFrame}
    {pack1 : Option AVPacket} (hP : AudioGateState T s0 file frame)
    (h : nextAudioPacket file frame = some (file1, pack1, frame1)) :
    AudioGateState T s0 file1 frame1 := by
  obtain ⟨s, new, hs, hg, htr, hhu, hI⟩ := hP
  obtain ⟨hq, -, -, hf, -, -⟩ := nextAudioPacket_spec _ _ _ _ _ h
  obtain ⟨q, hs1⟩ := queueOnly_audioStream hq hs
  refine ⟨_, new, hs1, (queueOnly_obs hq).2.2.1.trans hg, htr, hhu, ?_⟩
  rw [hf]
  exact ⟨hI.left, hI.pts⟩

theorem audioGateState_pushBack {σ : Type} {T : Int} {s0 : SDL_ffmpegStream σ}
    {file : SDL_ffmpegFile σ} {frame : SDL_ffmpegAudioFrame} (p : AVPacket)
    (hP : AudioGateState T s0 file frame) :
    AudioGateState T s0 (pushBackAudio file p) frame := by
  obtain ⟨s, new, hs, hg, htr, hhu, hI⟩ := hP
  exact ⟨{ s with buffer := p :: s.buffer }, new, by simp [pushBackAudio, hs],
    by simp [pushBackAudio, hs, hg], htr, hhu, ⟨hI.left, hI.pts⟩⟩

/-- An audio fetch under the gate `T` that starts with leftover bytes (if any)
whose timestamp passes the gate: every packet it decodes gets the hurry flag
of the gate test, and the frame and the leftover on return pass the gate. -/
theorem getAudioFrame_gate {σ : Type} {lib : Lib σ} {T : Int}
    {file file1 : SDL_ffmpegFile σ} {s0 : SDL_ffmpegStream σ}
    {frame frame1 : SDL_ffmpegAudioFrame} {ret : Int}
    (hs : file.audioStream = some s0) (hg : AudioGated T file)
    (h : SDL_ffmpegGetAudioFrame lib file frame = some (file1, frame1, ret)) :
    AudioGateState T s0 file1 frame1 := by
  have hinit : AudioGateState T s0 file { frame with last := 0, size := 0 } :=
    ⟨s0, [], hs, hg.1, by simp, by simp, ⟨hg.2 s0 hs, fun hne => absurd rfl hne⟩⟩
  obtain ⟨file2, pack2, hQ, hfile, -⟩ := getAudioFrame_induct lib
    (fun f _ fr => AudioGateState T s0 f fr) (fun f _ fr => AudioGateState T s0 f fr)
    (fun f fr => AudioGateState T s0 f fr)
    (fun _ _ hP => hP)
    (fun f p fr f1 fr1 r hP hd =>
      ⟨fun _ => audioGateState_decode hP hd, fun _ => audioGateState_decode hP hd⟩)
    (fun _ _ hR _ => hR)
    (fun f fr f1 p1 fr1 hR _ hn => audioGateState_next hR hn)
    file file1 frame frame1 ret (by simp [hs])
    (fun f2 p2 fr2 hn => audioGateState_next hinit hn) h
  rw [hfile]
  cases pack2 with
  | none => exact hQ
  | some p => exact audioGateState_pushBack p hQ

theorem audioGated_audioFetch {σ : Type} {lib : Lib σ} {T : Int}
    {file file1 : SDL_ffmpegFile σ} {frame frame1 : SDL_ffmpegAudioFrame} {ret : Int}
    (hg : AudioGated T file)
    (h : SDL_ffmpegGetAudioFrame lib file frame = some (file1, frame1, ret)) :
    AudioGated T file1 := by
  cases hs : file.audioStream with
  | none =>
    unfold SDL_ffmpegGetAudioFrame at h
    simp only [hs, Option.some.injEq, Prod.mk.injEq] at h
    obtain ⟨rfl, -, -⟩ := h
    exact ⟨hg.1, fun s h1 => by simp [hs] at h1⟩
  | some s0 =>
    obtain ⟨s, new, hs1, hg1, -, -, hI⟩ := getAudioFrame_gate hs hg h
    refine ⟨hg1, fun s' h1 => ?_⟩
    rw [hs1] at h1
    cases h1
    exact hI.left

theorem audioGated_videoFetch {σ : Type} {lib : Lib σ} {T : Int}
    {file file1 : SDL_ffmpegFile σ} {frame frame1 : SDL_ffmpegVideoFrame} {ret : Int}
    (hg : AudioGated T file)
    (h : SDL_ffmpegGetVideoFrame lib file frame = some (file1, frame1, ret)) :
    AudioGated T file1 := by
  have hI := getVideoFrame_inv h
  refine ⟨hI.gate.trans hg.1, fun s1 h1 hne => ?_⟩
  have ha := hI.audio
  unfold audioRest at ha
  rw [h1] at ha
  cases hs : file.audioStream with
  | none => simp [hs] at ha
  | some s =>
    simp only [hs, Option.map_some', Option.some.injEq] at ha
    have e1 := congrArg (fun s : SDL_ffmpegStream σ => s.sampleBufferSize) ha
    have e2 := congrArg (fun s : SDL_ffmpegStream σ => s.sampleBufferTime) ha
    simp only at e1 e2
    rw [e2]
    exact hg.2 s hs (by rw [← e1]; exact hne)

theorem runFetches_audioGated {σ : Type} (lib : Lib σ) (T : Int) (calls : List FetchCall)
    (file file1 : SDL_ffmpegFile σ) (results : List Fetched) (hg : AudioGated T file)
    (h : runFetches lib file calls = some (file1, results)) : AudioGated T file1 := by
  induction calls generalizing file results with
  | nil =>
    simp only [runFetches, Option.some.injEq, Prod.mk.injEq] at h
    rw [← h.1]
    exact hg
  | cons c calls ih =>
    cases c with
    | audio frame =>
      simp only [runFetches] at h
      split at h
      · simp at h
      · rename_i fa fra ra ha
        split at h
        · simp at h
        · rename_i f2 res hr
          simp only [Option.some.injEq, Prod.mk.injEq] at h
          obtain ⟨rfl, -⟩ := h
          exact ih fa res (audioGated_audioFetch hg ha) hr
    | video frame =>
      simp only [runFetches] at h
      split at h
      · simp at h
      · rename_i fa fra ra ha
        split at h
        · simp at h
        · rename_i f2 res hr
          simp only [Option.some.injEq, Prod.mk.injEq] at h
          obtain ⟨rfl, -⟩ := h
          exact ih fa res (audioGated_videoFetch hg ha) hr

theorem flush_leftover {σ : Type} (lib : Lib σ) (file : SDL_ffmpegFile σ) :
    (SDL_ffmpegFlush lib file).1.audioStream.map leftoverState =
      file.audioStream.map leftoverState := by
  unfold SDL_ffmpegFlush leftoverState
  cases ha : file.audioStream <;> cases hv : file.videoStream <;> simp [ha, hv]

theorem seek_leftover {σ : Type} {lib : Lib σ} {file file1 : SDL_ffmpegFile σ} {T : Nat}
    (h : SDL_ffmpegSeek lib file T = some (file1, 0)) :
    file1.audioStream.map leftoverState = file.audioStream.map leftoverState := by
  obtain ⟨file0, d, hd, -, rfl⟩ := seek_success h
  rw [flush_leftover, duration_sinkOnly hd]

/-- C12 (counterexample).  On `staleDemo` the first fetch (capacity 2) decodes
the packet with dts 5 and bytes 1, 2, 3; byte 3 is left over.  The seek to
5000 succeeds and the leftover size is still 1.  The next fetch (capacity 2)
returns the bytes 3, 9 with pts 5: its first byte was decoded before the seek
and its pts is below 5000. -/
theorem C12_counterexample_leftover_survives_seek :
    ∃ file1 frameA file2 file3 frameB,
      SDL_ffmpegGetAudioFrame demoLib staleDemo { capacity := 2, buffer := [0, 0] } =
        some (file1, frameA, 1) ∧
      frameA.buffer = [1, 2] ∧
      SDL_ffmpegSeek demoLib file1 5000 = some (file2, 0) ∧
      file2.audioStream.map (fun s => s.sampleBufferSize) = some 1 ∧
      SDL_ffmpegGetAudioFrame demoLib file2 { capacity := 2, buffer := [0, 0] } =
        some (file3, frameB, 1) ∧
      frameB.buffer = [3, 9] ∧ frameB.pts = 5 :=
  ⟨_, _, _, _, _, rfl, rfl, rfl, rfl, rfl, rfl, rfl⟩

/-- C12 (amended).  A successful `SDL_ffmpegSeek` to `T < 2^63` leaves the
reassembly state of the selected audio stream (sample buffer, leftover size,
offset, timestamp) as it was.  If no bytes were left over when the seek was
made, then after any sequence of fetches the next `SDL_ffmpegGetAudioFrame`
returns; every packet it decodes has the hurry flag of the gate test against
`T` (1 for a valid derived timestamp below `T`, else 0); a frame it returns
with a size other than 0 has a pts that is `AV_NOPTS_VALUE` or at least `T`;
and bytes left over after it carry such a timestamp as well. -/
theorem C12_seek_keeps_leftover_and_gates_audio {σ : Type} (lib : Lib σ)
    (file file1 : SDL_ffmpegFile σ) (T : Nat) (hT : T < 9223372036854775808)
    (hseek : SDL_ffmpegSeek lib file T = some (file1, 0)) :
    file1.audioStream.map leftoverState = file.audioStream.map leftoverState ∧
    ((∀ s, file.audioStream = some s → s.sampleBufferSize = 0) →
      ∀ calls file2 results, runFetches lib file1 calls = some (file2, results) →
      ∀ frame, ∃ file3 frame3 ret,
        SDL_ffmpegGetAudioFrame lib file2 frame = some (file3, frame3, ret) ∧
        (∃ new, audioTrace file3 = audioTrace file2 ++ new ∧
          ∀ e ∈ new, e.hurry = hurryFor e.time T) ∧
        (file2.audioStream ≠ none → frame3.size ≠ 0 → aboveGate T frame3.pts) ∧
        (∀ s3, file3.audioStream = some s3 → s3.sampleBufferSize ≠ 0 →
          aboveGate T s3.sampleBufferTime)) := by
  have _ := hT
  have hleft := seek_leftover hseek
  refine ⟨hleft, fun hempty calls file2 results hrun frame => ?_⟩
  have hg1 : AudioGated (T : Int) file1 := by
    refine ⟨seek_gate hseek, fun s1 hs1 hne => ?_⟩
    exfalso
    rw [hs1] at hleft
    cases hs : file.audioStream with
    | none => simp [hs] at hleft
    | some s =>
      simp only [hs, Option.map_some', Option.some.injEq, leftoverState, Prod.mk.injEq] at hleft
      exact hne (hleft.2.1.trans (hempty s hs))
  have hg2 := runFetches_audioGated lib T calls file1 file2 results hg1 hrun
  obtain ⟨⟨file3, frame3, ret⟩, h3⟩ := getAudioFrame_total lib file2 frame
  have hg3 := audioGated_audioFetch hg2 h3
  refine ⟨file3, frame3, ret, h3, ?_, ?_, hg3.2⟩
  · cases hs : file2.audioStream with
    | none =>
      unfold SDL_ffmpegGetAudioFrame at h3
      simp only [hs, Option.some.injEq, Prod.mk.injEq] at h3
      obtain ⟨rfl, -, -⟩ := h3
      exact ⟨[], by simp [audioTrace, hs], by simp⟩
    | some s0 =>
      obtain ⟨s, new, hs1, -, htr, hhu, -⟩ := getAudioFrame_gate hs hg2 h3
      exact ⟨new, by simp [audioTrace, hs1, hs, htr], hhu⟩
  · intro hne
    cases hs : file2.audioStream with
    | none => exact absurd hs hne
    | some s0 =>
      obtain ⟨s, new, -, -, -, -, hI⟩ := getAudioFrame_gate hs hg2 h3
      exact hI.pts

/-- Witness of C12: seek to 5000 on `staleDemo`, whose audio stream holds no
leftover bytes. -/
theorem C12_seek_keeps_leftover_and_gates_audio_witness :
    ∃ file1, SDL_ffmpegSeek demoLib staleDemo 5000 = some (file1, 0) ∧
      file1.audioStream.map leftoverState = staleDemo.audioStream.map leftoverState ∧
      ((∀ s, staleDemo.audioStream = some s → s.sampleBufferSize = 0) →
        ∀ calls file2 results, runFetches demoLib file1 calls = some (file2, results) →
        ∀ frame, ∃ file3 frame3 ret,
          SDL_ffmpegGetAudioFrame demoLib file2 frame = some (file3, frame3, ret) ∧
          (∃ new, audioTrace file3 = audioTrace file2 ++ new ∧
            ∀ e ∈ new, e.hurry = hurryFor e.time (5000 : Nat)) ∧
          (file2.audioStream ≠ none → frame3.size ≠ 0 → aboveGate (5000 : Nat) frame3.pts) ∧
          (∀ s3, file3.audioStream = some s3 → s3.sampleBufferSize ≠ 0 →
            aboveGate (5000 : Nat) s3.sampleBufferTime)) :=
  ⟨_, rfl, C12_seek_keeps_leftover_and_gates_audio demoLib staleDemo _ 5000 (by decide) rfl⟩

/-! ## C15, C16: the error sink -/

theorem sinkHolds_add {sink : ErrorSink} {q : List String} (h : SinkHolds sink q)
    (msg : String) (hfit : q.length + 1 < 4294967296) :
    SinkHolds (SDL_ffmpegAddError sink (some msg)) (q ++ [msg]) := by
  obtain ⟨hc, -, hl⟩ := h
  unfold SDL_ffmpegAddError
  refine ⟨?_, by simpa using hfit, ?_⟩
  · simp only [hc, List.length_append, List.length_singleton]
    exact Nat.mod_eq_of_lt hfit
  · rcases hl with ⟨hd, hb⟩ | ⟨hd, m, hb⟩
    · exact Or.inl ⟨hd, by simp [hb]⟩
    · exact Or.inr ⟨hd, m, by simp [hb]⟩

theorem sinkHolds_get {sink : ErrorSink} {q : List String} (h : SinkHolds sink q) :
    ∃ sink1, SDL_ffmpegGetLastError sink = some (sink1, q.head?) ∧ SinkHolds sink1 q.tail := by
  obtain ⟨hc, hlt, hl⟩ := h
  unfold SDL_ffmpegGetLastError
  cases q with
  | nil =>
    simp only [List.length_nil] at hc
    simp only [hc, if_true, List.head?_nil, List.tail_nil]
    exact ⟨sink, rfl, hc, by simp, hl⟩
  | cons a q =>
    simp only [List.length_cons] at hc hlt
    have hne : sink.ErrorCount ≠ 0 := by omega
    simp only [hne, if_false, List.head?_cons, List.tail_cons]
    rcases hl with ⟨hd, hb⟩ | ⟨hd, m, hb⟩
    · simp only [hb, hd, ne_eq, not_true_eq_false, if_false]
      exact ⟨_, rfl, by simp only; omega, by omega, Or.inr ⟨by simp, a, rfl⟩⟩
    · simp only [hb, hd, ne_eq, not_false_eq_true, if_true, List.head?_cons]
      exact ⟨_, rfl, by simp only; omega, by omega, Or.inr ⟨hd, a, rfl⟩⟩

/-- Running calls on a sink that holds `q`: the run returns, and the pending
messages followed by the added ones are the returned ones followed by the
messages that the sink holds at the end. -/
theorem runSink_fifo (ops : List SinkOp) (sink : ErrorSink) (q : List String)
    (h : SinkHolds sink q) (hfit : fitsCounter q.length ops = true) :
    ∃ sink1 results q1, runSink sink ops = some (sink1, results) ∧ SinkHolds sink1 q1 ∧
      q ++ addedBy ops = results.reduceOption ++ q1 := by
  induction ops generalizing sink q with
  | nil => exact ⟨sink, [], q, rfl, h, by simp [addedBy]⟩
  | cons op ops ih =>
    cases op with
    | add msg =>
      simp only [fitsCounter, Bool.and_eq_true, decide_eq_true_eq] at hfit
      obtain ⟨sink1, results, q1, hr, hh, he⟩ := ih (SDL_ffmpegAddError sink (some msg))
        (q ++ [msg]) (sinkHolds_add h msg hfit.1) (by simpa using hfit.2)
      exact ⟨sink1, results, q1, by simp only [runSink, hr], hh,
        by simp only [addedBy]; rw [← he]; simp⟩
    | get =>
      simp only [fitsCounter] at hfit
      obtain ⟨sinkg, hg, hhg⟩ := sinkHolds_get h
      obtain ⟨sink1, results, q1, hr, hh, he⟩ := ih sinkg q.tail hhg (by
        cases q <;> simpa using hfit)
      refine ⟨sink1, q.head? :: results, q1, by simp only [runSink, hg, hr], hh, ?_⟩
      simp only [addedBy]
      cases q with
      | nil => simpa using he
      | cons a q =>
        simp only [List.head?_cons, List.reduceOption_cons_of_some, List.cons_append,
          List.tail_cons] at he ⊢
        rw [he]

theorem runSink_adds (msg : String) (n : Nat) (sink : ErrorSink) :
    ∃ sink1, runSink sink (List.replicate n (SinkOp.add msg)) = some (sink1, []) ∧
      sink1.ErrorCount % 4294967296 = (sink.ErrorCount + n) % 4294967296 ∧
      (0 < n → sink1.ErrorCount < 4294967296) ∧
      sink1.ErrorBegin = sink.ErrorBegin ++ List.replicate n msg := by
  induction n generalizing sink with
  | zero => exact ⟨sink, rfl, rfl, fun h => absurd h (by decide), by simp⟩
  | succ n ih =>
    obtain ⟨sink1, hr, hc, hlt, hb⟩ := ih (SDL_ffmpegAddError sink (some msg))
    refine ⟨sink1, by simp only [List.replicate_succ, runSink, hr], ?_, fun _ => ?_, ?_⟩
    · rw [hc]
      simp only [SDL_ffmpegAddError]
      omega
    · cases n with
      | zero =>
        simp only [List.replicate_zero, runSink, Option.some.injEq, Prod.mk.injEq,
          and_true] at hr
        rw [← hr]
        simp only [SDL_ffmpegAddError]
        omega
      | succ k => exact hlt (by omega)
    · rw [hb]
      simp only [SDL_ffmpegAddError, List.replicate_succ, List.append_assoc,
        List.singleton_append]

/-- C15 (counterexample).  From the empty sink, `2^32` calls of
`SDL_ffmpegAddError` and no call of `SDL_ffmpegGetLastError`: the list holds
`2^32` messages, none of them returned, but the 32-bit counter has wrapped to
0, so `SDL_ffmpegError()` is 0 and `SDL_ffmpegGetLastError()` returns null. -/
theorem C15_counterexample_counter_wraps :
    ∃ sink, runSink {} (List.replicate 4294967296 (SinkOp.add "e")) = some (sink, []) ∧
      sink.ErrorBegin.length = 4294967296 ∧
      SDL_ffmpegError sink = 0 ∧ SDL_ffmpegGetLastError sink = some (sink, none) := by
  obtain ⟨sink, hr, hc, hlt, hb⟩ := runSink_adds "e" 4294967296 {}
  have h0 : sink.ErrorCount = 0 := by
    have h1 := hlt (by decide)
    have h2 : sink.ErrorCount % 4294967296 = 0 := by
      rw [hc]
      rfl
    omega
  refine ⟨sink, hr, ?_, ?_, ?_⟩
  · rw [hb, List.length_append, List.length_replicate]
    rfl
  · unfold SDL_ffmpegError toInt32
    rw [h0]
    rfl
  · unfold SDL_ffmpegGetLastError
    rw [if_pos h0]

/-- C15 (amended).  From the empty sink, for every sequence of
`SDL_ffmpegAddError` (non-null message) and `SDL_ffmpegGetLastError` calls,
without `SDL_ffmpegFlushErrors`, during which fewer than `2^32` messages are
pending: every call returns; the non-null results are, in order, the first
messages added; the counter is the number of messages added and not yet
returned, and `SDL_ffmpegError()` is that number when it is below `2^31`; a
further `SDL_ffmpegGetLastError` returns null exactly when every added message
has been returned, and else the next message in the order of adding. -/
theorem C15_error_sink_fifo (ops : List SinkOp) (hfit : fitsCounter 0 ops = true) :
    ∃ sink results, runSink {} ops = some (sink, results) ∧
      results.reduceOption = (addedBy ops).take results.reduceOption.length ∧
      results.reduceOption.length ≤ (addedBy ops).length ∧
      sink.ErrorCount = (addedBy ops).length - results.reduceOption.length ∧
      ((addedBy ops).length - results.reduceOption.length < 2147483648 →
        SDL_ffmpegError sink =
          (((addedBy ops).length - results.reduceOption.length : Nat) : Int)) ∧
      ∃ sink1 r, SDL_ffmpegGetLastError sink = some (sink1, r) ∧
        (r = none ↔ results.reduceOption.length = (addedBy ops).length) ∧
        r = (addedBy ops)[results.reduceOption.length]? := by
  obtain ⟨sink, results, q1, hr, hh, he⟩ := runSink_fifo ops {} []
    ⟨rfl, by decide, Or.inl ⟨rfl, rfl⟩⟩ hfit
  simp only [List.nil_append] at he
  have hlen : (addedBy ops).length = results.reduceOption.length + q1.length := by
    rw [he, List.length_append]
  obtain ⟨sink1, hg, -⟩ := sinkHolds_get hh
  refine ⟨sink, results, hr, by rw [he]; simp, by omega, by rw [hh.1]; omega, fun hlt => ?_,
    sink1, q1.head?, hg, ?_, ?_⟩
  · unfold SDL_ffmpegError toInt32
    rw [hh.1]
    have e : (addedBy ops).length - results.reduceOption.length = q1.length := by omega
    rw [e] at hlt ⊢
    rw [Nat.mod_eq_of_lt hh.2.1, if_pos hlt]
  · cases q1 with
    | nil => simp [hlen]
    | cons a q => simp [hlen]
  · rw [he]
    cases q1 with
    | nil => simp
    | cons a q =>
      rw [List.getElem?_append_right (le_refl _)]
      simp

/-- Witness of C15: E1, E2, E3 are added and the sink is drained. -/
theorem C15_error_sink_fifo_witness :
    (∃ sink results,
      runSink {} [SinkOp.add "E1", SinkOp.add "E2", SinkOp.add "E3", SinkOp.get, SinkOp.get,
        SinkOp.get] = some (sink, results) ∧
      results.reduceOption = ["E1", "E2", "E3"].take results.reduceOption.length ∧
      results.reduceOption.length ≤ ["E1", "E2", "E3"].length ∧
      sink.ErrorCount = ["E1", "E2", "E3"].length - results.reduceOption.length ∧
      (["E1", "E2", "E3"].length - results.reduceOption.length < 2147483648 →
        SDL_ffmpegError sink =
          ((["E1", "E2", "E3"].length - results.reduceOption.length : Nat) : Int)) ∧
      ∃ sink1 r, SDL_ffmpegGetLastError sink = some (sink1, r) ∧
        (r = none ↔ results.reduceOption.length = ["E1", "E2", "E3"].length) ∧
        r = ["E1", "E2", "E3"][results.reduceOption.length]?) ∧
    (runSink {} [SinkOp.add "E1", SinkOp.add "E2", SinkOp.add "E3", SinkOp.get, SinkOp.get,
        SinkOp.get, SinkOp.get]).map (fun x => x.2) =
      some [some "E1", some "E2", some "E3", none] :=
  ⟨C15_error_sink_fifo
    [SinkOp.add "E1", SinkOp.add "E2", SinkOp.add "E3", SinkOp.get, SinkOp.get, SinkOp.get]
    (by decide), by decide⟩

/-- C16.  One message is added to the empty sink and `SDL_ffmpegFlushErrors`
is called: the list is empty but the counter is still 1, so `SDL_ffmpegError()`
returns 1, and `SDL_ffmpegGetLastError()` passes the test of the counter and
dereferences the null `SDL_ffmpegErrorBegin`. -/
theorem C16_flush_errors_keeps_counter :
    (SDL_ffmpegFlushErrors (SDL_ffmpegAddError {} (some "e1"))).ErrorBegin = [] ∧
    SDL_ffmpegError (SDL_ffmpegFlushErrors (SDL_ffmpegAddError {} (some "e1"))) = 1 ∧
    SDL_ffmpegGetLastError (SDL_ffmpegFlushErrors (SDL_ffmpegAddError {} (some "e1"))) = none :=
  by decide

/-! ## The colour kernels -/

theorem toU32_lt (a : Int) : toU32 a < 4294967296 := by
  unfold toU32
  have h1 := Int.emod_nonneg a (by decide : (4294967296 : Int) ≠ 0)
  have h2 := Int.emod_lt_of_pos a (by decide : (0 : Int) < 4294967296)
  omega

theorem toInt32_toU32 (a : Int) (hlo : -2147483648 ≤ a) (hhi : a < 2147483648) :
    toInt32 (toU32 a) = a := by
  unfold toInt32 toU32
  have h1 := Int.emod_nonneg a (by decide : (4294967296 : Int) ≠ 0)
  have h2 := Int.emod_lt_of_pos a (by decide : (0 : Int) < 4294967296)
  have h3 := Int.toNat_of_nonneg h1
  by_cases hneg : a < 0
  · have e : a % 4294967296 = a + 4294967296 := by
      rw [← Int.add_emod_self]
      exact Int.emod_eq_of_lt (by omega) (by omega)
    rw [Nat.mod_eq_of_lt (by omega)]
    split_ifs with hc
    · omega
    · omega
  · have e : a % 4294967296 = a := Int.emod_eq_of_lt (by omega) (by omega)
    rw [Nat.mod_eq_of_lt (by omega)]
    split_ifs with hc
    · omega
    · omega

theorem and32_neg_one (a : Int) (hlo : -2147483648 ≤ a) (hhi : a < 2147483648) :
    and32 a (-1) = a := by
  unfold and32
  have e : toU32 (-1) = 2 ^ 32 - 1 := by decide
  rw [e, Nat.and_pow_two_sub_one_eq_mod, Nat.mod_eq_of_lt (by simpa using toU32_lt a)]
  exact toInt32_toU32 a hlo hhi

theorem and32_zero (a : Int) : and32 a 0 = 0 := by
  unfold and32
  have e : toU32 0 = 0 := by decide
  rw [e, Nat.and_zero]
  decide

/-- The branchless clamp of lines 2005-2010 on a 32-bit `int`. -/
theorem clamp0_255_eq (x : Int) (hlo : -2147483648 ≤ x) (hhi : x < 2147483648) :
    clamp0_255 x = if x < 0 then 0 else if 255 < x then 255 else x := by
  unfold clamp0_255 not32 sar31
  dsimp only
  by_cases hneg : x < 0
  · have e1 : (-x - 1) / 2147483648 = 0 := by omega
    rw [e1, and32_zero, if_pos hneg]
    have e2 : ((0 : Int) - 255) / 2147483648 = -1 := by decide
    rw [e2, and32_neg_one _ (by decide) (by decide)]
    decide
  · have e1 : (-x - 1) / 2147483648 = -1 := by omega
    rw [e1, and32_neg_one x hlo hhi, if_neg hneg]
    by_cases hbig : 255 < x
    · have e2 : (x - 255) / 2147483648 = 0 := by omega
      rw [e2, and32_zero, if_pos hbig]
      decide
    · rw [if_neg hbig]
      by_cases heq : x = 255
      · rw [heq]
        decide
      · have e2 : (x - 255) / 2147483648 = -1 := by omega
        rw [e2, and32_neg_one _ (by omega) (by omega)]
        omega

theorem clamp0_255_range (x : Int) (hlo : -2147483648 ≤ x) (hhi : x < 2147483648) :
    0 ≤ clamp0_255 x ∧ clamp0_255 x ≤ 255 := by
  rw [clamp0_255_eq x hlo hhi]
  split_ifs <;> omega

theorem getD_set (l : List Nat) (i j : Nat) (a d : Nat) :
    (l.set i a).getD j d = if i = j ∧ i < l.length then a else l.getD j d := by
  simp only [List.getD_eq_getElem?_getD, List.getElem?_set]
  by_cases hij : i = j
  · subst hij
    by_cases hlt : i < l.length
    · simp [hlt]
    · simp [hlt, List.getElem?_eq_none (Nat.le_of_not_lt hlt)]
  · simp [hij]

/-- What one pass of the loop over `x` writes: the `n` pixels from `RGBA` on,
pixel `k` from the luma byte at `Y + k` and the chroma bytes at the offsets
reached after `k` steps. -/
theorem rgbaScanline_spec (T : LookupTables) (f : AVFrame) (n : Nat) (x Y U V : Int)
    (RGBA : Nat) (pixels : List Nat) (hx : 0 ≤ x) (hfit : RGBA + n ≤ pixels.length) :
    (rgbaScanline T f n x Y U V RGBA pixels).2 = RGBA + n ∧
    (rgbaScanline T f n x Y U V RGBA pixels).1.length = pixels.length ∧
    (∀ i, i < RGBA ∨ RGBA + n ≤ i →
      (rgbaScanline T f n x Y U V RGBA pixels).1.getD i 0 = pixels.getD i 0) ∧
    (∀ k : Nat, k < n →
      (rgbaScanline T f n x Y U V RGBA pixels).1.getD (RGBA + k) 0 =
        rgbaPixel T (peek f.data0 (Y + k)) (peek f.data1 (U + ((x + k) / 2 - x / 2)))
          (peek f.data2 (V + ((x + k) / 2 - x / 2)))) := by
  induction n generalizing x Y U V RGBA pixels with
  | zero =>
    refine ⟨rfl, rfl, fun _ _ => rfl, fun k hk => absurd hk (Nat.not_lt_zero k)⟩
  | succ n ih =>
    simp only [rgbaScanline]
    obtain ⟨h1, h2, h3, h4⟩ := ih (x + 1) (Y + 1) (U + x % 2) (V + x % 2) (RGBA + 1)
      (pixels.set RGBA
        (rgbaPixel T (peek f.data0 Y) (peek f.data1 U) (peek f.data2 V)))
      (by omega) (by rw [List.length_set]; omega)
    refine ⟨by rw [h1]; omega, by rw [h2, List.length_set], fun i hi => ?_, fun k hk => ?_⟩
    · rw [h3 i (by omega), getD_set, if_neg (by omega)]
    · cases k with
      | zero =>
        show (rgbaScanline T f n (x + 1) (Y + 1) (U + x % 2) (V + x % 2) (RGBA + 1)
          (pixels.set RGBA (rgbaPixel T (peek f.data0 Y) (peek f.data1 U)
            (peek f.data2 V)))).1.getD RGBA 0 = _
        rw [h3 RGBA (by omega), getD_set, if_pos ⟨rfl, by omega⟩]
        simp
      | succ k =>
        have e : RGBA + (k + 1) = RGBA + 1 + k := by omega
        rw [e, h4 k (by omega)]
        have e1 : Y + 1 + (k : Int) = Y + ((k + 1 : Nat) : Int) := by push_cast; ring
        have e2 : x % 2 + ((x + 1 + (k : Int)) / 2 - (x + 1) / 2) =
            (x + ((k + 1 : Nat) : Int)) / 2 - x / 2 := by push_cast; omega
        rw [e1, Int.add_assoc U, Int.add_assoc V, e2]

/-- The pixel that the kernel computes for column `k` of row `y`. -/
theorem rgbaRows_spec (T : LookupTables) (f : AVFrame) (w interlaced : Int) (n : Nat)
    (y : Int) (RGBA : Nat) (pixels : List Nat)
    (hfit : RGBA + n * w.toNat ≤ pixels.length) :
    (rgbaRows T f w interlaced n y RGBA pixels).length = pixels.length ∧
    (∀ i, i < RGBA ∨ RGBA + n * w.toNat ≤ i →
      (rgbaRows T f w interlaced n y RGBA pixels).getD i 0 = pixels.getD i 0) ∧
    (∀ j k : Nat, j < n → k < w.toNat →
      (rgbaRows T f w interlaced n y RGBA pixels).getD (RGBA + j * w.toNat + k) 0 =
        rgbaPixel T (peek f.data0 ((rgbaRowStart f interlaced (y + j)).1 + k))
          (peek f.data1 ((rgbaRowStart f interlaced (y + j)).2.1 + k / 2))
          (peek f.data2 ((rgbaRowStart f interlaced (y + j)).2.2 + k / 2))) := by
  induction n generalizing y RGBA pixels with
  | zero =>
    exact ⟨rfl, fun _ _ => rfl, fun j k hj _ => absurd hj (Nat.not_lt_zero j)⟩
  | succ n ih =>
    simp only [rgbaRows]
    have hmul : (n + 1) * w.toNat = w.toNat + n * w.toNat := by ring
    obtain ⟨s1, s2, s3, s4⟩ := rgbaScanline_spec T f w.toNat 0
      (rgbaRowStart f interlaced y).1 (rgbaRowStart f interlaced y).2.1
      (rgbaRowStart f interlaced y).2.2 RGBA pixels (le_refl _) (by omega)
    rw [s1]
    obtain ⟨h1, h2, h3⟩ := ih (y + 1) (RGBA + w.toNat)
      (rgbaScanline T f w.toNat 0 (rgbaRowStart f interlaced y).1
        (rgbaRowStart f interlaced y).2.1 (rgbaRowStart f interlaced y).2.2 RGBA pixels).1
      (by rw [s2]; omega)
    refine ⟨by rw [h1, s2], fun i hi => ?_, fun j k hj hk => ?_⟩
    · rw [h2 i (by omega), s3 i (by omega)]
    · cases j with
      | zero =>
        rw [Nat.zero_mul, Nat.add_zero, h2 _ (by omega), s4 k hk]
        simp
      | succ j =>
        have e : RGBA + (j + 1) * w.toNat + k = RGBA + w.toNat + j * w.toNat + k := by ring
        rw [e, h3 j k (by omega) hk]
        have e1 : y + 1 + (j : Int) = y + ((j + 1 : Nat) : Int) := by push_cast; ring
        rw [e1]

theorem pack_rgba (R G B : Nat) (hR : R ≤ 255) (hG : G ≤ 255) (hB : B ≤ 255) :
    R ||| (G <<< 8) ||| (B <<< 16) ||| 0xFF000000 = R + 256 * G + 65536 * B + 4278190080 := by
  have e1 : R ||| (G <<< 8) = 256 * G + R := by
    rw [Nat.lor_comm, Nat.shiftLeft_eq, Nat.mul_comm]
    exact (Nat.mul_add_lt_is_or (i := 8) (by omega) G).symm
  have e2 : (256 * G + R) ||| (B <<< 16) = 65536 * B + (256 * G + R) := by
    rw [Nat.lor_comm, Nat.shiftLeft_eq, Nat.mul_comm]
    exact (Nat.mul_add_lt_is_or (i := 16) (by omega) B).symm
  have e3 : (65536 * B + (256 * G + R)) ||| 0xFF000000 =
      4278190080 + (65536 * B + (256 * G + R)) := by
    rw [Nat.lor_comm]
    exact (Nat.mul_add_lt_is_or (i := 24) (by omega) 255).symm
  rw [e1, e2, e3]
  omega

theorem peek_lt (plane : List Nat) (h : ∀ b ∈ plane, b < 256) (i : Int) :
    peek plane i < 256 := by
  unfold peek
  split_ifs
  · decide
  · rw [List.getD_eq_getElem?_getD]
    cases hg : plane[i.toNat]? with
    | none => decide
    | some b =>
      obtain ⟨hlt, rfl⟩ := List.getElem?_eq_some.mp hg
      exact h _ (List.getElem_mem hlt)

theorem clampByte_range (x : Int) : 0 ≤ clampByte x ∧ clampByte x ≤ 255 := by
  unfold clampByte
  split_ifs <;> omega

/-- The pixel of lines 2040-2043 in arithmetic form. -/
theorem rgbaPixel_eq (T : LookupTables) (hT : T.Small) (y u v : Nat) (hy : y < 256)
    (hu : u < 256) (hv : v < 256) :
    rgbaPixel T y u v =
      (clampByte (T.Y y + T.CrtoR v)).toNat +
      256 * (clampByte (T.Y y - T.CrtoG v - T.CbtoG u)).toNat +
      65536 * (clampByte (T.Y y + T.CbtoB u)).toNat + 4278190080 ∧
    clamp0_255 (T.Y y + T.CrtoR v) = clampByte (T.Y y + T.CrtoR v) ∧
    clamp0_255 (T.Y y - T.CrtoG v - T.CbtoG u) = clampByte (T.Y y - T.CrtoG v - T.CbtoG u) ∧
    clamp0_255 (T.Y y + T.CbtoB u) = clampByte (T.Y y + T.CbtoB u) := by
  obtain ⟨⟨a1, a2⟩, -, -, -, -⟩ := hT y hy
  obtain ⟨-, ⟨b1, b2⟩, ⟨c1, c2⟩, -, -⟩ := hT v hv
  obtain ⟨-, -, -, ⟨d1, d2⟩, ⟨e1, e2⟩⟩ := hT u hu
  have hr : clamp0_255 (T.Y y + T.CrtoR v) = clampByte (T.Y y + T.CrtoR v) :=
    clamp0_255_eq (T.Y y + T.CrtoR v) (by omega) (by omega)
  have hg : clamp0_255 (T.Y y - T.CrtoG v - T.CbtoG u) =
      clampByte (T.Y y - T.CrtoG v - T.CbtoG u) :=
    clamp0_255_eq (T.Y y - T.CrtoG v - T.CbtoG u) (by omega) (by omega)
  have hb : clamp0_255 (T.Y y + T.CbtoB u) = clampByte (T.Y y + T.CbtoB u) :=
    clamp0_255_eq (T.Y y + T.CbtoB u) (by omega) (by omega)
  refine ⟨?_, hr, hg, hb⟩
  unfold rgbaPixel
  rw [hr, hg, hb]
  have r1 := clampByte_range (T.Y y + T.CrtoR v)
  have r2 := clampByte_range (T.Y y - T.CrtoG v - T.CbtoG u)
  have r3 := clampByte_range (T.Y y + T.CbtoB u)
  apply pack_rgba <;> omega

/-- The pixel that `SDL_ffmpegConvertYUV420PtoRGBA` leaves at index
`y * w + x` of the pixel array, for both modes. -/
theorem convertRGBA_pixel (T : LookupTables) (f : AVFrame) (OUTPUT : SDL_Surface)
    (interlaced : Int) (x y : Nat) (hx : (x : Int) < OUTPUT.w) (hy : (y : Int) < OUTPUT.h)
    (hbuf : OUTPUT.h.toNat * OUTPUT.w.toNat ≤ OUTPUT.pixels.length) :
    (SDL_ffmpegConvertYUV420PtoRGBA T f OUTPUT interlaced).pixels.getD
        (y * OUTPUT.w.toNat + x) 0 =
      rgbaPixel T (peek f.data0 ((rgbaRowStart f interlaced y).1 + x))
        (peek f.data1 ((rgbaRowStart f interlaced y).2.1 + x / 2))
        (peek f.data2 ((rgbaRowStart f interlaced y).2.2 + x / 2)) := by
  unfold SDL_ffmpegConvertYUV420PtoRGBA
  obtain ⟨-, -, h3⟩ := rgbaRows_spec T f OUTPUT.w interlaced OUTPUT.h.toNat 0 0 OUTPUT.pixels
    (by omega)
  have h := h3 y x (by omega) (by omega)
  simp only [Nat.zero_add, Int.zero_add] at h
  exact h

set_option maxRecDepth 100000 in
/-- Every entry of the tables that `initializeLookupTables` computes in
`double` is the exact product of the decimal coefficient and the offset index,
truncated toward zero. -/
theorem initializeLookupTables_exact :
    ∀ i < 256,
      initializeLookupTables.Y i = Int.tdiv (1164 * ((i : Int) - 16)) 1000 ∧
      initializeLookupTables.CrtoR i = Int.tdiv (1596 * ((i : Int) - 128)) 1000 ∧
      initializeLookupTables.CrtoG i = Int.tdiv (813 * ((i : Int) - 128)) 1000 ∧
      initializeLookupTables.CbtoG i = Int.tdiv (392 * ((i : Int) - 128)) 1000 ∧
      initializeLookupTables.CbtoB i = Int.tdiv (2017 * ((i : Int) - 128)) 1000 := by
  decide!

/-- The tables that `initializeLookupTables` computes are small. -/
theorem initializeLookupTables_small : initializeLookupTables.Small := by
  unfold LookupTables.Small
  intro i hi
  obtain ⟨e1, e2, e3, e4, e5⟩ := initializeLookupTables_exact i hi
  rw [e1, e2, e3, e4, e5]
  have hb : ∀ i : Nat, i < 256 →
      (-536870912 ≤ Int.tdiv (1164 * ((i : Int) - 16)) 1000 ∧
        Int.tdiv (1164 * ((i : Int) - 16)) 1000 < 536870912) ∧
      (-536870912 ≤ Int.tdiv (1596 * ((i : Int) - 128)) 1000 ∧
        Int.tdiv (1596 * ((i : Int) - 128)) 1000 < 536870912) ∧
      (-536870912 ≤ Int.tdiv (813 * ((i : Int) - 128)) 1000 ∧
        Int.tdiv (813 * ((i : Int) - 128)) 1000 < 536870912) ∧
      (-536870912 ≤ Int.tdiv (392 * ((i : Int) - 128)) 1000 ∧
        Int.tdiv (392 * ((i : Int) - 128)) 1000 < 536870912) ∧
      (-536870912 ≤ Int.tdiv (2017 * ((i : Int) - 128)) 1000 ∧
        Int.tdiv (2017 * ((i : Int) - 128)) 1000 < 536870912) := by
    decide!
  exact hb i hi

/-- C19.  Progressive input, tables whose entries do not overflow the sums,
planes of bytes, a surface with `pitch == 4 * w` and a pixel array of at least
`w * h` entries.  For `x < w` and `y < h` the pixel at byte offset
`y * pitch + 4 * x` is `R | G << 8 | B << 16 | 0xFF000000`, where `R`, `G`,
`B` are the three clamped sums of the claim for the luma sample at `(x, y)`
and the chroma samples at column `x / 2` of row `y / 2`; each channel is in
0..255, each is the value of the branchless `clamp0_255`, and the alpha byte
is 0xFF. -/
theorem C19_progressive_rgba_pixel (T : LookupTables) (YUV420P : AVFrame)
    (OUTPUT : SDL_Surface) (x y : Nat) (hT : T.Small)
    (hbytes : ∀ b ∈ YUV420P.data0 ++ YUV420P.data1 ++ YUV420P.data2, b < 256)
    (hx : (x : Int) < OUTPUT.w) (hy : (y : Int) < OUTPUT.h)
    (hpitch : OUTPUT.pitch = 4 * OUTPUT.w)
    (hbuf : OUTPUT.h.toNat * OUTPUT.w.toNat ≤ OUTPUT.pixels.length) :
    ∃ R G B : Nat,
      (SDL_ffmpegConvertYUV420PtoRGBA T YUV420P OUTPUT 0).pixels.getD
        (((y : Int) * OUTPUT.pitch + 4 * x) / 4).toNat 0 =
          R ||| (G <<< 8) ||| (B <<< 16) ||| 0xFF000000 ∧
      (R : Int) = clampByte
        (T.Y (peek YUV420P.data0 (YUV420P.linesize0 * y + x)) +
          T.CrtoR (peek YUV420P.data2 (YUV420P.linesize2 * ((y : Int) / 2) + (x : Int) / 2))) ∧
      (G : Int) = clampByte
        (T.Y (peek YUV420P.data0 (YUV420P.linesize0 * y + x)) -
          T.CrtoG (peek YUV420P.data2 (YUV420P.linesize2 * ((y : Int) / 2) + (x : Int) / 2)) -
          T.CbtoG (peek YUV420P.data1 (YUV420P.linesize1 * ((y : Int) / 2) + (x : Int) / 2))) ∧
      (B : Int) = clampByte
        (T.Y (peek YUV420P.data0 (YUV420P.linesize0 * y + x)) +
          T.CbtoB (peek YUV420P.data1 (YUV420P.linesize1 * ((y : Int) / 2) + (x : Int) / 2))) ∧
      (R : Int) = clamp0_255
        (T.Y (peek YUV420P.data0 (YUV420P.linesize0 * y + x)) +
          T.CrtoR (peek YUV420P.data2 (YUV420P.linesize2 * ((y : Int) / 2) + (x : Int) / 2))) ∧
      (G : Int) = clamp0_255
        (T.Y (peek YUV420P.data0 (YUV420P.linesize0 * y + x)) -
          T.CrtoG (peek YUV420P.data2 (YUV420P.linesize2 * ((y : Int) / 2) + (x : Int) / 2)) -
          T.CbtoG (peek YUV420P.data1 (YUV420P.linesize1 * ((y : Int) / 2) + (x : Int) / 2))) ∧
      (B : Int) = clamp0_255
        (T.Y (peek YUV420P.data0 (YUV420P.linesize0 * y + x)) +
          T.CbtoB (peek YUV420P.data1 (YUV420P.linesize1 * ((y : Int) / 2) + (x : Int) / 2))) ∧
      R ≤ 255 ∧ G ≤ 255 ∧ B ≤ 255 ∧
      (R ||| (G <<< 8) ||| (B <<< 16) ||| 0xFF000000) / 16777216 = 0xFF ∧
      (R ||| (G <<< 8) ||| (B <<< 16) ||| 0xFF000000) % 256 = R ∧
      (R ||| (G <<< 8) ||| (B <<< 16) ||| 0xFF000000) / 256 % 256 = G ∧
      (R ||| (G <<< 8) ||| (B <<< 16) ||| 0xFF000000) / 65536 % 256 = B := by
  have hidx : (((y : Int) * OUTPUT.pitch + 4 * x) / 4).toNat = y * OUTPUT.w.toNat + x := by
    have hw : (OUTPUT.w.toNat : Int) = OUTPUT.w := Int.toNat_of_nonneg (by omega)
    have e : ((y : Int) * OUTPUT.pitch + 4 * x) / 4 = ((y * OUTPUT.w.toNat + x : Nat) : Int) := by
      rw [hpitch]
      push_cast
      rw [hw]
      have : (y : Int) * (4 * OUTPUT.w) + 4 * x = ((y : Int) * OUTPUT.w + x) * 4 := by ring
      rw [this, Int.mul_ediv_cancel _ (by decide)]
    rw [e, Int.toNat_natCast]
  have hpix := convertRGBA_pixel T YUV420P OUTPUT 0 x y hx hy hbuf
  have hstart : rgbaRowStart YUV420P 0 y =
      (YUV420P.linesize0 * y, YUV420P.linesize1 * ((y : Int) / 2),
        YUV420P.linesize2 * ((y : Int) / 2)) := by
    simp [rgbaRowStart]
  rw [hstart] at hpix
  simp only at hpix
  have h0 : ∀ b ∈ YUV420P.data0, b < 256 := fun b hb => hbytes b (by simp [hb])
  have h1 : ∀ b ∈ YUV420P.data1, b < 256 := fun b hb => hbytes b (by simp [hb])
  have h2 : ∀ b ∈ YUV420P.data2, b < 256 := fun b hb => hbytes b (by simp [hb])
  obtain ⟨-, er, eg, eb⟩ := rgbaPixel_eq T hT _ _ _
    (peek_lt YUV420P.data0 h0 (YUV420P.linesize0 * y + x))
    (peek_lt YUV420P.data1 h1 (YUV420P.linesize1 * ((y : Int) / 2) + (x : Int) / 2))
    (peek_lt YUV420P.data2 h2 (YUV420P.linesize2 * ((y : Int) / 2) + (x : Int) / 2))
  have r1 := clampByte_range (T.Y (peek YUV420P.data0 (YUV420P.linesize0 * y + x)) +
    T.CrtoR (peek YUV420P.data2 (YUV420P.linesize2 * ((y : Int) / 2) + (x : Int) / 2)))
  have r2 := clampByte_range (T.Y (peek YUV420P.data0 (YUV420P.linesize0 * y + x)) -
    T.CrtoG (peek YUV420P.data2 (YUV420P.linesize2 * ((y : Int) / 2) + (x : Int) / 2)) -
    T.CbtoG (peek YUV420P.data1 (YUV420P.linesize1 * ((y : Int) / 2) + (x : Int) / 2)))
  have r3 := clampByte_range (T.Y (peek YUV420P.data0 (YUV420P.linesize0 * y + x)) +
    T.CbtoB (peek YUV420P.data1 (YUV420P.linesize1 * ((y : Int) / 2) + (x : Int) / 2)))
  refine ⟨_, _, _, ?_, (Int.toNat_of_nonneg r1.1), (Int.toNat_of_nonneg r2.1),
    (Int.toNat_of_nonneg r3.1), ?_, ?_, ?_, by omega, by omega, by omega, ?_⟩
  · rw [hidx, hpix]
    unfold rgbaPixel
    rw [er, eg, eb]
  · rw [Int.toNat_of_nonneg r1.1, er]
  · rw [Int.toNat_of_nonneg r2.1, eg]
  · rw [Int.toNat_of_nonneg r3.1, eb]
  · rw [pack_rgba _ _ _ (by omega) (by omega) (by omega)]
    omega

/-- Witness of C19: the tables of `initializeLookupTables`, a 2 x 2 frame and
the pixel at `(1, 1)`. -/
theorem C19_progressive_rgba_pixel_witness :
    ∃ R G B : Nat,
      (SDL_ffmpegConvertYUV420PtoRGBA initializeLookupTables demoPicture demoSurface 0).pixels.getD
        ((((1 : Nat) : Int) * demoSurface.pitch + 4 * (1 : Nat)) / 4).toNat 0 =
          R ||| (G <<< 8) ||| (B <<< 16) ||| 0xFF000000 ∧
      (R : Int) = clampByte
        (initializeLookupTables.Y
            (peek demoPicture.data0 (demoPicture.linesize0 * (1 : Nat) + (1 : Nat))) +
          initializeLookupTables.CrtoR (peek demoPicture.data2
            (demoPicture.linesize2 * (((1 : Nat) : Int) / 2) + ((1 : Nat) : Int) / 2))) ∧
      (G : Int) = clampByte
        (initializeLookupTables.Y
            (peek demoPicture.data0 (demoPicture.linesize0 * (1 : Nat) + (1 : Nat))) -
          initializeLookupTables.CrtoG (peek demoPicture.data2
            (demoPicture.linesize2 * (((1 : Nat) : Int) / 2) + ((1 : Nat) : Int) / 2)) -
          initializeLookupTables.CbtoG (peek demoPicture.data1
            (demoPicture.linesize1 * (((1 : Nat) : Int) / 2) + ((1 : Nat) : Int) / 2))) ∧
      (B : Int) = clampByte
        (initializeLookupTables.Y
            (peek demoPicture.data0 (demoPicture.linesize0 * (1 : Nat) + (1 : Nat))) +
          initializeLookupTables.CbtoB (peek demoPicture.data1
            (demoPicture.linesize1 * (((1 : Nat) : Int) / 2) + ((1 : Nat) : Int) / 2))) ∧
      (R : Int) = clamp0_255
        (initializeLookupTables.Y
            (peek demoPicture.data0 (demoPicture.linesize0 * (1 : Nat) + (1 : Nat))) +
          initializeLookupTables.CrtoR (peek demoPicture.data2
            (demoPicture.linesize2 * (((1 : Nat) : Int) / 2) + ((1 : Nat) : Int) / 2))) ∧
      (G : Int) = clamp0_255
        (initializeLookupTables.Y
            (peek demoPicture.data0 (demoPicture.linesize0 * (1 : Nat) + (1 : Nat))) -
          initializeLookupTables.CrtoG (peek demoPicture.data2
            (demoPicture.linesize2 * (((1 : Nat) : Int) / 2) + ((1 : Nat) : Int) / 2)) -
          initializeLookupTables.CbtoG (peek demoPicture.data1
            (demoPicture.linesize1 * (((1 : Nat) : Int) / 2) + ((1 : Nat) : Int) / 2))) ∧
      (B : Int) = clamp0_255
        (initializeLookupTables.Y
            (peek demoPicture.data0 (demoPicture.linesize0 * (1 : Nat) + (1 : Nat))) +
          initializeLookupTables.CbtoB (peek demoPicture.data1
            (demoPicture.linesize1 * (((1 : Nat) : Int) / 2) + ((1 : Nat) : Int) / 2))) ∧
      R ≤ 255 ∧ G ≤ 255 ∧ B ≤ 255 ∧
      (R ||| (G <<< 8) ||| (B <<< 16) ||| 0xFF000000) / 16777216 = 0xFF ∧
      (R ||| (G <<< 8) ||| (B <<< 16) ||| 0xFF000000) % 256 = R ∧
      (R ||| (G <<< 8) ||| (B <<< 16) ||| 0xFF000000) / 256 % 256 = G ∧
      (R ||| (G <<< 8) ||| (B <<< 16) ||| 0xFF000000) / 65536 % 256 = B :=
  C19_progressive_rgba_pixel initializeLookupTables demoPicture demoSurface 1 1
    initializeLookupTables_small (by decide) (by decide) (by decide) (by decide) (by decide)

/-! ## Chroma rows of an interlaced frame: the scanline calls -/

theorem interlacedChromaRow_eq (y : Int) : interlacedChromaRow y = 2 * (y / 4) + y % 2 := by
  unfold interlacedChromaRow
  split_ifs <;> omega

/-- Call `j` of the interlaced branch of the YUY2 kernel. -/
theorem yuy2Interlaced_get (f : AVFrame) (o : SDL_Overlay) (n : Nat) (Y U V P : Int)
    (j : Nat) (hj : j < 4 * n) :
    (yuy2Interlaced f o n Y U V P)[j]? =
      some ⟨Y + f.linesize0 * j, U + f.linesize1 * (2 * ((j : Int) / 4) + (j : Int) % 2),
        V + f.linesize2 * (2 * ((j : Int) / 4) + (j : Int) % 2), P + o.pitches0 * j, o.w⟩ := by
  induction n generalizing Y U V P j with
  | zero => omega
  | succ n ih =>
    simp only [yuy2Interlaced]
    match j, hj with
    | 0, _ => simp
    | 1, _ => simp
    | 2, _ =>
      simp only [List.getElem?_cons_succ, List.getElem?_cons_zero, Option.some.injEq]
      congr 1 <;> (push_cast; ring_nf)
    | 3, _ =>
      simp only [List.getElem?_cons_succ, List.getElem?_cons_zero, Option.some.injEq]
      congr 1 <;> (push_cast; ring_nf)
    | k + 4, hk =>
      simp only [List.getElem?_cons_succ]
      rw [ih _ _ _ _ k (by omega)]
      have e1 : ((k + 4 : Nat) : Int) / 4 = (k : Int) / 4 + 1 := by push_cast; omega
      have e2 : ((k + 4 : Nat) : Int) % 2 = (k : Int) % 2 := by push_cast; omega
      rw [e1, e2]
      simp only [Option.some.injEq]
      congr 1 <;> (push_cast; ring)

set_option maxRecDepth 100000 in
/-- C20 (the code departs from the claim).  On a surface of 2 x 2 pixels with
`pitch == 12` the pixel `(x, y)` lies at byte offset `12 * y + 4 * x`, that is
at word `3 * y + x`.  The decoder kernel writes its four pixels to the words
0, 1, 2, 3: the pixel `(0, 1)` lands in the padding word 2, the word 3 of the
pixel `(0, 1)` receives the value of the pixel `(1, 1)`, which is a different
value, and the word 4 of the pixel `(1, 1)` is never written.  The encoder
kernel reads row 1 from the words 2 and 3: of a surface whose row 1 is white
it makes the luma row `[16, 235]` and not `[235, 235]`. -/
theorem C20_rgba_kernels_ignore_pitch :
    (SDL_ffmpegConvertYUV420PtoRGBA initializeLookupTables demoPicture paddedSurface 0).pixels =
      [rgbaPixel initializeLookupTables 16 90 240, rgbaPixel initializeLookupTables 235 90 240,
        rgbaPixel initializeLookupTables 81 90 240, rgbaPixel initializeLookupTables 41 90 240,
        0, 0] ∧
    rgbaPixel initializeLookupTables 81 90 240 ≠ rgbaPixel initializeLookupTables 41 90 240 ∧
    ((1 : Int) * paddedSurface.pitch + 4 * 0) / 4 = 3 ∧
    ((1 : Int) * paddedSurface.pitch + 4 * 1) / 4 = 4 ∧
    (SDL_ffmpegConvertRGBAtoYUV420P paddedInput blankFrame 0).data0 = [16, 16, 16, 235] ∧
    lumaOf (peekPixel paddedInput.pixels (((1 : Int) * paddedInput.pitch + 4 * 0) / 4)) = 235 ∧
    lumaOf (peekPixel paddedInput.pixels (((1 : Int) * paddedInput.pitch + 4 * 1) / 4)) = 235 := by
  decide!

theorem length_poke (l : List Nat) (i : Int) (v : Nat) : (poke l i v).length = l.length := by
  unfold poke
  split <;> simp

theorem peek_poke (l : List Nat) (i j : Int) (v : Nat) :
    peek (poke l i v) j = if j = i ∧ 0 ≤ i ∧ i < l.length then v else peek l j := by
  unfold peek poke
  by_cases hi : i < 0
  · have hn : ¬ (j = i ∧ 0 ≤ i ∧ i < l.length) := by omega
    simp only [if_pos hi, if_neg hn]
  · by_cases hj : j < 0
    · have hn : ¬ (j = i ∧ 0 ≤ i ∧ i < l.length) := by omega
      simp only [if_pos hj, if_neg hn]
    · simp only [if_neg hi, if_neg hj, getD_set]
      by_cases h : i.toNat = j.toNat ∧ i.toNat < l.length
      · have hp : j = i ∧ 0 ≤ i ∧ i < l.length := by omega
        rw [if_pos h, if_pos hp]
      · have hn : ¬ (j = i ∧ 0 ≤ i ∧ i < l.length) := by omega
        rw [if_neg h, if_neg hn]

/-- Call `j` of the progressive branch of the encoder. -/
theorem yuvProgressive_get (s : SDL_Surface) (f : AVFrame) (n : Nat) (Y U V P : Int)
    (j : Nat) (hj : j < 2 * n) :
    (yuvProgressive s f n Y U V P)[j]? =
      some ⟨Y + f.linesize0 * j, U + f.linesize1 * (((j : Int) + 1) / 2),
        V + f.linesize2 * (((j : Int) + 1) / 2), P + s.w * j, s.w⟩ := by
  induction n generalizing Y U V P j with
  | zero => omega
  | succ n ih =>
    simp only [yuvProgressive]
    match j, hj with
    | 0, _ => simp
    | 1, _ => simp
    | k + 2, hk =>
      simp only [List.getElem?_cons_succ]
      rw [ih _ _ _ _ k (by omega)]
      have e1 : (((k + 2 : Nat) : Int) + 1) / 2 = ((k : Int) + 1) / 2 + 1 := by push_cast; omega
      rw [e1]
      simp only [Option.some.injEq]
      congr 1 <;> (push_cast; ring)

/-- A list splits at an index: the elements after it are the elements at the
larger indices. -/
theorem split_get {α : Type} (l : List α) (j : Nat) (c : α) (h : l[j]? = some c) :
    ∃ pre post, l = pre ++ c :: post ∧ ∀ c1 ∈ post, ∃ k, j < k ∧ l[k]? = some c1 := by
  induction l generalizing j with
  | nil => simp at h
  | cons a l ih =>
    cases j with
    | zero =>
      simp only [List.getElem?_cons_zero, Option.some.injEq] at h
      subst h
      refine ⟨[], l, rfl, fun c1 hc1 => ?_⟩
      obtain ⟨k, hk⟩ := List.getElem?_of_mem hc1
      exact ⟨k + 1, by omega, by simpa using hk⟩
    | succ j =>
      simp only [List.getElem?_cons_succ] at h
      obtain ⟨pre, post, e, hp⟩ := ih j h
      refine ⟨a :: pre, post, by rw [e]; rfl, fun c1 hc1 => ?_⟩
      obtain ⟨k, hk, hg⟩ := hp c1 hc1
      exact ⟨k + 1, by omega, by simpa using hg⟩

/-- C23 (the code departs from the claim).  With an audio stream selected,
whatever the type of the file, `SDL_ffmpegAudioDuration` takes the `else`
branch of `if( !file->audioStream )`: it appends "no valid audio stream
selected" and returns 0.  On `durationDemo` the duration of the claim is
`av_rescale(1000 * 5000, 1, 1000) = 5000`, the call returns 0 and the sink
holds one message.  With no audio stream selected, an input or an output file
makes the guarded branch dereference the null `audioStream`. -/
theorem C23_audio_duration_guard_inverted {σ : Type} (file : SDL_ffmpegFile σ)
    (s : SDL_ffmpegStream σ) :
    SDL_ffmpegAudioDuration { file with audioStream := some s } =
      some ({ file with
                audioStream := some s
                sink := SDL_ffmpegAddError file.sink (some "no valid audio stream selected") },
            0) ∧
    SDL_ffmpegAudioDuration { file with audioStream := none, type := SDL_ffmpegInputStream } =
      none ∧
    SDL_ffmpegAudioDuration { file with audioStream := none, type := SDL_ffmpegOutputStream } =
      none ∧
    av_rescale (1000 * 5000) 1 1000 = 5000 ∧
    (SDL_ffmpegAudioDuration durationDemo).map (fun r => (r.2, r.1.sink.ErrorBegin)) =
      some (0, ["no valid audio stream selected"]) := by
  refine ⟨rfl, rfl, rfl, by decide, rfl⟩

/-- C24 (the code departs from the claim).  With no video stream selected
`SDL_ffmpegGetVideoFrame` returns 0 and leaves the file, the error sink
included, and the frame as they were: no message is appended.  With no audio
stream selected `SDL_ffmpegGetAudioFrame` returns 0, leaves the frame and the
queues as they were and appends the message "no valid audio stream
selected". -/
theorem C24_video_fetch_without_stream_is_silent {σ : Type} (lib : Lib σ)
    (file : SDL_ffmpegFile σ) (aframe : SDL_ffmpegAudioFrame) (vframe : SDL_ffmpegVideoFrame) :
    SDL_ffmpegGetVideoFrame lib { file with videoStream := none } vframe =
      some ({ file with videoStream := none }, vframe, 0) ∧
    SDL_ffmpegGetAudioFrame lib { file with audioStream := none } aframe =
      some ({ file with
                audioStream := none
                sink := SDL_ffmpegAddError file.sink (some "no valid audio stream selected") },
            aframe, 0) := by
  exact ⟨rfl, rfl⟩

/-- C25 (the code departs from the claim).  The container delivers an audio
packet with the one byte 7 and then a damaged audio packet on which the
decoder returns -1 without touching `audioSize`; the frame has room for 2
bytes.  The error is reported ("error decoding audio frame"), but the `break`
of line 1871 only leaves the loop: `audioSize` still holds its initial value
384000 and lines 1879-1903 copy from the sample buffer.  The frame comes back
full with the bytes 7, 7, and 383999 bytes count as left over, although the
damaged packet decoded to nothing. -/
theorem C25_decode_error_delivers_stale_bytes :
    (SDL_ffmpegGetAudioFrame faultyLib
        (demoFile [unitOf (audioPack 0 [7]), unitOf (damagedAudioPack 10)])
        { capacity := 2, buffer := [0, 0] }).map
      (fun r => (r.2.1.buffer, r.2.1.size, r.2.2, r.1.sink.ErrorBegin,
        r.1.audioStream.map (fun s => (s.codec, s.sampleBufferSize, s.sampleBufferOffset)))) =
    some ([7, 7], 2, 1, ["error decoding audio frame"], some (2, 383999, 1)) := by
  rfl

/-! ## C28: the fetches terminate -/

/-- C28.  For every decoder, every file (its container holds finitely many
units, after which every read signals the end of the input) and every frame,
`SDL_ffmpegGetAudioFrame` and `SDL_ffmpegGetVideoFrame` return, and so do the
packet loops `while( !pack && !frame->last )` and the decode loop
`while( size > 0 )` on their own.  One pass of a packet loop takes the head of
the queue, if there is one, and then reads from the container: the read either
signals the end of the input or takes exactly one unit out of the container.
A pass of the decode loop either reports an error and ends the loop, or the
decoder has consumed `len > 0` bytes and `size` has become smaller. -/
theorem C28_fetch_terminates {σ : Type} (lib : Lib σ) (file : SDL_ffmpegFile σ) :
    (∀ frame, (SDL_ffmpegGetAudioFrame lib file frame).isSome) ∧
    (∀ frame, (SDL_ffmpegGetVideoFrame lib file frame).isSome) ∧
    (∀ frame, (nextAudioPacket file frame).isSome) ∧
    (∀ frame, (nextVideoPacket file frame).isSome) ∧
    (∀ codec hurry samples audioSize (pack : AVPacket) sink,
      (decodeAudioLoop lib (pack.size.toNat + 1) codec hurry samples audioSize pack.size pack
        sink).isSome) ∧
    ((SDL_ffmpegGetPacket (SDL_ffmpegGetAudioPacket file).1).2 = 1 ∨
      ((SDL_ffmpegGetPacket (SDL_ffmpegGetAudioPacket file).1).2 = 0 ∧
        (SDL_ffmpegGetPacket (SDL_ffmpegGetAudioPacket file).1).1.container.length + 1 =
          file.container.length)) ∧
    ((SDL_ffmpegGetPacket (SDL_ffmpegGetVideoPacket file).1).2 = 1 ∨
      ((SDL_ffmpegGetPacket (SDL_ffmpegGetVideoPacket file).1).2 = 0 ∧
        (SDL_ffmpegGetPacket (SDL_ffmpegGetVideoPacket file).1).1.container.length + 1 =
          file.container.length)) ∧
    (∀ n codec hurry samples audioSize size (pack : AVPacket) sink, 0 < size →
      let r := lib.avcodec_decode_audio3 codec hurry samples audioSize pack
      decodeAudioLoop lib (n + 1) codec hurry samples audioSize size pack sink =
        if r.len ≤ 0 ∨ r.audioSize = 0 then
          some (r.codec, r.samples, r.audioSize,
            SDL_ffmpegAddError sink (some "error decoding audio frame"))
        else decodeAudioLoop lib n r.codec hurry r.samples r.audioSize (size - r.len) pack sink) ∧
    (∀ codec hurry samples audioSize size (pack : AVPacket),
      ¬((lib.avcodec_decode_audio3 codec hurry samples audioSize pack).len ≤ 0 ∨
        (lib.avcodec_decode_audio3 codec hurry samples audioSize pack).audioSize = 0) →
      size - (lib.avcodec_decode_audio3 codec hurry samples audioSize pack).len < size) := by
  have hpass : ∀ f : SDL_ffmpegFile σ,
      (SDL_ffmpegGetPacket f).2 = 1 ∨
        ((SDL_ffmpegGetPacket f).2 = 0 ∧
          (SDL_ffmpegGetPacket f).1.container.length + 1 = f.container.length) := by
    intro f
    rw [getPacket_snd, getPacket_container]
    unfold nextUnit
    cases hcont : f.container with
    | nil => left; rfl
    | cons u rest =>
      cases u with
      | none => left; rfl
      | some r => right; exact ⟨rfl, rfl⟩
  refine ⟨fun frame => ?_, fun frame => ?_, fun frame => ?_, fun frame => ?_, ?_, ?_, ?_, ?_, ?_⟩
  · exact Option.isSome_iff_exists.mpr (getAudioFrame_total lib file frame)
  · exact Option.isSome_iff_exists.mpr (getVideoFrame_total lib file frame)
  · exact Option.isSome_iff_exists.mpr (nextAudioPacket_total file frame)
  · exact Option.isSome_iff_exists.mpr (nextVideoPacket_total file frame)
  · intro codec hurry samples audioSize pack sink
    exact Option.isSome_iff_exists.mpr
      (decodeAudioLoop_total lib _ codec hurry samples audioSize pack.size pack sink (le_refl _))
  · have h := hpass (SDL_ffmpegGetAudioPacket file).1
    have hq : (SDL_ffmpegGetAudioPacket file).1.container = file.container := by
      unfold SDL_ffmpegGetAudioPacket
      split
      · rfl
      · split <;> rfl
    rw [hq] at h
    exact h
  · have h := hpass (SDL_ffmpegGetVideoPacket file).1
    have hq : (SDL_ffmpegGetVideoPacket file).1.container = file.container := by
      unfold SDL_ffmpegGetVideoPacket
      split
      · rfl
      · split <;> rfl
    rw [hq] at h
    exact h
  · intro n codec hurry samples audioSize size pack sink hsize
    simp only [decodeAudioLoop, gt_iff_lt, hsize, if_true]
  · intro codec hurry samples audioSize size pack h
    omega

/-! ## C30: the leftover bytes at the start of a fetch -/

/-- A copy to an offset at or behind `k` leaves the first `k` bytes of the
destination as they are. -/
theorem memcpy_take_below (dst src : List Nat) (dOff sOff n : Int) (X : List Nat)
    (hk : (X.length : Int) ≤ dOff) (hX : dst.take X.length = X) :
    (memcpy dst dOff src sOff n).take X.length = X := by
  have hlen : X.length ≤ dst.length := by
    have := congrArg List.length hX
    rw [List.length_take] at this
    omega
  unfold memcpy
  rw [List.append_assoc, List.take_append_of_le_length, List.take_take]
  · rw [min_eq_left (by omega), hX]
  · rw [List.length_take]
    omega

/-- A copy of `k` bytes to the start of the destination puts the source bytes
there, provided the source holds them. -/
theorem memcpy_take_start (dst src : List Nat) (sOff n : Int)
    (hs : 0 ≤ sOff) (_ : 0 ≤ n) (hsrc : sOff + n ≤ src.length) :
    (memcpy dst 0 src sOff n).take n.toNat = (src.drop sOff.toNat).take n.toNat := by
  unfold memcpy
  have hl : ((src.drop sOff.toNat).take n.toNat).length = n.toNat := by
    rw [List.length_take, List.length_drop]
    omega
  simp only [Int.toNat_zero, List.take_zero, List.nil_append, Nat.zero_add]
  rw [List.take_append_of_le_length (by omega), List.take_of_length_le (by omega)]

/-- The leftover stage on an empty frame: `min(L, capacity)` bytes are copied
from the read offset, and the bookkeeping of the sample buffer follows. -/
theorem afterLeftover_start {σ : Type} (s : SDL_ffmpegStream σ) (frame : SDL_ffmpegAudioFrame)
    (hsize : frame.size = 0) (hcap : 0 ≤ frame.capacity)
    (hL : 0 < s.sampleBufferSize) (ho : 0 ≤ s.sampleBufferOffset)
    (hsb : s.sampleBufferOffset + s.sampleBufferSize ≤ s.sampleBuffer.length) :
    (afterLeftover s frame).2.size = min s.sampleBufferSize frame.capacity ∧
    (afterLeftover s frame).2.capacity = frame.capacity ∧
    (afterLeftover s frame).2.buffer.take (min s.sampleBufferSize frame.capacity).toNat =
      (s.sampleBuffer.drop s.sampleBufferOffset.toNat).take
        (min s.sampleBufferSize frame.capacity).toNat ∧
    (afterLeftover s frame).1.sampleBufferSize =
      s.sampleBufferSize - min s.sampleBufferSize frame.capacity ∧
    (afterLeftover s frame).1.sampleBufferOffset =
      (if frame.capacity < s.sampleBufferSize then s.sampleBufferOffset + frame.capacity
        else 0) := by
  unfold afterLeftover copyLeftover
  rw [if_pos (by omega)]
  simp only [hsize, if_true, sub_zero, zero_add]
  by_cases hc : frame.capacity < s.sampleBufferSize
  · have hm : min s.sampleBufferSize frame.capacity = frame.capacity := by omega
    rw [if_pos hc, if_pos hc, hm]
    refine ⟨rfl, rfl, ?_, by simp only, rfl⟩
    exact memcpy_take_start _ _ _ _ ho hcap (by omega)
  · have hm : min s.sampleBufferSize frame.capacity = s.sampleBufferSize := by omega
    rw [if_neg hc, if_neg hc, hm]
    refine ⟨rfl, rfl, ?_, by simp only; omega, rfl⟩
    exact memcpy_take_start _ _ _ _ ho (by omega) (by omega)

/-- The leftover stage keeps a prefix that the frame already holds. -/
theorem afterLeftover_firstBytes {σ : Type} (s : SDL_ffmpegStream σ) (frame : SDL_ffmpegAudioFrame)
    (X : List Nat) (h1 : (X.length : Int) ≤ frame.size) (h2 : frame.size ≤ frame.capacity)
    (h3 : frame.buffer.take X.length = X) (h4 : 0 ≤ s.sampleBufferSize) :
    (X.length : Int) ≤ (afterLeftover s frame).2.size ∧
    (afterLeftover s frame).2.size ≤ (afterLeftover s frame).2.capacity ∧
    (afterLeftover s frame).2.buffer.take X.length = X ∧
    0 ≤ (afterLeftover s frame).1.sampleBufferSize := by
  unfold afterLeftover copyLeftover
  by_cases hz : s.sampleBufferSize ≠ 0
  · rw [if_pos hz]
    by_cases hs0 : frame.size = 0
    · simp only [hs0, if_true, sub_zero]
      split_ifs with hc
      · refine ⟨by simp only; omega, le_refl _, ?_, by simp only; omega⟩
        exact memcpy_take_below _ _ _ _ _ _ (by omega) h3
      · refine ⟨by simp only; omega, by simp only; omega, ?_, le_refl _⟩
        exact memcpy_take_below _ _ _ _ _ _ (by omega) h3
    · simp only [hs0, if_false]
      split_ifs with hc
      · refine ⟨by simp only; omega, le_refl _, ?_, by simp only; omega⟩
        exact memcpy_take_below _ _ _ _ _ _ h1 h3
      · refine ⟨by simp only; omega, by simp only; omega, ?_, le_refl _⟩
        exact memcpy_take_below _ _ _ _ _ _ h1 h3
  · rw [if_neg hz]
    exact ⟨h1, h2, h3, h4⟩

/-- Storing a decoded chunk keeps a prefix that the frame already holds. -/
theorem finishDecode_firstBytes {σ : Type} (s : SDL_ffmpegStream σ) (frame : SDL_ffmpegAudioFrame)
    (pack : AVPacket) (time hurry : Int) (codec : σ) (samples : List Nat) (audioSize : Int)
    (X : List Nat) (h1 : (X.length : Int) ≤ frame.size) (h2 : frame.size ≤ frame.capacity)
    (h3 : frame.buffer.take X.length = X) (h4 : 0 ≤ s.sampleBufferSize) (h5 : 0 ≤ audioSize) :
    (X.length : Int) ≤ (finishDecode s frame pack time hurry codec samples audioSize).2.size ∧
    (finishDecode s frame pack time hurry codec samples audioSize).2.size ≤
      (finishDecode s frame pack time hurry codec samples audioSize).2.capacity ∧
    (finishDecode s frame pack time hurry codec samples audioSize).2.buffer.take X.length = X ∧
    0 ≤ (finishDecode s frame pack time hurry codec samples audioSize).1.sampleBufferSize := by
  unfold finishDecode storeDecoded
  by_cases hh : hurry = 0
  · simp only [hh, if_true]
    by_cases hs0 : frame.size = 0
    · simp only [hs0, if_true, sub_zero]
      split_ifs with hc1 hc2
      · refine ⟨by simp only; omega, le_refl _, ?_, by simp only; omega⟩
        exact memcpy_take_below _ _ _ _ _ _ (by omega) h3
      · refine ⟨by simp only; omega, by simp only; omega, ?_, le_refl _⟩
        exact memcpy_take_below _ _ _ _ _ _ (by omega) h3
      · exact ⟨by simp only; omega, by simp only; omega, h3, h5⟩
    · simp only [hs0, if_false]
      split_ifs with hc1 hc2
      · refine ⟨by simp only; omega, le_refl _, ?_, by simp only; omega⟩
        exact memcpy_take_below _ _ _ _ _ _ h1 h3
      · refine ⟨by simp only; omega, by simp only; omega, ?_, le_refl _⟩
        exact memcpy_take_below _ _ _ _ _ _ h1 h3
      · exact ⟨h1, h2, h3, h5⟩
  · simp only [hh, if_false]
    exact ⟨h1, h2, h3, h4⟩

theorem leftoverBytes_length {σ : Type} (s : SDL_ffmpegStream σ) (cap : Int)
    (ho : 0 ≤ s.sampleBufferOffset)
    (hsb : s.sampleBufferOffset + s.sampleBufferSize ≤ s.sampleBuffer.length) :
    (leftoverBytes s cap).length = (min s.sampleBufferSize cap).toNat := by
  unfold leftoverBytes
  rw [List.length_take, List.length_drop]
  omega

/-- One decode step of a fetch that began with leftover bytes. -/
theorem leftoverFirst_decode {σ : Type} {lib : Lib σ}
    (hdec : ∀ codec hurry samples audioSize pack,
      0 ≤ (lib.avcodec_decode_audio3 codec hurry samples audioSize pack).audioSize)
    {s0 : SDL_ffmpegStream σ} {cap : Int} (hcap : 0 ≤ cap)
    (hL : 0 < s0.sampleBufferSize) (ho : 0 ≤ s0.sampleBufferOffset)
    (hsb : s0.sampleBufferOffset + s0.sampleBufferSize ≤ s0.sampleBuffer.length)
    {file file1 : SDL_ffmpegFile σ} {frame frame1 : SDL_ffmpegAudioFrame} {p : AVPacket}
    {ret : Int} (hP : LeftoverFirst s0 cap file (some p) frame)
    (h : SDL_ffmpegDecodeAudioFrame lib file p frame = some (file1, frame1, ret)) :
    (ret = 0 → LeftoverDone s0 cap file1 frame1) ∧
    (ret ≠ 0 → s0.sampleBufferSize < cap ∧ ∃ s, file1.audioStream = some s ∧
      frame1.capacity = cap ∧ FirstBytes (leftoverBytes s0 cap) frame1 s) := by
  obtain ⟨s, hs, hc, hstate⟩ := hP
  obtain ⟨s', hs', hcase⟩ := decodeAudio_cases lib _ _ _ _ _ _ h
  rw [hs] at hs'
  cases hs'
  have hXlen := leftoverBytes_length s0 cap ho hsb
  have hfields := afterLeftover_fields s frame
  rcases hstate with ⟨-, hsz, hleft⟩ | ⟨hlt, hF⟩
  · -- no decode step has run yet
    have hl1 : s.sampleBuffer = s0.sampleBuffer := congrArg (fun t => t.1) hleft
    have hl2 : s.sampleBufferSize = s0.sampleBufferSize := congrArg (fun t => t.2.1) hleft
    have hl3 : s.sampleBufferOffset = s0.sampleBufferOffset := congrArg (fun t => t.2.2.1) hleft
    obtain ⟨a1, a2, a3, a4, a5⟩ := afterLeftover_start s frame hsz (by omega) (by omega)
      (by omega) (by rw [hl1]; omega)
    rw [hl1, hl2, hl3, hc] at a3
    rw [hl2, hc] at a1 a4
    rw [hl2, hl3, hc] at a5
    rw [hc] at a2
    have hbytes : (afterLeftover s frame).2.buffer.take (leftoverBytes s0 cap).length =
        leftoverBytes s0 cap := by
      rw [hXlen]
      exact a3
    rcases hcase with ⟨hr, -, hfull, hf1, hfr1⟩ | ⟨hr, hnot, codec, samples, audioSize, sink,
      hloop, hf1, hfr1⟩
    · refine ⟨fun _ => ?_, fun hne => absurd hr hne⟩
      have hle : cap ≤ s0.sampleBufferSize := by omega
      refine ⟨(afterLeftover s frame).1, by rw [hf1], by rw [hfr1, a2], ⟨?_, ?_, ?_, ?_⟩,
        fun _ => ⟨?_, ?_, ?_⟩⟩
      · rw [hfr1, hXlen]; omega
      · rw [hfr1]; omega
      · rw [hfr1]; exact hbytes
      · omega
      · rw [hfr1]; omega
      · omega
      · exact a5
    · refine ⟨fun h0 => absurd h0 (by omega), fun _ => ?_⟩
      have hlt : s0.sampleBufferSize < cap := by
        by_contra hge
        exact hnot ⟨by omega, by omega⟩
      have haud : 0 ≤ audioSize :=
        decodeAudioLoop_audioSize lib hdec _ _ _ _ _ _ _ _ _ (by decide) hloop
      obtain ⟨b1, b2, b3, b4⟩ := finishDecode_firstBytes (afterLeftover s frame).1
        (afterLeftover s frame).2 p (dtsTime (afterLeftover s frame).1 p)
        (hurryFor (dtsTime (afterLeftover s frame).1 p) file.minimalTimestamp) codec samples
        audioSize (leftoverBytes s0 cap) (by rw [hXlen]; omega) (by omega) hbytes (by omega) haud
      have hfd := finishDecode_fields (afterLeftover s frame).1 (afterLeftover s frame).2 p
        (dtsTime (afterLeftover s frame).1 p)
        (hurryFor (dtsTime (afterLeftover s frame).1 p) file.minimalTimestamp) codec samples
        audioSize
      refine ⟨hlt, _, by rw [hf1], ?_, ⟨?_, ?_, ?_, ?_⟩⟩
      · rw [hfr1, hfd.2.2.2.2.2.2.2.2.2.1, a2]
      · rw [hfr1]; exact b1
      · rw [hfr1]; exact b2
      · rw [hfr1]; exact b3
      · exact b4
  · -- the frame holds the leftover bytes already
    obtain ⟨c1, c2, c3, c4⟩ := afterLeftover_firstBytes s frame (leftoverBytes s0 cap) hF.size
      hF.sizeCap hF.bytes hF.left
    have hcap1 : (afterLeftover s frame).2.capacity = cap := by
      rw [hfields.2.2.2.2.2.2.2.2.2.2.1, hc]
    rcases hcase with ⟨hr, -, hfull, hf1, hfr1⟩ | ⟨hr, hnot, codec, samples, audioSize, sink,
      hloop, hf1, hfr1⟩
    · refine ⟨fun _ => ?_, fun hne => absurd hr hne⟩
      refine ⟨(afterLeftover s frame).1, by rw [hf1], by rw [hfr1, hcap1], ⟨?_, ?_, ?_, c4⟩,
        fun hle => absurd hle (by omega)⟩
      · rw [hfr1]; exact c1
      · rw [hfr1]; exact c2
      · rw [hfr1]; exact c3
    · refine ⟨fun h0 => absurd h0 (by omega), fun _ => ?_⟩
      have haud : 0 ≤ audioSize :=
        decodeAudioLoop_audioSize lib hdec _ _ _ _ _ _ _ _ _ (by decide) hloop
      obtain ⟨b1, b2, b3, b4⟩ := finishDecode_firstBytes (afterLeftover s frame).1
        (afterLeftover s frame).2 p (dtsTime (afterLeftover s frame).1 p)
        (hurryFor (dtsTime (afterLeftover s frame).1 p) file.minimalTimestamp) codec samples
        audioSize (leftoverBytes s0 cap) c1 c2 c3 c4 haud
      have hfd := finishDecode_fields (afterLeftover s frame).1 (afterLeftover s frame).2 p
        (dtsTime (afterLeftover s frame).1 p)
        (hurryFor (dtsTime (afterLeftover s frame).1 p) file.minimalTimestamp) codec samples
        audioSize
      refine ⟨hlt, _, by rw [hf1], ?_, ⟨?_, ?_, ?_, ?_⟩⟩
      · rw [hfr1, hfd.2.2.2.2.2.2.2.2.2.1, hcap1]
      · rw [hfr1]; exact b1
      · rw [hfr1]; exact b2
      · rw [hfr1]; exact b3
      · exact b4

/-- C30 (amended).  Let the decoder report sizes that are at least 0.  A fetch
starts with `L > 0` leftover bytes at the read offset `o` of the sample buffer
(which holds them), the frame has the capacity `cap >= 0`, and the fetch
obtains a packet from the queue or from the container.  Then
`SDL_ffmpegGetAudioFrame` returns a frame that holds at least `min(L, cap)`
bytes, the first `min(L, cap)` of them the buffer bytes `o .. o+min(L, cap)-1`.
The leftover stage of its first decode step leaves `L - min(L, cap)` bytes,
at the offset `o + cap` when `cap < L` and at 0 otherwise.  When the leftover
fills the frame (`cap <= L`) that is the state on return: the frame has the
size `cap`, the call returns 1, the leftover size is `L - cap` and the offset
is as stated. -/
theorem C30_leftover_first_step {σ : Type} (lib : Lib σ)
    (hdec : ∀ codec hurry samples audioSize pack,
      0 ≤ (lib.avcodec_decode_audio3 codec hurry samples audioSize pack).audioSize)
    (file file1 : SDL_ffmpegFile σ) (s : SDL_ffmpegStream σ)
    (frame frame1 : SDL_ffmpegAudioFrame) (p : AVPacket)
    (hs : file.audioStream = some s) (hL : 0 < s.sampleBufferSize)
    (ho : 0 ≤ s.sampleBufferOffset)
    (hsb : s.sampleBufferOffset + s.sampleBufferSize ≤ s.sampleBuffer.length)
    (hcap : 0 ≤ frame.capacity)
    (hpack : nextAudioPacket file { frame with last := 0, size := 0 } =
      some (file1, some p, frame1)) :
    ∃ file2 frame2 ret s2,
      SDL_ffmpegGetAudioFrame lib file frame = some (file2, frame2, ret) ∧
      file2.audioStream = some s2 ∧
      min s.sampleBufferSize frame.capacity ≤ frame2.size ∧
      frame2.buffer.take (min s.sampleBufferSize frame.capacity).toNat =
        (s.sampleBuffer.drop s.sampleBufferOffset.toNat).take
          (min s.sampleBufferSize frame.capacity).toNat ∧
      (afterLeftover s { frame with last := 0, size := 0 }).1.sampleBufferSize =
        s.sampleBufferSize - min s.sampleBufferSize frame.capacity ∧
      (afterLeftover s { frame with last := 0, size := 0 }).1.sampleBufferOffset =
        (if frame.capacity < s.sampleBufferSize then s.sampleBufferOffset + frame.capacity
          else 0) ∧
      (frame.capacity ≤ s.sampleBufferSize →
        frame2.size = frame.capacity ∧ ret = 1 ∧
        s2.sampleBufferSize = s.sampleBufferSize - frame.capacity ∧
        s2.sampleBufferOffset =
          (if frame.capacity < s.sampleBufferSize then s.sampleBufferOffset + frame.capacity
            else 0)) := by
  obtain ⟨⟨file2, frame2, ret⟩, hg⟩ := getAudioFrame_total lib file frame
  have hXlen := leftoverBytes_length s frame.capacity ho hsb
  have hstep : ∀ (f f1 : SDL_ffmpegFile σ) (fr fr1 : SDL_ffmpegAudioFrame)
      (p1 : Option AVPacket) (t : SDL_ffmpegStream σ), f.audioStream = some t →
      nextAudioPacket f fr = some (f1, p1, fr1) →
      (∃ q, f1.audioStream = some { t with buffer := q }) ∧ fr1.capacity = fr.capacity ∧
        fr1.size = fr.size ∧ fr1.buffer = fr.buffer := by
    intro f f1 fr fr1 p1 t ht hn
    obtain ⟨hq, -, -, hfr, -, -⟩ := nextAudioPacket_spec _ _ _ _ _ hn
    refine ⟨queueOnly_audioStream hq ht, ?_, ?_, ?_⟩ <;> rw [hfr]
  obtain ⟨file3, pack3, hQ, hfile, hret⟩ := getAudioFrame_induct lib
    (fun f pk fr => LeftoverFirst s frame.capacity f pk fr)
    (fun f _ fr => LeftoverDone s frame.capacity f fr)
    (fun f fr => s.sampleBufferSize < frame.capacity ∧ ∃ t, f.audioStream = some t ∧
      fr.capacity = frame.capacity ∧ FirstBytes (leftoverBytes s frame.capacity) fr t)
    (fun f fr hP => by
      obtain ⟨t, ht, hc, hcase⟩ := hP
      rcases hcase with ⟨hsome, -, -⟩ | ⟨hlt, hF⟩
      · simp at hsome
      · exact ⟨t, ht, hc, hF, fun hle => absurd hle (by omega)⟩)
    (fun f p1 fr f1 fr1 r hP hd => leftoverFirst_decode hdec hcap hL ho hsb hP hd)
    (fun f fr hR _ => by
      obtain ⟨hlt, t, ht, hc, hF⟩ := hR
      exact ⟨t, ht, hc, hF, fun hle => absurd hle (by omega)⟩)
    (fun f fr f1 p1 fr1 hR _ hn => by
      obtain ⟨hlt, t, ht, hc, hF⟩ := hR
      obtain ⟨⟨q, hq⟩, e1, e2, e3⟩ := hstep f f1 fr fr1 p1 t ht hn
      refine ⟨_, hq, by rw [e1, hc], Or.inr ⟨hlt, ⟨?_, ?_, ?_, hF.left⟩⟩⟩
      · rw [e2]; exact hF.size
      · rw [e2, e1]; exact hF.sizeCap
      · rw [e3]; exact hF.bytes)
    file file2 frame frame2 ret (by simp [hs])
    (fun f2 p2 fr2 hn => by
      rw [hpack] at hn
      simp only [Option.some.injEq, Prod.mk.injEq] at hn
      obtain ⟨rfl, rfl, rfl⟩ := hn
      obtain ⟨⟨q, hq⟩, e1, e2, -⟩ := hstep _ _ _ _ _ s hs hpack
      exact ⟨_, hq, e1, Or.inl ⟨rfl, e2, rfl⟩⟩) hg
  obtain ⟨t, ht, hc, hF, hbook⟩ := hQ
  obtain ⟨a1, a2, a3, a4, a5⟩ := afterLeftover_start s { frame with last := 0, size := 0 } rfl
    hcap hL ho hsb
  have hfin : ∃ q, file2.audioStream = some { t with buffer := q } := by
    rw [hfile]
    cases pack3 with
    | none => exact ⟨t.buffer, ht⟩
    | some p3 => exact ⟨p3 :: t.buffer, by simp [pushBackAudio, ht]⟩
  obtain ⟨q, hq⟩ := hfin
  refine ⟨file2, frame2, ret, _, hg, hq, ?_, ?_, a4, a5, fun hle => ?_⟩
  · have := hF.size
    rw [hXlen] at this
    omega
  · have := hF.bytes
    rw [hXlen] at this
    exact this
  · obtain ⟨b1, b2, b3⟩ := hbook hle
    refine ⟨b1, ?_, b2, b3⟩
    rw [hret, if_pos (by rw [b1, hc])]

/-- Witness of C30: on `leftoverDemo` a fetch with a frame of 2 bytes obtains
the packet with dts 6; the frame comes back with the leftover byte 3 first. -/
theorem C30_leftover_first_step_witness :
    ∃ file2 frame2 ret s2,
      SDL_ffmpegGetAudioFrame demoLib leftoverDemo { capacity := 2, buffer := [0, 0] } =
        some (file2, frame2, ret) ∧
      file2.audioStream = some s2 ∧
      min (1 : Int) 2 ≤ frame2.size ∧
      frame2.buffer.take (min (1 : Int) 2).toNat =
        (([1, 2, 3] : List Nat).drop (2 : Int).toNat).take (min (1 : Int) 2).toNat ∧
      (afterLeftover
        ({ demoAudio with
            sampleBuffer := [1, 2, 3], sampleBufferSize := 1, sampleBufferOffset := 2,
            sampleBufferTime := 5 } : SDL_ffmpegStream Nat)
        { capacity := 2, buffer := [0, 0], last := 0, size := 0 }).1.sampleBufferSize =
        1 - min (1 : Int) 2 ∧
      (afterLeftover
        ({ demoAudio with
            sampleBuffer := [1, 2, 3], sampleBufferSize := 1, sampleBufferOffset := 2,
            sampleBufferTime := 5 } : SDL_ffmpegStream Nat)
        { capacity := 2, buffer := [0, 0], last := 0, size := 0 }).1.sampleBufferOffset =
        (if (2 : Int) < 1 then 2 + 2 else 0) ∧
      ((2 : Int) ≤ 1 →
        frame2.size = 2 ∧ ret = 1 ∧
        s2.sampleBufferSize = 1 - 2 ∧
        s2.sampleBufferOffset = (if (2 : Int) < 1 then 2 + 2 else 0)) :=
  C30_leftover_first_step demoLib
    (fun _ _ _ _ pack => Int.ofNat_nonneg pack.data.length)
    leftoverDemo _
    { demoAudio with
      sampleBuffer := [1, 2, 3], sampleBufferSize := 1, sampleBufferOffset := 2,
      sampleBufferTime := 5 }
    { capacity := 2, buffer := [0, 0] } _ (audioPack 6 [4]) rfl (by decide) (by decide)
    (by decide) (by decide) rfl

/-- C30 (counterexample).  The container delivers one audio packet with the
bytes 1, 2, 3 and then signals the end of the input.  The first fetch (capacity
2) returns the bytes 1, 2 and leaves byte 3 at offset 2.  The second fetch finds
no packet, so the decode step and its leftover stage do not run: the frame
comes back with size 0 and `last == 1`, its buffer untouched, the call returns
0, and the leftover byte is still in the sample buffer at offset 2. -/
theorem C30_counterexample_leftover_stranded :
    ((SDL_ffmpegGetAudioFrame demoLib (demoFile [unitOf (audioPack 5 [1, 2, 3])])
        { capacity := 2, buffer := [0, 0] }).bind
      (fun r => (SDL_ffmpegGetAudioFrame demoLib r.1 { capacity := 2, buffer := [0, 0] }).map
        (fun r2 => (r.2.1.buffer, r.2.2,
          r.1.audioStream.map (fun s => (s.sampleBufferSize, s.sampleBufferOffset)),
          r2.2.1.buffer, r2.2.1.size, r2.2.1.last, r2.2.2,
          r2.1.audioStream.map (fun s => (s.sampleBufferSize, s.sampleBufferOffset)))))) =
    some ([1, 2], 1, some (1, 2), [0, 0], 0, 1, 0, some (1, 2)) := by
  rfl

/-! ## C21, C22, C26, C27: the stream lists and the selection of a stream -/

theorem unlinkAll_eq_nil {α : Type} (l : List α) : unlinkAll l = [] := by
  induction l with
  | nil => rfl
  | cons a l ih => exact ih

/-- Whatever the container holds, each of the two lists has at most one node
when the loop over the streams ends. -/
theorem openStreams_lists {σ : Type} (streams : List (AVStream σ)) :
    ∀ (i : Int) (file : SDL_ffmpegFile σ), file.vs.length ≤ 1 → file.as.length ≤ 1 →
      (openStreams streams i file).vs.length ≤ 1 ∧ (openStreams streams i file).as.length ≤ 1 := by
  induction streams with
  | nil => intro i file hv ha; exact ⟨hv, ha⟩
  | cons st rest ih =>
    intro i file hv ha
    rw [openStreams]
    apply ih
    · dsimp only
      split_ifs <;> simp [storeStream, unlinkAll_eq_nil, hv]
    · dsimp only
      split_ifs <;> simp [storeStream, unlinkAll_eq_nil, ha]

/-- C21 (the code departs from the claim).  A file with one video stream of
pixel format 2 is opened and `SDL_ffmpegSelectVideoStream(file, 0)` is called.
The message "unsupported pixel format [2]" is appended and no video stream is
selected, but the call returns 0, not -1, whichever type the stream counters
have. -/
theorem C21_unsupported_format_returns_zero :
    (SDL_ffmpegSelectVideoStream false (SDL_ffmpegOpen rgbStreams [] 0 {}) 0).map
        (fun r => (r.2, r.1.videoStream.map (fun s => s.id), r.1.sink.ErrorBegin)) =
      some (0, none, ["unsupported pixel format [2]"]) ∧
    (SDL_ffmpegSelectVideoStream true (SDL_ffmpegOpen rgbStreams [] 0 {}) 0).map
        (fun r => (r.2, r.1.videoStream.map (fun s => s.id), r.1.sink.ErrorBegin)) =
      some (0, none, ["unsupported pixel format [2]"]) := by
  decide

/-- C22 (the code departs from the claim).  Whatever the container holds,
the lists `vs` and `as` have at most one node after `SDL_ffmpegOpen`.  For a
container with the video streams 0 and 2 and the audio streams 1 and 3, all
decodable: the counters are 2 and 2, but `vs` holds only the stream with id 2
and `as` only the stream with id 3.  `SDL_ffmpegGetVideoStream(file, 0)` returns
the stream found second, `SDL_ffmpegGetVideoStream(file, 1)` and
`SDL_ffmpegGetAudioStream(file, 1)` return null, `SDL_ffmpegSelectVideoStream(
file, 1)` dereferences a null pointer, and `SDL_ffmpegSelectAudioStream(file, 1)`
returns 0 with no audio stream selected. -/
theorem C22_open_keeps_last_stream_only {σ : Type} (streams : List (AVStream σ))
    (container : List (Option ReadResult)) (duration : Int) (sink : ErrorSink) :
    (SDL_ffmpegOpen streams container duration sink).vs.length ≤ 1 ∧
    (SDL_ffmpegOpen streams container duration sink).as.length ≤ 1 ∧
    (SDL_ffmpegOpen fourStreams [] 0 {}).videoStreams = 2 ∧
    (SDL_ffmpegOpen fourStreams [] 0 {}).audioStreams = 2 ∧
    (SDL_ffmpegOpen fourStreams [] 0 {}).vs.map (fun s => s.id) = [2] ∧
    (SDL_ffmpegOpen fourStreams [] 0 {}).as.map (fun s => s.id) = [3] ∧
    (SDL_ffmpegGetVideoStream (SDL_ffmpegOpen fourStreams [] 0 {}) 0).map (fun s => s.id) =
      some 2 ∧
    (SDL_ffmpegGetVideoStream (SDL_ffmpegOpen fourStreams [] 0 {}) 1).map (fun s => s.id) =
      none ∧
    (SDL_ffmpegGetAudioStream (SDL_ffmpegOpen fourStreams [] 0 {}) 0).map (fun s => s.id) =
      some 3 ∧
    (SDL_ffmpegGetAudioStream (SDL_ffmpegOpen fourStreams [] 0 {}) 1).map (fun s => s.id) =
      none ∧
    (SDL_ffmpegSelectVideoStream false (SDL_ffmpegOpen fourStreams [] 0 {}) 1).isNone = true ∧
    (SDL_ffmpegSelectVideoStream true (SDL_ffmpegOpen fourStreams [] 0 {}) 1).isNone = true ∧
    ((SDL_ffmpegSelectAudioStream false (SDL_ffmpegOpen fourStreams [] 0 {}) 1).2,
      (SDL_ffmpegSelectAudioStream false (SDL_ffmpegOpen fourStreams [] 0 {}) 1).1.audioStream.map
        (fun s => s.id)) = (0, none) := by
  obtain ⟨h1, h2⟩ := openStreams_lists streams 0
    { type := SDL_ffmpegInputStream, container := container, duration := duration, sink := sink }
    (by simp) (by simp)
  refine ⟨h1, h2, ?_⟩
  decide

/-- C26.  The argument is an `int` that is at least 0.  If it is at least the
counter `audioStreams`, `SDL_ffmpegSelectAudioStream` returns -1 and the file
differs from what it was only by the one message appended to the error sink;
the same holds for `SDL_ffmpegSelectVideoStream` and `videoStreams`.  Both hold
for either type of the counters. -/
theorem C26_select_unavailable_id {σ : Type} (unsignedCount : Bool) (file : SDL_ffmpegFile σ)
    (ID : Int) (h0 : 0 ≤ ID) (hint : ID < 2147483648) :
    ((file.audioStreams : Int) ≤ ID →
      SDL_ffmpegSelectAudioStream unsignedCount file ID =
        ({ file with
            sink := SDL_ffmpegAddError file.sink
              (some "requested audio stream ID is not available in file") }, -1) ∧
      (SDL_ffmpegSelectAudioStream unsignedCount file ID).1.audioStream = file.audioStream ∧
      (SDL_ffmpegSelectAudioStream unsignedCount file ID).1.videoStream = file.videoStream ∧
      (SDL_ffmpegSelectAudioStream unsignedCount file ID).1.sink.ErrorBegin =
        file.sink.ErrorBegin ++ ["requested audio stream ID is not available in file"]) ∧
    ((file.videoStreams : Int) ≤ ID →
      SDL_ffmpegSelectVideoStream unsignedCount file ID =
        some ({ file with
            sink := SDL_ffmpegAddError file.sink
              (some "requested video stream ID is not available in file") }, -1) ∧
      (SDL_ffmpegSelectVideoStream unsignedCount file ID).map (fun r => r.1.audioStream) =
        some file.audioStream ∧
      (SDL_ffmpegSelectVideoStream unsignedCount file ID).map (fun r => r.1.videoStream) =
        some file.videoStream ∧
      (SDL_ffmpegSelectVideoStream unsignedCount file ID).map (fun r => r.1.sink.ErrorBegin) =
        some (file.sink.ErrorBegin ++
          ["requested video stream ID is not available in file"])) := by
  have hu : toU32 ID = ID.toNat := by
    unfold toU32
    rw [Int.emod_eq_of_lt h0 (by omega)]
  have hcmp : ∀ count : Nat, (count : Int) ≤ ID → idNotBelow unsignedCount ID count = true := by
    intro count hc
    unfold idNotBelow
    cases unsignedCount
    · simpa using hc
    · simp only [if_true, decide_eq_true_eq, hu]
      omega
  constructor
  · intro hc
    have e : SDL_ffmpegSelectAudioStream unsignedCount file ID =
        ({ file with
            sink := SDL_ffmpegAddError file.sink
              (some "requested audio stream ID is not available in file") }, -1) := by
      unfold SDL_ffmpegSelectAudioStream
      rw [if_pos (Or.inr (hcmp _ hc))]
    rw [e]
    exact ⟨rfl, rfl, rfl, rfl⟩
  · intro hc
    have e : SDL_ffmpegSelectVideoStream unsignedCount file ID =
        some ({ file with
            sink := SDL_ffmpegAddError file.sink
              (some "requested video stream ID is not available in file") }, -1) := by
      unfold SDL_ffmpegSelectVideoStream
      rw [if_pos (hcmp _ hc)]
    rw [e]
    exact ⟨rfl, rfl, rfl, rfl⟩

/-- Witness of C26: the file opened from `fourStreams` (counters 2 and 2) and
the ID 2, with counters of type `int`. -/
theorem C26_select_unavailable_id_witness :
    (((SDL_ffmpegOpen fourStreams [] 0 {}).audioStreams : Int) ≤ 2 →
      SDL_ffmpegSelectAudioStream false (SDL_ffmpegOpen fourStreams [] 0 {}) 2 =
        ({ SDL_ffmpegOpen fourStreams [] 0 {} with
            sink := SDL_ffmpegAddError (SDL_ffmpegOpen fourStreams [] 0 {}).sink
              (some "requested audio stream ID is not available in file") }, -1) ∧
      (SDL_ffmpegSelectAudioStream false (SDL_ffmpegOpen fourStreams [] 0 {}) 2).1.audioStream =
        (SDL_ffmpegOpen fourStreams [] 0 {}).audioStream ∧
      (SDL_ffmpegSelectAudioStream false (SDL_ffmpegOpen fourStreams [] 0 {}) 2).1.videoStream =
        (SDL_ffmpegOpen fourStreams [] 0 {}).videoStream ∧
      (SDL_ffmpegSelectAudioStream false (SDL_ffmpegOpen fourStreams [] 0 {}) 2).1.sink.ErrorBegin =
        (SDL_ffmpegOpen fourStreams [] 0 {}).sink.ErrorBegin ++
          ["requested audio stream ID is not available in file"]) ∧
    (((SDL_ffmpegOpen fourStreams [] 0 {}).videoStreams : Int) ≤ 2 →
      SDL_ffmpegSelectVideoStream false (SDL_ffmpegOpen fourStreams [] 0 {}) 2 =
        some ({ SDL_ffmpegOpen fourStreams [] 0 {} with
            sink := SDL_ffmpegAddError (SDL_ffmpegOpen fourStreams [] 0 {}).sink
              (some "requested video stream ID is not available in file") }, -1) ∧
      (SDL_ffmpegSelectVideoStream false (SDL_ffmpegOpen fourStreams [] 0 {}) 2).map
          (fun r => r.1.audioStream) = some (SDL_ffmpegOpen fourStreams [] 0 {}).audioStream ∧
      (SDL_ffmpegSelectVideoStream false (SDL_ffmpegOpen fourStreams [] 0 {}) 2).map
          (fun r => r.1.videoStream) = some (SDL_ffmpegOpen fourStreams [] 0 {}).videoStream ∧
      (SDL_ffmpegSelectVideoStream false (SDL_ffmpegOpen fourStreams [] 0 {}) 2).map
          (fun r => r.1.sink.ErrorBegin) =
        some ((SDL_ffmpegOpen fourStreams [] 0 {}).sink.ErrorBegin ++
          ["requested video stream ID is not available in file"])) :=
  C26_select_unavailable_id false (SDL_ffmpegOpen fourStreams [] 0 {}) 2 (by decide) (by decide)

/-- With stream counters of an unsigned type a negative ID is converted to a
value of at least `2^31` before line 782 compares it: the call fails like a
call with an ID that is too large. -/
theorem selectAudio_negative_unsigned {σ : Type} (file : SDL_ffmpegFile σ) (audioID : Int)
    (hneg : audioID < 0) (hint : -2147483648 ≤ audioID) (hcount : file.audioStreams ≤ 2147483648) :
    SDL_ffmpegSelectAudioStream true file audioID =
      ({ file with
          sink := SDL_ffmpegAddError file.sink
            (some "requested audio stream ID is not available in file") }, -1) := by
  unfold SDL_ffmpegSelectAudioStream
  rw [if_pos]
  right
  unfold idNotBelow toU32
  simp only [if_true, decide_eq_true_eq]
  omega

/-- With stream counters of type `int` line 782 compares integers: for a file
with at least one audio stream and a negative `audioID` the call returns 0 and
the file differs from what it was only in `audioStream`, which is null. -/
theorem selectAudio_negative_signed {σ : Type} (file : SDL_ffmpegFile σ) (audioID : Int)
    (hneg : audioID < 0) (hcount : 0 < file.audioStreams) :
    SDL_ffmpegSelectAudioStream false file audioID =
      ({ file with audioStream := none }, 0) := by
  unfold SDL_ffmpegSelectAudioStream
  rw [if_neg, if_pos hneg]
  unfold idNotBelow
  simp only [Bool.false_eq_true, if_false, decide_eq_true_eq]
  omega

/-- C27 (the code departs from its documentation when the stream counters are
unsigned).  The type of the counters is declared in `SDL_ffmpeg.h`.  With
counters of an unsigned 32-bit type, for every file with at least one audio
stream and every negative `int` ID the test of line 782 holds: the call
returns -1, appends "requested audio stream ID is not available in file" and
leaves the selected audio stream as it was; the branch `if( audioID < 0 )` of
line 789 is never reached.  With counters of type `int` the call returns 0,
appends nothing and leaves no audio stream selected, as the documentation of
the function says.  On the file opened from `fourStreams` with its audio
stream selected, the ID -1 and unsigned counters give -1, the stream still
selected and one message more. -/
theorem C27_negative_id_and_counter_type :
    (∀ (σ : Type) (file : SDL_ffmpegFile σ) (audioID : Int),
      audioID < 0 → -2147483648 ≤ audioID → 0 < file.audioStreams →
      file.audioStreams ≤ 2147483648 →
        (SDL_ffmpegSelectAudioStream true file audioID).2 = -1 ∧
        (SDL_ffmpegSelectAudioStream true file audioID).1 =
          { file with
            sink := SDL_ffmpegAddError file.sink
              (some "requested audio stream ID is not available in file") } ∧
        (SDL_ffmpegSelectAudioStream true file audioID).1.sink.ErrorBegin =
          file.sink.ErrorBegin ++ ["requested audio stream ID is not available in file"]) ∧
    (∀ (σ : Type) (file : SDL_ffmpegFile σ) (audioID : Int),
      audioID < 0 → 0 < file.audioStreams →
        SDL_ffmpegSelectAudioStream false file audioID =
          ({ file with audioStream := none }, 0)) ∧
    ((SDL_ffmpegSelectAudioStream true (SDL_ffmpegOpen fourStreams [] 0 {}) 0).1.audioStream.map
        (fun s => s.id) = some 3 ∧
      (SDL_ffmpegSelectAudioStream true
        (SDL_ffmpegSelectAudioStream true (SDL_ffmpegOpen fourStreams [] 0 {}) 0).1 (-1)).2 = -1 ∧
      (SDL_ffmpegSelectAudioStream true
        (SDL_ffmpegSelectAudioStream true (SDL_ffmpegOpen fourStreams [] 0 {}) 0).1
        (-1)).1.audioStream.map (fun s => s.id) = some 3 ∧
      (SDL_ffmpegSelectAudioStream true
        (SDL_ffmpegSelectAudioStream true (SDL_ffmpegOpen fourStreams [] 0 {}) 0).1
        (-1)).1.sink.ErrorBegin =
        (SDL_ffmpegOpen fourStreams [] 0 {}).sink.ErrorBegin ++
          ["requested audio stream ID is not available in file"] ∧
      (SDL_ffmpegSelectAudioStream false
        (SDL_ffmpegSelectAudioStream false (SDL_ffmpegOpen fourStreams [] 0 {}) 0).1
        (-1)).2 = 0 ∧
      (SDL_ffmpegSelectAudioStream false
        (SDL_ffmpegSelectAudioStream false (SDL_ffmpegOpen fourStreams [] 0 {}) 0).1
        (-1)).1.audioStream.map (fun s => s.id) = none) := by
  refine ⟨fun σ file audioID hneg hint hpos hcount => ?_,
    fun σ file audioID hneg hpos => selectAudio_negative_signed file audioID hneg hpos,
    by decide⟩
  rw [selectAudio_negative_unsigned file audioID hneg hint hcount]
  exact ⟨rfl, rfl, rfl⟩

/-! ## C29: mutexes held at the queue writes -/

theorem getPacketEvents_fetch {σ : Type} (own : Mutex) (file : SDL_ffmpegFile σ) :
    ∀ e ∈ getPacketEvents file, FetchEvent own e := by
  intro e he
  unfold getPacketEvents at he
  split at he
  · dsimp only at he
    split_ifs at he
    · simp at he
    · simp only [List.mem_singleton] at he
      exact ⟨_, _, he, Or.inl rfl⟩
    · simp only [List.mem_singleton] at he
      exact ⟨_, _, he, Or.inl rfl⟩
    · simp at he
  · simp at he

theorem getAudioPacketEvents_fetch {σ : Type} (file : SDL_ffmpegFile σ) :
    ∀ e ∈ getAudioPacketEvents file, FetchEvent audioMutex e := by
  intro e he
  unfold getAudioPacketEvents at he
  split at he
  · simp at he
  · split at he
    · simp at he
    · simp only [List.mem_singleton] at he
      exact ⟨_, _, he, Or.inr rfl⟩

theorem getVideoPacketEvents_fetch {σ : Type} (file : SDL_ffmpegFile σ) :
    ∀ e ∈ getVideoPacketEvents file, FetchEvent videoMutex e := by
  intro e he
  unfold getVideoPacketEvents at he
  split at he
  · simp at he
  · split at he
    · simp at he
    · simp only [List.mem_singleton] at he
      exact ⟨_, _, he, Or.inr rfl⟩

theorem audioPacketLoopEvents_fetch {σ : Type} (n : Nat) :
    ∀ (file : SDL_ffmpegFile σ) (pack : Option AVPacket) (frame : SDL_ffmpegAudioFrame),
      ∀ e ∈ audioPacketLoopEvents n file pack frame, FetchEvent audioMutex e := by
  induction n with
  | zero => intro file pack frame e he; simp [audioPacketLoopEvents] at he
  | succ n ih =>
    intro file pack frame e he
    rw [audioPacketLoopEvents] at he
    split_ifs at he
    · simp only [List.mem_append] at he
      rcases he with (he | he) | he
      · exact getAudioPacketEvents_fetch _ e he
      · exact getPacketEvents_fetch _ _ e he
      · exact ih _ _ _ e he
    · simp at he

theorem videoPacketLoopEvents_fetch {σ : Type} (n : Nat) :
    ∀ (file : SDL_ffmpegFile σ) (pack : Option AVPacket) (frame : SDL_ffmpegVideoFrame),
      ∀ e ∈ videoPacketLoopEvents n file pack frame, FetchEvent videoMutex e := by
  induction n with
  | zero => intro file pack frame e he; simp [videoPacketLoopEvents] at he
  | succ n ih =>
    intro file pack frame e he
    rw [videoPacketLoopEvents] at he
    split_ifs at he
    · simp only [List.mem_append] at he
      rcases he with (he | he) | he
      · exact getVideoPacketEvents_fetch _ e he
      · exact getPacketEvents_fetch _ _ e he
      · exact ih _ _ _ e he
    · simp at he

theorem nextAudioPacketEvents_fetch {σ : Type} (file : SDL_ffmpegFile σ)
    (frame : SDL_ffmpegAudioFrame) :
    ∀ e ∈ nextAudioPacketEvents file frame, FetchEvent audioMutex e := by
  intro e he
  unfold nextAudioPacketEvents at he
  simp only [List.mem_append] at he
  rcases he with he | he
  · exact getAudioPacketEvents_fetch _ e he
  · exact audioPacketLoopEvents_fetch _ _ _ _ e he

theorem nextVideoPacketEvents_fetch {σ : Type} (file : SDL_ffmpegFile σ)
    (frame : SDL_ffmpegVideoFrame) :
    ∀ e ∈ nextVideoPacketEvents file frame, FetchEvent videoMutex e := by
  intro e he
  unfold nextVideoPacketEvents at he
  simp only [List.mem_append] at he
  rcases he with he | he
  · exact getVideoPacketEvents_fetch _ e he
  · exact videoPacketLoopEvents_fetch _ _ _ _ e he

theorem audioDecodeLoopEvents_fetch {σ : Type} (lib : Lib σ) (n : Nat) :
    ∀ (file : SDL_ffmpegFile σ) (pack : Option AVPacket) (frame : SDL_ffmpegAudioFrame),
      ∀ e ∈ audioDecodeLoopEvents lib n file pack frame, FetchEvent audioMutex e := by
  induction n with
  | zero => intro file pack frame e he; simp [audioDecodeLoopEvents] at he
  | succ n ih =>
    intro file pack frame e he
    cases pack with
    | none => simp [audioDecodeLoopEvents] at he
    | some p =>
      simp only [audioDecodeLoopEvents] at he
      split at he
      · simp at he
      · split_ifs at he
        · simp at he
        · split at he
          · simp at he
          · simp only [List.mem_append] at he
            rcases he with he | he
            · exact nextAudioPacketEvents_fetch _ _ e he
            · exact ih _ _ _ e he
        · exact ih _ _ _ e he

theorem videoDecodeLoopEvents_fetch {σ : Type} (lib : Lib σ) (n : Nat) :
    ∀ (file : SDL_ffmpegFile σ) (pack : Option AVPacket) (frame : SDL_ffmpegVideoFrame),
      ∀ e ∈ videoDecodeLoopEvents lib n file pack frame, FetchEvent videoMutex e := by
  induction n with
  | zero => intro file pack frame e he; simp [videoDecodeLoopEvents] at he
  | succ n ih =>
    intro file pack frame e he
    cases pack with
    | none => simp [videoDecodeLoopEvents] at he
    | some p =>
      simp only [videoDecodeLoopEvents] at he
      split_ifs at he
      · simp at he
      · split at he
        · simp at he
        · split at he
          · simp at he
          · simp only [List.mem_append] at he
            rcases he with he | he
            · exact nextVideoPacketEvents_fetch _ _ e he
            · exact ih _ _ _ e he

/-- Between the locks and the unlocks of a fetch every queue write passes the
test `fileHeld`, and the held mutexes stay what they are. -/
theorem checkEvents_fetch (own : Mutex) (hown : own = audioMutex ∨ own = videoMutex)
    (mid rest : List LockEvent) (h : ∀ e ∈ mid, FetchEvent own e) :
    checkEvents fileHeld [streamMutex, own] (mid ++ rest) =
      checkEvents fileHeld [streamMutex, own] rest ∧
    heldAfter [streamMutex, own] (mid ++ rest) = heldAfter [streamMutex, own] rest := by
  induction mid with
  | nil => exact ⟨rfl, rfl⟩
  | cons e mid ih =>
    obtain ⟨owner, op, rfl, hop⟩ := h e (List.mem_cons_self _ _)
    obtain ⟨ih1, ih2⟩ := ih (fun e1 h1 => h e1 (List.mem_cons_of_mem _ h1))
    have hok : fileHeld [streamMutex, own] owner op = true := by
      rcases hown with rfl | rfl <;> rcases hop with rfl | rfl <;>
        first
          | decide
          | (cases owner <;> decide)
          | (cases op <;> decide)
    constructor
    · rw [List.cons_append, checkEvents, hok, ih1, Bool.true_and]
    · rw [List.cons_append, heldAfter, ih2]

/-- A call that locks the file-level mutex and the mutex of its stream, makes
queue writes of a fetch and unlocks in the opposite order: every write passes
the test `fileHeld` and nothing stays locked. -/
theorem fetchEvents_ok (own : Mutex) (hown : own = audioMutex ∨ own = videoMutex)
    (first second : List LockEvent) (h1 : ∀ e ∈ first, FetchEvent own e)
    (h2 : ∀ e ∈ second, FetchEvent own e) :
    checkEvents fileHeld []
        ([LockEvent.lock streamMutex, LockEvent.lock own] ++ first ++ second ++
          [LockEvent.unlock own, LockEvent.unlock streamMutex]) = true ∧
    heldAfter []
        ([LockEvent.lock streamMutex, LockEvent.lock own] ++ first ++ second ++
          [LockEvent.unlock own, LockEvent.unlock streamMutex]) = [] := by
  have h : ∀ e ∈ first ++ second, FetchEvent own e := by
    intro e he
    rcases List.mem_append.mp he with he | he
    · exact h1 e he
    · exact h2 e he
  obtain ⟨c1, c2⟩ := checkEvents_fetch own hown (first ++ second)
    [LockEvent.unlock own, LockEvent.unlock streamMutex] h
  have e : [LockEvent.lock streamMutex, LockEvent.lock own] ++ first ++ second ++
      [LockEvent.unlock own, LockEvent.unlock streamMutex] =
      LockEvent.lock streamMutex :: LockEvent.lock own ::
        ((first ++ second) ++ [LockEvent.unlock own, LockEvent.unlock streamMutex]) := by
    simp
  rw [e]
  constructor
  · show checkEvents fileHeld [streamMutex, own]
      ((first ++ second) ++ [LockEvent.unlock own, LockEvent.unlock streamMutex]) = true
    rw [c1]
    rcases hown with rfl | rfl <;> rfl
  · show heldAfter [streamMutex, own]
      ((first ++ second) ++ [LockEvent.unlock own, LockEvent.unlock streamMutex]) = []
    rw [c2]
    rcases hown with rfl | rfl <;> rfl

/-- C29 (counterexample).  Both demo streams are selected; the container
delivers a video packet and then an audio packet.  `SDL_ffmpegGetAudioFrame`
locks the file-level mutex and the audio mutex; `SDL_ffmpegGetPacket` then
appends the video packet to the video queue while the video mutex is not held.
In the same way `SDL_ffmpegGetVideoFrame` on a container that delivers an audio
packet first appends to the audio queue without the audio mutex. -/
theorem C29_counterexample_append_without_owner_mutex :
    getAudioFrameEvents demoLib
        (demoFile [unitOf (videoPack 1), unitOf (audioPack 2 [1, 2])])
        { capacity := 2, buffer := [0, 0] } =
      [LockEvent.lock streamMutex, LockEvent.lock audioMutex,
        LockEvent.queue videoMutex append, LockEvent.queue audioMutex append,
        LockEvent.queue audioMutex pop,
        LockEvent.unlock audioMutex, LockEvent.unlock streamMutex] ∧
    checkEvents ownerHeld []
        (getAudioFrameEvents demoLib
          (demoFile [unitOf (videoPack 1), unitOf (audioPack 2 [1, 2])])
          { capacity := 2, buffer := [0, 0] }) = false ∧
    ownerHeld [streamMutex, audioMutex] videoMutex append = false ∧
    getVideoFrameEvents demoLib
        (demoFile [unitOf (audioPack 2 [1, 2]), unitOf (videoPack 1)]) {} =
      [LockEvent.lock streamMutex, LockEvent.lock videoMutex,
        LockEvent.queue audioMutex append, LockEvent.queue videoMutex append,
        LockEvent.queue videoMutex pop,
        LockEvent.unlock videoMutex, LockEvent.unlock streamMutex] ∧
    checkEvents ownerHeld []
        (getVideoFrameEvents demoLib
          (demoFile [unitOf (audioPack 2 [1, 2]), unitOf (videoPack 1)]) {}) = false := by
  decide

/-- C29 (amended).  With the mutexes held tracked from the empty set through
the `SDL_LockMutex` and `SDL_UnlockMutex` calls of one
`SDL_ffmpegGetAudioFrame`, `SDL_ffmpegGetVideoFrame` or `SDL_ffmpegFlush`:
at every queue write of a fetch exactly the file-level mutex and, acquired
after it, the mutex of the fetching stream are held; a removal of the head and
the push-back of a packet are writes to the queue of the fetching stream, so
the owner's mutex is held for them; an append by `SDL_ffmpegGetPacket` is made
under these two mutexes whichever queue it goes to.  `SDL_ffmpegFlush` clears
each queue with the file-level mutex and then the owner's mutex held.  Every
call releases what it acquired. -/
theorem C29_queue_writes_under_file_mutex {σ : Type} (lib : Lib σ) (file : SDL_ffmpegFile σ)
    (aframe : SDL_ffmpegAudioFrame) (vframe : SDL_ffmpegVideoFrame) :
    checkEvents fileHeld [] (getAudioFrameEvents lib file aframe) = true ∧
    heldAfter [] (getAudioFrameEvents lib file aframe) = [] ∧
    checkEvents fileHeld [] (getVideoFrameEvents lib file vframe) = true ∧
    heldAfter [] (getVideoFrameEvents lib file vframe) = [] ∧
    checkEvents ownerHeld [] (flushEvents file) = true ∧
    heldAfter [] (flushEvents file) = [] := by
  have haudio : checkEvents fileHeld [] (getAudioFrameEvents lib file aframe) = true ∧
      heldAfter [] (getAudioFrameEvents lib file aframe) = [] := by
    unfold getAudioFrameEvents
    cases file.audioStream with
    | none => exact ⟨rfl, rfl⟩
    | some s =>
      refine fetchEvents_ok audioMutex (Or.inl rfl) _ _ (nextAudioPacketEvents_fetch _ _) ?_
      intro e he
      split at he
      · simp at he
      · simp only [List.mem_append] at he
        rcases he with he | he
        · exact audioDecodeLoopEvents_fetch _ _ _ _ _ e he
        · split at he
          · simp only [List.mem_singleton] at he
            exact ⟨_, _, he, Or.inr rfl⟩
          · simp at he
  have hvideo : checkEvents fileHeld [] (getVideoFrameEvents lib file vframe) = true ∧
      heldAfter [] (getVideoFrameEvents lib file vframe) = [] := by
    unfold getVideoFrameEvents
    cases file.videoStream with
    | none => exact ⟨rfl, rfl⟩
    | some s =>
      refine fetchEvents_ok videoMutex (Or.inr rfl) _ _ (nextVideoPacketEvents_fetch _ _) ?_
      intro e he
      split at he
      · simp at he
      · simp only [List.mem_append] at he
        rcases he with he | he
        · exact videoDecodeLoopEvents_fetch _ _ _ _ _ e he
        · split at he
          · simp only [List.mem_singleton] at he
            exact ⟨_, _, he, Or.inr rfl⟩
          · simp at he
  refine ⟨haudio.1, haudio.2, hvideo.1, hvideo.2, ?_, ?_⟩
  · unfold flushEvents
    cases file.audioStream <;> cases file.videoStream <;> rfl
  · unfold flushEvents
    cases file.audioStream <;> cases file.videoStream <;> rfl

/-! ## C31, C32: the hurry policy of the two decode steps -/

/-- C31.  The reassembly buffer of the selected audio stream is empty and the
timestamp derived from the dts of the packet is a valid value below
`minimalTimestamp`.  `SDL_ffmpegDecodeAudioFrame` runs the decode loop on the
packet with `hurry_up == 1` and returns 1; the stream takes the codec state
that the loop left and records the packet; the frame comes back as it was
(size, pts, bytes and all), the leftover size is still 0 and `lastTimeStamp`
is what it was. -/
theorem C31_audio_hurry_suppression {σ : Type} (lib : Lib σ) (file : SDL_ffmpegFile σ)
    (s : SDL_ffmpegStream σ) (pack : AVPacket) (frame : SDL_ffmpegAudioFrame)
    (hs : file.audioStream = some s) (hempty : s.sampleBufferSize = 0)
    (hvalid : dtsTime s pack ≠ AV_NOPTS_VALUE)
    (hbelow : dtsTime s pack < file.minimalTimestamp) :
    ∃ file1 s1 codec samples audioSize sink,
      decodeAudioLoop lib (pack.size.toNat + 1) s.codec 1 s.sampleBuffer
        (AVCODEC_MAX_AUDIO_FRAME_SIZE * 2) pack.size pack file.sink =
          some (codec, samples, audioSize, sink) ∧
      SDL_ffmpegDecodeAudioFrame lib file pack frame = some (file1, frame, 1) ∧
      file1.audioStream = some s1 ∧ s1.codec = codec ∧ s1.hurry_up = 1 ∧
      s1.trace = s.trace ++
        [{ pack := pack, time := dtsTime s pack, hurry := 1, size := audioSize,
           chunk := samples.take audioSize.toNat }] ∧
      s1.sampleBufferSize = 0 ∧ s1.sampleBufferOffset = s.sampleBufferOffset ∧
      s1.lastTimeStamp = s.lastTimeStamp := by
  obtain ⟨⟨codec, samples, audioSize, sink⟩, hloop⟩ :=
    decodeAudioLoop_total lib (pack.size.toNat + 1) s.codec 1 s.sampleBuffer
      (AVCODEC_MAX_AUDIO_FRAME_SIZE * 2) pack.size pack file.sink (le_refl _)
  have hh : hurryFor (dtsTime s pack) file.minimalTimestamp = 1 := by
    unfold hurryFor
    rw [if_pos ⟨hvalid, hbelow⟩]
  have hleft : afterLeftover s frame = (s, frame) := by
    unfold afterLeftover
    rw [if_neg (by simp [hempty])]
  refine ⟨{ file with
      audioStream := some
        { s with
          codec := codec, hurry_up := 1, sampleBufferTime := dtsTime s pack,
          sampleBuffer := samples,
          trace := s.trace ++
            [{ pack := pack, time := dtsTime s pack, hurry := 1, size := audioSize,
               chunk := samples.take audioSize.toNat }] }
      sink := sink }, _, codec, samples, audioSize, sink, hloop, ?_, rfl, rfl, rfl, rfl, hempty,
    rfl, rfl⟩
  unfold SDL_ffmpegDecodeAudioFrame
  simp only [hs, hleft, hh, hempty, ne_eq, not_true_eq_false, false_and, if_false, hloop]
  simp [finishDecode, hempty]

/-- Witness of C31: behind the gate 5000 the packet with dts 5 of `gatedDemo`
is decoded in a hurry. -/
theorem C31_audio_hurry_suppression_witness :
    ∃ file1 s1 codec samples audioSize sink,
      decodeAudioLoop demoLib ((audioPack 5 [1, 2, 3]).size.toNat + 1) demoAudio.codec 1
        demoAudio.sampleBuffer (AVCODEC_MAX_AUDIO_FRAME_SIZE * 2) (audioPack 5 [1, 2, 3]).size
        (audioPack 5 [1, 2, 3]) gatedDemo.sink = some (codec, samples, audioSize, sink) ∧
      SDL_ffmpegDecodeAudioFrame demoLib gatedDemo (audioPack 5 [1, 2, 3])
        { capacity := 2, buffer := [0, 0] } =
          some (file1, { capacity := 2, buffer := [0, 0] }, 1) ∧
      file1.audioStream = some s1 ∧ s1.codec = codec ∧ s1.hurry_up = 1 ∧
      s1.trace = demoAudio.trace ++
        [{ pack := audioPack 5 [1, 2, 3], time := dtsTime demoAudio (audioPack 5 [1, 2, 3]),
           hurry := 1, size := audioSize, chunk := samples.take audioSize.toNat }] ∧
      s1.sampleBufferSize = 0 ∧ s1.sampleBufferOffset = demoAudio.sampleBufferOffset ∧
      s1.lastTimeStamp = demoAudio.lastTimeStamp :=
  C31_audio_hurry_suppression demoLib gatedDemo demoAudio (audioPack 5 [1, 2, 3])
    { capacity := 2, buffer := [0, 0] } rfl rfl (by decide) (by decide)

/-- C32.  A video stream `s` is selected, the packet is not null and the frame
enters with `ready == 0`.  `SDL_ffmpegDecodeVideoFrame` returns; the pts of the
frame is the derived pts; the decoder is called with the hurry flag of the
gate test.  The frame is ready on return exactly when that call gave a picture
(`got_frame != 0`) and the derived pts is not a valid value below
`minimalTimestamp`.  When the frame is ready, `lastTimeStamp` is the derived
pts; when it is not, `ready` is 0, `lastTimeStamp` is what it was and surface
and overlay of the frame are what they were. -/
theorem C32_video_ready_iff_picture_passes_gate {σ : Type} (lib : Lib σ)
    (file : SDL_ffmpegFile σ) (s : SDL_ffmpegStream σ) (pack : AVPacket)
    (frame : SDL_ffmpegVideoFrame) (hs : file.videoStream = some s)
    (hready : frame.ready = 0) :
    ∃ file1 frame1 s1,
      SDL_ffmpegDecodeVideoFrame lib file (some pack) frame =
        some (file1, frame1, frame1.ready) ∧
      file1.videoStream = some s1 ∧
      frame1.pts = videoPts s pack ∧
      (frame1.ready = 1 ↔
        (lib.avcodec_decode_video2 s.codec (hurryFor (videoPts s pack) file.minimalTimestamp)
            s.decodeFrame (some pack)).got_frame ≠ 0 ∧
          ¬(videoPts s pack ≠ AV_NOPTS_VALUE ∧ videoPts s pack < file.minimalTimestamp)) ∧
      (frame1.ready = 1 → s1.lastTimeStamp = videoPts s pack) ∧
      (frame1.ready ≠ 1 →
        frame1.ready = 0 ∧ s1.lastTimeStamp = s.lastTimeStamp ∧
        frame1.surface = frame.surface ∧ frame1.overlay = frame.overlay) := by
  obtain ⟨⟨file1, frame1, ret⟩, hd⟩ := decodeVideo_total lib file (some pack) frame
    (by simp [hs])
  obtain ⟨s', hs', hcase⟩ := decodeVideo_cases lib _ _ _ _ _ _ hd
  rw [hs] at hs'
  cases hs'
  obtain ⟨-, -, -, -, -, f6, f7, -, -, f10, f11⟩ :=
    decodeVideoPacket_fields lib file.minimalTimestamp s (some pack) frame
  have hgot : (decodeVideoPacket lib file.minimalTimestamp s (some pack) frame).2.2 =
      (lib.avcodec_decode_video2 s.codec (hurryFor (videoPts s pack) file.minimalTimestamp)
        s.decodeFrame (some pack)).got_frame := rfl
  have hhurry : hurryFor (videoPts s pack) file.minimalTimestamp = 0 ↔
      ¬(videoPts s pack ≠ AV_NOPTS_VALUE ∧ videoPts s pack < file.minimalTimestamp) := by
    unfold hurryFor
    split_ifs with hc
    · simp [hc]
    · simp [hc]
  simp only at f10 f11
  rcases hcase with ⟨h1, h2, hf, hfr, hret⟩ | ⟨hnot, hf, hfr, hret⟩
  · have hr1 : frame1.ready = 1 := by rw [hfr]
    have hp1 : frame1.pts = videoPts s pack := by
      rw [hfr]
      show (convertPicture lib _ _).pts = _
      rw [(convertPicture_fields lib _ _).1, f10]
    refine ⟨file1, frame1, _, by rw [hd, hret, hr1], by rw [hf], hp1, ?_, ?_, ?_⟩
    · rw [hgot] at h1
      rw [f11] at h2
      exact ⟨fun _ => ⟨h1, hhurry.mp h2⟩, fun _ => hr1⟩
    · intro _
      exact f10
    · intro hne
      exact absurd hr1 hne
  · have hr0 : frame1.ready = 0 := by rw [hfr, f7, hready]
    refine ⟨file1, frame1, _, by rw [hd, hret, hr0, hready], by rw [hf], by rw [hfr, f10], ?_,
      ?_, ?_⟩
    · constructor
      · intro h1
        rw [hr0] at h1
        exact absurd h1 (by decide)
      · intro ⟨hg, hgate⟩
        exact absurd ⟨by rw [hgot]; exact hg, by rw [f11]; exact hhurry.mpr hgate⟩ hnot
    · intro h1
      rw [hr0] at h1
      exact absurd h1 (by decide)
    · intro _
      refine ⟨hr0, f6, ?_, ?_⟩ <;> rw [hfr] <;> rfl

/-- Witness of C32: the video packet with dts 7 of `gatedDemo`, whose gate is
5000. -/
theorem C32_video_ready_iff_picture_passes_gate_witness :
    ∃ file1 frame1 s1,
      SDL_ffmpegDecodeVideoFrame demoLib gatedDemo (some (videoPack 7)) {} =
        some (file1, frame1, frame1.ready) ∧
      file1.videoStream = some s1 ∧
      frame1.pts = videoPts demoVideo (videoPack 7) ∧
      (frame1.ready = 1 ↔
        (demoLib.avcodec_decode_video2 demoVideo.codec
            (hurryFor (videoPts demoVideo (videoPack 7)) gatedDemo.minimalTimestamp)
            demoVideo.decodeFrame (some (videoPack 7))).got_frame ≠ 0 ∧
          ¬(videoPts demoVideo (videoPack 7) ≠ AV_NOPTS_VALUE ∧
            videoPts demoVideo (videoPack 7) < gatedDemo.minimalTimestamp)) ∧
      (frame1.ready = 1 → s1.lastTimeStamp = videoPts demoVideo (videoPack 7)) ∧
      (frame1.ready ≠ 1 →
        frame1.ready = 0 ∧ s1.lastTimeStamp = demoVideo.lastTimeStamp ∧
        frame1.surface = ({} : SDL_ffmpegVideoFrame).surface ∧
        frame1.overlay = ({} : SDL_ffmpegVideoFrame).overlay) :=
  C32_video_ready_iff_picture_passes_gate demoLib gatedDemo demoVideo (videoPack 7) {} rfl rfl

/-! ## C34: the branchless clamp -/

/-- C34.  For every `int` value `x` (32 bits, `>>` an arithmetic shift) the
result of `clamp0_255` is `min(max(x, 0), 255)`.  The values of its four steps
are `~x`, which is an `int`; `x & (~x >> 31)`, which is `max(x, 0)`; that value
minus 255, which lies between -255 and `2^31 - 256`; the latter `&` its sign
mask, which is `min(max(x, 0) - 255, 0)`; and the sum with 255, which lies in
0..255: no step leaves the range of `int`. -/
theorem C34_clamp_is_min_max (x : Int) (hlo : -2147483648 ≤ x) (hhi : x < 2147483648) :
    clamp0_255 x = min (max x 0) 255 ∧
    (-2147483648 ≤ not32 x ∧ not32 x < 2147483648) ∧
    and32 x (sar31 (not32 x)) = max x 0 ∧
    (-255 ≤ and32 x (sar31 (not32 x)) - 255 ∧
      and32 x (sar31 (not32 x)) - 255 < 2147483648 - 255) ∧
    and32 (and32 x (sar31 (not32 x)) - 255) (sar31 (and32 x (sar31 (not32 x)) - 255)) =
      min (max x 0 - 255) 0 ∧
    (0 ≤ clamp0_255 x ∧ clamp0_255 x ≤ 255) := by
  have h1 : and32 x (sar31 (not32 x)) = max x 0 := by
    unfold sar31 not32
    by_cases hneg : x < 0
    · have e : (-x - 1) / 2147483648 = 0 := by omega
      rw [e, and32_zero]
      omega
    · have e : (-x - 1) / 2147483648 = -1 := by omega
      rw [e, and32_neg_one x hlo hhi]
      omega
  have h2 : and32 (max x 0 - 255) (sar31 (max x 0 - 255)) = min (max x 0 - 255) 0 := by
    unfold sar31
    by_cases hbig : 255 ≤ max x 0
    · have e : (max x 0 - 255) / 2147483648 = 0 := by omega
      rw [e, and32_zero]
      omega
    · have e : (max x 0 - 255) / 2147483648 = -1 := by omega
      rw [e, and32_neg_one _ (by omega) (by omega)]
      omega
  have h3 : clamp0_255 x = min (max x 0) 255 := by
    unfold clamp0_255
    simp only [h1, h2]
    omega
  refine ⟨h3, ?_, h1, ?_, ?_, ?_⟩
  · unfold not32
    omega
  · rw [h1]
    omega
  · rw [h1, h2]
  · rw [h3]
    omega

/-- Witness of C34: the value 300. -/
theorem C34_clamp_is_min_max_witness :
    clamp0_255 300 = min (max 300 0) 255 ∧
    (-2147483648 ≤ not32 300 ∧ not32 300 < 2147483648) ∧
    and32 300 (sar31 (not32 300)) = max 300 0 ∧
    (-255 ≤ and32 300 (sar31 (not32 300)) - 255 ∧
      and32 300 (sar31 (not32 300)) - 255 < 2147483648 - 255) ∧
    and32 (and32 300 (sar31 (not32 300)) - 255) (sar31 (and32 300 (sar31 (not32 300)) - 255)) =
      min (max 300 0 - 255) 0 ∧
    (0 ≤ clamp0_255 300 ∧ clamp0_255 300 ≤ 255) :=
  C34_clamp_is_min_max 300 (by decide) (by decide)

/-! ## C39: the audio path and the watermark -/

/-- The position depends on the two watermarks only. -/
theorem position_congr {σ : Type} (file file1 : SDL_ffmpegFile σ)
    (ha : audioLastTimeStamp file1 = audioLastTimeStamp file)
    (hv : videoRest file1 = videoRest file) :
    SDL_ffmpegGetPosition file1 = SDL_ffmpegGetPosition file := by
  unfold audioLastTimeStamp at ha
  unfold videoRest at hv
  have hv2 : file1.videoStream.map (fun s => s.lastTimeStamp) =
      file.videoStream.map (fun s => s.lastTimeStamp) := by
    have := congrArg (Option.map (fun s : SDL_ffmpegStream σ => s.lastTimeStamp)) hv
    simpa [Option.map_map, Function.comp] using this
  unfold SDL_ffmpegGetPosition
  cases h1 : file1.audioStream <;> cases h2 : file.audioStream <;>
    cases h3 : file1.videoStream <;> cases h4 : file.videoStream <;>
    simp_all

/-- C39.  `SDL_ffmpegDecodeAudioFrame` and `SDL_ffmpegGetAudioFrame` leave the
`lastTimeStamp` of the selected audio stream as it is, for every decoder, file,
packet and frame.  After any sequence of audio fetches, which all return, the
`lastTimeStamp` of the audio stream is what it was and `SDL_ffmpegGetPosition`
returns what it returned before, whether or not a video stream is selected. -/
theorem C39_audio_path_keeps_watermark {σ : Type} (lib : Lib σ) (file : SDL_ffmpegFile σ) :
    (∀ pack frame file1 frame1 ret,
      SDL_ffmpegDecodeAudioFrame lib file pack frame = some (file1, frame1, ret) →
      audioLastTimeStamp file1 = audioLastTimeStamp file) ∧
    (∀ frame, ∃ file1 frame1 ret,
      SDL_ffmpegGetAudioFrame lib file frame = some (file1, frame1, ret) ∧
      audioLastTimeStamp file1 = audioLastTimeStamp file ∧
      SDL_ffmpegGetPosition file1 = SDL_ffmpegGetPosition file) ∧
    (∀ frames : List SDL_ffmpegAudioFrame, ∃ file1 results,
      runFetches lib file (frames.map FetchCall.audio) = some (file1, results) ∧
      results.length = frames.length ∧
      audioLastTimeStamp file1 = audioLastTimeStamp file ∧
      SDL_ffmpegGetPosition file1 = SDL_ffmpegGetPosition file) := by
  have hone : ∀ (f : SDL_ffmpegFile σ) (frame : SDL_ffmpegAudioFrame), ∃ file1 frame1 ret,
      SDL_ffmpegGetAudioFrame lib f frame = some (file1, frame1, ret) ∧
      audioLastTimeStamp file1 = audioLastTimeStamp f ∧
      SDL_ffmpegGetPosition file1 = SDL_ffmpegGetPosition f := by
    intro f frame
    obtain ⟨⟨file1, frame1, ret⟩, hg⟩ := getAudioFrame_total lib f frame
    have hI := getAudioFrame_inv hg
    exact ⟨file1, frame1, ret, hg, hI.stamp, position_congr _ _ hI.stamp hI.video⟩
  refine ⟨?_, hone file, ?_⟩
  · intro pack frame file1 frame1 ret hd
    obtain ⟨s, hs, hcase⟩ := decodeAudio_cases lib _ _ _ _ _ _ hd
    unfold audioLastTimeStamp
    rcases hcase with ⟨-, -, -, hf, -⟩ | ⟨-, -, codec, samples, audioSize, sink, -, hf, -⟩
    · rw [hf, hs]
      simp only [Option.map_some', Option.some.injEq]
      exact (afterLeftover_fields s frame).2.2.2.2.2.1
    · rw [hf, hs]
      simp only [Option.map_some', Option.some.injEq]
      rw [(finishDecode_fields _ _ _ _ _ _ _ _).2.2.2.2.2.1]
      exact (afterLeftover_fields s frame).2.2.2.2.2.1
  · intro frames
    induction frames generalizing file with
    | nil => exact ⟨file, [], rfl, rfl, rfl, rfl⟩
    | cons frame frames ih =>
      obtain ⟨file1, frame1, ret, hg, h1, h2⟩ := hone file frame
      obtain ⟨file2, results, hr, hlen, h3, h4⟩ := ih file1
      refine ⟨file2, Fetched.audio frame1 ret :: results, ?_, by simp [hlen], h3.trans h1,
        h4.trans h2⟩
      simp [runFetches, hg, hr]

/-! ## C33: the entries of the lookup tables -/

set_option maxRecDepth 100000 in
/-- C33 (counterexample).  `__Y[20]` is 4, while `1.164 * (20 - 16) = 4.656`
rounds to 5; `__CrtoR[129]` is 1, while 1.596 rounds to 2; `__Y[12]` is -4,
while -4.656 rounds to -5. -/
theorem C33_counterexample_entries_truncated :
    initializeLookupTables.Y 20 = 4 ∧ roundNearest (1164 * (20 - 16)) 1000 = 5 ∧
    initializeLookupTables.CrtoR 129 = 1 ∧ roundNearest (1596 * (129 - 128)) 1000 = 2 ∧
    initializeLookupTables.Y 12 = -4 ∧ roundNearest (1164 * (12 - 16)) 1000 = -5 := by
  decide!

/-- C33 (amended).  After `initializeLookupTables`, for every `i` in 0..255
each table entry is the product of the coefficient, read as an exact decimal
rational, and the offset index, truncated toward zero (the conversion of a
`double` to `int`): `__Y[i] = trunc(1.164 * (i - 16))`,
`__CrtoR[i] = trunc(1.596 * (i - 128))`, `__CrtoG[i] = trunc(0.813 * (i - 128))`,
`__CbtoG[i] = trunc(0.392 * (i - 128))`, `__CbtoB[i] = trunc(2.017 * (i - 128))`.
The rounding of the products in `double` does not change any entry. -/
theorem C33_tables_truncate (i : Nat) (hi : i < 256) :
    initializeLookupTables.Y i = Int.tdiv (1164 * ((i : Int) - 16)) 1000 ∧
    initializeLookupTables.CrtoR i = Int.tdiv (1596 * ((i : Int) - 128)) 1000 ∧
    initializeLookupTables.CrtoG i = Int.tdiv (813 * ((i : Int) - 128)) 1000 ∧
    initializeLookupTables.CbtoG i = Int.tdiv (392 * ((i : Int) - 128)) 1000 ∧
    initializeLookupTables.CbtoB i = Int.tdiv (2017 * ((i : Int) - 128)) 1000 :=
  initializeLookupTables_exact i hi

/-- Witness of C33: the entries at index 20. -/
theorem C33_tables_truncate_witness :
    initializeLookupTables.Y 20 = Int.tdiv (1164 * (((20 : Nat) : Int) - 16)) 1000 ∧
    initializeLookupTables.CrtoR 20 = Int.tdiv (1596 * (((20 : Nat) : Int) - 128)) 1000 ∧
    initializeLookupTables.CrtoG 20 = Int.tdiv (813 * (((20 : Nat) : Int) - 128)) 1000 ∧
    initializeLookupTables.CbtoG 20 = Int.tdiv (392 * (((20 : Nat) : Int) - 128)) 1000 ∧
    initializeLookupTables.CbtoB 20 = Int.tdiv (2017 * (((20 : Nat) : Int) - 128)) 1000 :=
  C33_tables_truncate 20 (by decide)

/-! ## C35: one scanline of the YUY2 kernel -/

theorem pack_yuy2 (a b c d : Nat) (ha : a < 256) (hb : b < 256) (hc : c < 256) (_ : d < 256) :
    a ||| (b <<< 8) ||| (c <<< 16) ||| (d <<< 24) = a + 256 * b + 65536 * c + 16777216 * d := by
  have e1 : a ||| (b <<< 8) = 256 * b + a := by
    rw [Nat.lor_comm, Nat.shiftLeft_eq, Nat.mul_comm]
    exact (Nat.mul_add_lt_is_or (i := 8) (by omega) b).symm
  have e2 : (256 * b + a) ||| (c <<< 16) = 65536 * c + (256 * b + a) := by
    rw [Nat.lor_comm, Nat.shiftLeft_eq, Nat.mul_comm]
    exact (Nat.mul_add_lt_is_or (i := 16) (by omega) c).symm
  have e3 : (65536 * c + (256 * b + a)) ||| (d <<< 24) =
      16777216 * d + (65536 * c + (256 * b + a)) := by
    rw [Nat.lor_comm, Nat.shiftLeft_eq, Nat.mul_comm]
    exact (Nat.mul_add_lt_is_or (i := 24) (by omega) d).symm
  rw [e1, e2, e3]
  omega

/-- A 32-bit store inside the memory: the four bytes written and the bytes
left alone. -/
theorem store32_spec (mem : List Nat) (off : Int) (v : Nat) (h0 : 0 ≤ off)
    (hlen : off + 4 ≤ mem.length) :
    (store32 mem off v).length = mem.length ∧
    peek (store32 mem off v) off = v % 256 ∧
    peek (store32 mem off v) (off + 1) = v / 256 % 256 ∧
    peek (store32 mem off v) (off + 2) = v / 65536 % 256 ∧
    peek (store32 mem off v) (off + 3) = v / 16777216 % 256 ∧
    (∀ j, j < off ∨ off + 4 ≤ j → peek (store32 mem off v) j = peek mem j) := by
  unfold store32
  simp only [peek_poke, length_poke]
  refine ⟨trivial, ?_, ?_, ?_, ?_, ?_⟩
  · split_ifs <;> first | rfl | (exfalso; omega) | (exfalso; simp only [true_and] at *; omega)
  · split_ifs <;> first | rfl | (exfalso; omega) | (exfalso; simp only [true_and] at *; omega)
  · split_ifs <;> first | rfl | (exfalso; omega) | (exfalso; simp only [true_and] at *; omega)
  · split_ifs <;> first | rfl | (exfalso; omega) | (exfalso; simp only [true_and] at *; omega)
  · intro j hj
    split_ifs <;> first | rfl | (exfalso; omega)

theorem yuy2Word_succ (f : AVFrame) (Y U V : Int) (i : Nat) :
    yuy2Word f (Y + 2) (U + 1) (V + 1) i = yuy2Word f Y U V (i + 1) := by
  unfold yuy2Word
  have e1 : Y + 2 + 2 * (i : Int) = Y + 2 * ((i + 1 : Nat) : Int) := by push_cast; ring
  have e2 : U + 1 + (i : Int) = U + ((i + 1 : Nat) : Int) := by push_cast; ring
  have e3 : V + 1 + (i : Int) = V + ((i + 1 : Nat) : Int) := by push_cast; ring
  rw [e1, e2, e3]

/-- The bytes of the packed row after one scanline call of `n` macropixels
that lies inside the memory. -/
theorem yuy2Scanline_spec (f : AVFrame) (n : Nat) :
    ∀ (Y U V P : Int) (mem : List Nat), 0 ≤ P → P + 4 * (n : Int) ≤ mem.length →
      (SDL_ffmpegConvertYUV420PtoYUY2scanline f n Y U V P mem).length = mem.length ∧
      (∀ i : Nat, i < n →
        peek (SDL_ffmpegConvertYUV420PtoYUY2scanline f n Y U V P mem) (P + 4 * i) =
          yuy2Word f Y U V i % 256 ∧
        peek (SDL_ffmpegConvertYUV420PtoYUY2scanline f n Y U V P mem) (P + 4 * i + 1) =
          yuy2Word f Y U V i / 256 % 256 ∧
        peek (SDL_ffmpegConvertYUV420PtoYUY2scanline f n Y U V P mem) (P + 4 * i + 2) =
          yuy2Word f Y U V i / 65536 % 256 ∧
        peek (SDL_ffmpegConvertYUV420PtoYUY2scanline f n Y U V P mem) (P + 4 * i + 3) =
          yuy2Word f Y U V i / 16777216 % 256) ∧
      (∀ j : Int, j < P ∨ P + 4 * (n : Int) ≤ j →
        peek (SDL_ffmpegConvertYUV420PtoYUY2scanline f n Y U V P mem) j = peek mem j) := by
  induction n with
  | zero =>
    intro Y U V P mem _ _
    exact ⟨rfl, fun i hi => absurd hi (Nat.not_lt_zero i), fun j _ => rfl⟩
  | succ n ih =>
    intro Y U V P mem h0 hlen
    rw [SDL_ffmpegConvertYUV420PtoYUY2scanline]
    have hw : peek f.data0 Y ||| (peek f.data1 U <<< 8) ||| (peek f.data0 (Y + 1) <<< 16) |||
        (peek f.data2 V <<< 24) = yuy2Word f Y U V 0 := by
      unfold yuy2Word
      simp
    rw [hw]
    obtain ⟨s1, s2, s3, s4, s5, s6⟩ := store32_spec mem P (yuy2Word f Y U V 0) h0
      (by push_cast at hlen; omega)
    obtain ⟨i1, i2, i3⟩ := ih (Y + 2) (U + 1) (V + 1) (P + 4)
      (store32 mem P (yuy2Word f Y U V 0)) (by omega) (by rw [s1]; push_cast at hlen ⊢; omega)
    refine ⟨i1.trans s1, fun i hi => ?_, fun j hj => ?_⟩
    · cases i with
      | zero =>
        simp only [Nat.cast_zero, mul_zero, add_zero]
        rw [i3 P (by omega), i3 (P + 1) (by omega), i3 (P + 2) (by omega),
          i3 (P + 3) (by omega)]
        exact ⟨s2, s3, s4, s5⟩
      | succ k =>
        obtain ⟨b0, b1, b2, b3⟩ := i2 k (by omega)
        rw [yuy2Word_succ] at b0 b1 b2 b3
        have e : P + 4 * ((k + 1 : Nat) : Int) = P + 4 + 4 * (k : Int) := by push_cast; ring
        rw [e]
        exact ⟨b0, b1, b2, b3⟩
    · rw [i3 j (by push_cast at hj ⊢; omega), s6 j (by push_cast at hj; omega)]

/-- C35.  The planes hold bytes and the row of `floor(w / 2)` words at the
byte offset `P` lies inside the pixel memory.  After the scanline call, for
every `i < floor(w / 2)` the four bytes of word `i` are, from the lowest
address, `Y[2i]`, `U[i]`, `Y[2i+1]`, `V[i]`, and the 32-bit value they form is
`Y[2i] | U[i] << 8 | Y[2i+1] << 16 | V[i] << 24`; every byte outside these
`floor(w / 2)` words is what it was, and the memory has the length it had. -/
theorem C35_yuy2_scanline (YUV420P : AVFrame) (w : Nat) (Y U V P : Int) (mem : List Nat)
    (hbytes : ∀ b ∈ YUV420P.data0 ++ YUV420P.data1 ++ YUV420P.data2, b < 256)
    (h0 : 0 ≤ P) (hlen : P + 4 * ((w / 2 : Nat) : Int) ≤ mem.length) :
    (SDL_ffmpegConvertYUV420PtoYUY2scanline YUV420P (w / 2) Y U V P mem).length = mem.length ∧
    (∀ i : Nat, i < w / 2 →
      peek (SDL_ffmpegConvertYUV420PtoYUY2scanline YUV420P (w / 2) Y U V P mem) (P + 4 * i) =
        peek YUV420P.data0 (Y + 2 * i) ∧
      peek (SDL_ffmpegConvertYUV420PtoYUY2scanline YUV420P (w / 2) Y U V P mem)
        (P + 4 * i + 1) = peek YUV420P.data1 (U + i) ∧
      peek (SDL_ffmpegConvertYUV420PtoYUY2scanline YUV420P (w / 2) Y U V P mem)
        (P + 4 * i + 2) = peek YUV420P.data0 (Y + 2 * i + 1) ∧
      peek (SDL_ffmpegConvertYUV420PtoYUY2scanline YUV420P (w / 2) Y U V P mem)
        (P + 4 * i + 3) = peek YUV420P.data2 (V + i) ∧
      peek (SDL_ffmpegConvertYUV420PtoYUY2scanline YUV420P (w / 2) Y U V P mem) (P + 4 * i) +
          256 * peek (SDL_ffmpegConvertYUV420PtoYUY2scanline YUV420P (w / 2) Y U V P mem)
            (P + 4 * i + 1) +
          65536 * peek (SDL_ffmpegConvertYUV420PtoYUY2scanline YUV420P (w / 2) Y U V P mem)
            (P + 4 * i + 2) +
          16777216 * peek (SDL_ffmpegConvertYUV420PtoYUY2scanline YUV420P (w / 2) Y U V P mem)
            (P + 4 * i + 3) =
        peek YUV420P.data0 (Y + 2 * i) ||| (peek YUV420P.data1 (U + i) <<< 8) |||
          (peek YUV420P.data0 (Y + 2 * i + 1) <<< 16) |||
          (peek YUV420P.data2 (V + i) <<< 24)) ∧
    (∀ j : Int, j < P ∨ P + 4 * ((w / 2 : Nat) : Int) ≤ j →
      peek (SDL_ffmpegConvertYUV420PtoYUY2scanline YUV420P (w / 2) Y U V P mem) j =
        peek mem j) := by
  obtain ⟨h1, h2, h3⟩ := yuy2Scanline_spec YUV420P (w / 2) Y U V P mem h0 hlen
  have hb0 : ∀ b ∈ YUV420P.data0, b < 256 := fun b hb => hbytes b (by simp [hb])
  have hb1 : ∀ b ∈ YUV420P.data1, b < 256 := fun b hb => hbytes b (by simp [hb])
  have hb2 : ∀ b ∈ YUV420P.data2, b < 256 := fun b hb => hbytes b (by simp [hb])
  refine ⟨h1, fun i hi => ?_, h3⟩
  obtain ⟨b0, b1, b2, b3⟩ := h2 i hi
  have ha := peek_lt YUV420P.data0 hb0 (Y + 2 * i)
  have hb := peek_lt YUV420P.data1 hb1 (U + i)
  have hc := peek_lt YUV420P.data0 hb0 (Y + 2 * i + 1)
  have hd := peek_lt YUV420P.data2 hb2 (V + i)
  have hw : yuy2Word YUV420P Y U V i =
      peek YUV420P.data0 (Y + 2 * i) + 256 * peek YUV420P.data1 (U + i) +
        65536 * peek YUV420P.data0 (Y + 2 * i + 1) + 16777216 * peek YUV420P.data2 (V + i) := by
    unfold yuy2Word
    exact pack_yuy2 _ _ _ _ ha hb hc hd
  have hor := pack_yuy2 _ _ _ _ ha hb hc hd
  rw [b0, b1, b2, b3, hw, hor]
  refine ⟨by omega, by omega, by omega, by omega, by omega⟩

/-- Witness of C35: a row of four luma samples 1, 2, 3, 4 with the chroma
samples 5, 6 and 7, 8, packed into a memory of eight bytes. -/
theorem C35_yuy2_scanline_witness :
    (SDL_ffmpegConvertYUV420PtoYUY2scanline rowPicture (4 / 2) 0 0 0 0
      (List.replicate 8 0)).length = (List.replicate 8 0).length ∧
    (∀ i : Nat, i < 4 / 2 →
      peek (SDL_ffmpegConvertYUV420PtoYUY2scanline rowPicture (4 / 2) 0 0 0 0
        (List.replicate 8 0)) (0 + 4 * i) = peek rowPicture.data0 (0 + 2 * i) ∧
      peek (SDL_ffmpegConvertYUV420PtoYUY2scanline rowPicture (4 / 2) 0 0 0 0
        (List.replicate 8 0)) (0 + 4 * i + 1) = peek rowPicture.data1 (0 + i) ∧
      peek (SDL_ffmpegConvertYUV420PtoYUY2scanline rowPicture (4 / 2) 0 0 0 0
        (List.replicate 8 0)) (0 + 4 * i + 2) = peek rowPicture.data0 (0 + 2 * i + 1) ∧
      peek (SDL_ffmpegConvertYUV420PtoYUY2scanline rowPicture (4 / 2) 0 0 0 0
        (List.replicate 8 0)) (0 + 4 * i + 3) = peek rowPicture.data2 (0 + i) ∧
      peek (SDL_ffmpegConvertYUV420PtoYUY2scanline rowPicture (4 / 2) 0 0 0 0
          (List.replicate 8 0)) (0 + 4 * i) +
          256 * peek (SDL_ffmpegConvertYUV420PtoYUY2scanline rowPicture (4 / 2) 0 0 0 0
            (List.replicate 8 0)) (0 + 4 * i + 1) +
          65536 * peek (SDL_ffmpegConvertYUV420PtoYUY2scanline rowPicture (4 / 2) 0 0 0 0
            (List.replicate 8 0)) (0 + 4 * i + 2) +
          16777216 * peek (SDL_ffmpegConvertYUV420PtoYUY2scanline rowPicture (4 / 2) 0 0 0 0
            (List.replicate 8 0)) (0 + 4 * i + 3) =
        peek rowPicture.data0 (0 + 2 * i) ||| (peek rowPicture.data1 (0 + i) <<< 8) |||
          (peek rowPicture.data0 (0 + 2 * i + 1) <<< 16) |||
          (peek rowPicture.data2 (0 + i) <<< 24)) ∧
    (∀ j : Int, j < 0 ∨ 0 + 4 * ((4 / 2 : Nat) : Int) ≤ j →
      peek (SDL_ffmpegConvertYUV420PtoYUY2scanline rowPicture (4 / 2) 0 0 0 0
        (List.replicate 8 0)) j = peek (List.replicate 8 0) j) :=
  C35_yuy2_scanline rowPicture 4 0 0 0 0 (List.replicate 8 0) (by decide) (by decide)
    (by decide)

/-! ## C36: the coefficients of the encoder scanline -/

set_option maxRecDepth 100000 in
/-- C36 (the code departs from its comment and from the claim).  For a row of
two red pixels 0xFF0000FF (R = 255 in bits 0-7, as the decoder kernel packs
it) the scanline writes the luma 40, 40 and the chroma pair (239, 120), where
the formulas of the comment give the luma 81 and the chroma pair (90, 239):
lines 2151-2160 take `(p >> 16) & 0xFF` for R and `p & 0xFF` for B.  For a row
of two white pixels, where the order of the channels does not matter, the
scanline writes V = 138 where the comment gives 128: line 2158 has
`0.071 * (0.439 * B)` for `0.071 * B`.  For the pair of a red and a black
pixel the chroma written is that of the black pixel alone. -/
theorem C36_encoder_coefficients_misapplied :
    ((SDL_ffmpegConvertRGBAtoYUV420Pscanline (pairRow 0xFF0000FF) (2 / 2) 0 0 0 0 blankRow).data0,
      (SDL_ffmpegConvertRGBAtoYUV420Pscanline (pairRow 0xFF0000FF) (2 / 2) 0 0 0 0 blankRow).data1,
      (SDL_ffmpegConvertRGBAtoYUV420Pscanline (pairRow 0xFF0000FF) (2 / 2) 0 0 0 0 blankRow).data2)
      = ([40, 40], [239], [120]) ∧
    (standardY 0xFF0000FF, standardU 0xFF0000FF, standardV 0xFF0000FF) = (81, 90, 239) ∧
    ((SDL_ffmpegConvertRGBAtoYUV420Pscanline (pairRow 0xFFFFFFFF) (2 / 2) 0 0 0 0 blankRow).data0,
      (SDL_ffmpegConvertRGBAtoYUV420Pscanline (pairRow 0xFFFFFFFF) (2 / 2) 0 0 0 0 blankRow).data1,
      (SDL_ffmpegConvertRGBAtoYUV420Pscanline (pairRow 0xFFFFFFFF) (2 / 2) 0 0 0 0 blankRow).data2)
      = ([235, 235], [128], [138]) ∧
    (standardY 0xFFFFFFFF, standardU 0xFFFFFFFF, standardV 0xFFFFFFFF) = (235, 128, 128) ∧
    ((SDL_ffmpegConvertRGBAtoYUV420Pscanline [0xFF0000FF, 0xFF000000] (2 / 2) 0 0 0 0
        blankRow).data1,
      (SDL_ffmpegConvertRGBAtoYUV420Pscanline [0xFF0000FF, 0xFF000000] (2 / 2) 0 0 0 0
        blankRow).data2) = ([cbOf 0xFF000000], [crOf 0xFF000000]) ∧
    (cbOf 0xFF000000, crOf 0xFF000000) = (128, 128) := by
  decide!

/-! ## C37, C38: the chroma rows of the progressive branches -/

theorem yuy2Progressive_get (f : AVFrame) (o : SDL_Overlay) (n : Nat) (Y U V P : Int)
    (j : Nat) (hj : j < 2 * n) :
    (yuy2Progressive f o n Y U V P)[j]? =
      some ⟨Y + f.linesize0 * j, U + f.linesize1 * (((j : Int) + 1) / 2),
        V + f.linesize2 * (((j : Int) + 1) / 2), P + o.pitches0 * j, o.w⟩ := by
  induction n generalizing Y U V P j with
  | zero => omega
  | succ n ih =>
    simp only [yuy2Progressive]
    match j, hj with
    | 0, _ => simp
    | 1, _ => simp
    | k + 2, hk =>
      simp only [List.getElem?_cons_succ]
      rw [ih _ _ _ _ k (by omega)]
      have e1 : (((k + 2 : Nat) : Int) + 1) / 2 = ((k : Int) + 1) / 2 + 1 := by push_cast; omega
      rw [e1]
      simp only [Option.some.injEq]
      congr 1 <;> (push_cast; ring)

/-- C37 (the code departs from the claim).  In progressive mode the scanline
call for the odd luma row `2k + 1` of the YUY2 kernel starts at chroma row
`k + 1` (lines 2126-2131 advance `U` and `V` before line 1), where the RGBA
kernel starts at chroma row `k = floor((2k + 1) / 2)`; for the last row
`h - 1` of an even height that is chroma row `h / 2`, behind the plane.  On
the picture of 2 x 8 samples with the U rows 10, 20, 30, 40 and the V rows 50,
60, 70, 80 the overlay rows get the chroma of rows 0, 1, 1, 2, 2, 3, 3 and of
the row behind the plane (read as 0 here), where the RGBA kernel uses rows 0,
0, 1, 1, 2, 2, 3, 3. -/
theorem C37_progressive_yuy2_reads_next_chroma_row :
    (∀ (f : AVFrame) (o : SDL_Overlay) (k : Nat), ((2 * k + 1 : Nat) : Int) < o.h →
      (yuy2Calls f o 0)[2 * k + 1]? =
          some ⟨f.linesize0 * (2 * k + 1 : Nat), f.linesize1 * (k + 1 : Nat),
            f.linesize2 * (k + 1 : Nat), o.pitches0 * (2 * k + 1 : Nat), o.w⟩ ∧
        rgbaRowStart f 0 (2 * k + 1 : Nat) =
          (f.linesize0 * (2 * k + 1 : Nat), f.linesize1 * (k : Nat), f.linesize2 * (k : Nat))) ∧
    (SDL_ffmpegConvertYUV420PtoYUY2 tallPicture tallOverlay 0).pixels0 =
      [100, 10, 100, 50, 100, 20, 100, 60, 100, 20, 100, 60, 100, 30, 100, 70,
        100, 30, 100, 70, 100, 40, 100, 80, 100, 40, 100, 80, 100, 0, 100, 0] ∧
    (List.range 8).map (fun y => (rgbaRowStart tallPicture 0 (y : Int)).2) =
      [(0, 0), (0, 0), (1, 1), (1, 1), (2, 2), (2, 2), (3, 3), (3, 3)] ∧
    (tallPicture.data1, tallPicture.data2) = ([10, 20, 30, 40], [50, 60, 70, 80]) := by
  refine ⟨fun f o k hk => ⟨?_, ?_⟩, by decide, by decide, rfl⟩
  · unfold yuy2Calls
    rw [if_neg (by decide), yuy2Progressive_get f o _ 0 0 0 0 (2 * k + 1) (by omega)]
    have e : (((2 * k + 1 : Nat) : Int) + 1) / 2 = ((k + 1 : Nat) : Int) := by push_cast; omega
    rw [e]
    simp
  · unfold rgbaRowStart
    have e : ((2 * k + 1 : Nat) : Int) / 2 = (k : Int) := by push_cast; omega
    simp only [ne_eq, not_true_eq_false, if_false, e]

set_option maxRecDepth 100000 in
/-- C38 (the code departs from the claim).  In progressive mode, the mode in
which `SDL_ffmpegAddVideoFrame` calls the encoder kernel, the scanline call
for the odd luma row `2k + 1` writes its chroma samples to chroma row `k + 1`
(lines 2220-2225 advance `U` and `V` before line 1); for the last row `h - 1`
of an even height that is chroma row `h / 2`, behind the plane.  On a white
surface of 2 x 2 pixels and a frame whose chroma planes of one sample are
followed by the byte 99, the kernel overwrites both bytes behind the
planes. -/
theorem C38_progressive_encoder_writes_past_chroma :
    (∀ (s : SDL_Surface) (f : AVFrame) (k : Nat), ((2 * k + 1 : Nat) : Int) < s.h →
      (yuvCalls s f 0)[2 * k + 1]? =
        some ⟨f.linesize0 * (2 * k + 1 : Nat), f.linesize1 * (k + 1 : Nat),
          f.linesize2 * (k + 1 : Nat), s.w * (2 * k + 1 : Nat), s.w⟩) ∧
    (guardedFrame.data1, guardedFrame.data2) = ([0, 99], [0, 99]) ∧
    ((SDL_ffmpegConvertRGBAtoYUV420P whiteSurface guardedFrame 0).data1,
      (SDL_ffmpegConvertRGBAtoYUV420P whiteSurface guardedFrame 0).data2) =
      ([128, 128], [138, 138]) ∧
    (SDL_ffmpegConvertRGBAtoYUV420P whiteSurface guardedFrame 0).data0 = [235, 235, 235, 235] := by
  refine ⟨fun s f k hk => ?_, rfl, by decide!, by decide!⟩
  unfold yuvCalls
  rw [if_neg (by decide), yuvProgressive_get s f _ 0 0 0 0 (2 * k + 1) (by omega)]
  have e : (((2 * k + 1 : Nat) : Int) + 1) / 2 = ((k + 1 : Nat) : Int) := by push_cast; omega
  rw [e]
  simp

/-! ## C18: the bytes that the interlaced YUY2 kernel writes -/

theorem yuy2Interlaced_length (f : AVFrame) (o : SDL_Overlay) (n : Nat) (Y U V P : Int) :
    (yuy2Interlaced f o n Y U V P).length = 4 * n := by
  induction n generalizing Y U V P with
  | zero => rfl
  | succ n ih =>
    simp only [yuy2Interlaced, List.length_cons, ih]
    omega

/-- With planes of bytes the four bytes of a packed word are its samples. -/
theorem yuy2Word_bytes (f : AVFrame)
    (hbytes : ∀ b ∈ f.data0 ++ f.data1 ++ f.data2, b < 256) (Y U V : Int) (i : Nat) :
    yuy2Word f Y U V i % 256 = peek f.data0 (Y + 2 * i) ∧
    yuy2Word f Y U V i / 256 % 256 = peek f.data1 (U + i) ∧
    yuy2Word f Y U V i / 65536 % 256 = peek f.data0 (Y + 2 * i + 1) ∧
    yuy2Word f Y U V i / 16777216 % 256 = peek f.data2 (V + i) := by
  have hb0 : ∀ b ∈ f.data0, b < 256 := fun b hb => hbytes b (by simp [hb])
  have hb1 : ∀ b ∈ f.data1, b < 256 := fun b hb => hbytes b (by simp [hb])
  have hb2 : ∀ b ∈ f.data2, b < 256 := fun b hb => hbytes b (by simp [hb])
  have ha := peek_lt f.data0 hb0 (Y + 2 * i)
  have hb := peek_lt f.data1 hb1 (U + i)
  have hc := peek_lt f.data0 hb0 (Y + 2 * i + 1)
  have hd := peek_lt f.data2 hb2 (V + i)
  have hw : yuy2Word f Y U V i =
      peek f.data0 (Y + 2 * i) + 256 * peek f.data1 (U + i) +
        65536 * peek f.data0 (Y + 2 * i + 1) + 16777216 * peek f.data2 (V + i) := by
    unfold yuy2Word
    exact pack_yuy2 _ _ _ _ ha hb hc hd
  rw [hw]
  refine ⟨by omega, by omega, by omega, by omega⟩

/-- Scanline calls that lie inside the pixel memory keep its length. -/
theorem yuy2Fold_length (f : AVFrame) (cs : List ScanlineCall) :
    ∀ mem : List Nat,
      (∀ c ∈ cs, 0 ≤ c.packed ∧ c.packed + 4 * ((c.w / 2).toNat : Int) ≤ mem.length) →
      (cs.foldl
        (fun mem c =>
          SDL_ffmpegConvertYUV420PtoYUY2scanline f (c.w / 2).toNat c.Y c.U c.V c.packed mem)
        mem).length = mem.length := by
  induction cs with
  | nil => intro mem _; rfl
  | cons c cs ih =>
    intro mem h
    rw [List.foldl_cons]
    obtain ⟨h0, h1⟩ := h c (List.mem_cons_self _ _)
    obtain ⟨hl, -, -⟩ := yuy2Scanline_spec f (c.w / 2).toNat c.Y c.U c.V c.packed mem h0 h1
    rw [ih _ (fun c1 hc1 => by rw [hl]; exact h c1 (List.mem_cons_of_mem _ hc1)), hl]

/-- A byte outside the rows of all calls keeps its value. -/
theorem yuy2Fold_untouched (f : AVFrame) (b : Int) (cs : List ScanlineCall) :
    ∀ mem : List Nat,
      (∀ c ∈ cs, 0 ≤ c.packed ∧ c.packed + 4 * ((c.w / 2).toNat : Int) ≤ mem.length) →
      (∀ c ∈ cs, b < c.packed ∨ c.packed + 4 * ((c.w / 2).toNat : Int) ≤ b) →
      peek (cs.foldl
        (fun mem c =>
          SDL_ffmpegConvertYUV420PtoYUY2scanline f (c.w / 2).toNat c.Y c.U c.V c.packed mem)
        mem) b = peek mem b := by
  induction cs with
  | nil => intro mem _ _; rfl
  | cons c cs ih =>
    intro mem h hout
    rw [List.foldl_cons]
    obtain ⟨h0, h1⟩ := h c (List.mem_cons_self _ _)
    obtain ⟨hl, -, h3⟩ := yuy2Scanline_spec f (c.w / 2).toNat c.Y c.U c.V c.packed mem h0 h1
    rw [ih _ (fun c1 hc1 => by rw [hl]; exact h c1 (List.mem_cons_of_mem _ hc1))
      (fun c1 hc1 => hout c1 (List.mem_cons_of_mem _ hc1)),
      h3 b (hout c (List.mem_cons_self _ _))]

/-- The bytes of word `i` in the row of a call whose row no later call
touches are the bytes that the call packed. -/
theorem yuy2Fold_written (f : AVFrame) (pre post : List ScanlineCall) (c : ScanlineCall)
    (mem : List Nat) (i : Nat)
    (hvalid : ∀ c1 ∈ pre ++ c :: post,
      0 ≤ c1.packed ∧ c1.packed + 4 * ((c1.w / 2).toNat : Int) ≤ mem.length)
    (hi : i < (c.w / 2).toNat)
    (hpost : ∀ c1 ∈ post,
      c.packed + 4 * ((c.w / 2).toNat : Int) ≤ c1.packed ∨
        c1.packed + 4 * ((c1.w / 2).toNat : Int) ≤ c.packed) :
    peek ((pre ++ c :: post).foldl
        (fun mem c =>
          SDL_ffmpegConvertYUV420PtoYUY2scanline f (c.w / 2).toNat c.Y c.U c.V c.packed mem)
        mem) (c.packed + 4 * i) = yuy2Word f c.Y c.U c.V i % 256 ∧
    peek ((pre ++ c :: post).foldl
        (fun mem c =>
          SDL_ffmpegConvertYUV420PtoYUY2scanline f (c.w / 2).toNat c.Y c.U c.V c.packed mem)
        mem) (c.packed + 4 * i + 1) = yuy2Word f c.Y c.U c.V i / 256 % 256 ∧
    peek ((pre ++ c :: post).foldl
        (fun mem c =>
          SDL_ffmpegConvertYUV420PtoYUY2scanline f (c.w / 2).toNat c.Y c.U c.V c.packed mem)
        mem) (c.packed + 4 * i + 2) = yuy2Word f c.Y c.U c.V i / 65536 % 256 ∧
    peek ((pre ++ c :: post).foldl
        (fun mem c =>
          SDL_ffmpegConvertYUV420PtoYUY2scanline f (c.w / 2).toNat c.Y c.U c.V c.packed mem)
        mem) (c.packed + 4 * i + 3) = yuy2Word f c.Y c.U c.V i / 16777216 % 256 := by
  have hpre : ∀ c1 ∈ pre,
      0 ≤ c1.packed ∧ c1.packed + 4 * ((c1.w / 2).toNat : Int) ≤ mem.length :=
    fun c1 hc1 => hvalid c1 (List.mem_append_left _ hc1)
  have hc := hvalid c (List.mem_append_right _ (List.mem_cons_self _ _))
  have hl1 := yuy2Fold_length f pre mem hpre
  obtain ⟨hl2, hw, -⟩ := yuy2Scanline_spec f (c.w / 2).toNat c.Y c.U c.V c.packed
    (pre.foldl
      (fun mem c =>
        SDL_ffmpegConvertYUV420PtoYUY2scanline f (c.w / 2).toNat c.Y c.U c.V c.packed mem)
      mem) hc.1 (by rw [hl1]; exact hc.2)
  have hpostv : ∀ c1 ∈ post, 0 ≤ c1.packed ∧
      c1.packed + 4 * ((c1.w / 2).toNat : Int) ≤
        (SDL_ffmpegConvertYUV420PtoYUY2scanline f (c.w / 2).toNat c.Y c.U c.V c.packed
          (pre.foldl
            (fun mem c =>
              SDL_ffmpegConvertYUV420PtoYUY2scanline f (c.w / 2).toNat c.Y c.U c.V c.packed
                mem)
            mem)).length := by
    intro c1 hc1
    rw [hl2, hl1]
    exact hvalid c1 (List.mem_append_right _ (List.mem_cons_of_mem _ hc1))
  have hout : ∀ k : Int, 0 ≤ k → k < 4 → ∀ c1 ∈ post,
      c.packed + 4 * (i : Int) + k < c1.packed ∨
        c1.packed + 4 * ((c1.w / 2).toNat : Int) ≤ c.packed + 4 * (i : Int) + k := by
    intro k hk0 hk4 c1 hc1
    rcases hpost c1 hc1 with h | h
    · left
      omega
    · right
      omega
  obtain ⟨b0, b1, b2, b3⟩ := hw i hi
  rw [List.foldl_append, List.foldl_cons]
  refine ⟨?_, ?_, ?_, ?_⟩
  · have := yuy2Fold_untouched f (c.packed + 4 * i) post _ hpostv
      (fun c1 hc1 => by simpa using hout 0 (by omega) (by omega) c1 hc1)
    rw [this, b0]
  · rw [yuy2Fold_untouched f (c.packed + 4 * i + 1) post _ hpostv
      (hout 1 (by omega) (by omega)), b1]
  · rw [yuy2Fold_untouched f (c.packed + 4 * i + 2) post _ hpostv
      (hout 2 (by omega) (by omega)), b2]
  · rw [yuy2Fold_untouched f (c.packed + 4 * i + 3) post _ hpostv
      (hout 3 (by omega) (by omega)), b3]

/-- The bytes of row `y` of the overlay after the interlaced YUY2 kernel: the
luma samples of row `y` and the chroma samples of chroma row
`2 * (y / 4) + y % 2`. -/
theorem yuy2Interlaced_bytes (YUV420P : AVFrame) (YUY2 : SDL_Overlay) (interlaced : Int)
    (y : Nat) (hil : interlaced ≠ 0) (hh : YUY2.h % 4 = 0) (hy : (y : Int) < YUY2.h)
    (hbytes : ∀ b ∈ YUV420P.data0 ++ YUV420P.data1 ++ YUV420P.data2, b < 256)
    (hpitch : 4 * ((YUY2.w / 2).toNat : Int) ≤ YUY2.pitches0)
    (hmem : YUY2.pitches0 * YUY2.h ≤ YUY2.pixels0.length) (i : Nat)
    (hi : i < (YUY2.w / 2).toNat) :
    peek (SDL_ffmpegConvertYUV420PtoYUY2 YUV420P YUY2 interlaced).pixels0
        (YUY2.pitches0 * y + 4 * i) = peek YUV420P.data0 (YUV420P.linesize0 * y + 2 * i) ∧
    peek (SDL_ffmpegConvertYUV420PtoYUY2 YUV420P YUY2 interlaced).pixels0
        (YUY2.pitches0 * y + 4 * i + 1) =
      peek YUV420P.data1 (YUV420P.linesize1 * (2 * ((y : Int) / 4) + (y : Int) % 2) + i) ∧
    peek (SDL_ffmpegConvertYUV420PtoYUY2 YUV420P YUY2 interlaced).pixels0
        (YUY2.pitches0 * y + 4 * i + 2) =
      peek YUV420P.data0 (YUV420P.linesize0 * y + 2 * i + 1) ∧
    peek (SDL_ffmpegConvertYUV420PtoYUY2 YUV420P YUY2 interlaced).pixels0
        (YUY2.pitches0 * y + 4 * i + 3) =
      peek YUV420P.data2 (YUV420P.linesize2 * (2 * ((y : Int) / 4) + (y : Int) % 2) + i) := by
  have hp0 : 0 ≤ YUY2.pitches0 := by omega
  have hget : ∀ k : Nat, (k : Int) < YUY2.h →
      (yuy2Calls YUV420P YUY2 interlaced)[k]? =
        some ⟨YUV420P.linesize0 * k,
          YUV420P.linesize1 * (2 * ((k : Int) / 4) + (k : Int) % 2),
          YUV420P.linesize2 * (2 * ((k : Int) / 4) + (k : Int) % 2),
          YUY2.pitches0 * k, YUY2.w⟩ := by
    intro k hk
    unfold yuy2Calls
    rw [if_pos hil, yuy2Interlaced_get YUV420P YUY2 _ 0 0 0 0 k (by omega)]
    simp
  have hlen : ((yuy2Calls YUV420P YUY2 interlaced).length : Int) = YUY2.h := by
    unfold yuy2Calls
    rw [if_pos hil, yuy2Interlaced_length]
    omega
  have hall : ∀ c1 ∈ yuy2Calls YUV420P YUY2 interlaced, ∃ k : Nat, (k : Int) < YUY2.h ∧
      (yuy2Calls YUV420P YUY2 interlaced)[k]? = some c1 ∧
      c1.packed = YUY2.pitches0 * k ∧ c1.w = YUY2.w := by
    intro c1 hc1
    obtain ⟨k, hk⟩ := List.getElem?_of_mem hc1
    have hkl : k < (yuy2Calls YUV420P YUY2 interlaced).length := by
      by_contra hn
      rw [List.getElem?_eq_none (by omega)] at hk
      cases hk
    have hkh : (k : Int) < YUY2.h := by omega
    refine ⟨k, hkh, hk, ?_, ?_⟩
    · have := hget k hkh
      rw [hk] at this
      cases this
      rfl
    · have := hget k hkh
      rw [hk] at this
      cases this
      rfl
  have hrow : ∀ k : Nat, (k : Int) < YUY2.h →
      YUY2.pitches0 * k + YUY2.pitches0 ≤ YUY2.pitches0 * YUY2.h := by
    intro k hk
    have := mul_le_mul_of_nonneg_left (show (k : Int) + 1 ≤ YUY2.h by omega) hp0
    rw [mul_add, mul_one] at this
    exact this
  have hvalid : ∀ c1 ∈ yuy2Calls YUV420P YUY2 interlaced,
      0 ≤ c1.packed ∧ c1.packed + 4 * ((c1.w / 2).toNat : Int) ≤ YUY2.pixels0.length := by
    intro c1 hc1
    obtain ⟨k, hk, -, hp, hw⟩ := hall c1 hc1
    have := hrow k hk
    rw [hp, hw]
    exact ⟨mul_nonneg hp0 (Int.ofNat_nonneg k), by omega⟩
  obtain ⟨pre, post, hsplit, hpost⟩ := split_get _ y _ (hget y hy)
  have hdis : ∀ c1 ∈ post,
      YUY2.pitches0 * y + 4 * ((YUY2.w / 2).toNat : Int) ≤ c1.packed ∨
        c1.packed + 4 * ((c1.w / 2).toNat : Int) ≤ YUY2.pitches0 * y := by
    intro c1 hc1
    obtain ⟨k, hyk, hk⟩ := hpost c1 hc1
    have hkl : k < (yuy2Calls YUV420P YUY2 interlaced).length := by
      by_contra hn
      rw [List.getElem?_eq_none (by omega)] at hk
      cases hk
    have hkh : (k : Int) < YUY2.h := by omega
    have hp : c1.packed = YUY2.pitches0 * k := by
      have := hget k hkh
      rw [hk] at this
      cases this
      rfl
    left
    have := mul_le_mul_of_nonneg_left (show (y : Int) + 1 ≤ k by omega) hp0
    rw [mul_add, mul_one] at this
    rw [hp]
    omega
  have hw := yuy2Fold_written YUV420P pre post _ YUY2.pixels0 i
    (by rw [← hsplit]; exact hvalid) hi hdis
  rw [← hsplit] at hw
  obtain ⟨w0, w1, w2, w3⟩ := hw
  obtain ⟨y0, y1, y2, y3⟩ := yuy2Word_bytes YUV420P hbytes (YUV420P.linesize0 * y)
    (YUV420P.linesize1 * (2 * ((y : Int) / 4) + (y : Int) % 2))
    (YUV420P.linesize2 * (2 * ((y : Int) / 4) + (y : Int) % 2)) i
  exact ⟨w0.trans y0, w1.trans y1, w2.trans y2, w3.trans y3⟩

/-- C18.  Interlaced mode, a frame of height `h`, a multiple of 4, with planes
of bytes, converted to an RGBA surface and to a YUY2 overlay of that height
whose rows of `pitches[0]` bytes hold the `w / 2` words of a row and lie
inside the pixel memory.  For every luma row `y < h` both kernels read the
chroma of the row from chroma row `c(y)`, where `c(y)` is `y / 2 + 1` for
`y % 4 == 1`, `y / 2 - 1` for `y % 4 == 2` and `y / 2` otherwise, that is
`2 * (y / 4) + y % 2`: the RGBA kernel starts the row with `U`, `V` at
`linesize * c(y)` and computes the pixel of column `x` from the chroma bytes
at `linesize * c(y) + x / 2`; the YUY2 kernel passes `U`, `V` at
`linesize * c(y)` to the scanline call of the row, and in the overlay it
returns word `i` of row `y` holds the luma samples `2i`, `2i + 1` of row `y`
and the U and V samples `i` of chroma row `c(y)`. -/
theorem C18_interlaced_chroma_row (T : LookupTables) (YUV420P : AVFrame)
    (OUTPUT : SDL_Surface) (YUY2 : SDL_Overlay) (interlaced h : Int) (y : Nat)
    (hil : interlaced ≠ 0) (hh : h % 4 = 0) (hy : (y : Int) < h)
    (hO : OUTPUT.h = h) (hU : YUY2.h = h)
    (hbuf : OUTPUT.h.toNat * OUTPUT.w.toNat ≤ OUTPUT.pixels.length)
    (hbytes : ∀ b ∈ YUV420P.data0 ++ YUV420P.data1 ++ YUV420P.data2, b < 256)
    (hpitch : 4 * ((YUY2.w / 2).toNat : Int) ≤ YUY2.pitches0)
    (hmem : YUY2.pitches0 * h ≤ YUY2.pixels0.length) :
    rgbaRowStart YUV420P interlaced y =
      (YUV420P.linesize0 * y, YUV420P.linesize1 * interlacedChromaRow y,
        YUV420P.linesize2 * interlacedChromaRow y) ∧
    (∀ x : Nat, (x : Int) < OUTPUT.w →
      (SDL_ffmpegConvertYUV420PtoRGBA T YUV420P OUTPUT interlaced).pixels.getD
          (y * OUTPUT.w.toNat + x) 0 =
        rgbaPixel T (peek YUV420P.data0 (YUV420P.linesize0 * y + x))
          (peek YUV420P.data1 (YUV420P.linesize1 * interlacedChromaRow y + (x : Int) / 2))
          (peek YUV420P.data2 (YUV420P.linesize2 * interlacedChromaRow y + (x : Int) / 2))) ∧
    (yuy2Calls YUV420P YUY2 interlaced)[y]? =
      some ⟨YUV420P.linesize0 * y, YUV420P.linesize1 * interlacedChromaRow y,
        YUV420P.linesize2 * interlacedChromaRow y, YUY2.pitches0 * y, YUY2.w⟩ ∧
    (∀ i : Nat, i < (YUY2.w / 2).toNat →
      peek (SDL_ffmpegConvertYUV420PtoYUY2 YUV420P YUY2 interlaced).pixels0
          (YUY2.pitches0 * y + 4 * i) = peek YUV420P.data0 (YUV420P.linesize0 * y + 2 * i) ∧
      peek (SDL_ffmpegConvertYUV420PtoYUY2 YUV420P YUY2 interlaced).pixels0
          (YUY2.pitches0 * y + 4 * i + 1) =
        peek YUV420P.data1 (YUV420P.linesize1 * interlacedChromaRow y + i) ∧
      peek (SDL_ffmpegConvertYUV420PtoYUY2 YUV420P YUY2 interlaced).pixels0
          (YUY2.pitches0 * y + 4 * i + 2) =
        peek YUV420P.data0 (YUV420P.linesize0 * y + 2 * i + 1) ∧
      peek (SDL_ffmpegConvertYUV420PtoYUY2 YUV420P YUY2 interlaced).pixels0
          (YUY2.pitches0 * y + 4 * i + 3) =
        peek YUV420P.data2 (YUV420P.linesize2 * interlacedChromaRow y + i)) ∧
    interlacedChromaRow y = 2 * ((y : Int) / 4) + (y : Int) % 2 := by
  have hstart : rgbaRowStart YUV420P interlaced y =
      (YUV420P.linesize0 * y, YUV420P.linesize1 * interlacedChromaRow y,
        YUV420P.linesize2 * interlacedChromaRow y) := by
    unfold rgbaRowStart interlacedChromaRow
    simp only [hil, ne_eq, not_false_eq_true, if_true]
    split_ifs <;> simp only [Prod.mk.injEq, true_and] <;> constructor <;> ring
  refine ⟨hstart, fun x hx => ?_, ?_, fun i hi => ?_, interlacedChromaRow_eq y⟩
  · have hpix := convertRGBA_pixel T YUV420P OUTPUT interlaced x y hx (by omega) hbuf
    rw [hstart] at hpix
    exact hpix
  · unfold yuy2Calls
    rw [if_pos hil, yuy2Interlaced_get YUV420P YUY2 _ 0 0 0 0 y (by omega),
      interlacedChromaRow_eq]
    simp
  · rw [interlacedChromaRow_eq]
    exact yuy2Interlaced_bytes YUV420P YUY2 interlaced y hil (by rw [hU]; exact hh)
      (by rw [hU]; exact hy) hbytes hpitch (by rw [hU]; exact hmem) i hi

/-- Witness of C18: an 8-row frame, row 5, whose chroma comes from row 3: the
word of row 5 in the overlay holds the luma 100, 100 and the chroma markers
40 and 80 of chroma row 3. -/
theorem C18_interlaced_chroma_row_witness :
    (rgbaRowStart tallPicture 1 (5 : Nat) =
      (tallPicture.linesize0 * (5 : Nat), tallPicture.linesize1 * interlacedChromaRow (5 : Nat),
        tallPicture.linesize2 * interlacedChromaRow (5 : Nat)) ∧
    (∀ x : Nat, (x : Int) < tallSurface.w →
      (SDL_ffmpegConvertYUV420PtoRGBA initializeLookupTables tallPicture tallSurface 1).pixels.getD
          (5 * tallSurface.w.toNat + x) 0 =
        rgbaPixel initializeLookupTables
          (peek tallPicture.data0 (tallPicture.linesize0 * (5 : Nat) + x))
          (peek tallPicture.data1
            (tallPicture.linesize1 * interlacedChromaRow (5 : Nat) + (x : Int) / 2))
          (peek tallPicture.data2
            (tallPicture.linesize2 * interlacedChromaRow (5 : Nat) + (x : Int) / 2))) ∧
    (yuy2Calls tallPicture tallOverlay 1)[5]? =
      some ⟨tallPicture.linesize0 * (5 : Nat),
        tallPicture.linesize1 * interlacedChromaRow (5 : Nat),
        tallPicture.linesize2 * interlacedChromaRow (5 : Nat), tallOverlay.pitches0 * (5 : Nat),
        tallOverlay.w⟩ ∧
    (∀ i : Nat, i < (tallOverlay.w / 2).toNat →
      peek (SDL_ffmpegConvertYUV420PtoYUY2 tallPicture tallOverlay 1).pixels0
          (tallOverlay.pitches0 * (5 : Nat) + 4 * i) =
        peek tallPicture.data0 (tallPicture.linesize0 * (5 : Nat) + 2 * i) ∧
      peek (SDL_ffmpegConvertYUV420PtoYUY2 tallPicture tallOverlay 1).pixels0
          (tallOverlay.pitches0 * (5 : Nat) + 4 * i + 1) =
        peek tallPicture.data1 (tallPicture.linesize1 * interlacedChromaRow (5 : Nat) + i) ∧
      peek (SDL_ffmpegConvertYUV420PtoYUY2 tallPicture tallOverlay 1).pixels0
          (tallOverlay.pitches0 * (5 : Nat) + 4 * i + 2) =
        peek tallPicture.data0 (tallPicture.linesize0 * (5 : Nat) + 2 * i + 1) ∧
      peek (SDL_ffmpegConvertYUV420PtoYUY2 tallPicture tallOverlay 1).pixels0
          (tallOverlay.pitches0 * (5 : Nat) + 4 * i + 3) =
        peek tallPicture.data2 (tallPicture.linesize2 * interlacedChromaRow (5 : Nat) + i)) ∧
    interlacedChromaRow (5 : Nat) = 2 * (((5 : Nat) : Int) / 4) + ((5 : Nat) : Int) % 2) ∧
    interlacedChromaRow (5 : Nat) = 3 ∧
    (SDL_ffmpegConvertYUV420PtoYUY2 tallPicture tallOverlay 1).pixels0 =
      [100, 10, 100, 50, 100, 20, 100, 60, 100, 10, 100, 50, 100, 20, 100, 60,
        100, 30, 100, 70, 100, 40, 100, 80, 100, 30, 100, 70, 100, 40, 100, 80] :=
  ⟨C18_interlaced_chroma_row initializeLookupTables tallPicture tallSurface tallOverlay 1 8 5
      (by decide) (by decide) (by decide) rfl rfl (by decide) (by decide) (by decide)
      (by decide), by decide, by decide⟩

end SDLffmpeg
